import Mathlib

/-!
Fish-eye lens distortion correction: a verification development

Shallow embedding of `core/correction_distortion/correction_distortion.c`
(plane codec, radial interpolator, calibration reader, displacement field,
resampling loop and the top-level call) together with the properties
established about it.

Modelling conventions.

* `uint32_t` values are natural numbers; every `uint32_t` operation of the
  source is wrapped in `u32` (reduction modulo `2 ^ 32`).
* `int32_t` values are integers; a signed operation whose exact result does
  not fit is undefined behaviour (`none`).
* A buffer is a list of memory cells.  A cell is `none` while it is
  uninitialised (fresh from `malloc`) and `some v` once written.  `malloc` is
  assumed to succeed.
* Every function that touches memory returns an `Option`: `none` means that
  the C code would read or write outside a buffer (undefined behaviour).
* A counted `for` loop is a monadic fold of its body over the values taken by
  the counter.
* `double` values are exact rationals and the operations on them are exact;
  `DBL_MAX` is the rational value of the largest finite double.  A division
  by zero follows the convention `a / 0 = 0`; it only arises for tables with
  two equal consecutive angles and for a calibration file with a zero pixel
  pitch or scaling factor.
* Where the rounding of a single double operation decides a discrete result
  (the subtraction `value - x[i]` of `findNearestNeighbourIndex`, the addition
  `h_d[y][x] + 0.5` before the cast to `int32_t`), a second form of the
  definition, with suffix `Fl`, takes that rounding as a parameter;
  `roundBinary64` is the rounding to nearest, ties to even, of IEEE 754
  binary64.  Interpolated values are exact also in that form.
* A calibration file is the sequence of the numbers it holds, separated as
  the `fscanf` formats expect; a file that cannot be opened is `none`.
* In the top-level call the functions of `math.h` are parameters of the
  model.  The polar conversion and the displacement field are also given over
  the real numbers, with the real `sqrt`, `cos`, `sin` and `atan2`.
* The plane codec has a second form in which every write is recorded in a
  log; erasing the log gives the plain form.
-/

namespace FishEye

/-! ## Machine integers and memory -/

/-- A `uint8_t` sample. -/
abbrev Byte := Fin 256

/-- A memory cell: `none` is an uninitialised cell. -/
abbrev Cell (α : Type) := Option α

/-- A byte buffer. -/
abbrev Buf := List (Cell Byte)

/-- Reduction of a natural number to the `uint32_t` range. -/
def u32 (n : Nat) : Nat := n % 2 ^ 32

/-- The type `LDC_Status` of `ldc_types.h`. -/
inductive LDC_Status where
  | LDC_STATUS_OK
  | LDC_STATUS_ERROR
  deriving DecidableEq, Repr

open LDC_Status

/-- Enumerator `YUV420_NV12 = 1` of `YUV_Type`. -/
def YUV420_NV12 : Nat := 1

/-- Enumerator `YUV422I_UYVY = 2` of `YUV_Type`. -/
def YUV422I_UYVY : Nat := 2

/-- Memory returned by `malloc (n * sizeof (T))`: `n` uninitialised cells.
Allocation is assumed to succeed. -/
def malloc {α : Type} (n : Nat) : List (Cell α) := List.replicate n none

/-- Array read `buf[i]`; `none` when `i` is outside the buffer. -/
def load {α : Type} (buf : List α) (i : Nat) : Option α := buf[i]?

/-- Array write `buf[i] = v`; `none` when `i` is outside the buffer. -/
def store {α : Type} (buf : List α) (i : Nat) (v : α) : Option (List α) :=
  if i < buf.length then some (buf.set i v) else none

/-- The call `memcpy (dst, src, n)`; `none` when either buffer is shorter than `n`. -/
def memcpy {α : Type} (dst src : List α) (n : Nat) : Option (List α) :=
  if n ≤ src.length ∧ n ≤ dst.length then some (src.take n ++ dst.drop n) else none

/-- The loop `for (i = 0; i < bound; i += 2) body`, with `i` a `uint32_t`.
The counter takes the values `2 * t` for `t < ⌈bound / 2⌉`.  With
`bound = 2 ^ 32 - 1` the increment wraps around before the exit test can
fail, so the loop has no normal exit (`none`). -/
def forStep2 {σ : Type} (bound : Nat) (body : Nat → σ → Option σ) (init : σ) : Option σ :=
  if 2 ^ 32 - 1 ≤ bound then none
  else (List.range ((bound + 1) / 2)).foldlM (fun s t => body (2 * t) s) init

/-- The loop `for (i = 0; i < bound; i++) body`. -/
def forRange {σ : Type} (bound : Nat) (body : Nat → σ → Option σ) (init : σ) : Option σ :=
  (List.range bound).foldlM (fun s t => body t s) init

/-! ## Plane codec -/

/-- Number of cells of a chroma plane:
`(width / 2) * ((int32_t)yuv_type * height / 2)` in `uint32_t` arithmetic. -/
def chromaSize (width height yuv_type : Nat) : Nat :=
  u32 ((width / 2) * (u32 (yuv_type * height) / 2))

/-- Number of cells of the luma plane: `width * height` in `uint32_t` arithmetic. -/
def lumaSize (width height : Nat) : Nat := u32 (width * height)

/-- The three planes of a frame. -/
structure Planes where
  Y : Buf
  U : Buf
  V : Buf
  deriving DecidableEq, Repr

/-- Local variables of the split loops: counters `j`, `k` and the planes. -/
structure SplitState where
  j : Nat
  k : Nat
  Y : Buf
  U : Buf
  V : Buf

/-- Body of the `YUV420_NV12` loop of `ComponentsStructure_SplitYUV2Component`:
`(*U)[j] = YUV[width * height + i]; (*V)[j++] = YUV[width * height + i + 1];` -/
def splitNV12Body (YUV : Buf) (width height : Nat) (i : Nat) (s : SplitState) :
    Option SplitState := do
  let a ← load YUV (u32 (u32 (width * height) + i))
  let U ← store s.U s.j a
  let b ← load YUV (u32 (u32 (u32 (width * height) + i) + 1))
  let V ← store s.V s.j b
  pure { s with j := u32 (s.j + 1), U := U, V := V }

/-- Body of the `YUV422I_UYVY` loop of `ComponentsStructure_SplitYUV2Component`:
`(*Y)[j++] = YUV[i + 1]; if (!(i % 4)) { (*U)[k] = YUV[i]; (*V)[k++] = YUV[i + 2]; }` -/
def splitUYVYBody (YUV : Buf) (i : Nat) (s : SplitState) : Option SplitState := do
  let a ← load YUV (u32 (i + 1))
  let Y ← store s.Y s.j a
  let s1 : SplitState := { s with j := u32 (s.j + 1), Y := Y }
  if i % 4 = 0 then
    let b ← load YUV i
    let U ← store s1.U s1.k b
    let c ← load YUV (u32 (i + 2))
    let V ← store s1.V s1.k c
    pure { s1 with k := u32 (s1.k + 1), U := U, V := V }
  else
    pure s1

/-- The function `ComponentsStructure_SplitYUV2Component`.  The argument `YUV`
is `none` for a `NULL` pointer.  The result carries the exit status and the
three planes handed back through `*Y`, `*U`, `*V`. -/
def ComponentsStructure_SplitYUV2Component (YUV : Option Buf)
    (width height img_size yuv_type : Nat) : Option (LDC_Status × Planes) :=
  let Y : Buf := malloc (lumaSize width height)
  let U : Buf := malloc (chromaSize width height yuv_type)
  let V : Buf := malloc (chromaSize width height yuv_type)
  match YUV with
  | none => some (LDC_STATUS_ERROR, ⟨Y, U, V⟩)
  | some YUV =>
    if yuv_type = YUV420_NV12 then do
      let Y1 ← memcpy Y YUV (u32 (width * height))
      let s ← forStep2 (u32 (width * height) / 2) (splitNV12Body YUV width height)
        ⟨0, 0, Y1, U, V⟩
      pure (LDC_STATUS_OK, ⟨s.Y, s.U, s.V⟩)
    else if yuv_type = YUV422I_UYVY then do
      let s ← forStep2 img_size (splitUYVYBody YUV) ⟨0, 0, Y, U, V⟩
      pure (LDC_STATUS_OK, ⟨s.Y, s.U, s.V⟩)
    else
      some (LDC_STATUS_ERROR, ⟨Y, U, V⟩)

/-- Local variables of the combine loops: counters `j`, `k` and the output buffer. -/
structure CombineState where
  j : Nat
  k : Nat
  out : Buf

/-- Body of the `YUV420_NV12` loop of `ComponentsStructure_CombineYUVComponents`:
`YUV_out[width * height + i] = U[j]; YUV_out[width * height + i + 1] = V[j++];` -/
def combineNV12Body (U V : Buf) (width height : Nat) (i : Nat) (s : CombineState) :
    Option CombineState := do
  let a ← load U s.j
  let out ← store s.out (u32 (u32 (width * height) + i)) a
  let b ← load V s.j
  let out ← store out (u32 (u32 (u32 (width * height) + i) + 1)) b
  pure { s with j := u32 (s.j + 1), out := out }

/-- Body of the `YUV422I_UYVY` loop of `ComponentsStructure_CombineYUVComponents`:
`YUV_out[i+1] = Y[j++]; if (!(i % 4)) { YUV_out[i] = U[k]; YUV_out[i + 2] = V[k++]; }` -/
def combineUYVYBody (Y U V : Buf) (i : Nat) (s : CombineState) : Option CombineState := do
  let a ← load Y s.j
  let out ← store s.out (u32 (i + 1)) a
  let s1 : CombineState := { s with j := u32 (s.j + 1), out := out }
  if i % 4 = 0 then
    let b ← load U s1.k
    let out ← store s1.out i b
    let c ← load V s1.k
    let out ← store out (u32 (i + 2)) c
    pure { s1 with k := u32 (s1.k + 1), out := out }
  else
    pure s1

/-- The function `ComponentsStructure_CombineYUVComponents`.  A pointer argument
is `none` for `NULL`.  The result carries the exit status and the contents of
the buffer `YUV_out` after the call (`none` when the pointer is `NULL`). -/
def ComponentsStructure_CombineYUVComponents (YUV_out Y U V : Option Buf)
    (width height img_size yuv_type : Nat) : Option (LDC_Status × Option Buf) :=
  match YUV_out, U, V, Y with
  | some out, some U, some V, some Y =>
    if yuv_type = YUV420_NV12 then do
      let out1 ← memcpy out Y (u32 (width * height))
      let s ← forStep2 (u32 (width * height) / 2) (combineNV12Body U V width height)
        ⟨0, 0, out1⟩
      pure (LDC_STATUS_OK, some s.out)
    else if yuv_type = YUV422I_UYVY then do
      let s ← forStep2 img_size (combineUYVYBody Y U V) ⟨0, 0, out⟩
      pure (LDC_STATUS_OK, some s.out)
    else
      some (LDC_STATUS_ERROR, some out)
  | _, _, _, _ => some (LDC_STATUS_ERROR, YUV_out)

/-- The byte count `expected_size` of `FileOperation_ReadRawYUV`:
`width * height + 2 * (width / 2) * ((int32_t)yuv_type * height / 2)`
in `uint32_t` arithmetic. -/
def expected_size (width height yuv_type : Nat) : Nat :=
  u32 (u32 (width * height) + u32 (u32 (2 * (width / 2)) * (u32 (yuv_type * height) / 2)))

/-! ## Loop invariants of the plane codec -/

/-- Invariant of the `YUV420_NV12` split loop after `t` iterations, for the input
buffer `buf`, luma size `n` and chroma size `C`. -/
def SplitNV12Inv (buf : Buf) (n C : Nat) (Y1 : Buf) (t : Nat) (s : SplitState) : Prop :=
  s.j = t ∧ s.Y = Y1 ∧ s.U.length = C ∧ s.V.length = C ∧ t ≤ C ∧
  ∀ m, m < t → s.U[m]? = buf[n + 2 * m]? ∧ s.V[m]? = buf[n + 2 * m + 1]?

/-- Invariant of the `YUV422I_UYVY` split loop after `t` iterations. -/
def SplitUYVYInv (buf : Buf) (NY C : Nat) (t : Nat) (s : SplitState) : Prop :=
  s.j = t ∧ s.k = (t + 1) / 2 ∧ s.Y.length = NY ∧ s.U.length = C ∧ s.V.length = C ∧
  (∀ m, m < t → s.Y[m]? = buf[2 * m + 1]?) ∧
  ∀ g, 2 * g < t → s.U[g]? = buf[4 * g]? ∧ s.V[g]? = buf[4 * g + 2]?

/-- Invariant of the `YUV420_NV12` combine loop after `t` iterations. -/
def CombineNV12Inv (Y U V : Buf) (n L : Nat) (t : Nat) (s : CombineState) : Prop :=
  s.j = t ∧ s.out.length = L ∧ (∀ i, i < n → s.out[i]? = Y[i]?) ∧
  ∀ m, m < t → s.out[n + 2 * m]? = U[m]? ∧ s.out[n + 2 * m + 1]? = V[m]?

/-- Invariant of the `YUV422I_UYVY` combine loop after `t` iterations. -/
def CombineUYVYInv (Y U V : Buf) (L : Nat) (t : Nat) (s : CombineState) : Prop :=
  s.j = t ∧ s.k = (t + 1) / 2 ∧ s.out.length = L ∧
  (∀ m, m < t → s.out[2 * m + 1]? = Y[m]?) ∧
  ∀ g, 2 * g < t → s.out[4 * g]? = U[g]? ∧ s.out[4 * g + 2]? = V[g]?

/-! ## Radial interpolator -/

/-- The macro `ABS(x) ((x) < 0 ? -(x) : (x))`. -/
def ABS (x : ℚ) : ℚ := if x < 0 then -x else x

/-- The constant `DBL_MAX` of `float.h`: `(2 ^ 53 - 1) * 2 ^ 971`. -/
def DBL_MAX : ℚ := (2 ^ 53 - 1) * 2 ^ 971

/-- Read of an element of a freshly allocated array at a signed index; `none`
when the index is negative or outside the array, or the cell was never
written. -/
def loadCell {α : Type} (buf : List (Cell α)) (i : Int) : Option α :=
  if i < 0 then none
  else
    match buf[i.toNat]? with
    | some (some v) => some v
    | _ => none

/-- Local variables `dist`, `idx` of `findNearestNeighbourIndex`. -/
structure NearestState where
  dist : ℚ
  idx : Int
  deriving DecidableEq

/-- Body of the loop of `findNearestNeighbourIndex`:
`new_dist = ABS(value - x[i]); if (new_dist <= dist) { dist = new_dist; idx = i; }` -/
def findNearestBody (value : ℚ) (x : List ℚ) (i : Nat) (s : NearestState) :
    Option NearestState := do
  let xi ← load x i
  let new_dist := ABS (value - xi)
  if new_dist ≤ s.dist then pure ⟨new_dist, (i : Int)⟩ else pure s

/-- The function `findNearestNeighbourIndex`: `idx = -1; dist = DBL_MAX;`
followed by the scan `for (i = 0; i < len; i++)`. -/
def findNearestNeighbourIndex (value : ℚ) (x : List ℚ) (len : Int) : Option Int :=
  (forRange len.toNat (findNearestBody value x) ⟨DBL_MAX, -1⟩).map (fun s => s.idx)

/-- The arrays `slope` and `intercept` of `FrameCorrection_LinearInterpolation`. -/
structure LineState where
  slope : List (Cell ℚ)
  intercept : List (Cell ℚ)

/-- Body of the first loop of `FrameCorrection_LinearInterpolation`.  Division
is exact rational division. -/
def lineBody (x y : List ℚ) (sample_points_size : Int) (i : Nat) (s : LineState) :
    Option LineState :=
  if (i : Int) < sample_points_size - 1 then do
    let x1 ← load x (i + 1)
    let x0 ← load x i
    let dx := x1 - x0
    let y1 ← load y (i + 1)
    let y0 ← load y i
    let dy := y1 - y0
    let slope ← store s.slope i (some (dy / dx))
    let yi ← load y i
    let xi ← load x i
    let si ← loadCell slope i
    let intercept ← store s.intercept i (some (yi - xi * si))
    pure ⟨slope, intercept⟩
  else do
    let sp ← loadCell s.slope ((i : Int) - 1)
    let slope ← store s.slope i (some sp)
    let ip ← loadCell s.intercept ((i : Int) - 1)
    let intercept ← store s.intercept i (some ip)
    pure ⟨slope, intercept⟩

/-- Body of the second loop of `FrameCorrection_LinearInterpolation`. -/
def queryBody (x : List ℚ) (sample_points_size : Int) (xq : List ℚ) (s : LineState)
    (i : Nat) (yq : List (Cell ℚ)) : Option (List (Cell ℚ)) := do
  let q ← load xq i
  let index_of_nearest_number ← findNearestNeighbourIndex q x sample_points_size
  if index_of_nearest_number ≠ -1 then do
    let sl ← loadCell s.slope index_of_nearest_number
    let q1 ← load xq i
    let ic ← loadCell s.intercept index_of_nearest_number
    store yq i (some (sl * q1 + ic))
  else
    store yq i (some DBL_MAX)

/-- The function `FrameCorrection_LinearInterpolation`; the result is the
array `yq`. -/
def FrameCorrection_LinearInterpolation (x y : List ℚ) (sample_points_size : Int)
    (xq : List ℚ) (queri_points_size : Int) : Option (List (Cell ℚ)) := do
  let yq : List (Cell ℚ) := malloc queri_points_size.toNat
  let slope : List (Cell ℚ) := malloc sample_points_size.toNat
  let intercept : List (Cell ℚ) := malloc sample_points_size.toNat
  let s ← forRange sample_points_size.toNat (lineBody x y sample_points_size)
    ⟨slope, intercept⟩
  forRange queri_points_size.toNat (queryBody x sample_points_size xq s) yq

/-- Slope of the segment that starts at control point `i`:
`(y[i+1] - y[i]) / (x[i+1] - x[i])`. -/
def segSlope (x y : List ℚ) (i : Nat) : ℚ :=
  (y.getD (i + 1) 0 - y.getD i 0) / (x.getD (i + 1) 0 - x.getD i 0)

/-- The slope `s_i` attached to control point `i` of a table of `n` points:
the slope of segment `i` for `i < n - 1`, and `s_(n-2)` for the last point. -/
def lineSlope (x y : List ℚ) (n i : Nat) : ℚ :=
  if i + 1 < n then segSlope x y i else segSlope x y (n - 2)

/-- The intercept `b_i` attached to control point `i` of a table of `n`
points: `y[i] - x[i] * s_i` for `i < n - 1`, and `b_(n-2)` for the last point. -/
def lineIntercept (x y : List ℚ) (n i : Nat) : ℚ :=
  if i + 1 < n then y.getD i 0 - x.getD i 0 * segSlope x y i
  else y.getD (n - 2) 0 - x.getD (n - 2) 0 * segSlope x y (n - 2)

/-- Distance `|q - x[j]|` between a query and control point `j`. -/
def pointDist (q : ℚ) (x : List ℚ) (j : Nat) : ℚ := |q - x.getD j 0|

/-- Invariant of the scan of `findNearestNeighbourIndex` after `t` iterations. -/
def NearestInv (q : ℚ) (x : List ℚ) (t : Nat) (s : NearestState) : Prop :=
  s.dist ≤ DBL_MAX ∧ (∀ j, j < t → s.dist ≤ pointDist q x j) ∧
  ((s.idx = -1 ∧ s.dist = DBL_MAX ∧ ∀ j, j < t → DBL_MAX < pointDist q x j) ∨
   (∃ k : Nat, k < t ∧ s.idx = (k : Int) ∧ s.dist = pointDist q x k ∧
      ∀ j, k < j → j < t → s.dist < pointDist q x j))

/-- Invariant of the first loop of `FrameCorrection_LinearInterpolation`. -/
def LineInv (x y : List ℚ) (n : Nat) (t : Nat) (s : LineState) : Prop :=
  s.slope.length = n ∧ s.intercept.length = n ∧
  ∀ k, k < t → s.slope[k]? = some (some (lineSlope x y n k)) ∧
    s.intercept[k]? = some (some (lineIntercept x y n k))

/-- The value stored in `yq[i]` for the query `q`: the line of the nearest
control point evaluated at `q`, or `DBL_MAX` when no index was found. -/
def interpValue (x y : List ℚ) (n : Nat) (q : ℚ) : ℚ :=
  match findNearestNeighbourIndex q x (n : Int) with
  | some r => if r ≠ -1 then lineSlope x y n r.toNat * q + lineIntercept x y n r.toNat
      else DBL_MAX
  | none => DBL_MAX

/-- Invariant of the second loop of `FrameCorrection_LinearInterpolation`. -/
def QueryInv (x y : List ℚ) (n : Nat) (xq : List ℚ) (t : Nat) (yq : List (Cell ℚ)) : Prop :=
  yq.length = xq.length ∧
  ∀ i, i < t → yq[i]? = some (some (interpValue x y n (xq.getD i 0)))

/-! ## Back-mapping and resampling -/

/-- The conversion `(int32_t) d` of a double: truncation toward zero; `none`
when the truncated value is not representable in `int32_t`. -/
def castInt32 (d : ℚ) : Option Int :=
  let t : Int := if 0 ≤ d then ⌊d⌋ else ⌈d⌉
  if -(2 ^ 31) ≤ t ∧ t < 2 ^ 31 then some t else none

/-- The source coordinate `(int32_t)(d + 0.5)` computed from a displacement
value `d`. -/
def srcCoord (d : ℚ) : Option Int := castInt32 (d + 1 / 2)

/-- Result of a signed `int32_t` operation with exact value `v`; `none` on
overflow. -/
def int32 (v : Int) : Option Int :=
  if -(2 ^ 31) ≤ v ∧ v < 2 ^ 31 then some v else none

/-- The conversion `(int32_t) n` of a `uint32_t` value. -/
def toInt32 (n : Nat) : Int := if n < 2 ^ 31 then (n : Int) else (n : Int) - 2 ^ 32

/-- Array read at a signed index. -/
def loadAt {α : Type} (buf : List α) (i : Int) : Option α :=
  if i < 0 then none else load buf i.toNat

/-- Array write at a signed index. -/
def storeAt {α : Type} (buf : List α) (i : Int) (v : α) : Option (List α) :=
  if i < 0 then none else store buf i.toNat v

/-- The argument `(width - 1)/2` (respectively `(height - 1)/2`) that
`FrameCorrection_CorrectLensDistortion` passes for the parameter `double hc`
(respectively `vc`): a `uint32_t` subtraction and a `uint32_t` division,
converted to `double` afterwards. -/
def centreArg (size : Nat) : ℚ := ((u32 (size + 2 ^ 32 - 1) / 2 : Nat) : ℚ)

/-- Mesh entry `h_p[row][col] = col`. -/
def h_p (_row col : Nat) : ℚ := (col : ℚ)

/-- Mesh entry `v_p[row][col] = row`. -/
def v_p (row _col : Nat) : ℚ := (row : ℚ)

/-- Entry `xt[i][j] = x[i][j] - hc` of `FrameCorrection_XYZ2Distorted`, for the
arguments `x = h_p`, `hc = (width - 1)/2` of the call. -/
def xt (width : Nat) (i j : Nat) : ℚ := h_p i j - centreArg width

/-- Entry `yt[i][j] = y[i][j] - vc` of `FrameCorrection_XYZ2Distorted`, for the
arguments `y = v_p`, `vc = (height - 1)/2` of the call. -/
def yt (height : Nat) (i j : Nat) : ℚ := v_p i j - centreArg height

/-- The output planes `Y_out`, `U_out`, `V_out` of the resampling loop. -/
structure OutPlanes where
  Y_out : Buf
  U_out : Buf
  V_out : Buf
  deriving DecidableEq

/-- The range test `srcX >= 0 && srcY >= 0 && srcX < width && srcY < height`. -/
def inFrame (width height : Nat) (srcX srcY : Int) : Prop :=
  0 ≤ srcX ∧ 0 ≤ srcY ∧ srcX < (width : Int) ∧ srcY < (height : Int)

instance (width height : Nat) (srcX srcY : Int) : Decidable (inFrame width height srcX srcY) := by
  unfold inFrame
  infer_instance

/-- The destination chroma index
`(int32_t)((int32_t)yuv_type*y/2) * (int32_t)(width/2) + (int32_t)(x/2)`;
`yuv_type*y/2` is computed in `uint32_t`, the product and the sum in `int32_t`. -/
def dstChromaIndex (yuv_type width x y : Nat) : Option Int := do
  let p ← int32 (toInt32 (u32 (yuv_type * y) / 2) * toInt32 (width / 2))
  int32 (p + toInt32 (x / 2))

/-- The source chroma index
`(int32_t)((int32_t)yuv_type*srcY/2) * (int32_t)(width/2) + (int32_t)(srcX/2)`,
computed in `int32_t` throughout. -/
def srcChromaIndex (yuv_type width : Nat) (srcX srcY : Int) : Option Int := do
  let m ← int32 (toInt32 yuv_type * srcY)
  let p ← int32 (Int.tdiv m 2 * toInt32 (width / 2))
  int32 (p + Int.tdiv srcX 2)

/-- Body of the resampling loop of `FrameCorrection_CorrectLensDistortion` for
the output pixel `(x, y)`; `h_d row col` and `v_d row col` are the entries
`h_d[row][col]`, `v_d[row][col]` of the displacement field. -/
def resampleBody (Y U V : Buf) (h_d v_d : Nat → Nat → ℚ) (width height yuv_type : Nat)
    (x y : Nat) (s : OutPlanes) : Option OutPlanes := do
  let srcX ← srcCoord (h_d y x)
  let srcY ← srcCoord (v_d y x)
  if inFrame width height srcX srcY then do
    let a ← load Y (u32 (srcY.toNat * width + srcX.toNat))
    let Y_out ← store s.Y_out (u32 (y * width + x)) a
    let dU ← dstChromaIndex yuv_type width x y
    let sU ← srcChromaIndex yuv_type width srcX srcY
    let b ← loadAt U sU
    let U_out ← storeAt s.U_out dU b
    let dV ← dstChromaIndex yuv_type width x y
    let sV ← srcChromaIndex yuv_type width srcX srcY
    let c ← loadAt V sV
    let V_out ← storeAt s.V_out dV c
    pure ⟨Y_out, U_out, V_out⟩
  else
    pure s

/-- The resampling loop of `FrameCorrection_CorrectLensDistortion`:
`for (x = 0; x < width; x++) for (y = 0; y < height; y++) { ... }`. -/
def resampleLoop (Y U V : Buf) (h_d v_d : Nat → Nat → ℚ) (width height yuv_type : Nat)
    (s : OutPlanes) : Option OutPlanes :=
  forRange width (fun x s =>
    forRange height (fun y s => resampleBody Y U V h_d v_d width height yuv_type x y s) s) s

/-- The rounded source coordinates of the output pixel `(x, y)`. -/
def srcOf (h_d v_d : Nat → Nat → ℚ) (x y : Nat) : Option (Int × Int) := do
  let srcX ← srcCoord (h_d y x)
  let srcY ← srcCoord (v_d y x)
  pure (srcX, srcY)

/-- The output pixel `(x, y)` has a rounded source inside the frame. -/
def sourceInFrame (h_d v_d : Nat → Nat → ℚ) (width height : Nat) (x y : Nat) : Prop :=
  ∃ srcX srcY, srcOf h_d v_d x y = some (srcX, srcY) ∧ inFrame width height srcX srcY

/-- Pixels visited before the scan position `(tx, ty)`: the loop runs over the
columns `x` and, within a column, over the rows `y`. -/
def visited (tx ty x y : Nat) : Prop := x < tx ∨ (x = tx ∧ y < ty)

/-- Invariant of the resampling loop for the luma plane at scan position
`(tx, ty)`, relative to the initial plane `Y0`. -/
def ResampleInv (Y : Buf) (h_d v_d : Nat → Nat → ℚ) (width height : Nat) (Y0 : Buf)
    (tx ty : Nat) (s : OutPlanes) : Prop :=
  (∀ idx, (∀ x y, x < width → y < height → visited tx ty x y →
      sourceInFrame h_d v_d width height x y → idx ≠ y * width + x) →
    s.Y_out[idx]? = Y0[idx]?) ∧
  ∀ x y, x < width → y < height → visited tx ty x y →
    ∀ srcX srcY, srcOf h_d v_d x y = some (srcX, srcY) → inFrame width height srcX srcY →
      ∃ a, Y[srcY.toNat * width + srcX.toNat]? = some a ∧ s.Y_out[y * width + x]? = some a

/-- Conditions under which the resampling loop is defined: a supported
variant, even width (and even height for `YUV420_NV12`), a frame whose byte
count fits `uint32_t`, planes of the allocated sizes, and displacement values
whose rounded coordinates are representable in `int32_t`. -/
structure ResampleReady (Y U V : Buf) (h_d v_d : Nat → Nat → ℚ)
    (width height yuv_type : Nat) (s : OutPlanes) : Prop where
  variant : yuv_type = YUV420_NV12 ∨ yuv_type = YUV422I_UYVY
  evenWidth : width % 2 = 0
  evenHeight : yuv_type = YUV420_NV12 → height % 2 = 0
  fits : width * height + 2 * ((width / 2) * (yuv_type * height / 2)) < 2 ^ 32
  lenY : Y.length = width * height
  lenU : U.length = (width / 2) * (yuv_type * height / 2)
  lenV : V.length = (width / 2) * (yuv_type * height / 2)
  lenYout : s.Y_out.length = width * height
  lenUout : s.U_out.length = (width / 2) * (yuv_type * height / 2)
  lenVout : s.V_out.length = (width / 2) * (yuv_type * height / 2)
  castable : ∀ x y, x < width → y < height →
    ∃ srcX srcY, srcOf h_d v_d x y = some (srcX, srcY)

/-! ## Sample data -/

/-- Luma plane of a 2x2 sample frame. -/
def sampleY : Buf := [some 11, some 12, some 13, some 14]

/-- Chroma plane `U` of the sample frame (`YUV420_NV12`). -/
def sampleU : Buf := [some 21]

/-- Chroma plane `V` of the sample frame (`YUV420_NV12`). -/
def sampleV : Buf := [some 31]

/-- Output planes of the sample frame before the resampling loop. -/
def sampleOut : OutPlanes := ⟨malloc 4, malloc 1, malloc 1⟩

/-- Horizontal displacement field that maps every pixel to its right-hand
neighbour: `h_d[y][x] = x + 1`. -/
def shiftedColumns (_row col : Nat) : ℚ := (col : ℚ) + 1

/-! ## Calibration reader -/

/-- The constant `M_PI` of `math.h`: the double nearest to the number pi. -/
def M_PI : ℚ := 884279719003555 / 281474976710656

/-- The macro `MAX_NUM_OF_LENS_PARAMETER (180U)`. -/
def MAX_NUM_OF_LENS_PARAMETER : Nat := 180

/-- The structure `LensSpec` of `correction_distortion.h`. -/
structure LensSpec where
  angle : List ℚ
  height : List ℚ
  num_of_useful_elements : Nat
  focal_length_in_mm : ℚ
  sensor_pixel_pitch_in_mm : ℚ
  scaling_factor : ℚ
  deriving DecidableEq

/-- The local `lens_spec` of `FrameCorrection_XYZ2Distorted` after the two
`memset` calls: both arrays hold `MAX_NUM_OF_LENS_PARAMETER` zeros; the other
fields are not initialised and hold the arbitrary values given as arguments. -/
def lensSpecAfterMemset (num : Nat) (f p s : ℚ) : LensSpec :=
  { angle := List.replicate MAX_NUM_OF_LENS_PARAMETER 0
    height := List.replicate MAX_NUM_OF_LENS_PARAMETER 0
    num_of_useful_elements := num
    focal_length_in_mm := f
    sensor_pixel_pitch_in_mm := p
    scaling_factor := s }

/-- Local variables of the sample loop of
`ParamOperation_ReadParametersOfCorrection`: the counter `i`, the local
`imageHeightInmm` (`none` while it was never assigned) and the structure
written through `lens_spec`. -/
structure ReadState where
  i : Nat
  imageHeightInmm : Option ℚ
  lens_spec : LensSpec

/-- Body of the sample loop, for the value of `angle` just converted:
`lens_spec->angle[i] = angle / 180 * M_PI;`
`lens_spec->height[i++] = imageHeightInmm / lens_spec->sensor_pixel_pitch_in_mm;` -/
def readSampleBody (angle : ℚ) (imageHeightInmm : Option ℚ) (s : ReadState) :
    Option ReadState := do
  let a ← store s.lens_spec.angle s.i (angle / 180 * M_PI)
  let v ← imageHeightInmm
  let h ← store s.lens_spec.height s.i (v / s.lens_spec.sensor_pixel_pitch_in_mm)
  pure { i := u32 (s.i + 1), imageHeightInmm := imageHeightInmm,
         lens_spec := { s.lens_spec with angle := a, height := h } }

/-- The loop `while (fscanf (fp, "%lf, %lf\n", &angle, &imageHeightInmm) != EOF)`
over the numbers left in the file.  At the end of the file `fscanf` returns
`EOF`; with one number left it converts `angle` only and returns 1; otherwise
it converts both. -/
def readSamples : List ℚ → ReadState → Option ReadState
  | [], s => some s
  | [a], s => readSampleBody a s.imageHeightInmm s
  | a :: b :: rest, s => (readSampleBody a (some b) s).bind (readSamples rest)

/-- The function `ParamOperation_ReadParametersOfCorrection`.  The file is
`none` when it cannot be opened, and otherwise the sequence of the numbers it
holds, separated as the `fscanf` formats expect.  Each of the three leading
reads `fscanf (fp, "%lf,\n,", ..)` returns `EOF` when no number is left.  The
result carries the exit status and the structure written through `lens_spec`. -/
def ParamOperation_ReadParametersOfCorrection (lens_spec : LensSpec)
    (file : Option (List ℚ)) : Option (LDC_Status × LensSpec) :=
  match file with
  | none => some (LDC_Status.LDC_STATUS_ERROR, lens_spec)
  | some [] => some (LDC_Status.LDC_STATUS_ERROR, lens_spec)
  | some [_] => some (LDC_Status.LDC_STATUS_ERROR, lens_spec)
  | some [_, _] => some (LDC_Status.LDC_STATUS_ERROR, lens_spec)
  | some (focal_length :: pixel_pitch :: scaling_factor :: rest) =>
    (readSamples rest
      ⟨0, none, { lens_spec with focal_length_in_mm := focal_length,
                                  sensor_pixel_pitch_in_mm := pixel_pitch,
                                  scaling_factor := scaling_factor }⟩).bind
      (fun s =>
        let num := u32 (s.i + 2 ^ 32 - 1)
        let ls : LensSpec := { s.lens_spec with num_of_useful_elements := num }
        if num ≤ 0 then some (LDC_Status.LDC_STATUS_ERROR, ls)
        else some (LDC_Status.LDC_STATUS_OK, ls))

/-- The numbers of a calibration file that holds the three leading scalars
followed by the given `(angle, height)` sample lines. -/
def calibrationFile (focal_length pixel_pitch scaling_factor : ℚ)
    (samples : List (ℚ × ℚ)) : List ℚ :=
  focal_length :: pixel_pitch :: scaling_factor ::
    samples.foldr (fun l acc => l.1 :: l.2 :: acc) []

/-- The argument passed for `int32_t sample_points_size` in the call
`FrameCorrection_LinearInterpolation (lens_spec.angle, lens_spec.height,
lens_spec.num_of_useful_elements, theta[i], width)`. -/
def interpolatorTableSize (lens_spec : LensSpec) : Int :=
  toInt32 lens_spec.num_of_useful_elements

/-! ## Polar conversion, over the real numbers -/

/-- The library function `atan2 (y, x)` over the real numbers: the angle in
`(-π, π]` of the point `(x, y)`, and 0 for the zero vector. -/
noncomputable def atan2 (y x : ℝ) : ℝ := Complex.arg ⟨x, y⟩

/-- The function `cart2pol` in exact real arithmetic.  A matrix is a function
of the row and the column; the two loops assign every entry with
`i < height` and `j < width` once and leave the others as they were:
`r[i][j] = sqrt (pow (xt[i][j], 2) + pow (yt[i][j], 2));`
`phi[i][j] = atan2 (yt[i][j], xt[i][j]);`.  The result is `(phi, r)`. -/
noncomputable def cart2pol (width height : Nat) (xt yt phi r : Nat → Nat → ℝ) :
    (Nat → Nat → ℝ) × (Nat → Nat → ℝ) :=
  (fun i j => if i < height ∧ j < width then atan2 (yt i j) (xt i j) else phi i j,
   fun i j => if i < height ∧ j < width then Real.sqrt (xt i j ^ 2 + yt i j ^ 2) else r i j)

/-- The function `pol2cart` in exact real arithmetic:
`h_d[i][j] = r_d[i][j] * cos (phi[i][j]);`
`v_d[i][j] = r_d[i][j] * sin (phi[i][j]);`.  The result is `(h_d, v_d)`. -/
noncomputable def pol2cart (width height : Nat) (h_d v_d phi r_d : Nat → Nat → ℝ) :
    (Nat → Nat → ℝ) × (Nat → Nat → ℝ) :=
  (fun i j => if i < height ∧ j < width then r_d i j * Real.cos (phi i j) else h_d i j,
   fun i j => if i < height ∧ j < width then r_d i j * Real.sin (phi i j) else v_d i j)

/-! ## Identity displacement -/

/-- Invariant of the resampling loop at scan position `(tx, ty)` when the
displacement field maps every pixel to itself: the output planes keep their
allocated sizes, and the luma cell and the chroma cells of every pixel visited
so far hold the values of the input planes. -/
def IdentityInv (Y U V : Buf) (width height yuv_type : Nat) (tx ty : Nat)
    (s : OutPlanes) : Prop :=
  s.Y_out.length = width * height ∧
  s.U_out.length = (width / 2) * (yuv_type * height / 2) ∧
  s.V_out.length = (width / 2) * (yuv_type * height / 2) ∧
  ∀ x y, x < width → y < height → visited tx ty x y →
    s.Y_out[y * width + x]? = Y[y * width + x]? ∧
    s.U_out[(yuv_type * y / 2) * (width / 2) + x / 2]?
      = U[(yuv_type * y / 2) * (width / 2) + x / 2]? ∧
    s.V_out[(yuv_type * y / 2) * (width / 2) + x / 2]?
      = V[(yuv_type * y / 2) * (width / 2) + x / 2]?

/-- A 4x4 `YUV420_NV12` frame: 16 luma bytes followed by 4 interleaved
chroma pairs. -/
def frame4x4 : Buf :=
  [some 10, some 11, some 12, some 13,
   some 20, some 21, some 22, some 23,
   some 30, some 31, some 32, some 33,
   some 40, some 41, some 42, some 43,
   some 100, some 200, some 101, some 201,
   some 102, some 202, some 103, some 203]

/-- Horizontal displacement field that maps every pixel to itself:
`h_d[y][x] = x`. -/
def identityColumns (_row col : Nat) : ℚ := (col : ℚ)

/-- Vertical displacement field that maps every pixel to itself:
`v_d[y][x] = y`. -/
def identityRows (row _col : Nat) : ℚ := (row : ℚ)

/-! ## Standard interpolation (specification side) -/

/-- Standard linear interpolation on segment `k` of a table, as the
specification words it: the value at `q` of the straight line through the
control points `(x_k, y_k)` and `(x_(k+1), y_(k+1))`. -/
def segmentInterpolation (x y : List ℚ) (k : Nat) (q : ℚ) : ℚ :=
  y.getD k 0 + (y.getD (k + 1) 0 - y.getD k 0) * (q - x.getD k 0)
    / (x.getD (k + 1) 0 - x.getD k 0)

/-! ## Displacement field, over the real numbers -/

/-- The `else` branch of `FrameCorrection_XYZ2Distorted` in exact real
arithmetic, for the lens parameters read from the calibration file.  A matrix
is a function of the row and the column.  The function `interp` gives the entry
that `FrameCorrection_LinearInterpolation` stores for a query, so that
`r_d[i][j] = interp (theta[i][j])`.  The steps are those of the source:
`f = focal_length_in_mm / sensor_pixel_pitch_in_mm; z = f / scaling_factor;`
`xt = x - hc; yt = y - vc; zt = z;` `cart2pol`; `theta = atan2 (r, zt)`; the
interpolation; `pol2cart`; `h_d += hc; v_d += vc`.  The result is
`(h_d, v_d)`. -/
noncomputable def FrameCorrection_XYZ2Distorted_real (width height : Nat)
    (x y : Nat → Nat → ℝ) (hc vc : ℝ)
    (focal_length_in_mm sensor_pixel_pitch_in_mm scaling_factor : ℝ) (interp : ℝ → ℝ)
    (h_d v_d : Nat → Nat → ℝ) : (Nat → Nat → ℝ) × (Nat → Nat → ℝ) :=
  let f := focal_length_in_mm / sensor_pixel_pitch_in_mm
  let z := f / scaling_factor
  let xt : Nat → Nat → ℝ := fun i j => x i j - hc
  let yt : Nat → Nat → ℝ := fun i j => y i j - vc
  let zt : Nat → Nat → ℝ := fun _ _ => z
  let pr := cart2pol width height xt yt (fun _ _ => 0) (fun _ _ => 0)
  let theta : Nat → Nat → ℝ := fun i j => atan2 (pr.2 i j) (zt i j)
  let r_d : Nat → Nat → ℝ := fun i j => interp (theta i j)
  let hv := pol2cart width height h_d v_d pr.1 r_d
  (fun i j => if i < height ∧ j < width then hv.1 i j + hc else hv.1 i j,
   fun i j => if i < height ∧ j < width then hv.2 i j + vc else hv.2 i j)

/-! ## The top-level call -/

/-- The functions of `math.h` called by the distortion model.  Their results
are the double values the library returns; the model takes them as
parameters. -/
structure Libm where
  sqrt : ℚ → ℚ
  pow : ℚ → ℚ → ℚ
  atan2 : ℚ → ℚ → ℚ
  cos : ℚ → ℚ
  sin : ℚ → ℚ

/-- The function `FrameCorrection_XYZ2Distorted`.  The argument `lens_spec` is
the uninitialised local structure, `file` the calibration file named by
`filename`; a matrix is a function of the row and the column, and `h_d`, `v_d`
are the contents of the two output matrices before the call.  The result
carries the exit status and the matrices `h_d`, `v_d` after the call. -/
def FrameCorrection_XYZ2Distorted (m : Libm) (lens_spec : LensSpec)
    (file : Option (List ℚ)) (width height : Nat) (x y : Nat → Nat → ℚ) (hc vc : ℚ)
    (h_d v_d : Nat → Nat → ℚ) :
    Option (LDC_Status × (Nat → Nat → ℚ) × (Nat → Nat → ℚ)) :=
  let cleared : LensSpec :=
    { lens_spec with angle := List.replicate MAX_NUM_OF_LENS_PARAMETER 0,
                     height := List.replicate MAX_NUM_OF_LENS_PARAMETER 0 }
  (ParamOperation_ReadParametersOfCorrection cleared file).bind (fun res =>
    if res.1 ≠ LDC_Status.LDC_STATUS_OK then
      some (LDC_Status.LDC_STATUS_ERROR, h_d, v_d)
    else
      let ls := res.2
      let f := ls.focal_length_in_mm / ls.sensor_pixel_pitch_in_mm
      let z := f / ls.scaling_factor
      let xt : Nat → Nat → ℚ := fun i j => x i j - hc
      let yt : Nat → Nat → ℚ := fun i j => y i j - vc
      let zt : Nat → Nat → ℚ := fun _ _ => z
      let r : Nat → Nat → ℚ := fun i j => m.sqrt (m.pow (xt i j) 2 + m.pow (yt i j) 2)
      let phi : Nat → Nat → ℚ := fun i j => m.atan2 (yt i j) (xt i j)
      let theta : Nat → Nat → ℚ := fun i j => m.atan2 (r i j) (zt i j)
      ((List.range height).mapM (fun i =>
          FrameCorrection_LinearInterpolation ls.angle ls.height
            (toInt32 ls.num_of_useful_elements) ((List.range width).map (theta i))
            (toInt32 width))).bind (fun r_d =>
        ((List.range height).mapM (fun i =>
            (List.range width).mapM (fun (j : Nat) =>
              (loadCell (r_d.getD i []) (j : Int)).map (fun rd =>
                (rd * m.cos (phi i j) + hc, rd * m.sin (phi i j) + vc))))).map (fun rows =>
          (LDC_Status.LDC_STATUS_OK,
            fun i j => if i < height ∧ j < width then ((rows.getD i []).getD j (0, 0)).1
              else h_d i j,
            fun i j => if i < height ∧ j < width then ((rows.getD i []).getD j (0, 0)).2
              else v_d i j))))

/-- The function `FrameCorrection_CorrectLensDistortion`.  A pointer argument
is `none` for `NULL`; `YUV_out` is the buffer `*YUV_out` points to before the
call (`none` for `NULL`), `lens_spec` the uninitialised local of
`FrameCorrection_XYZ2Distorted` and `file` the calibration file.  The result
carries the exit status and the buffer `*YUV_out` points to after the call.
The matrices `h_d`, `v_d` are fresh memory; every entry of the frame is
assigned before it is read. -/
def FrameCorrection_CorrectLensDistortion (m : Libm) (lens_spec : LensSpec)
    (YUV_out Y U V : Option Buf) (img_size width height yuv_type : Nat)
    (file : Option (List ℚ)) : Option (LDC_Status × Option Buf) :=
  match Y, U, V with
  | some Y, some U, some V =>
    let Y_out : Buf := malloc (lumaSize width height)
    let U_out : Buf := malloc (chromaSize width height yuv_type)
    let V_out : Buf := malloc (chromaSize width height yuv_type)
    let out : Buf := malloc img_size
    (FrameCorrection_XYZ2Distorted m lens_spec file width height h_p v_p
        (centreArg width) (centreArg height) (fun _ _ => 0) (fun _ _ => 0)).bind (fun res =>
      if res.1 ≠ LDC_Status.LDC_STATUS_OK then
        some (LDC_Status.LDC_STATUS_ERROR, some out)
      else
        (resampleLoop Y U V res.2.1 res.2.2 width height yuv_type ⟨Y_out, U_out, V_out⟩).bind
          (fun s =>
            (ComponentsStructure_CombineYUVComponents (some out) (some s.Y_out)
                (some s.U_out) (some s.V_out) width height img_size yuv_type).bind
              (fun c =>
                if c.1 ≠ LDC_Status.LDC_STATUS_OK then
                  some (LDC_Status.LDC_STATUS_ERROR, c.2)
                else some (LDC_Status.LDC_STATUS_OK, c.2))))
  | _, _, _ => some (LDC_Status.LDC_STATUS_ERROR, YUV_out)

/-- Library functions replaced by the constant 0, for calls that end before
the displacement field is computed: their result does not depend on the
library. -/
def zeroLibm : Libm :=
  { sqrt := fun _ => 0, pow := fun _ _ => 0, atan2 := fun _ _ => 0,
    cos := fun _ => 0, sin := fun _ => 0 }

/-! ## Chroma planes after the resampling loop -/

/-- The chroma index of the pixel `(x, y)`: the value of the index expression
`(yuv_type*y/2) * (width/2) + x/2` of the resampling loop. -/
def chromaCell (yuv_type width x y : Nat) : Nat :=
  (yuv_type * y / 2) * (width / 2) + x / 2

/-- Invariant of the resampling loop at scan position `(tx, ty)` for one
output chroma plane `dst`, with source plane `src` and pre-loop contents
`dst0`: an entry whose sharing pixels visited so far all have an out-of-range
source still holds its pre-loop value; otherwise it holds the source sample at
the chroma index of the source of the last visited sharing pixel whose source
is in range. -/
def ChromaInv (src dst0 : Buf) (h_d v_d : Nat → Nat → ℚ) (width height yuv_type : Nat)
    (tx ty : Nat) (dst : Buf) : Prop :=
  dst.length = dst0.length ∧
  ∀ c,
    ((∀ x y, x < width → y < height → visited tx ty x y →
        chromaCell yuv_type width x y = c → ¬ sourceInFrame h_d v_d width height x y) →
      dst[c]? = dst0[c]?) ∧
    (∀ x y, x < width → y < height → visited tx ty x y →
        chromaCell yuv_type width x y = c → sourceInFrame h_d v_d width height x y →
      ∃ x2 y2 srcX srcY, x2 < width ∧ y2 < height ∧ visited tx ty x2 y2 ∧
        chromaCell yuv_type width x2 y2 = c ∧ srcOf h_d v_d x2 y2 = some (srcX, srcY) ∧
        inFrame width height srcX srcY ∧
        (∀ x1 y1, x1 < width → y1 < height → visited tx ty x1 y1 →
          chromaCell yuv_type width x1 y1 = c → sourceInFrame h_d v_d width height x1 y1 →
          ¬ visited x1 y1 x2 y2) ∧
        dst[c]? = src[chromaCell yuv_type width srcX.toNat srcY.toNat]?)

/-! ## Write log of the plane codec -/

/-- The arrays written by the plane codec. -/
inductive Target where
  | Y
  | U
  | V
  | YUV_out
  deriving DecidableEq

/-- A log of the writes of a run, oldest first: the array and the index of
every write. -/
abbrev WriteLog := List (Target × Nat)

/-- Array write `buf[i] = v` that records the write in the log; `none` when `i`
is outside the buffer. -/
def storeLog {α : Type} (tgt : Target) (buf : List α) (i : Nat) (v : α) (log : WriteLog) :
    Option (List α × WriteLog) :=
  (store buf i v).map (fun b => (b, log ++ [(tgt, i)]))

/-- The call `memcpy (dst, src, n)` that records the writes of `dst[0]` to
`dst[n-1]` in the log. -/
def memcpyLog {α : Type} (tgt : Target) (dst src : List α) (n : Nat) (log : WriteLog) :
    Option (List α × WriteLog) :=
  (memcpy dst src n).map (fun b => (b, log ++ (List.range n).map (fun i => (tgt, i))))

/-- The body `splitNV12Body` with every write recorded. -/
def splitNV12BodyLog (YUV : Buf) (width height : Nat) (i : Nat)
    (sl : SplitState × WriteLog) : Option (SplitState × WriteLog) := do
  let s := sl.1
  let a ← load YUV (u32 (u32 (width * height) + i))
  let U ← storeLog Target.U s.U s.j a sl.2
  let b ← load YUV (u32 (u32 (u32 (width * height) + i) + 1))
  let V ← storeLog Target.V s.V s.j b U.2
  pure ({ s with j := u32 (s.j + 1), U := U.1, V := V.1 }, V.2)

/-- The body `splitUYVYBody` with every write recorded. -/
def splitUYVYBodyLog (YUV : Buf) (i : Nat) (sl : SplitState × WriteLog) :
    Option (SplitState × WriteLog) := do
  let s := sl.1
  let a ← load YUV (u32 (i + 1))
  let Y ← storeLog Target.Y s.Y s.j a sl.2
  let s1 : SplitState := { s with j := u32 (s.j + 1), Y := Y.1 }
  if i % 4 = 0 then
    let b ← load YUV i
    let U ← storeLog Target.U s1.U s1.k b Y.2
    let c ← load YUV (u32 (i + 2))
    let V ← storeLog Target.V s1.V s1.k c U.2
    pure ({ s1 with k := u32 (s1.k + 1), U := U.1, V := V.1 }, V.2)
  else
    pure (s1, Y.2)

/-- The function `ComponentsStructure_SplitYUV2Component` with every write to
the planes recorded; the result carries the status, the planes and the log. -/
def SplitYUV2ComponentLog (YUV : Option Buf) (width height img_size yuv_type : Nat) :
    Option (LDC_Status × Planes × WriteLog) :=
  let Y : Buf := malloc (lumaSize width height)
  let U : Buf := malloc (chromaSize width height yuv_type)
  let V : Buf := malloc (chromaSize width height yuv_type)
  match YUV with
  | none => some (LDC_Status.LDC_STATUS_ERROR, ⟨Y, U, V⟩, [])
  | some YUV =>
    if yuv_type = YUV420_NV12 then do
      let Y1 ← memcpyLog Target.Y Y YUV (u32 (width * height)) []
      let s ← forStep2 (u32 (width * height) / 2) (splitNV12BodyLog YUV width height)
        (⟨0, 0, Y1.1, U, V⟩, Y1.2)
      pure (LDC_Status.LDC_STATUS_OK, ⟨s.1.Y, s.1.U, s.1.V⟩, s.2)
    else if yuv_type = YUV422I_UYVY then do
      let s ← forStep2 img_size (splitUYVYBodyLog YUV) (⟨0, 0, Y, U, V⟩, [])
      pure (LDC_Status.LDC_STATUS_OK, ⟨s.1.Y, s.1.U, s.1.V⟩, s.2)
    else
      some (LDC_Status.LDC_STATUS_ERROR, ⟨Y, U, V⟩, [])

/-- The body `combineNV12Body` with every write recorded. -/
def combineNV12BodyLog (U V : Buf) (width height : Nat) (i : Nat)
    (sl : CombineState × WriteLog) : Option (CombineState × WriteLog) := do
  let s := sl.1
  let a ← load U s.j
  let out ← storeLog Target.YUV_out s.out (u32 (u32 (width * height) + i)) a sl.2
  let b ← load V s.j
  let out2 ← storeLog Target.YUV_out out.1 (u32 (u32 (u32 (width * height) + i) + 1)) b out.2
  pure ({ s with j := u32 (s.j + 1), out := out2.1 }, out2.2)

/-- The body `combineUYVYBody` with every write recorded. -/
def combineUYVYBodyLog (Y U V : Buf) (i : Nat) (sl : CombineState × WriteLog) :
    Option (CombineState × WriteLog) := do
  let s := sl.1
  let a ← load Y s.j
  let out ← storeLog Target.YUV_out s.out (u32 (i + 1)) a sl.2
  let s1 : CombineState := { s with j := u32 (s.j + 1), out := out.1 }
  if i % 4 = 0 then
    let b ← load U s1.k
    let out2 ← storeLog Target.YUV_out s1.out i b out.2
    let c ← load V s1.k
    let out3 ← storeLog Target.YUV_out out2.1 (u32 (i + 2)) c out2.2
    pure ({ s1 with k := u32 (s1.k + 1), out := out3.1 }, out3.2)
  else
    pure (s1, out.2)

/-- The function `ComponentsStructure_CombineYUVComponents` with every write
to `YUV_out` recorded; the result carries the status, the buffer and the log. -/
def CombineYUVComponentsLog (YUV_out Y U V : Option Buf)
    (width height img_size yuv_type : Nat) : Option (LDC_Status × Option Buf × WriteLog) :=
  match YUV_out, U, V, Y with
  | some out, some U, some V, some Y =>
    if yuv_type = YUV420_NV12 then do
      let out1 ← memcpyLog Target.YUV_out out Y (u32 (width * height)) []
      let s ← forStep2 (u32 (width * height) / 2) (combineNV12BodyLog U V width height)
        (⟨0, 0, out1.1⟩, out1.2)
      pure (LDC_Status.LDC_STATUS_OK, some s.1.out, s.2)
    else if yuv_type = YUV422I_UYVY then do
      let s ← forStep2 img_size (combineUYVYBodyLog Y U V) (⟨0, 0, out⟩, [])
      pure (LDC_Status.LDC_STATUS_OK, some s.1.out, s.2)
    else
      some (LDC_Status.LDC_STATUS_ERROR, some out, [])
  | _, _, _, _ => some (LDC_Status.LDC_STATUS_ERROR, YUV_out, [])

/-- The log writes every cell `i < n` of the array `tgt` exactly once, and no
cell of `tgt` at or beyond `n`. -/
def WritesOnce (log : WriteLog) (tgt : Target) (n : Nat) : Prop :=
  ∀ i, log.count (tgt, i) = if i < n then 1 else 0

/-! ## Rounded double operations

Two results of the source are decided by the rounding of a single double
operation: the index returned by `findNearestNeighbourIndex` (the subtraction
`value - x[i]` feeds the comparison `new_dist <= dist`) and the integer
produced by `(int32_t)(h_d[y][x] + 0.5)` (the addition feeds the truncation).
The definitions of this section take the rounding of that operation as a
parameter `fl`: `fl a` is the double stored when the exact result is `a`, and
a result above `DBL_MAX` stands for an infinity.  With the identity for `fl`
they are the exact definitions above; `roundBinary64` is the rounding of
IEEE 754 binary64.  Slopes, intercepts and interpolated values stay exact. -/

/-- Nearest integer, ties to the even one. -/
def roundHalfEven (a : ℚ) : Int :=
  if a - ⌊a⌋ < 1 / 2 then ⌊a⌋
  else if 1 / 2 < a - ⌊a⌋ then ⌊a⌋ + 1
  else if ⌊a⌋ % 2 = 0 then ⌊a⌋ else ⌊a⌋ + 1

/-- Binary logarithm of a positive natural number, rounded down, by repeated
halving; `fuel` bounds the number of halvings. -/
def log2Fuel : Nat → Nat → Nat
  | 0, _ => 0
  | fuel + 1, n => if 2 ≤ n then log2Fuel fuel (n / 2) + 1 else 0

/-- The binary exponent `e` of a positive rational: `2 ^ e ≤ a < 2 ^ (e + 1)`. -/
def binaryExponent (a : ℚ) : Int :=
  if (2 : ℚ) ^ ((log2Fuel a.num.natAbs a.num.natAbs : Int) - (log2Fuel a.den a.den : Int)) ≤ a
  then (log2Fuel a.num.natAbs a.num.natAbs : Int) - (log2Fuel a.den a.den : Int)
  else (log2Fuel a.num.natAbs a.num.natAbs : Int) - (log2Fuel a.den a.den : Int) - 1

/-- Exponent of the spacing of the doubles around a positive rational: 53
significant bits, and the spacing `2 ^ (-1074)` of the subnormal range below
`2 ^ (-1022)`. -/
def ulpExponent (a : ℚ) : Int := max (binaryExponent a) (-1022) - 52

/-- Rounding of a non-negative rational to the nearest multiple of the
spacing of the doubles around it, ties to the even multiple. -/
def roundMagnitude (a : ℚ) : ℚ :=
  (roundHalfEven (a / 2 ^ ulpExponent a) : ℚ) * 2 ^ ulpExponent a

/-- Rounding to nearest, ties to even, of IEEE 754 binary64: the double stored
for the exact result `a`.  The exponent range is not bounded above: a result
above `DBL_MAX` stands for an infinity of the same sign. -/
def roundBinary64 (a : ℚ) : ℚ :=
  if a < 0 then -roundMagnitude (-a) else roundMagnitude a

/-- Body of the loop of `findNearestNeighbourIndex`, with the subtraction
rounded by `fl`:
`new_dist = ABS(value - x[i]); if (new_dist <= dist) { dist = new_dist; idx = i; }` -/
def findNearestBodyFl (fl : ℚ → ℚ) (value : ℚ) (x : List ℚ) (i : Nat) (s : NearestState) :
    Option NearestState := do
  let xi ← load x i
  let new_dist := ABS (fl (value - xi))
  if new_dist ≤ s.dist then pure ⟨new_dist, (i : Int)⟩ else pure s

/-- The function `findNearestNeighbourIndex` with the subtraction rounded by
`fl`: `idx = -1; dist = DBL_MAX;` followed by the scan
`for (i = 0; i < len; i++)`. -/
def findNearestNeighbourIndexFl (fl : ℚ → ℚ) (value : ℚ) (x : List ℚ) (len : Int) :
    Option Int :=
  (forRange len.toNat (findNearestBodyFl fl value x) ⟨DBL_MAX, -1⟩).map (fun s => s.idx)

/-- Body of the second loop of `FrameCorrection_LinearInterpolation`, with the
index search rounded by `fl`. -/
def queryBodyFl (fl : ℚ → ℚ) (x : List ℚ) (sample_points_size : Int) (xq : List ℚ)
    (s : LineState) (i : Nat) (yq : List (Cell ℚ)) : Option (List (Cell ℚ)) := do
  let q ← load xq i
  let index_of_nearest_number ← findNearestNeighbourIndexFl fl q x sample_points_size
  if index_of_nearest_number ≠ -1 then do
    let sl ← loadCell s.slope index_of_nearest_number
    let q1 ← load xq i
    let ic ← loadCell s.intercept index_of_nearest_number
    store yq i (some (sl * q1 + ic))
  else
    store yq i (some DBL_MAX)

/-- The function `FrameCorrection_LinearInterpolation` with the index search
rounded by `fl`; the result is the array `yq`. -/
def FrameCorrection_LinearInterpolationFl (fl : ℚ → ℚ) (x y : List ℚ)
    (sample_points_size : Int) (xq : List ℚ) (queri_points_size : Int) :
    Option (List (Cell ℚ)) := do
  let yq : List (Cell ℚ) := malloc queri_points_size.toNat
  let slope : List (Cell ℚ) := malloc sample_points_size.toNat
  let intercept : List (Cell ℚ) := malloc sample_points_size.toNat
  let s ← forRange sample_points_size.toNat (lineBody x y sample_points_size)
    ⟨slope, intercept⟩
  forRange queri_points_size.toNat (queryBodyFl fl x sample_points_size xq s) yq

/-- The source coordinate `(int32_t)(d + 0.5)` computed from a displacement
value `d`, with the addition rounded by `fl`. -/
def srcCoordFl (fl : ℚ → ℚ) (d : ℚ) : Option Int := castInt32 (fl (d + 1 / 2))

/-- Computed distance `|fl (q - x[j])|` between a query and control point `j`:
the value of `new_dist` in iteration `j` of `findNearestNeighbourIndex`. -/
def pointDistFl (fl : ℚ → ℚ) (q : ℚ) (x : List ℚ) (j : Nat) : ℚ := |fl (q - x.getD j 0)|

/-- Invariant of the scan of `findNearestNeighbourIndexFl` after `t` iterations. -/
def NearestInvFl (fl : ℚ → ℚ) (q : ℚ) (x : List ℚ) (t : Nat) (s : NearestState) : Prop :=
  s.dist ≤ DBL_MAX ∧ (∀ j, j < t → s.dist ≤ pointDistFl fl q x j) ∧
  ((s.idx = -1 ∧ s.dist = DBL_MAX ∧ ∀ j, j < t → DBL_MAX < pointDistFl fl q x j) ∨
   (∃ k : Nat, k < t ∧ s.idx = (k : Int) ∧ s.dist = pointDistFl fl q x k ∧
      ∀ j, k < j → j < t → s.dist < pointDistFl fl q x j))

/-- The value stored in `yq[i]` for the query `q` by
`FrameCorrection_LinearInterpolationFl`: the line of the control point selected
by the rounded search, evaluated at `q`, or `DBL_MAX` when no index was found. -/
def interpValueFl (fl : ℚ → ℚ) (x y : List ℚ) (n : Nat) (q : ℚ) : ℚ :=
  match findNearestNeighbourIndexFl fl q x (n : Int) with
  | some r => if r ≠ -1 then lineSlope x y n r.toNat * q + lineIntercept x y n r.toNat
      else DBL_MAX
  | none => DBL_MAX

/-- Invariant of the second loop of `FrameCorrection_LinearInterpolationFl`. -/
def QueryInvFl (fl : ℚ → ℚ) (x y : List ℚ) (n : Nat) (xq : List ℚ) (t : Nat)
    (yq : List (Cell ℚ)) : Prop :=
  yq.length = xq.length ∧
  ∀ i, i < t → yq[i]? = some (some (interpValueFl fl x y n (xq.getD i 0)))

/-! ## Plane codec: proofs -/

/-! ## Basic facts on machine integers and memory -/

theorem u32_of_lt {n : Nat} (h : n < 2 ^ 32) : u32 n = n := Nat.mod_eq_of_lt h

theorem load_eq_some {α : Type} {buf : List α} {i : Nat} {a : α} :
    load buf i = some a ↔ buf[i]? = some a := Iff.rfl

theorem load_lt {α : Type} {buf : List α} {i : Nat} {a : α} (h : load buf i = some a) :
    i < buf.length := by
  unfold load at h
  exact (List.getElem?_eq_some_iff.1 h).1

theorem load_of_lt {α : Type} {buf : List α} {i : Nat} (h : i < buf.length) :
    ∃ a, load buf i = some a ∧ buf[i]? = some a :=
  ⟨buf[i], by simp [load, h], by simp [h]⟩

theorem store_eq_some {α : Type} {buf buf1 : List α} {i : Nat} {v : α} :
    store buf i v = some buf1 ↔ i < buf.length ∧ buf1 = buf.set i v := by
  unfold store
  split
  · simp_all [eq_comm]
  · simp_all

theorem store_of_lt {α : Type} {buf : List α} {i : Nat} (v : α) (h : i < buf.length) :
    store buf i v = some (buf.set i v) := by
  simp [store, h]

theorem memcpy_eq_some {α : Type} {dst src out : List α} {n : Nat} :
    memcpy dst src n = some out ↔
      (n ≤ src.length ∧ n ≤ dst.length) ∧ out = src.take n ++ dst.drop n := by
  unfold memcpy
  split
  · simp_all [eq_comm]
  · simp_all

theorem length_malloc {α : Type} (n : Nat) : (malloc n : List (Cell α)).length = n := by
  simp [malloc]

/-! ## Loop rules -/

/-- Invariant rule for a counted loop that is known to have completed. -/
theorem foldlM_range_inv {σ : Type} (f : σ → Nat → Option σ) (P : Nat → σ → Prop) :
    ∀ (n : Nat) (s0 s1 : σ), P 0 s0 →
      (∀ t s s2, t < n → P t s → f s t = some s2 → P (t + 1) s2) →
      (List.range n).foldlM f s0 = some s1 → P n s1 := by
  intro n
  induction n with
  | zero =>
    intro s0 s1 h0 _ h
    simp at h
    subst h
    exact h0
  | succ n ih =>
    intro s0 s1 h0 hstep h
    rw [List.range_succ, List.foldlM_append] at h
    simp only [Option.bind_eq_bind, Option.bind_eq_some] at h
    obtain ⟨s, hs, h2⟩ := h
    have hP := ih s0 s h0 (fun t s s2 ht => hstep t s s2 (Nat.lt_succ_of_lt ht)) hs
    simp only [List.foldlM_cons, List.foldlM_nil, Option.bind_eq_bind, Option.bind_eq_some] at h2
    obtain ⟨s3, hs3, h3⟩ := h2
    simp at h3
    subst h3
    exact hstep n s s3 (Nat.lt_succ_self n) hP hs3

/-- Total-correctness rule for a counted loop: when every iteration that starts
in a state satisfying the invariant succeeds, the loop completes. -/
theorem foldlM_range_total {σ : Type} (f : σ → Nat → Option σ) (P : Nat → σ → Prop) :
    ∀ (n : Nat) (s0 : σ), P 0 s0 →
      (∀ t s s2, t < n → P t s → f s t = some s2 → P (t + 1) s2) →
      (∀ t s, t < n → P t s → ∃ s2, f s t = some s2) →
      ∃ s1, (List.range n).foldlM f s0 = some s1 ∧ P n s1 := by
  intro n
  induction n with
  | zero =>
    intro s0 h0 _ _
    exact ⟨s0, by simp, h0⟩
  | succ n ih =>
    intro s0 h0 hstep hex
    obtain ⟨s, hs, hP⟩ := ih s0 h0 (fun t s s2 ht => hstep t s s2 (Nat.lt_succ_of_lt ht))
      (fun t s ht => hex t s (Nat.lt_succ_of_lt ht))
    obtain ⟨s2, hs2⟩ := hex n s (Nat.lt_succ_self n) hP
    refine ⟨s2, ?_, hstep n s s2 (Nat.lt_succ_self n) hP hs2⟩
    rw [List.range_succ, List.foldlM_append, hs]
    simp [hs2]

theorem splitNV12Body_pres (buf : Buf) (w h C : Nat) (hL : w * h + 2 * C < 2 ^ 32)
    (Y1 : Buf) (t : Nat) (s s2 : SplitState)
    (hinv : SplitNV12Inv buf (w * h) C Y1 t s)
    (hb : splitNV12Body buf w h (2 * t) s = some s2) :
    SplitNV12Inv buf (w * h) C Y1 (t + 1) s2 := by
  obtain ⟨hj, hY, hUl, hVl, _, hpt⟩ := hinv
  simp only [splitNV12Body, Option.bind_eq_bind, Option.bind_eq_some, Option.pure_def,
    Option.some.injEq, store_eq_some] at hb
  obtain ⟨a, ha, U1, ⟨hjU, rfl⟩, b, hb, V1, ⟨hjV, rfl⟩, rfl⟩ := hb
  rw [hj] at hjU hjV
  rw [hUl] at hjU
  have e0 : u32 (w * h) = w * h := u32_of_lt (by omega)
  have e1 : u32 (w * h + 2 * t) = w * h + 2 * t := u32_of_lt (by omega)
  have e2 : u32 (w * h + 2 * t + 1) = w * h + 2 * t + 1 := u32_of_lt (by omega)
  have e3 : u32 (t + 1) = t + 1 := u32_of_lt (by omega)
  rw [e0, e1] at ha hb
  rw [e2] at hb
  refine ⟨by simp [hj, e3], by simpa using hY, by simpa using hUl, by simpa using hVl,
    by omega, ?_⟩
  intro m hm
  simp only [hj]
  by_cases hmt : m = t
  · subst hmt
    rw [List.getElem?_set_self (by omega), List.getElem?_set_self (by omega)]
    exact ⟨(load_eq_some.1 ha).symm, (load_eq_some.1 hb).symm⟩
  · rw [List.getElem?_set_ne (Ne.symm hmt), List.getElem?_set_ne (Ne.symm hmt)]
    exact hpt m (by omega)

theorem splitNV12Body_ex (buf : Buf) (w h C : Nat) (hL : w * h + 2 * C < 2 ^ 32)
    (hlen : buf.length = w * h + 2 * C)
    (Y1 : Buf) (t : Nat) (s : SplitState) (ht : t < C)
    (hinv : SplitNV12Inv buf (w * h) C Y1 t s) :
    ∃ s2, splitNV12Body buf w h (2 * t) s = some s2 := by
  obtain ⟨hj, hY, hUl, hVl, _, hpt⟩ := hinv
  have e0 : u32 (w * h) = w * h := u32_of_lt (by omega)
  have e1 : u32 (w * h + 2 * t) = w * h + 2 * t := u32_of_lt (by omega)
  have e2 : u32 (w * h + 2 * t + 1) = w * h + 2 * t + 1 := u32_of_lt (by omega)
  obtain ⟨a, ha, _⟩ := load_of_lt (show w * h + 2 * t < buf.length by omega)
  obtain ⟨b, hb, _⟩ := load_of_lt (show w * h + 2 * t + 1 < buf.length by omega)
  simp only [splitNV12Body, e0, e1, e2, ha, hb, hj, Option.bind_eq_bind, Option.some_bind,
    store_of_lt a (show t < s.U.length by omega), store_of_lt b (show t < s.V.length by omega),
    Option.pure_def]
  exact ⟨_, rfl⟩

theorem four_mul_half_mul_half_le (w h : Nat) : 4 * ((w / 2) * (h / 2)) ≤ w * h := by
  have h1 : (2 * (w / 2)) * (2 * (h / 2)) ≤ w * h :=
    Nat.mul_le_mul (Nat.mul_div_le w 2) (Nat.mul_div_le h 2)
  have h2 : (2 * (w / 2)) * (2 * (h / 2)) = 4 * ((w / 2) * (h / 2)) := by ring
  omega

theorem chromaSize_NV12 {w h : Nat} (hn : w * h < 2 ^ 32) :
    chromaSize w h 1 = (w / 2) * (h / 2) := by
  rcases Nat.eq_zero_or_pos w with hw | hw
  · subst hw
    simp [chromaSize, u32]
  · have hh : h < 2 ^ 32 := lt_of_le_of_lt (Nat.le_mul_of_pos_left h hw) hn
    have h4 := four_mul_half_mul_half_le w h
    unfold chromaSize
    rw [Nat.one_mul, u32_of_lt hh, u32_of_lt (by omega)]

/-- Layout of the planes produced by every completed `YUV420_NV12` split. -/
theorem split_NV12_layout (buf : Buf) (w h : Nat)
    (hlen : buf.length = w * h + 2 * ((w / 2) * (h / 2))) (hL : buf.length < 2 ^ 32)
    (st : LDC_Status) (p : Planes)
    (hs : ComponentsStructure_SplitYUV2Component (some buf) w h buf.length 1 = some (st, p)) :
    st = LDC_STATUS_OK ∧ p.Y.length = w * h ∧ p.U.length = (w / 2) * (h / 2) ∧
      p.V.length = (w / 2) * (h / 2) ∧ (∀ i, i < w * h → p.Y[i]? = buf[i]?) ∧
      ∀ j, j < (w / 2) * (h / 2) →
        p.U[j]? = buf[w * h + 2 * j]? ∧ p.V[j]? = buf[w * h + 2 * j + 1]? := by
  have hn : w * h < 2 ^ 32 := by omega
  have e0 : u32 (w * h) = w * h := u32_of_lt hn
  have h4 := four_mul_half_mul_half_le w h
  simp only [ComponentsStructure_SplitYUV2Component, YUV420_NV12, if_true, lumaSize,
    chromaSize_NV12 hn, e0, Option.bind_eq_bind, Option.bind_eq_some, Option.pure_def,
    Option.some.injEq, Prod.mk.injEq, memcpy_eq_some, forStep2] at hs
  obtain ⟨Y1, ⟨_, hY1⟩, s, hloop, rfl, rfl⟩ := hs
  have hb : ¬ (2 ^ 32 - 1 ≤ w * h / 2) := by omega
  rw [if_neg hb] at hloop
  have hinv := foldlM_range_inv (fun s t => splitNV12Body buf w h (2 * t) s)
    (SplitNV12Inv buf (w * h) ((w / 2) * (h / 2)) Y1) _ _ s
    ⟨rfl, rfl, length_malloc _, length_malloc _, Nat.zero_le _, fun m hm => absurd hm (by omega)⟩
    (fun t s s2 _ hP hb => splitNV12Body_pres buf w h _ (by omega) Y1 t s s2 hP hb) hloop
  obtain ⟨_, hY, hUl, hVl, hle, hpt⟩ := hinv
  have hYl : s.Y.length = w * h := by
    rw [hY, hY1]
    simp [length_malloc]
    omega
  refine ⟨rfl, hYl, hUl, hVl, ?_, fun j hj => hpt j (by omega)⟩
  intro i hi
  show s.Y[i]? = buf[i]?
  rw [hY, hY1, List.getElem?_append_left (by simp; omega), List.getElem?_take_of_lt hi]

theorem even_mul_even_eq {w h : Nat} (hw2 : w % 2 = 0) (hh2 : h % 2 = 0) :
    w * h = 4 * ((w / 2) * (h / 2)) := by
  have h1 : w = 2 * (w / 2) := by omega
  have h2 : h = 2 * (h / 2) := by omega
  calc w * h = (2 * (w / 2)) * (2 * (h / 2)) := by rw [← h1, ← h2]
    _ = 4 * ((w / 2) * (h / 2)) := by ring

/-- The `YUV420_NV12` split completes on every valid-size buffer of a frame
with even width and height. -/
theorem split_NV12_returns (buf : Buf) (w h : Nat)
    (hw2 : w % 2 = 0) (hh2 : h % 2 = 0)
    (hlen : buf.length = w * h + 2 * ((w / 2) * (h / 2))) (hL : buf.length < 2 ^ 32) :
    ∃ p, ComponentsStructure_SplitYUV2Component (some buf) w h buf.length 1
      = some (LDC_STATUS_OK, p) := by
  have hn : w * h < 2 ^ 32 := by omega
  have e0 : u32 (w * h) = w * h := u32_of_lt hn
  have h4 := even_mul_even_eq hw2 hh2
  have hm : memcpy (malloc (w * h)) buf (w * h)
      = some (buf.take (w * h) ++ (malloc (w * h) : Buf).drop (w * h)) := by
    rw [memcpy_eq_some]
    exact ⟨⟨by omega, by simp [length_malloc]⟩, rfl⟩
  have hb : ¬ (2 ^ 32 - 1 ≤ w * h / 2) := by omega
  have hT : (w * h / 2 + 1) / 2 = (w / 2) * (h / 2) := by omega
  obtain ⟨s1, hs1, _⟩ := foldlM_range_total (fun s t => splitNV12Body buf w h (2 * t) s)
    (SplitNV12Inv buf (w * h) ((w / 2) * (h / 2))
      (buf.take (w * h) ++ (malloc (w * h) : Buf).drop (w * h))) ((w * h / 2 + 1) / 2)
    ⟨0, 0, buf.take (w * h) ++ (malloc (w * h) : Buf).drop (w * h),
      malloc ((w / 2) * (h / 2)), malloc ((w / 2) * (h / 2))⟩
    ⟨rfl, rfl, length_malloc _, length_malloc _, Nat.zero_le _, fun m hm => absurd hm (by omega)⟩
    (fun t s s2 _ hP hb => splitNV12Body_pres buf w h _ (by omega) _ t s s2 hP hb)
    (fun t s ht hP => splitNV12Body_ex buf w h _ (by omega) hlen _ t s (by omega) hP)
  refine ⟨⟨s1.Y, s1.U, s1.V⟩, ?_⟩
  simp only [ComponentsStructure_SplitYUV2Component, YUV420_NV12, if_true, lumaSize,
    chromaSize_NV12 hn, e0, hm, forStep2, if_neg hb, hs1, Option.bind_eq_bind,
    Option.some_bind, Option.pure_def]

theorem splitUYVYBody_pres (buf : Buf) (NY C : Nat) (t : Nat) (ht : 2 * t + 2 < 2 ^ 32)
    (s s2 : SplitState) (hinv : SplitUYVYInv buf NY C t s)
    (hb : splitUYVYBody buf (2 * t) s = some s2) :
    SplitUYVYInv buf NY C (t + 1) s2 := by
  obtain ⟨hj, hk, hYl, hUl, hVl, hY, hUV⟩ := hinv
  have e1 : u32 (2 * t + 1) = 2 * t + 1 := u32_of_lt (by omega)
  have e2 : u32 (2 * t + 2) = 2 * t + 2 := u32_of_lt (by omega)
  have e3 : u32 (t + 1) = t + 1 := u32_of_lt (by omega)
  have e4 : u32 ((t + 1) / 2 + 1) = (t + 1) / 2 + 1 := u32_of_lt (by omega)
  by_cases hpar : 2 * t % 4 = 0
  · simp only [splitUYVYBody, hpar, if_true, Option.bind_eq_bind, Option.bind_eq_some,
      Option.pure_def, Option.some.injEq, store_eq_some, e1, e2, hj, hk, e3, e4] at hb
    obtain ⟨a, ha, Y1, ⟨hjY, rfl⟩, b, hb, U1, ⟨hkU, rfl⟩, c, hc, V1, ⟨hkV, rfl⟩, rfl⟩ := hb
    refine ⟨rfl, by show (t + 1) / 2 + 1 = (t + 1 + 1) / 2; omega, by simpa using hYl,
      by simpa using hUl, by simpa using hVl, ?_, ?_⟩
    · intro m hm
      show (s.Y.set t a)[m]? = buf[2 * m + 1]?
      by_cases hmt : m = t
      · subst hmt
        rw [List.getElem?_set_self hjY]
        exact (load_eq_some.1 ha).symm
      · rw [List.getElem?_set_ne (Ne.symm hmt)]
        exact hY m (by omega)
    · intro g hg
      show (s.U.set ((t + 1) / 2) b)[g]? = buf[4 * g]? ∧
        (s.V.set ((t + 1) / 2) c)[g]? = buf[4 * g + 2]?
      by_cases hgt : g = (t + 1) / 2
      · subst hgt
        rw [List.getElem?_set_self hkU, List.getElem?_set_self hkV]
        have h1 : 4 * ((t + 1) / 2) = 2 * t := by omega
        rw [h1]
        exact ⟨(load_eq_some.1 hb).symm, (load_eq_some.1 hc).symm⟩
      · rw [List.getElem?_set_ne (Ne.symm hgt), List.getElem?_set_ne (Ne.symm hgt)]
        exact hUV g (by omega)
  · simp only [splitUYVYBody, hpar, if_false, Option.bind_eq_bind, Option.bind_eq_some,
      Option.pure_def, Option.some.injEq, store_eq_some, e1, hj, e3] at hb
    obtain ⟨a, ha, Y1, ⟨hjY, rfl⟩, rfl⟩ := hb
    refine ⟨rfl, by show s.k = (t + 1 + 1) / 2; omega, by simpa using hYl,
      hUl, hVl, ?_, ?_⟩
    · intro m hm
      show (s.Y.set t a)[m]? = buf[2 * m + 1]?
      by_cases hmt : m = t
      · subst hmt
        rw [List.getElem?_set_self hjY]
        exact (load_eq_some.1 ha).symm
      · rw [List.getElem?_set_ne (Ne.symm hmt)]
        exact hY m (by omega)
    · intro g hg
      exact hUV g (by omega)

theorem splitUYVYBody_ex (buf : Buf) (NY C : Nat) (hL : buf.length < 2 ^ 32)
    (h4 : buf.length % 4 = 0) (hNY : buf.length ≤ 2 * NY) (hC : buf.length ≤ 4 * C)
    (t : Nat) (ht : t < (buf.length + 1) / 2)
    (s : SplitState) (hinv : SplitUYVYInv buf NY C t s) :
    ∃ s2, splitUYVYBody buf (2 * t) s = some s2 := by
  obtain ⟨hj, hk, hYl, hUl, hVl, _, _⟩ := hinv
  have e1 : u32 (2 * t + 1) = 2 * t + 1 := u32_of_lt (by omega)
  have e2 : u32 (2 * t + 2) = 2 * t + 2 := u32_of_lt (by omega)
  have e3 : u32 (t + 1) = t + 1 := u32_of_lt (by omega)
  obtain ⟨a, ha, _⟩ := load_of_lt (show 2 * t + 1 < buf.length by omega)
  by_cases hpar : 2 * t % 4 = 0
  · obtain ⟨b, hb, _⟩ := load_of_lt (show 2 * t < buf.length by omega)
    obtain ⟨c, hc, _⟩ := load_of_lt (show 2 * t + 2 < buf.length by omega)
    simp only [splitUYVYBody, hpar, if_true, e1, e2, e3, ha, hb, hc, hj, hk,
      Option.bind_eq_bind, Option.some_bind,
      store_of_lt a (show t < s.Y.length by omega),
      store_of_lt b (show (t + 1) / 2 < s.U.length by omega),
      store_of_lt c (show (t + 1) / 2 < s.V.length by omega), Option.pure_def]
    exact ⟨_, rfl⟩
  · simp only [splitUYVYBody, hpar, if_false, e1, e3, ha, hj,
      Option.bind_eq_bind, Option.some_bind,
      store_of_lt a (show t < s.Y.length by omega), Option.pure_def]
    exact ⟨_, rfl⟩

theorem split_UYVY_unfold (buf : Buf) (w h img : Nat) :
    ComponentsStructure_SplitYUV2Component (some buf) w h img 2
      = (forStep2 img (splitUYVYBody buf)
          ⟨0, 0, malloc (lumaSize w h), malloc (chromaSize w h 2),
            malloc (chromaSize w h 2)⟩).bind
        (fun s => some (LDC_STATUS_OK, ⟨s.Y, s.U, s.V⟩)) := by
  simp [ComponentsStructure_SplitYUV2Component, YUV420_NV12, YUV422I_UYVY]

/-- Layout of the planes produced by every completed `YUV422I_UYVY` split. -/
theorem split_UYVY_layout (buf : Buf) (w h : Nat) (hL : buf.length < 2 ^ 32)
    (st : LDC_Status) (p : Planes)
    (hs : ComponentsStructure_SplitYUV2Component (some buf) w h buf.length 2 = some (st, p)) :
    st = LDC_STATUS_OK ∧ p.Y.length = lumaSize w h ∧ p.U.length = chromaSize w h 2 ∧
      p.V.length = chromaSize w h 2 ∧ (∀ m, 2 * m < buf.length → p.Y[m]? = buf[2 * m + 1]?) ∧
      ∀ g, 4 * g < buf.length → p.U[g]? = buf[4 * g]? ∧ p.V[g]? = buf[4 * g + 2]? := by
  rw [split_UYVY_unfold] at hs
  simp only [Option.bind_eq_some, Option.some.injEq, Prod.mk.injEq, forStep2] at hs
  obtain ⟨s, hloop, rfl, rfl⟩ := hs
  by_cases hb : 2 ^ 32 - 1 ≤ buf.length
  · rw [if_pos hb] at hloop
    exact absurd hloop (by simp)
  rw [if_neg hb] at hloop
  have hinv := foldlM_range_inv (fun s t => splitUYVYBody buf (2 * t) s)
    (SplitUYVYInv buf (lumaSize w h) (chromaSize w h 2)) _ _ s
    ⟨rfl, rfl, length_malloc _, length_malloc _, length_malloc _,
      fun m hm => absurd hm (by omega), fun m hm => absurd hm (by omega)⟩
    (fun t s s2 ht hP hb => splitUYVYBody_pres buf _ _ t (by omega) s s2 hP hb) hloop
  obtain ⟨_, _, hYl, hUl, hVl, hY, hUV⟩ := hinv
  exact ⟨rfl, hYl, hUl, hVl, fun m hm => hY m (by omega), fun g hg => hUV g (by omega)⟩

theorem uyvy_sizes {w h : Nat} (hw : 0 < w) (hw2 : w % 2 = 0)
    (hL : w * h + 2 * ((w / 2) * (2 * h / 2)) < 2 ^ 32) :
    w * h + 2 * ((w / 2) * (2 * h / 2)) = 4 * ((w / 2) * h) ∧
      lumaSize w h = 2 * ((w / 2) * h) ∧ chromaSize w h 2 = (w / 2) * h := by
  have h1 : w = 2 * (w / 2) := by omega
  have h2 : 2 * h / 2 = h := by omega
  have h3 : w * h = 2 * ((w / 2) * h) := by
    calc w * h = (2 * (w / 2)) * h := by rw [← h1]
      _ = 2 * ((w / 2) * h) := by ring
  have h4 : h ≤ (w / 2) * h := Nat.le_mul_of_pos_left h (by omega)
  rw [h2] at hL ⊢
  refine ⟨by omega, ?_, ?_⟩
  · unfold lumaSize
    rw [u32_of_lt (by omega)]
    exact h3
  · unfold chromaSize
    rw [u32_of_lt (show 2 * h < 2 ^ 32 by omega), h2, u32_of_lt (by omega)]

/-- The `YUV422I_UYVY` split completes on every valid-size buffer of a frame
with even width. -/
theorem split_UYVY_returns (buf : Buf) (w h : Nat) (hw2 : w % 2 = 0)
    (hlen : buf.length = w * h + 2 * ((w / 2) * (2 * h / 2))) (hL : buf.length < 2 ^ 32) :
    ∃ p, ComponentsStructure_SplitYUV2Component (some buf) w h buf.length 2
      = some (LDC_STATUS_OK, p) := by
  rcases Nat.eq_zero_or_pos w with hw | hw
  · subst hw
    have h0 : buf.length = 0 := by simpa using hlen
    rw [split_UYVY_unfold, h0]
    exact ⟨_, by simp [forStep2]; rfl⟩
  obtain ⟨hs1, hs2, hs3⟩ := uyvy_sizes (h := h) hw hw2 (by omega)
  have hb : ¬ (2 ^ 32 - 1 ≤ buf.length) := by omega
  obtain ⟨s1, hs1, _⟩ := foldlM_range_total (fun s t => splitUYVYBody buf (2 * t) s)
    (SplitUYVYInv buf (lumaSize w h) (chromaSize w h 2)) ((buf.length + 1) / 2)
    ⟨0, 0, malloc (lumaSize w h), malloc (chromaSize w h 2), malloc (chromaSize w h 2)⟩
    ⟨rfl, rfl, length_malloc _, length_malloc _, length_malloc _,
      fun m hm => absurd hm (by omega), fun m hm => absurd hm (by omega)⟩
    (fun t s s2 ht hP hb => splitUYVYBody_pres buf _ _ t (by omega) s s2 hP hb)
    (fun t s ht hP => splitUYVYBody_ex buf _ _ hL (by omega) (by omega) (by omega) t ht s hP)
  refine ⟨⟨s1.Y, s1.U, s1.V⟩, ?_⟩
  rw [split_UYVY_unfold]
  simp only [forStep2, if_neg hb, hs1, Option.some_bind]

theorem combineNV12Body_pres (Y U V : Buf) (w h L : Nat) (hL : L < 2 ^ 32)
    (t : Nat) (ht : w * h + 2 * t + 2 ≤ L) (s s2 : CombineState)
    (hinv : CombineNV12Inv Y U V (w * h) L t s)
    (hb : combineNV12Body U V w h (2 * t) s = some s2) :
    CombineNV12Inv Y U V (w * h) L (t + 1) s2 := by
  obtain ⟨hj, hl, hY, hUV⟩ := hinv
  have e0 : u32 (w * h) = w * h := u32_of_lt (by omega)
  have e1 : u32 (w * h + 2 * t) = w * h + 2 * t := u32_of_lt (by omega)
  have e2 : u32 (w * h + 2 * t + 1) = w * h + 2 * t + 1 := u32_of_lt (by omega)
  have e3 : u32 (t + 1) = t + 1 := u32_of_lt (by omega)
  simp only [combineNV12Body, Option.bind_eq_bind, Option.bind_eq_some, Option.pure_def,
    Option.some.injEq, store_eq_some, e0, e1, e2, e3, hj] at hb
  obtain ⟨a, ha, o1, ⟨h1, rfl⟩, b, hb, o2, ⟨h2, rfl⟩, rfl⟩ := hb
  refine ⟨rfl, by simpa using hl, ?_, ?_⟩
  · intro i hi
    show ((s.out.set (w * h + 2 * t) a).set (w * h + 2 * t + 1) b)[i]? = Y[i]?
    rw [List.getElem?_set_ne (by omega), List.getElem?_set_ne (by omega)]
    exact hY i hi
  · intro m hm
    show ((s.out.set (w * h + 2 * t) a).set (w * h + 2 * t + 1) b)[w * h + 2 * m]? = U[m]? ∧
      ((s.out.set (w * h + 2 * t) a).set (w * h + 2 * t + 1) b)[w * h + 2 * m + 1]? = V[m]?
    by_cases hmt : m = t
    · subst hmt
      rw [List.getElem?_set_ne (by omega), List.getElem?_set_self h1,
        List.getElem?_set_self h2]
      exact ⟨(load_eq_some.1 ha).symm, (load_eq_some.1 hb).symm⟩
    · rw [List.getElem?_set_ne (by omega), List.getElem?_set_ne (by omega),
        List.getElem?_set_ne (by omega), List.getElem?_set_ne (by omega)]
      exact hUV m (by omega)

theorem combineNV12Body_ex (Y U V : Buf) (w h L : Nat) (hL : L < 2 ^ 32)
    (t : Nat) (ht : w * h + 2 * t + 2 ≤ L) (htU : t < U.length) (htV : t < V.length)
    (s : CombineState) (hinv : CombineNV12Inv Y U V (w * h) L t s) :
    ∃ s2, combineNV12Body U V w h (2 * t) s = some s2 := by
  obtain ⟨hj, hl, _, _⟩ := hinv
  have e0 : u32 (w * h) = w * h := u32_of_lt (by omega)
  have e1 : u32 (w * h + 2 * t) = w * h + 2 * t := u32_of_lt (by omega)
  have e2 : u32 (w * h + 2 * t + 1) = w * h + 2 * t + 1 := u32_of_lt (by omega)
  obtain ⟨a, ha, _⟩ := load_of_lt htU
  obtain ⟨b, hb, _⟩ := load_of_lt htV
  simp only [combineNV12Body, e0, e1, e2, ha, hb, hj, Option.bind_eq_bind, Option.some_bind,
    store_of_lt a (show w * h + 2 * t < s.out.length by omega), Option.pure_def]
  rw [store_of_lt b (by simp; omega)]
  exact ⟨_, rfl⟩

theorem combineUYVYBody_pres (Y U V : Buf) (L : Nat) (t : Nat) (ht : 2 * t + 2 < 2 ^ 32)
    (s s2 : CombineState) (hinv : CombineUYVYInv Y U V L t s)
    (hb : combineUYVYBody Y U V (2 * t) s = some s2) :
    CombineUYVYInv Y U V L (t + 1) s2 := by
  obtain ⟨hj, hk, hl, hY, hUV⟩ := hinv
  have e1 : u32 (2 * t + 1) = 2 * t + 1 := u32_of_lt (by omega)
  have e2 : u32 (2 * t + 2) = 2 * t + 2 := u32_of_lt (by omega)
  have e3 : u32 (t + 1) = t + 1 := u32_of_lt (by omega)
  have e4 : u32 ((t + 1) / 2 + 1) = (t + 1) / 2 + 1 := u32_of_lt (by omega)
  by_cases hpar : 2 * t % 4 = 0
  · simp only [combineUYVYBody, hpar, if_true, Option.bind_eq_bind, Option.bind_eq_some,
      Option.pure_def, Option.some.injEq, store_eq_some, e1, e2, hj, hk, e3, e4] at hb
    obtain ⟨a, ha, o1, ⟨h1, rfl⟩, b, hb, o2, ⟨h2, rfl⟩, c, hc, o3, ⟨h3, rfl⟩, rfl⟩ := hb
    have hk4 : 4 * ((t + 1) / 2) = 2 * t := by omega
    refine ⟨rfl, by show (t + 1) / 2 + 1 = (t + 1 + 1) / 2; omega, by simpa using hl, ?_, ?_⟩
    · intro m hm
      show (((s.out.set (2 * t + 1) a).set (2 * t) b).set (2 * t + 2) c)[2 * m + 1]? = Y[m]?
      rw [List.getElem?_set_ne (by omega), List.getElem?_set_ne (by omega)]
      by_cases hmt : m = t
      · subst hmt
        rw [List.getElem?_set_self h1]
        exact (load_eq_some.1 ha).symm
      · rw [List.getElem?_set_ne (by omega)]
        exact hY m (by omega)
    · intro g hg
      show (((s.out.set (2 * t + 1) a).set (2 * t) b).set (2 * t + 2) c)[4 * g]? = U[g]? ∧
        (((s.out.set (2 * t + 1) a).set (2 * t) b).set (2 * t + 2) c)[4 * g + 2]? = V[g]?
      by_cases hgt : g = (t + 1) / 2
      · subst hgt
        rw [hk4, List.getElem?_set_ne (by omega), List.getElem?_set_self h2,
          List.getElem?_set_self h3]
        exact ⟨(load_eq_some.1 hb).symm, (load_eq_some.1 hc).symm⟩
      · rw [List.getElem?_set_ne (by omega), List.getElem?_set_ne (by omega),
          List.getElem?_set_ne (by omega), List.getElem?_set_ne (by omega),
          List.getElem?_set_ne (by omega), List.getElem?_set_ne (by omega)]
        exact hUV g (by omega)
  · simp only [combineUYVYBody, hpar, if_false, Option.bind_eq_bind, Option.bind_eq_some,
      Option.pure_def, Option.some.injEq, store_eq_some, e1, hj, e3] at hb
    obtain ⟨a, ha, o1, ⟨h1, rfl⟩, rfl⟩ := hb
    refine ⟨rfl, by show s.k = (t + 1 + 1) / 2; omega, by simpa using hl, ?_, ?_⟩
    · intro m hm
      show (s.out.set (2 * t + 1) a)[2 * m + 1]? = Y[m]?
      by_cases hmt : m = t
      · subst hmt
        rw [List.getElem?_set_self h1]
        exact (load_eq_some.1 ha).symm
      · rw [List.getElem?_set_ne (by omega)]
        exact hY m (by omega)
    · intro g hg
      show (s.out.set (2 * t + 1) a)[4 * g]? = U[g]? ∧
        (s.out.set (2 * t + 1) a)[4 * g + 2]? = V[g]?
      rw [List.getElem?_set_ne (by omega), List.getElem?_set_ne (by omega)]
      exact hUV g (by omega)

theorem combineUYVYBody_ex (Y U V : Buf) (L : Nat) (hL : L < 2 ^ 32) (h4 : L % 4 = 0)
    (hNY : L ≤ 2 * Y.length) (hU : L ≤ 4 * U.length) (hV : L ≤ 4 * V.length)
    (t : Nat) (ht : t < (L + 1) / 2)
    (s : CombineState) (hinv : CombineUYVYInv Y U V L t s) :
    ∃ s2, combineUYVYBody Y U V (2 * t) s = some s2 := by
  obtain ⟨hj, hk, hl, _, _⟩ := hinv
  have e1 : u32 (2 * t + 1) = 2 * t + 1 := u32_of_lt (by omega)
  have e2 : u32 (2 * t + 2) = 2 * t + 2 := u32_of_lt (by omega)
  have e3 : u32 (t + 1) = t + 1 := u32_of_lt (by omega)
  obtain ⟨a, ha, _⟩ := load_of_lt (show t < Y.length by omega)
  by_cases hpar : 2 * t % 4 = 0
  · obtain ⟨b, hb, _⟩ := load_of_lt (show (t + 1) / 2 < U.length by omega)
    obtain ⟨c, hc, _⟩ := load_of_lt (show (t + 1) / 2 < V.length by omega)
    simp only [combineUYVYBody, hpar, if_true, e1, e2, e3, ha, hb, hc, hj, hk,
      Option.bind_eq_bind, Option.some_bind,
      store_of_lt a (show 2 * t + 1 < s.out.length by omega), Option.pure_def]
    rw [store_of_lt b (by simp; omega)]
    simp only [Option.some_bind]
    rw [store_of_lt c (by simp; omega)]
    exact ⟨_, rfl⟩
  · simp only [combineUYVYBody, hpar, if_false, e1, e3, ha, hj,
      Option.bind_eq_bind, Option.some_bind,
      store_of_lt a (show 2 * t + 1 < s.out.length by omega), Option.pure_def]
    exact ⟨_, rfl⟩

theorem combine_NV12_unfold (out Y U V : Buf) (w h img : Nat) :
    ComponentsStructure_CombineYUVComponents (some out) (some Y) (some U) (some V) w h img 1
      = (memcpy out Y (u32 (w * h))).bind (fun out1 =>
          (forStep2 (u32 (w * h) / 2) (combineNV12Body U V w h) ⟨0, 0, out1⟩).bind
            (fun s => some (LDC_STATUS_OK, some s.out))) := by
  simp [ComponentsStructure_CombineYUVComponents, YUV420_NV12]

theorem combine_UYVY_unfold (out Y U V : Buf) (w h img : Nat) :
    ComponentsStructure_CombineYUVComponents (some out) (some Y) (some U) (some V) w h img 2
      = (forStep2 img (combineUYVYBody Y U V) ⟨0, 0, out⟩).bind
          (fun s => some (LDC_STATUS_OK, some s.out)) := by
  simp [ComponentsStructure_CombineYUVComponents, YUV420_NV12, YUV422I_UYVY]

/-- The `YUV420_NV12` combine, for even width and height and planes of the
allocated sizes: it completes and the output holds the luma plane followed by
the interleaved chroma pairs. -/
theorem combine_NV12_spec (out0 Y U V : Buf) (w h img : Nat)
    (hw2 : w % 2 = 0) (hh2 : h % 2 = 0)
    (hYl : Y.length = w * h) (hUl : U.length = (w / 2) * (h / 2))
    (hVl : V.length = (w / 2) * (h / 2))
    (hol : out0.length = w * h + 2 * ((w / 2) * (h / 2))) (hL : out0.length < 2 ^ 32) :
    ∃ out, ComponentsStructure_CombineYUVComponents (some out0) (some Y) (some U) (some V)
        w h img 1 = some (LDC_STATUS_OK, some out) ∧
      out.length = out0.length ∧ (∀ i, i < w * h → out[i]? = Y[i]?) ∧
      ∀ m, m < (w / 2) * (h / 2) →
        out[w * h + 2 * m]? = U[m]? ∧ out[w * h + 2 * m + 1]? = V[m]? := by
  have hn : w * h < 2 ^ 32 := by omega
  have e0 : u32 (w * h) = w * h := u32_of_lt hn
  have h4 := even_mul_even_eq hw2 hh2
  have hm : memcpy out0 Y (w * h) = some (Y.take (w * h) ++ out0.drop (w * h)) := by
    rw [memcpy_eq_some]
    exact ⟨⟨by omega, by omega⟩, rfl⟩
  have hb : ¬ (2 ^ 32 - 1 ≤ w * h / 2) := by omega
  have hT : (w * h / 2 + 1) / 2 = (w / 2) * (h / 2) := by omega
  have hlen1 : (Y.take (w * h) ++ out0.drop (w * h)).length = out0.length := by
    simp
    omega
  obtain ⟨s1, hs1, hinv⟩ := foldlM_range_total (fun s t => combineNV12Body U V w h (2 * t) s)
    (CombineNV12Inv Y U V (w * h) out0.length) ((w * h / 2 + 1) / 2)
    ⟨0, 0, Y.take (w * h) ++ out0.drop (w * h)⟩
    ⟨rfl, hlen1, fun i hi => by
        show (Y.take (w * h) ++ out0.drop (w * h))[i]? = Y[i]?
        rw [List.getElem?_append_left (by simp; omega), List.getElem?_take_of_lt hi],
      fun m hm => absurd hm (by omega)⟩
    (fun t s s2 ht hP hb => combineNV12Body_pres Y U V w h _ hL t (by omega) s s2 hP hb)
    (fun t s ht hP => combineNV12Body_ex Y U V w h _ hL t (by omega) (by omega) (by omega) s hP)
  obtain ⟨_, hl, hY, hUV⟩ := hinv
  refine ⟨s1.out, ?_, hl, hY, fun m hm => hUV m (by omega)⟩
  rw [combine_NV12_unfold]
  simp only [e0, hm, forStep2, if_neg hb, hs1, Option.some_bind]

/-- The `YUV422I_UYVY` combine, for a buffer size divisible by four and planes
that are large enough: it completes and the output holds the planes in
`U, Y, V, Y` order. -/
theorem combine_UYVY_spec (out0 Y U V : Buf) (w h : Nat)
    (hL : out0.length < 2 ^ 32) (h4 : out0.length % 4 = 0)
    (hY : out0.length ≤ 2 * Y.length) (hU : out0.length ≤ 4 * U.length)
    (hV : out0.length ≤ 4 * V.length) :
    ∃ out, ComponentsStructure_CombineYUVComponents (some out0) (some Y) (some U) (some V)
        w h out0.length 2 = some (LDC_STATUS_OK, some out) ∧
      out.length = out0.length ∧ (∀ m, 2 * m < out0.length → out[2 * m + 1]? = Y[m]?) ∧
      ∀ g, 4 * g < out0.length → out[4 * g]? = U[g]? ∧ out[4 * g + 2]? = V[g]? := by
  have hb : ¬ (2 ^ 32 - 1 ≤ out0.length) := by omega
  obtain ⟨s1, hs1, hinv⟩ := foldlM_range_total (fun s t => combineUYVYBody Y U V (2 * t) s)
    (CombineUYVYInv Y U V out0.length) ((out0.length + 1) / 2) ⟨0, 0, out0⟩
    ⟨rfl, rfl, rfl, fun m hm => absurd hm (by omega), fun m hm => absurd hm (by omega)⟩
    (fun t s s2 ht hP hb => combineUYVYBody_pres Y U V _ t (by omega) s s2 hP hb)
    (fun t s ht hP => combineUYVYBody_ex Y U V _ hL h4 hY hU hV t ht s hP)
  obtain ⟨_, _, hl, hYs, hUV⟩ := hinv
  refine ⟨s1.out, ?_, hl, fun m hm => hYs m (by omega), fun g hg => hUV g (by omega)⟩
  rw [combine_UYVY_unfold]
  simp only [forStep2, if_neg hb, hs1, Option.some_bind]

/-- Round trip for `YUV420_NV12` frames of even width and height. -/
theorem roundtrip_NV12 (buf out0 : Buf) (w h : Nat) (hw2 : w % 2 = 0) (hh2 : h % 2 = 0)
    (hlen : buf.length = w * h + 2 * ((w / 2) * (h / 2))) (hL : buf.length < 2 ^ 32)
    (hout : out0.length = buf.length) :
    ∃ p, ComponentsStructure_SplitYUV2Component (some buf) w h buf.length 1
        = some (LDC_STATUS_OK, p) ∧
      ComponentsStructure_CombineYUVComponents (some out0) (some p.Y) (some p.U) (some p.V)
        w h buf.length 1 = some (LDC_STATUS_OK, some buf) := by
  obtain ⟨p, hp⟩ := split_NV12_returns buf w h hw2 hh2 hlen hL
  obtain ⟨_, hYl, hUl, hVl, hY, hUV⟩ := split_NV12_layout buf w h hlen hL _ p hp
  obtain ⟨out, ho, hol, hoY, hoUV⟩ := combine_NV12_spec out0 p.Y p.U p.V w h buf.length
    hw2 hh2 hYl hUl hVl (by omega) (by omega)
  refine ⟨p, hp, ?_⟩
  rw [ho]
  have : out = buf := by
    apply List.ext_getElem?
    intro i
    by_cases h1 : i < w * h
    · rw [hoY i h1, hY i h1]
    · by_cases h2 : i < buf.length
      · by_cases h3 : (i - w * h) % 2 = 0
        · have e : i = w * h + 2 * ((i - w * h) / 2) := by omega
          rw [e, (hoUV _ (by omega)).1, (hUV _ (by omega)).1]
        · have e : i = w * h + 2 * ((i - w * h) / 2) + 1 := by omega
          rw [e, (hoUV _ (by omega)).2, (hUV _ (by omega)).2]
      · rw [List.getElem?_eq_none (by omega), List.getElem?_eq_none (by omega)]
  rw [this]

/-- Round trip for `YUV422I_UYVY` frames of even width. -/
theorem roundtrip_UYVY (buf out0 : Buf) (w h : Nat) (hw2 : w % 2 = 0)
    (hlen : buf.length = w * h + 2 * ((w / 2) * (2 * h / 2))) (hL : buf.length < 2 ^ 32)
    (hout : out0.length = buf.length) :
    ∃ p, ComponentsStructure_SplitYUV2Component (some buf) w h buf.length 2
        = some (LDC_STATUS_OK, p) ∧
      ComponentsStructure_CombineYUVComponents (some out0) (some p.Y) (some p.U) (some p.V)
        w h buf.length 2 = some (LDC_STATUS_OK, some buf) := by
  obtain ⟨p, hp⟩ := split_UYVY_returns buf w h hw2 hlen hL
  obtain ⟨_, hYl, hUl, hVl, hY, hUV⟩ := split_UYVY_layout buf w h hL _ p hp
  have hsz : buf.length % 4 = 0 ∧ buf.length ≤ 2 * lumaSize w h ∧
      buf.length ≤ 4 * chromaSize w h 2 := by
    rcases Nat.eq_zero_or_pos w with hw | hw
    · subst hw
      have h0 : buf.length = 0 := by simpa using hlen
      omega
    · obtain ⟨hs1, hs2, hs3⟩ := uyvy_sizes (h := h) hw hw2 (by omega)
      omega
  obtain ⟨out, ho, hol, hoY, hoUV⟩ := combine_UYVY_spec out0 p.Y p.U p.V w h
    (by omega) (by omega) (by omega) (by omega) (by omega)
  refine ⟨p, hp, ?_⟩
  rw [← hout, ho]
  have : out = buf := by
    apply List.ext_getElem?
    intro i
    by_cases h2 : i < buf.length
    · by_cases h3 : i % 2 = 1
      · have e : i = 2 * (i / 2) + 1 := by omega
        rw [e, hoY _ (by omega), hY _ (by omega)]
      · by_cases h5 : i % 4 = 0
        · have e : i = 4 * (i / 4) := by omega
          rw [e, (hoUV _ (by omega)).1, (hUV _ (by omega)).1]
        · have e : i = 4 * (i / 4) + 2 := by omega
          rw [e, (hoUV _ (by omega)).2, (hUV _ (by omega)).2]
    · rw [List.getElem?_eq_none (by omega), List.getElem?_eq_none (by omega)]
  rw [this]

/-- C1 (code at the failing input): for the 3x2 `YUV420_NV12` frame the
expected byte count is `3*2 + 2*(3/2)*(1*2/2) = 8` and each chroma plane has
`(3/2)*(2/2) = 1` entry, but the chroma loop of
`ComponentsStructure_SplitYUV2Component` runs for `i = 0` and `i = 2` (bound
`width*height/2 = 3`); its second iteration reads `YUV[8]`, `YUV[9]` and writes
`U[1]`, `V[1]`, outside the buffers, so the split of this valid-size buffer
has no defined result and there are no planes to combine. -/
theorem C1_split_overruns_odd_width :
    (0 < 3 ∧ 0 < 2) ∧
    ([some 1, some 2, some 3, some 4, some 5, some 6, some 7, some 8] : Buf).length
      = 3 * 2 + 2 * (3 / 2) * (YUV420_NV12 * 2 / 2) ∧
    expected_size 3 2 YUV420_NV12 = 8 ∧
    ComponentsStructure_SplitYUV2Component
      (some [some 1, some 2, some 3, some 4, some 5, some 6, some 7, some 8]) 3 2 8
      YUV420_NV12 = none := by
  decide

/-- C9 (code at the failing input): for `YUV420_NV12` and the valid-size
buffer of the 3x2 frame (8 bytes), the planes `U` and `V` are allocated with
`(3/2)*(2/2) = 1` cell.  The first chroma iteration (`i = 0`) stores
`U[0] = YUV[6]` and `V[0] = YUV[7]`; the loop bound `width*height/2 = 3` admits
a second iteration (`i = 2`), which reads `YUV[8]` outside the buffer (and
would write `U[1]`), so `ComponentsStructure_SplitYUV2Component` yields no
planes. -/
theorem C9_split_NV12_overruns_odd_width :
    chromaSize 3 2 YUV420_NV12 = 1 ∧
    lumaSize 3 2 / 2 = 3 ∧
    (splitNV12Body [some 1, some 2, some 3, some 4, some 5, some 6, some 7, some 8] 3 2 0
        ⟨0, 0, [some 1, some 2, some 3, some 4, some 5, some 6], malloc 1, malloc 1⟩).map
      (fun s => (s.j, s.U, s.V)) = some (1, ([some 7] : Buf), ([some 8] : Buf)) ∧
    load ([some 1, some 2, some 3, some 4, some 5, some 6, some 7, some 8] : Buf)
      (u32 (u32 (3 * 2) + 2)) = none ∧
    (splitNV12Body [some 1, some 2, some 3, some 4, some 5, some 6, some 7, some 8] 3 2 2
      ⟨1, 0, [some 1, some 2, some 3, some 4, some 5, some 6], [some 7], [some 8]⟩).isNone
      = true ∧
    ComponentsStructure_SplitYUV2Component
      (some [some 1, some 2, some 3, some 4, some 5, some 6, some 7, some 8]) 3 2
      (expected_size 3 2 YUV420_NV12) YUV420_NV12 = none := by
  decide

/-- C10 (code at the failing input): for `YUV422I_UYVY` and the valid-size
buffer of the 3x1 frame (`3*1 + 2*(3/2)*(2*1/2) = 5` bytes), the loop
`for (i = 0; i < img_size; i += 2)` runs for `i = 0, 2, 4`.  The iterations
`i = 0` and `i = 2` store `Y[0] = YUV[1]`, `U[0] = YUV[0]`, `V[0] = YUV[2]`,
`Y[1] = YUV[3]`; the iteration `i = 4` reads `YUV[5]` outside the buffer (and
would write `U[1]`, `V[1]` outside the one-cell chroma planes), so
`ComponentsStructure_SplitYUV2Component` yields no planes. -/
theorem C10_split_UYVY_overruns_odd_width :
    expected_size 3 1 YUV422I_UYVY = 5 ∧
    chromaSize 3 1 YUV422I_UYVY = 1 ∧
    ((splitUYVYBody [some 1, some 2, some 3, some 4, some 5] 0
        ⟨0, 0, malloc 3, malloc 1, malloc 1⟩).bind
      (splitUYVYBody [some 1, some 2, some 3, some 4, some 5] 2)).map
      (fun s => (s.j, s.k, s.Y)) = some (2, 1, ([some 2, some 4, none] : Buf)) ∧
    ((splitUYVYBody [some 1, some 2, some 3, some 4, some 5] 0
        ⟨0, 0, malloc 3, malloc 1, malloc 1⟩).bind
      (splitUYVYBody [some 1, some 2, some 3, some 4, some 5] 2)).map
      (fun s => (s.U, s.V)) = some (([some 1] : Buf), ([some 3] : Buf)) ∧
    load ([some 1, some 2, some 3, some 4, some 5] : Buf) (u32 (4 + 1)) = none ∧
    (splitUYVYBody [some 1, some 2, some 3, some 4, some 5] 4
      ⟨2, 1, [some 2, some 4, none], [some 1], [some 3]⟩).isNone = true ∧
    ComponentsStructure_SplitYUV2Component (some [some 1, some 2, some 3, some 4, some 5]) 3 1
      (expected_size 3 1 YUV422I_UYVY) YUV422I_UYVY = none := by
  decide

/-! ## Radial interpolator: proofs -/

theorem ABS_eq_abs (v : ℚ) : ABS v = |v| := by
  unfold ABS
  split
  · rw [abs_of_neg (by assumption)]
  · rw [abs_of_nonneg (not_lt.1 (by assumption))]

theorem DBL_MAX_pos : 0 < DBL_MAX := by
  unfold DBL_MAX
  norm_num

theorem getD_of_getElem? {x : List ℚ} {i : Nat} {v : ℚ} (h : x[i]? = some v) :
    x.getD i 0 = v := by
  simp [List.getD, h]

theorem load_getD (x : List ℚ) {i : Nat} (h : i < x.length) :
    load x i = some (x.getD i 0) := by
  simp [load, List.getD, List.getElem?_eq_getElem h]

theorem findNearestBody_eq (q : ℚ) (x : List ℚ) (t : Nat) (ht : t < x.length)
    (s : NearestState) :
    findNearestBody q x t s
      = some (if pointDist q x t ≤ s.dist then ⟨pointDist q x t, (t : Int)⟩ else s) := by
  simp only [findNearestBody, load_getD x ht, Option.bind_eq_bind, Option.some_bind,
    ABS_eq_abs, pointDist, Option.pure_def]
  split <;> rfl

theorem findNearestBody_pres (q : ℚ) (x : List ℚ) (t : Nat) (ht : t < x.length)
    (s s2 : NearestState) (hinv : NearestInv q x t s)
    (hb : findNearestBody q x t s = some s2) : NearestInv q x (t + 1) s2 := by
  rw [findNearestBody_eq q x t ht, Option.some.injEq] at hb
  obtain ⟨hmax, hmin, hcase⟩ := hinv
  by_cases hc : pointDist q x t ≤ s.dist
  · rw [if_pos hc] at hb
    subst hb
    refine ⟨le_trans hc hmax, fun j hj => ?_, Or.inr ⟨t, Nat.lt_succ_self t, rfl, rfl, ?_⟩⟩
    · rcases Nat.lt_succ_iff_lt_or_eq.1 hj with h | h
      · exact le_trans hc (hmin j h)
      · rw [h]
    · intro j h1 h2
      omega
  · rw [if_neg hc] at hb
    subst hb
    have hlt : s.dist < pointDist q x t := not_le.1 hc
    refine ⟨hmax, fun j hj => ?_, ?_⟩
    · rcases Nat.lt_succ_iff_lt_or_eq.1 hj with h | h
      · exact hmin j h
      · rw [h]
        exact le_of_lt hlt
    · rcases hcase with ⟨hi, h0, hall⟩ | ⟨k, hk, hi, hd, hlast⟩
      · refine Or.inl ⟨hi, h0, fun j hj => ?_⟩
        rcases Nat.lt_succ_iff_lt_or_eq.1 hj with h | h
        · exact hall j h
        · rw [h, ← h0]
          exact hlt
      · refine Or.inr ⟨k, Nat.lt_succ_of_lt hk, hi, hd, fun j h1 h2 => ?_⟩
        rcases Nat.lt_succ_iff_lt_or_eq.1 h2 with h | h
        · exact hlast j h1 h
        · rw [h]
          exact hlt

/-- Characterisation of the result of `findNearestNeighbourIndex` on a table of
`x.length` points: either no point lies within `DBL_MAX` of the query and the
result is `-1`, or the result is the last index at minimal distance. -/
theorem findNearest_spec (q : ℚ) (x : List ℚ) :
    ∃ r : Int, findNearestNeighbourIndex q x (x.length : Int) = some r ∧
      ((r = -1 ∧ ∀ j, j < x.length → DBL_MAX < pointDist q x j) ∨
       (∃ k : Nat, k < x.length ∧ r = (k : Int) ∧ pointDist q x k ≤ DBL_MAX ∧
          (∀ j, j < x.length → pointDist q x k ≤ pointDist q x j) ∧
          ∀ j, k < j → j < x.length → pointDist q x k < pointDist q x j)) := by
  obtain ⟨s1, hs1, hinv⟩ := foldlM_range_total (fun s t => findNearestBody q x t s)
    (NearestInv q x) x.length ⟨DBL_MAX, -1⟩
    ⟨le_refl _, fun j hj => absurd hj (Nat.not_lt_zero j),
      Or.inl ⟨rfl, rfl, fun j hj => absurd hj (Nat.not_lt_zero j)⟩⟩
    (fun t s s2 ht hP hb => findNearestBody_pres q x t ht s s2 hP hb)
    (fun t s ht _ => ⟨_, findNearestBody_eq q x t ht s⟩)
  refine ⟨s1.idx, ?_, ?_⟩
  · simp only [findNearestNeighbourIndex, forRange, Int.toNat_ofNat, hs1, Option.map_some']
  · obtain ⟨hmax, hmin, hcase⟩ := hinv
    rcases hcase with ⟨hi, _, hall⟩ | ⟨k, hk, hi, hd, hlast⟩
    · exact Or.inl ⟨hi, hall⟩
    · refine Or.inr ⟨k, hk, hi, hd ▸ hmax, fun j hj => hd ▸ hmin j hj,
        fun j h1 h2 => hd ▸ hlast j h1 h2⟩

theorem loadCell_natCast {α : Type} {buf : List (Cell α)} {k : Nat} {v : α}
    (h : buf[k]? = some (some v)) : loadCell buf (k : Int) = some v := by
  unfold loadCell
  rw [if_neg (by omega), Int.toNat_ofNat, h]

theorem lineSlope_last (x y : List ℚ) (n : Nat) (hn : 2 ≤ n) :
    lineSlope x y n (n - 1) = lineSlope x y n (n - 2) := by
  unfold lineSlope
  rw [if_neg (by omega), if_pos (by omega)]

theorem lineIntercept_last (x y : List ℚ) (n : Nat) (hn : 2 ≤ n) :
    lineIntercept x y n (n - 1) = lineIntercept x y n (n - 2) := by
  unfold lineIntercept
  rw [if_neg (by omega), if_pos (by omega)]

/-- One iteration of the slope/intercept loop, started in a state that
satisfies the invariant. -/
theorem lineBody_eq (x y : List ℚ) (n : Nat) (hx : x.length = n) (hy : y.length = n)
    (hn : 2 ≤ n) (t : Nat) (ht : t < n) (s : LineState) (hinv : LineInv x y n t s) :
    lineBody x y (n : Int) t s
      = some ⟨s.slope.set t (some (lineSlope x y n t)),
          s.intercept.set t (some (lineIntercept x y n t))⟩ := by
  obtain ⟨hsl, hil, hpt⟩ := hinv
  by_cases hc : t + 1 < n
  · have hc1 : (t : Int) < (n : Int) - 1 := by omega
    have hset : (s.slope.set t (some (segSlope x y t)))[t]? = some (some (segSlope x y t)) :=
      List.getElem?_set_self (by omega)
    simp only [lineBody, if_pos hc1, load_getD x (show t + 1 < x.length by omega),
      load_getD x (show t < x.length by omega), load_getD y (show t + 1 < y.length by omega),
      load_getD y (show t < y.length by omega), Option.bind_eq_bind, Option.some_bind,
      store_of_lt _ (show t < s.slope.length by omega), Option.pure_def]
    rw [show (y.getD (t + 1) 0 - y.getD t 0) / (x.getD (t + 1) 0 - x.getD t 0)
      = segSlope x y t from rfl, loadCell_natCast hset]
    simp only [Option.some_bind, store_of_lt _ (show t < s.intercept.length by omega),
      lineSlope, lineIntercept, if_pos hc]
  · have hc1 : ¬ ((t : Int) < (n : Int) - 1) := by omega
    have ht1 : ((t : Int) - 1) = ((n - 2 : Nat) : Int) := by omega
    have htn : t = n - 1 := by omega
    obtain ⟨h1, h2⟩ := hpt (n - 2) (by omega)
    simp only [lineBody, if_neg hc1, ht1, loadCell_natCast h1, loadCell_natCast h2,
      Option.bind_eq_bind, Option.some_bind, store_of_lt _ (show t < s.slope.length by omega),
      store_of_lt _ (show t < s.intercept.length by omega), Option.pure_def]
    rw [htn, lineSlope_last x y n hn, lineIntercept_last x y n hn]

theorem lineBody_pres (x y : List ℚ) (n : Nat) (hx : x.length = n) (hy : y.length = n)
    (hn : 2 ≤ n) (t : Nat) (ht : t < n) (s s2 : LineState) (hinv : LineInv x y n t s)
    (hb : lineBody x y (n : Int) t s = some s2) : LineInv x y n (t + 1) s2 := by
  rw [lineBody_eq x y n hx hy hn t ht s hinv, Option.some.injEq] at hb
  subst hb
  obtain ⟨hsl, hil, hpt⟩ := hinv
  refine ⟨by simpa using hsl, by simpa using hil, fun k hk => ?_⟩
  show (s.slope.set t (some (lineSlope x y n t)))[k]? = some (some (lineSlope x y n k)) ∧
    (s.intercept.set t (some (lineIntercept x y n t)))[k]?
      = some (some (lineIntercept x y n k))
  by_cases hkt : k = t
  · subst hkt
    rw [List.getElem?_set_self (by omega), List.getElem?_set_self (by omega)]
    exact ⟨rfl, rfl⟩
  · rw [List.getElem?_set_ne (Ne.symm hkt), List.getElem?_set_ne (Ne.symm hkt)]
    exact hpt k (by omega)

/-- The first loop of `FrameCorrection_LinearInterpolation` completes and
leaves `slope[k] = s_k`, `intercept[k] = b_k` for every control point. -/
theorem lineLoop_spec (x y : List ℚ) (n : Nat) (hx : x.length = n) (hy : y.length = n)
    (hn : 2 ≤ n) :
    ∃ s, forRange n (lineBody x y (n : Int)) ⟨malloc n, malloc n⟩ = some s ∧
      LineInv x y n n s :=
  foldlM_range_total (fun s t => lineBody x y (n : Int) t s) (LineInv x y n) n
    ⟨malloc n, malloc n⟩
    ⟨length_malloc n, length_malloc n, fun k hk => absurd hk (Nat.not_lt_zero k)⟩
    (fun t s s2 ht hP hb => lineBody_pres x y n hx hy hn t ht s s2 hP hb)
    (fun t s ht hP => ⟨_, lineBody_eq x y n hx hy hn t ht s hP⟩)

/-- One iteration of the query loop. -/
theorem queryBody_eq (x y : List ℚ) (n : Nat) (hx : x.length = n) (xq : List ℚ)
    (s : LineState) (hs : LineInv x y n n s) (t : Nat) (ht : t < xq.length)
    (yq : List (Cell ℚ)) (hyq : yq.length = xq.length) :
    queryBody x (n : Int) xq s t yq
      = some (yq.set t (some (interpValue x y n (xq.getD t 0)))) := by
  obtain ⟨r, hr, hcase⟩ := findNearest_spec (xq.getD t 0) x
  rw [hx] at hr hcase
  rcases hcase with ⟨h1, _⟩ | ⟨k, hk, h1, _⟩
  · subst h1
    simp only [queryBody, load_getD xq ht, hr, Option.bind_eq_bind, Option.some_bind,
      ne_eq, not_true_eq_false, if_false, store_of_lt _ (show t < yq.length by omega),
      interpValue]
  · subst h1
    have hne : ((k : Int) ≠ -1) := by omega
    obtain ⟨h2, h3⟩ := hs.2.2 k hk
    simp only [queryBody, load_getD xq ht, hr, Option.bind_eq_bind, Option.some_bind,
      if_pos hne, loadCell_natCast h2, loadCell_natCast h3,
      store_of_lt _ (show t < yq.length by omega), interpValue, Int.toNat_ofNat]

/-- Full characterisation of `FrameCorrection_LinearInterpolation` on a table
of at least two points: one value per query, in query order. -/
theorem interpolation_eq_map (x y : List ℚ) (n : Nat) (hx : x.length = n)
    (hy : y.length = n) (hn : 2 ≤ n) (xq : List ℚ) :
    FrameCorrection_LinearInterpolation x y (n : Int) xq (xq.length : Int)
      = some (xq.map (fun q => some (interpValue x y n q))) := by
  obtain ⟨s, hs, hinv⟩ := lineLoop_spec x y n hx hy hn
  obtain ⟨yq, hyq, hq⟩ := foldlM_range_total (fun yq t => queryBody x (n : Int) xq s t yq)
    (QueryInv x y n xq) xq.length (malloc xq.length)
    ⟨length_malloc _, fun i hi => absurd hi (Nat.not_lt_zero i)⟩
    (fun t yq yq2 ht hP hb => by
      beta_reduce at hb
      rw [queryBody_eq x y n hx xq s hinv t ht yq hP.1, Option.some.injEq] at hb
      subst hb
      refine ⟨by simpa using hP.1, fun i hi => ?_⟩
      by_cases hit : i = t
      · subst hit
        exact List.getElem?_set_self (by rw [hP.1]; exact ht)
      · rw [List.getElem?_set_ne (Ne.symm hit)]
        exact hP.2 i (by omega))
    (fun t yq ht hP => ⟨_, queryBody_eq x y n hx xq s hinv t ht yq hP.1⟩)
  have hres : yq = xq.map (fun q => some (interpValue x y n q)) := by
    apply List.ext_getElem?
    intro i
    by_cases hi : i < xq.length
    · rw [hq.2 i hi, List.getElem?_map, List.getElem?_eq_getElem hi]
      simp [List.getD, List.getElem?_eq_getElem hi]
    · rw [List.getElem?_eq_none (by rw [hq.1]; omega),
        List.getElem?_eq_none (by simp; omega)]
  simp only [FrameCorrection_LinearInterpolation, Int.toNat_ofNat, hs,
    Option.bind_eq_bind, Option.some_bind]
  rw [← hres]
  exact hyq

theorem pointDist_self (x : List ℚ) (k : Nat) : pointDist (x.getD k 0) x k = 0 := by
  simp [pointDist]

theorem getD_lt_of_pairwise {x : List ℚ} (hs : x.Pairwise (fun a b => a < b)) {i j : Nat}
    (hij : i < j) (hj : j < x.length) : x.getD i 0 < x.getD j 0 := by
  have hi : i < x.length := lt_trans hij hj
  have h := (List.pairwise_iff_getElem.1 hs) i j hi hj hij
  simpa [List.getD, List.getElem?_eq_getElem hi, List.getElem?_eq_getElem hj] using h

theorem getD_injective_of_pairwise {x : List ℚ} (hs : x.Pairwise (fun a b => a < b))
    {i j : Nat} (hi : i < x.length) (hj : j < x.length) (h : x.getD i 0 = x.getD j 0) :
    i = j := by
  rcases Nat.lt_trichotomy i j with h1 | h1 | h1
  · exact absurd h (ne_of_lt (getD_lt_of_pairwise hs h1 hj))
  · exact h1
  · exact absurd h.symm (ne_of_lt (getD_lt_of_pairwise hs h1 hi))

/-- The last index at minimal distance is the one returned. -/
theorem findNearest_eq_of_last_min (q : ℚ) (x : List ℚ) (k : Nat) (hk : k < x.length)
    (hfin : pointDist q x k ≤ DBL_MAX)
    (hmin : ∀ j, j < x.length → pointDist q x k ≤ pointDist q x j)
    (hlast : ∀ j, j < x.length → pointDist q x j = pointDist q x k → j ≤ k) :
    findNearestNeighbourIndex q x (x.length : Int) = some (k : Int) := by
  obtain ⟨r, hr, hcase⟩ := findNearest_spec q x
  rcases hcase with ⟨_, hall⟩ | ⟨k1, hk1, h1, _, hmin1, hlast1⟩
  · exact absurd hfin (not_le.2 (hall k hk))
  · have heq : pointDist q x k1 = pointDist q x k :=
      le_antisymm (hmin1 k hk) (hmin k1 hk1)
    have hle : k1 ≤ k := hlast k1 hk1 heq
    rcases Nat.lt_or_eq_of_le hle with hlt | he
    · exact absurd heq (ne_of_lt (hlast1 k hlt hk))
    · rw [hr, h1, he]

theorem findNearest_at_point (x : List ℚ) (hs : x.Pairwise (fun a b => a < b)) (k : Nat)
    (hk : k < x.length) :
    findNearestNeighbourIndex (x.getD k 0) x (x.length : Int) = some (k : Int) := by
  apply findNearest_eq_of_last_min _ x k hk
  · rw [pointDist_self]
    exact le_of_lt DBL_MAX_pos
  · intro j _
    rw [pointDist_self]
    exact abs_nonneg _
  · intro j hj h
    rw [pointDist_self] at h
    have h2 : x.getD k 0 - x.getD j 0 = 0 := abs_eq_zero.1 h
    have h3 : x.getD k 0 = x.getD j 0 := sub_eq_zero.1 h2
    exact le_of_eq (getD_injective_of_pairwise hs hk hj h3).symm

/-- In exact arithmetic the line attached to a control point passes through it. -/
theorem line_through_point (x y : List ℚ) (hs : x.Pairwise (fun a b => a < b))
    (hn : 2 ≤ x.length) (k : Nat) (hk : k < x.length) :
    lineSlope x y x.length k * x.getD k 0 + lineIntercept x y x.length k = y.getD k 0 := by
  by_cases hc : k + 1 < x.length
  · simp only [lineSlope, lineIntercept, if_pos hc]
    ring
  · have hkn : k = x.length - 1 := by omega
    have hlt : x.getD (x.length - 2) 0 < x.getD (x.length - 2 + 1) 0 :=
      getD_lt_of_pairwise hs (Nat.lt_succ_self _) (by omega)
    have hne : x.getD (x.length - 2 + 1) 0 - x.getD (x.length - 2) 0 ≠ 0 :=
      sub_ne_zero.2 (ne_of_gt hlt)
    have e : x.length - 2 + 1 = k := by omega
    simp only [lineSlope, lineIntercept, if_neg hc, segSlope]
    rw [e] at hne ⊢
    generalize x.getD k 0 = a at hne ⊢
    generalize x.getD (x.length - 2) 0 = b at hne ⊢
    generalize y.getD k 0 = c
    generalize y.getD (x.length - 2) 0 = d
    field_simp
    ring

/-- C2 as stated fails when no control point lies within `DBL_MAX` of the
query: for the table `(-DBL_MAX, 0), (-DBL_MAX/2, 0)` and the query `DBL_MAX`
both distances exceed `DBL_MAX`, `findNearestNeighbourIndex` returns `-1` and
the value returned is the sentinel `DBL_MAX`, although both lines evaluate to
`0` at the query.  The result is the same with the binary64 rounding of the
subtraction. -/
theorem C2_counterexample_sentinel :
    findNearestNeighbourIndex DBL_MAX [-DBL_MAX, -DBL_MAX / 2] 2 = some (-1) ∧
    FrameCorrection_LinearInterpolation [-DBL_MAX, -DBL_MAX / 2] [0, 0] 2 [DBL_MAX] 1
      = some [some DBL_MAX] ∧
    lineSlope [-DBL_MAX, -DBL_MAX / 2] [0, 0] 2 0 * DBL_MAX
      + lineIntercept [-DBL_MAX, -DBL_MAX / 2] [0, 0] 2 0 = 0 ∧
    lineSlope [-DBL_MAX, -DBL_MAX / 2] [0, 0] 2 1 * DBL_MAX
      + lineIntercept [-DBL_MAX, -DBL_MAX / 2] [0, 0] 2 1 = 0 ∧
    (0 : ℚ) < DBL_MAX ∧
    FrameCorrection_LinearInterpolationFl roundBinary64 [-DBL_MAX, -DBL_MAX / 2] [0, 0] 2
      [DBL_MAX] 1 = some [some DBL_MAX] := by
  have hpos := DBL_MAX_pos
  have hfind : findNearestNeighbourIndex DBL_MAX [-DBL_MAX, -DBL_MAX / 2] 2 = some (-1) := by
    obtain ⟨r, hr, hcase⟩ := findNearest_spec DBL_MAX [-DBL_MAX, -DBL_MAX / 2]
    rcases hcase with ⟨h1, _⟩ | ⟨k, hk, _, hle, _⟩
    · rw [← h1]
      exact hr
    · exfalso
      have hk2 : k = 0 ∨ k = 1 := by
        have : k < 2 := hk
        omega
      rcases hk2 with h | h
      · subst h
        simp only [pointDist, List.getD_cons_zero] at hle
        rw [abs_of_nonneg (by linarith)] at hle
        linarith
      · subst h
        simp only [pointDist, List.getD_cons_succ, List.getD_cons_zero] at hle
        rw [abs_of_nonneg (by linarith)] at hle
        linarith
  refine ⟨hfind, ?_, ?_, ?_, hpos, by decide!⟩
  · have h := interpolation_eq_map [-DBL_MAX, -DBL_MAX / 2] [0, 0] 2 rfl rfl (le_refl 2)
      [DBL_MAX]
    have e : interpValue [-DBL_MAX, -DBL_MAX / 2] [0, 0] 2 DBL_MAX = DBL_MAX := by
      unfold interpValue
      rw [show ((2 : Nat) : Int) = 2 from rfl, hfind]
      simp
    simp only [List.map_cons, List.map_nil, e] at h
    exact h
  · simp [lineSlope, lineIntercept, segSlope]
  · simp [lineSlope, lineIntercept, segSlope]

/-- C3 as stated fails: the query `1` is exactly midway between the control
points `x_0 = 0` and `x_1 = 2`, both at the minimal distance `1`; the index
returned is `1`, not the smallest minimiser `0`.  The result is the same with
the binary64 rounding of the subtraction. -/
theorem C3_counterexample_midpoint :
    ABS ((1 : ℚ) - 0) = 1 ∧ ABS ((1 : ℚ) - 2) = 1 ∧
    findNearestNeighbourIndex 1 [0, 2] 2 = some 1 ∧
    findNearestNeighbourIndexFl roundBinary64 1 [0, 2] 2 = some 1 := by
  refine ⟨by norm_num [ABS], by norm_num [ABS], ?_, by decide!⟩
  simp [findNearestNeighbourIndex, forRange, findNearestBody, load, ABS, DBL_MAX,
    List.range, List.range.loop]
  norm_num

/-- C4: for every table of `n ≥ 2` control points with strictly increasing
angles and every index `k < n`, a query equal to `x_k` selects index `k`, is
answered with the line of control point `k` evaluated at `x_k`, and this value
equals `y_k` in exact arithmetic, also for the last control point. -/
theorem C4_query_at_control_point (x y xq : List ℚ) (hy : y.length = x.length)
    (hn : 2 ≤ x.length) (hs : x.Pairwise (fun a b => a < b))
    (k : Nat) (hk : k < x.length) (i : Nat) (hi : i < xq.length)
    (hq : xq.getD i 0 = x.getD k 0) :
    findNearestNeighbourIndex (x.getD k 0) x (x.length : Int) = some (k : Int) ∧
    (∃ yq, FrameCorrection_LinearInterpolation x y (x.length : Int) xq (xq.length : Int)
        = some yq ∧
      yq[i]? = some (some (lineSlope x y x.length k * x.getD k 0
        + lineIntercept x y x.length k))) ∧
    lineSlope x y x.length k * x.getD k 0 + lineIntercept x y x.length k = y.getD k 0 := by
  have hfind := findNearest_at_point x hs k hk
  refine ⟨hfind, ⟨_, interpolation_eq_map x y x.length rfl hy hn xq, ?_⟩,
    line_through_point x y hs hn k hk⟩
  have hne : ((k : Int) ≠ -1) := by omega
  have hqi : xq[i] = xq.getD i 0 := by
    simp [List.getD, List.getElem?_eq_getElem hi]
  rw [List.getElem?_map, List.getElem?_eq_getElem hi, Option.map_some', hqi, hq]
  unfold interpValue
  rw [hfind]
  simp only [if_pos hne, Int.toNat_ofNat]

/-- Instance of C4: the last control point of the table `(0,0), (1,1), (2,3)`. -/
theorem C4_query_at_control_point_witness :
    findNearestNeighbourIndex (([0, 1, 2] : List ℚ).getD 2 0) [0, 1, 2]
      (([0, 1, 2] : List ℚ).length : Int) = some ((2 : Nat) : Int) ∧
    (∃ yq, FrameCorrection_LinearInterpolation [0, 1, 2] [0, 1, 3]
        (([0, 1, 2] : List ℚ).length : Int) [2] (([2] : List ℚ).length : Int) = some yq ∧
      yq[0]? = some (some (lineSlope [0, 1, 2] [0, 1, 3] ([0, 1, 2] : List ℚ).length 2
        * ([0, 1, 2] : List ℚ).getD 2 0
        + lineIntercept [0, 1, 2] [0, 1, 3] ([0, 1, 2] : List ℚ).length 2))) ∧
    lineSlope [0, 1, 2] [0, 1, 3] ([0, 1, 2] : List ℚ).length 2 * ([0, 1, 2] : List ℚ).getD 2 0
      + lineIntercept [0, 1, 2] [0, 1, 3] ([0, 1, 2] : List ℚ).length 2
      = ([0, 1, 3] : List ℚ).getD 2 0 :=
  C4_query_at_control_point [0, 1, 2] [0, 1, 3] [2] rfl (by decide)
    (by simp) 2 (by decide) 0 (by decide) (by simp)

/-! ## Resampling: proofs -/

theorem pixel_index_lt {w h x y : Nat} (hx : x < w) (hy : y < h) : y * w + x < w * h := by
  have h1 : (y + 1) * w ≤ h * w := Nat.mul_le_mul_right w hy
  have h2 : (y + 1) * w = y * w + w := by ring
  have h3 : h * w = w * h := Nat.mul_comm h w
  omega

theorem pixel_index_inj {w x y x1 y1 : Nat} (hx : x < w) (hx1 : x1 < w)
    (h : y * w + x = y1 * w + x1) : x = x1 ∧ y = y1 := by
  have hw : 0 < w := by omega
  have e1 : (y * w + x) % w = x := by
    rw [Nat.add_comm, Nat.add_mul_mod_self_right, Nat.mod_eq_of_lt hx]
  have e2 : (y1 * w + x1) % w = x1 := by
    rw [Nat.add_comm, Nat.add_mul_mod_self_right, Nat.mod_eq_of_lt hx1]
  have hxx : x = x1 := by rw [← e1, ← e2, h]
  subst hxx
  have h4 : y * w = y1 * w := by omega
  exact ⟨rfl, Nat.eq_of_mul_eq_mul_right hw h4⟩

theorem srcOf_eq_some {h_d v_d : Nat → Nat → ℚ} {x y : Nat} {sx sy : Int} :
    srcOf h_d v_d x y = some (sx, sy) ↔
      srcCoord (h_d y x) = some sx ∧ srcCoord (v_d y x) = some sy := by
  simp only [srcOf, Option.bind_eq_bind, Option.bind_eq_some, Option.pure_def,
    Option.some.injEq, Prod.mk.injEq]
  constructor
  · rintro ⟨a, ha, b, hb, rfl, rfl⟩
    exact ⟨ha, hb⟩
  · rintro ⟨ha, hb⟩
    exact ⟨sx, ha, sy, hb, rfl, rfl⟩

/-- Effect of one iteration of the resampling loop on the luma plane. -/
theorem resampleBody_luma (Y U V : Buf) (h_d v_d : Nat → Nat → ℚ) (w h t : Nat)
    (hwh : w * h < 2 ^ 32) (x y : Nat) (hx : x < w) (hy : y < h) (s s2 : OutPlanes)
    (hb : resampleBody Y U V h_d v_d w h t x y s = some s2) :
    (∀ idx, idx ≠ y * w + x → s2.Y_out[idx]? = s.Y_out[idx]?) ∧
    (¬ sourceInFrame h_d v_d w h x y → s2.Y_out = s.Y_out) ∧
    ∀ srcX srcY, srcOf h_d v_d x y = some (srcX, srcY) → inFrame w h srcX srcY →
      ∃ a, Y[srcY.toNat * w + srcX.toNat]? = some a ∧ s2.Y_out[y * w + x]? = some a := by
  simp only [resampleBody, Option.bind_eq_bind, Option.bind_eq_some] at hb
  obtain ⟨sx, hsx, sy, hsy, hb⟩ := hb
  have hsrc : srcOf h_d v_d x y = some (sx, sy) := srcOf_eq_some.2 ⟨hsx, hsy⟩
  by_cases hin : inFrame w h sx sy
  · rw [if_pos hin] at hb
    simp only [Option.bind_eq_bind, Option.bind_eq_some, Option.pure_def, Option.some.injEq,
      store_eq_some] at hb
    obtain ⟨a, ha, Y1, ⟨hlt, rfl⟩, _, _, _, _, _, _, _, _, _, _, _, _, _, _, _, _, rfl⟩ := hb
    obtain ⟨h0x, h0y, hxw, hyh⟩ := hin
    have hsxw : sx.toNat < w := by omega
    have hsyh : sy.toNat < h := by omega
    have e1 : u32 (y * w + x) = y * w + x := u32_of_lt (by
      have := pixel_index_lt hx hy
      omega)
    have e2 : u32 (sy.toNat * w + sx.toNat) = sy.toNat * w + sx.toNat := u32_of_lt (by
      have := pixel_index_lt hsxw hsyh
      omega)
    rw [e1] at hlt
    rw [e2] at ha
    refine ⟨fun idx hidx => ?_, fun hn => absurd ⟨sx, sy, hsrc, h0x, h0y, hxw, hyh⟩ hn, ?_⟩
    · show (s.Y_out.set (u32 (y * w + x)) a)[idx]? = s.Y_out[idx]?
      rw [e1, List.getElem?_set_ne (Ne.symm hidx)]
    · intro srcX srcY hs _
      rw [hsrc, Option.some.injEq, Prod.mk.injEq] at hs
      obtain ⟨rfl, rfl⟩ := hs
      refine ⟨a, load_eq_some.1 ha, ?_⟩
      show (s.Y_out.set (u32 (y * w + x)) a)[y * w + x]? = some a
      rw [e1, List.getElem?_set_self hlt]
  · rw [if_neg hin, Option.pure_def, Option.some.injEq] at hb
    subst hb
    refine ⟨fun _ _ => rfl, fun _ => rfl, ?_⟩
    intro srcX srcY hs hin2
    rw [hsrc, Option.some.injEq, Prod.mk.injEq] at hs
    obtain ⟨rfl, rfl⟩ := hs
    exact absurd hin2 hin

theorem visited_succ_row {tx ty x y : Nat} :
    visited tx (ty + 1) x y ↔ visited tx ty x y ∨ (x = tx ∧ y = ty) := by
  unfold visited
  omega

theorem visited_next_column {tx h x y : Nat} (hy : y < h) :
    visited (tx + 1) 0 x y ↔ visited tx h x y := by
  unfold visited
  omega

theorem resampleBody_inv (Y U V : Buf) (h_d v_d : Nat → Nat → ℚ) (w h t : Nat)
    (hwh : w * h < 2 ^ 32) (Y0 : Buf) (tx ty : Nat) (htx : tx < w) (hty : ty < h)
    (s s2 : OutPlanes) (hinv : ResampleInv Y h_d v_d w h Y0 tx ty s)
    (hb : resampleBody Y U V h_d v_d w h t tx ty s = some s2) :
    ResampleInv Y h_d v_d w h Y0 tx (ty + 1) s2 := by
  obtain ⟨hA, hB⟩ := hinv
  obtain ⟨e1, e2, e3⟩ := resampleBody_luma Y U V h_d v_d w h t hwh tx ty htx hty s s2 hb
  refine ⟨fun idx hidx => ?_, fun x y hx hy hv srcX srcY hs hin => ?_⟩
  · have hold : s.Y_out[idx]? = Y0[idx]? :=
      hA idx (fun x y hx hy hv hsf => hidx x y hx hy (visited_succ_row.2 (Or.inl hv)) hsf)
    by_cases hsf : sourceInFrame h_d v_d w h tx ty
    · rw [e1 idx (hidx tx ty htx hty (visited_succ_row.2 (Or.inr ⟨rfl, rfl⟩)) hsf)]
      exact hold
    · rw [e2 hsf]
      exact hold
  · rcases visited_succ_row.1 hv with hv1 | ⟨rfl, rfl⟩
    · obtain ⟨a, ha, hout⟩ := hB x y hx hy hv1 srcX srcY hs hin
      refine ⟨a, ha, ?_⟩
      have hne : y * w + x ≠ ty * w + tx := by
        intro heq
        obtain ⟨rfl, rfl⟩ := pixel_index_inj hx htx heq
        unfold visited at hv1
        omega
      rw [e1 _ hne]
      exact hout
    · exact e3 srcX srcY hs hin

theorem resampleColumn_inv (Y U V : Buf) (h_d v_d : Nat → Nat → ℚ) (w h t : Nat)
    (hwh : w * h < 2 ^ 32) (Y0 : Buf) (tx : Nat) (htx : tx < w)
    (s s2 : OutPlanes) (hinv : ResampleInv Y h_d v_d w h Y0 tx 0 s)
    (hb : forRange h (fun y s => resampleBody Y U V h_d v_d w h t tx y s) s = some s2) :
    ResampleInv Y h_d v_d w h Y0 (tx + 1) 0 s2 := by
  have hcol := foldlM_range_inv
    (fun s y => resampleBody Y U V h_d v_d w h t tx y s)
    (fun ty s => ResampleInv Y h_d v_d w h Y0 tx ty s) h s s2 hinv
    (fun ty s s3 hty hP hb3 =>
      resampleBody_inv Y U V h_d v_d w h t hwh Y0 tx ty htx hty s s3 hP hb3) hb
  obtain ⟨hA, hB⟩ := hcol
  refine ⟨fun idx hidx => hA idx (fun x y hx hy hv hsf =>
      hidx x y hx hy ((visited_next_column hy).2 hv) hsf),
    fun x y hx hy hv => hB x y hx hy ((visited_next_column hy).1 hv)⟩

/-- The luma plane after a completed resampling loop. -/
theorem resampleLoop_luma (Y U V : Buf) (h_d v_d : Nat → Nat → ℚ) (w h t : Nat)
    (hwh : w * h < 2 ^ 32) (s s1 : OutPlanes)
    (hloop : resampleLoop Y U V h_d v_d w h t s = some s1) :
    (∀ idx, (∀ x y, x < w → y < h → sourceInFrame h_d v_d w h x y → idx ≠ y * w + x) →
      s1.Y_out[idx]? = s.Y_out[idx]?) ∧
    ∀ x y, x < w → y < h →
      ∀ srcX srcY, srcOf h_d v_d x y = some (srcX, srcY) → inFrame w h srcX srcY →
        ∃ a, Y[srcY.toNat * w + srcX.toNat]? = some a ∧ s1.Y_out[y * w + x]? = some a := by
  have hfin := foldlM_range_inv
    (fun s x => forRange h (fun y s => resampleBody Y U V h_d v_d w h t x y s) s)
    (fun tx s1 => ResampleInv Y h_d v_d w h s.Y_out tx 0 s1) w s s1
    ⟨fun _ _ => rfl, fun x y _ _ hv => by
      unfold visited at hv
      omega⟩
    (fun tx s2 s3 htx hP hb3 =>
      resampleColumn_inv Y U V h_d v_d w h t hwh s.Y_out tx htx s2 s3 hP hb3) hloop
  obtain ⟨hA, hB⟩ := hfin
  exact ⟨fun idx hidx => hA idx (fun x y hx hy _ hsf => hidx x y hx hy hsf),
    fun x y hx hy => hB x y hx hy (Or.inl hx)⟩

theorem int32_natCast {n : Nat} (h : n < 2 ^ 31) : int32 (n : Int) = some (n : Int) := by
  unfold int32
  rw [if_pos]
  constructor <;> omega

theorem toInt32_of_lt {n : Nat} (h : n < 2 ^ 31) : toInt32 n = (n : Int) := by
  unfold toInt32
  rw [if_pos h]

theorem loadAt_natCast {α : Type} (buf : List α) (n : Nat) :
    loadAt buf (n : Int) = load buf n := by
  unfold loadAt
  rw [if_neg (by omega), Int.toNat_ofNat]

theorem storeAt_natCast {α : Type} (buf : List α) (n : Nat) (v : α) :
    storeAt buf (n : Int) v = store buf n v := by
  unfold storeAt
  rw [if_neg (by omega), Int.toNat_ofNat]

/-- The chroma index of a pixel of the frame lies inside the chroma plane. -/
theorem chroma_index_lt {t w h x y : Nat} (ht : t = 1 ∨ t = 2) (hw2 : w % 2 = 0)
    (hh2 : t = 1 → h % 2 = 0) (hx : x < w) (hy : y < h) :
    (t * y / 2) * (w / 2) + x / 2 < (w / 2) * (t * h / 2) := by
  apply pixel_index_lt (by omega)
  rcases ht with rfl | rfl
  · have := hh2 rfl
    omega
  · omega

theorem chroma_bounds {t w h x y : Nat} (ht : t = 1 ∨ t = 2) (hw2 : w % 2 = 0)
    (hh2 : t = 1 → h % 2 = 0) (hx : x < w) (hy : y < h) (hth : t * h < 2 ^ 31)
    (hC : (w / 2) * (t * h / 2) < 2 ^ 31) :
    t * y < 2 ^ 31 ∧ w / 2 < 2 ^ 31 ∧ (t * y / 2) * (w / 2) + x / 2 < 2 ^ 31 := by
  have hlt := chroma_index_lt ht hw2 hh2 hx hy
  have hty : t * y < 2 ^ 31 := by
    have : t * y ≤ t * h := Nat.mul_le_mul_left t (le_of_lt hy)
    omega
  have hw : w / 2 < 2 ^ 31 := by
    rcases Nat.eq_zero_or_pos (t * h / 2) with h0 | h0
    · rw [h0] at hlt
      omega
    · have : w / 2 ≤ (w / 2) * (t * h / 2) := Nat.le_mul_of_pos_right _ h0
      omega
  exact ⟨hty, hw, by omega⟩

theorem int32_mul_eq {t w y : Nat} (hty : t * y < 2 ^ 31) (hw : w / 2 < 2 ^ 31)
    (hp : (t * y / 2) * (w / 2) < 2 ^ 31) :
    int32 (toInt32 (u32 (t * y) / 2) * toInt32 (w / 2))
      = some (((t * y / 2) * (w / 2) : Nat) : Int) := by
  rw [u32_of_lt (by omega), toInt32_of_lt (by omega), toInt32_of_lt hw, ← Nat.cast_mul,
    int32_natCast hp]

theorem int32_add_eq {p k : Nat} (hp : p + k < 2 ^ 31) :
    int32 ((p : Int) + toInt32 k) = some ((p + k : Nat) : Int) := by
  rw [toInt32_of_lt (by omega), ← Nat.cast_add, int32_natCast (by omega)]

theorem dstChromaIndex_unfold (t w x y : Nat) :
    dstChromaIndex t w x y
      = (int32 (toInt32 (u32 (t * y) / 2) * toInt32 (w / 2))).bind
          (fun p => int32 (p + toInt32 (x / 2))) := by
  unfold dstChromaIndex
  simp only [Option.bind_eq_bind]

theorem dstChromaIndex_eq {t w h x y : Nat} (ht : t = 1 ∨ t = 2) (hw2 : w % 2 = 0)
    (hh2 : t = 1 → h % 2 = 0) (hx : x < w) (hy : y < h) (hth : t * h < 2 ^ 31)
    (hC : (w / 2) * (t * h / 2) < 2 ^ 31) :
    dstChromaIndex t w x y = some (((t * y / 2) * (w / 2) + x / 2 : Nat) : Int) := by
  obtain ⟨hty, hw, hp⟩ := chroma_bounds ht hw2 hh2 hx hy hth hC
  rw [dstChromaIndex_unfold, int32_mul_eq hty hw (by omega), Option.some_bind]
  exact int32_add_eq hp

theorem int32_scale_eq {t b : Nat} (ht : t < 2 ^ 31) (htb : t * b < 2 ^ 31) :
    int32 (toInt32 t * (b : Int)) = some ((t * b : Nat) : Int) := by
  rw [toInt32_of_lt ht, ← Nat.cast_mul, int32_natCast htb]

theorem int32_half_mul_eq {m w : Nat} (hw : w / 2 < 2 ^ 31)
    (hp : (m / 2) * (w / 2) < 2 ^ 31) :
    int32 (Int.tdiv (m : Int) 2 * toInt32 (w / 2)) = some (((m / 2) * (w / 2) : Nat) : Int) := by
  have e2 : Int.tdiv (m : Int) 2 = ((m / 2 : Nat) : Int) := (Int.ofNat_tdiv m 2).symm
  rw [e2, toInt32_of_lt hw, ← Nat.cast_mul, int32_natCast hp]

theorem int32_add_half_eq {p a : Nat} (hp : p + a / 2 < 2 ^ 31) :
    int32 ((p : Int) + Int.tdiv (a : Int) 2) = some ((p + a / 2 : Nat) : Int) := by
  have e3 : Int.tdiv (a : Int) 2 = ((a / 2 : Nat) : Int) := (Int.ofNat_tdiv a 2).symm
  rw [e3, ← Nat.cast_add, int32_natCast hp]

theorem srcChromaIndex_unfold (t w : Nat) (a b : Int) :
    srcChromaIndex t w a b
      = (int32 (toInt32 t * b)).bind (fun m =>
          (int32 (Int.tdiv m 2 * toInt32 (w / 2))).bind (fun p => int32 (p + Int.tdiv a 2))) := by
  unfold srcChromaIndex
  simp only [Option.bind_eq_bind]

theorem srcChromaIndex_eq {t w h a b : Nat} (ht : t = 1 ∨ t = 2) (hw2 : w % 2 = 0)
    (hh2 : t = 1 → h % 2 = 0) (ha : a < w) (hb : b < h) (hth : t * h < 2 ^ 31)
    (hC : (w / 2) * (t * h / 2) < 2 ^ 31) :
    srcChromaIndex t w (a : Int) (b : Int)
      = some (((t * b / 2) * (w / 2) + a / 2 : Nat) : Int) := by
  obtain ⟨htb, hw, hp⟩ := chroma_bounds ht hw2 hh2 ha hb hth hC
  have ht31 : t < 2 ^ 31 := by omega
  rw [srcChromaIndex_unfold, int32_scale_eq ht31 htb, Option.some_bind,
    int32_half_mul_eq hw (by omega), Option.some_bind]
  exact int32_add_half_eq hp

theorem ready_bounds {Y U V : Buf} {h_d v_d : Nat → Nat → ℚ} {w h t : Nat} {s : OutPlanes}
    (hr : ResampleReady Y U V h_d v_d w h t s) (hw : 0 < w) :
    w * h < 2 ^ 32 ∧ t * h < 2 ^ 31 ∧ (w / 2) * (t * h / 2) < 2 ^ 31 := by
  have hfit := hr.fits
  have hw2 := hr.evenWidth
  have h1 : h ≤ (w / 2) * h := Nat.le_mul_of_pos_left h (by omega)
  have h2 : w * h = 2 * ((w / 2) * h) := by
    have e : w = 2 * (w / 2) := by omega
    calc w * h = (2 * (w / 2)) * h := by rw [← e]
      _ = 2 * ((w / 2) * h) := by ring
  rcases hr.variant with ht | ht
  · rw [ht, YUV420_NV12] at hfit ⊢
    rw [Nat.one_mul] at hfit ⊢
    omega
  · rw [ht, YUV422I_UYVY] at hfit ⊢
    have e : 2 * h / 2 = h := by omega
    rw [e] at hfit ⊢
    omega

/-- One iteration of the resampling loop succeeds and keeps the plane sizes. -/
theorem resampleBody_returns (Y U V : Buf) (h_d v_d : Nat → Nat → ℚ) (w h t : Nat)
    (x y : Nat) (hx : x < w) (hy : y < h) (s : OutPlanes)
    (hr : ResampleReady Y U V h_d v_d w h t s) :
    ∃ s2, resampleBody Y U V h_d v_d w h t x y s = some s2 ∧
      ResampleReady Y U V h_d v_d w h t s2 := by
  obtain ⟨hwh, hth, hC⟩ := ready_bounds hr (by omega)
  have hvar : t = 1 ∨ t = 2 := hr.variant
  obtain ⟨sx, sy, hsrc⟩ := hr.castable x y hx hy
  obtain ⟨hsx, hsy⟩ := srcOf_eq_some.1 hsrc
  by_cases hin : inFrame w h sx sy
  · obtain ⟨h0x, h0y, hxw, hyh⟩ := hin
    obtain ⟨a, rfl⟩ := Int.eq_ofNat_of_zero_le h0x
    obtain ⟨b, rfl⟩ := Int.eq_ofNat_of_zero_le h0y
    have ha : a < w := by omega
    have hb : b < h := by omega
    have hin2 : inFrame w h (a : Int) (b : Int) := ⟨h0x, h0y, hxw, hyh⟩
    have e1 : u32 (y * w + x) = y * w + x := u32_of_lt (by
      have := pixel_index_lt hx hy
      omega)
    have e2 : u32 (b * w + a) = b * w + a := u32_of_lt (by
      have := pixel_index_lt ha hb
      omega)
    have hd := chroma_index_lt hvar hr.evenWidth hr.evenHeight hx hy
    have hs := chroma_index_lt hvar hr.evenWidth hr.evenHeight ha hb
    obtain ⟨c0, hc0, _⟩ := load_of_lt (show b * w + a < Y.length by
      rw [hr.lenY]
      exact pixel_index_lt ha hb)
    obtain ⟨c1, hc1, _⟩ := load_of_lt (show (t * b / 2) * (w / 2) + a / 2 < U.length by
      rw [hr.lenU]
      exact hs)
    obtain ⟨c2, hc2, _⟩ := load_of_lt (show (t * b / 2) * (w / 2) + a / 2 < V.length by
      rw [hr.lenV]
      exact hs)
    have hst0 := store_of_lt c0 (show y * w + x < s.Y_out.length by
      rw [hr.lenYout]
      exact pixel_index_lt hx hy)
    have hst1 := store_of_lt c1 (show (t * y / 2) * (w / 2) + x / 2 < s.U_out.length by
      rw [hr.lenUout]
      exact hd)
    have hst2 := store_of_lt c2 (show (t * y / 2) * (w / 2) + x / 2 < s.V_out.length by
      rw [hr.lenVout]
      exact hd)
    refine ⟨⟨s.Y_out.set (y * w + x) c0, s.U_out.set ((t * y / 2) * (w / 2) + x / 2) c1,
      s.V_out.set ((t * y / 2) * (w / 2) + x / 2) c2⟩, ?_, ?_⟩
    · simp only [resampleBody, hsx, hsy, Option.bind_eq_bind, Option.some_bind, if_pos hin2,
        Int.toNat_ofNat, e1, e2, hc0, hst0,
        dstChromaIndex_eq hvar hr.evenWidth hr.evenHeight hx hy hth hC,
        srcChromaIndex_eq hvar hr.evenWidth hr.evenHeight ha hb hth hC,
        loadAt_natCast, storeAt_natCast, hc1, hc2, hst1, hst2, Option.pure_def]
    · exact ⟨hr.variant, hr.evenWidth, hr.evenHeight, hr.fits, hr.lenY, hr.lenU, hr.lenV,
        by simpa using hr.lenYout, by simpa using hr.lenUout, by simpa using hr.lenVout,
        hr.castable⟩
  · refine ⟨s, ?_, hr⟩
    simp only [resampleBody, hsx, hsy, Option.bind_eq_bind, Option.some_bind, if_neg hin,
      Option.pure_def]

/-- The resampling loop completes whenever its inputs are well formed. -/
theorem resampleLoop_returns (Y U V : Buf) (h_d v_d : Nat → Nat → ℚ) (w h t : Nat)
    (s : OutPlanes) (hr : ResampleReady Y U V h_d v_d w h t s) :
    ∃ s1, resampleLoop Y U V h_d v_d w h t s = some s1 := by
  have hcol : ∀ x, x < w → ∀ s2, ResampleReady Y U V h_d v_d w h t s2 →
      ∃ s3, forRange h (fun y s => resampleBody Y U V h_d v_d w h t x y s) s2 = some s3 ∧
        ResampleReady Y U V h_d v_d w h t s3 := by
    intro x hx s2 hr2
    exact foldlM_range_total (fun s y => resampleBody Y U V h_d v_d w h t x y s)
      (fun _ s => ResampleReady Y U V h_d v_d w h t s) h s2 hr2
      (fun y s3 s4 hy hP hb => by
        obtain ⟨s5, h5, hr5⟩ := resampleBody_returns Y U V h_d v_d w h t x y hx hy s3 hP
        beta_reduce at hb
        rw [h5, Option.some.injEq] at hb
        exact hb ▸ hr5)
      (fun y s3 hy hP => by
        obtain ⟨s5, h5, _⟩ := resampleBody_returns Y U V h_d v_d w h t x y hx hy s3 hP
        exact ⟨s5, h5⟩)
  obtain ⟨s1, hs1, _⟩ := foldlM_range_total
    (fun s x => forRange h (fun y s => resampleBody Y U V h_d v_d w h t x y s) s)
    (fun _ s => ResampleReady Y U V h_d v_d w h t s) w s hr
    (fun x s3 s4 hx hP hb => by
      obtain ⟨s5, h5, hr5⟩ := hcol x hx s3 hP
      beta_reduce at hb
      rw [h5, Option.some.injEq] at hb
      exact hb ▸ hr5)
    (fun x s3 hx hP => by
      obtain ⟨s5, h5, _⟩ := hcol x hx s3 hP
      exact ⟨s5, h5⟩)
  exact ⟨s1, hs1⟩

/-- The sample frame satisfies the conditions under which the resampling loop
is defined. -/
theorem sample_ready :
    ResampleReady sampleY sampleU sampleV shiftedColumns v_p 2 2 1 sampleOut where
  variant := Or.inl rfl
  evenWidth := by decide
  evenHeight := fun _ => by decide
  fits := by decide
  lenY := by decide
  lenU := by decide
  lenV := by decide
  lenYout := by decide
  lenUout := by decide
  lenVout := by decide
  castable := by
    intro x y hx hy
    have hx2 : x = 0 ∨ x = 1 := by omega
    have hy2 : y = 0 ∨ y = 1 := by omega
    rcases hx2 with rfl | rfl <;> rcases hy2 with rfl | rfl
    · exact ⟨1, 0, by decide!⟩
    · exact ⟨1, 1, by decide!⟩
    · exact ⟨2, 0, by decide!⟩
    · exact ⟨2, 1, by decide!⟩

/-- The resampling loop evaluated on the sample frame: column 0 receives the
samples of source column 1, column 1 is left uninitialised. -/
theorem resampleLoop_sample :
    resampleLoop sampleY sampleU sampleV shiftedColumns v_p 2 2 1 sampleOut
      = some ⟨[some 12, none, some 14, none], [some 21], [some 31]⟩ := by
  decide!

/-- C5: in the resampling loop, every output pixel `(x, y)` of the frame whose
rounded source coordinate lies outside `[0, width) x [0, height)` keeps its luma
entry `Y_out[y*width + x]`; the loop writes `Y_out` only at the indices
`y*width + x` of pixels whose source is in range.  The loop completes on
well-formed inputs. -/
theorem C5_out_of_range_pixel_untouched (Y U V : Buf) (h_d v_d : Nat → Nat → ℚ)
    (w h t : Nat) (s : OutPlanes) (hwh : w * h < 2 ^ 32) :
    (∀ s1, resampleLoop Y U V h_d v_d w h t s = some s1 →
      (∀ x y, x < w → y < h → ¬ sourceInFrame h_d v_d w h x y →
        s1.Y_out[y * w + x]? = s.Y_out[y * w + x]?) ∧
      (∀ idx, (∀ x y, x < w → y < h → sourceInFrame h_d v_d w h x y → idx ≠ y * w + x) →
        s1.Y_out[idx]? = s.Y_out[idx]?)) ∧
    (ResampleReady Y U V h_d v_d w h t s →
      ∃ s1, resampleLoop Y U V h_d v_d w h t s = some s1) := by
  refine ⟨fun s1 hloop => ?_, resampleLoop_returns Y U V h_d v_d w h t s⟩
  obtain ⟨hA, _⟩ := resampleLoop_luma Y U V h_d v_d w h t hwh s s1 hloop
  refine ⟨fun x y hx hy hout => hA _ (fun x1 y1 hx1 _ hsf heq => ?_), hA⟩
  obtain ⟨rfl, rfl⟩ := pixel_index_inj hx hx1 heq
  exact hout hsf

/-- Instance of C5 on the sample frame: the displacement field points one
column to the right, the source of pixel `(1, 0)` is column 2, outside the
frame, and `Y_out[1]` keeps its value. -/
theorem C5_out_of_range_pixel_untouched_witness :
    ∃ s1, resampleLoop sampleY sampleU sampleV shiftedColumns v_p 2 2 1 sampleOut = some s1 ∧
      s1.Y_out[0 * 2 + 1]? = sampleOut.Y_out[0 * 2 + 1]? :=
  ⟨_, resampleLoop_sample,
    ((C5_out_of_range_pixel_untouched sampleY sampleU sampleV shiftedColumns v_p 2 2 1
      sampleOut (by decide)).1 _ resampleLoop_sample).1 1 0 (by decide) (by decide)
      (by
        rintro ⟨sx, sy, hs, hin⟩
        have h2 : srcOf shiftedColumns v_p 1 0 = some (2, 0) := by decide!
        rw [h2, Option.some.injEq, Prod.mk.injEq] at hs
        obtain ⟨rfl, rfl⟩ := hs
        revert hin
        decide)⟩

/-- C6: in the resampling loop, every output pixel `(x, y)` whose rounded
source coordinate satisfies `0 <= srcX < width` and `0 <= srcY < height` ends
with `Y_out[y*width + x] = Y[srcY*width + srcX]`; the source index is below
`width*height`, and no other pixel writes the entry `y*width + x`.  The loop
completes on well-formed inputs. -/
theorem C6_in_range_pixel_copied (Y U V : Buf) (h_d v_d : Nat → Nat → ℚ)
    (w h t : Nat) (s : OutPlanes) (hwh : w * h < 2 ^ 32) :
    (∀ s1, resampleLoop Y U V h_d v_d w h t s = some s1 →
      ∀ x y, x < w → y < h →
        ∀ srcX srcY, srcOf h_d v_d x y = some (srcX, srcY) → inFrame w h srcX srcY →
          (∃ a, Y[srcY.toNat * w + srcX.toNat]? = some a ∧ s1.Y_out[y * w + x]? = some a) ∧
          srcY.toNat * w + srcX.toNat < w * h ∧
          ∀ x1 y1, x1 < w → y1 < h → (x1, y1) ≠ (x, y) → y1 * w + x1 ≠ y * w + x) ∧
    (ResampleReady Y U V h_d v_d w h t s →
      ∃ s1, resampleLoop Y U V h_d v_d w h t s = some s1) := by
  refine ⟨fun s1 hloop x y hx hy srcX srcY hsrc hin => ?_,
    resampleLoop_returns Y U V h_d v_d w h t s⟩
  obtain ⟨_, hB⟩ := resampleLoop_luma Y U V h_d v_d w h t hwh s s1 hloop
  refine ⟨hB x y hx hy srcX srcY hsrc hin, ?_, fun x1 y1 hx1 _ hne heq => ?_⟩
  · obtain ⟨h0x, h0y, hxw, hyh⟩ := hin
    exact pixel_index_lt (show srcX.toNat < w by omega) (show srcY.toNat < h by omega)
  · obtain ⟨rfl, rfl⟩ := pixel_index_inj hx1 hx heq
    exact hne rfl

/-- Instance of C6 on the sample frame: the source of pixel `(0, 0)` is
`(1, 0)`, inside the frame, and `Y_out[0]` ends with the value of `Y[1]`. -/
theorem C6_in_range_pixel_copied_witness :
    ∃ s1, resampleLoop sampleY sampleU sampleV shiftedColumns v_p 2 2 1 sampleOut = some s1 ∧
      (∃ a, sampleY[(0 : Int).toNat * 2 + (1 : Int).toNat]? = some a ∧
        s1.Y_out[0 * 2 + 0]? = some a) ∧
      (0 : Int).toNat * 2 + (1 : Int).toNat < 2 * 2 ∧
      ∀ x1 y1, x1 < 2 → y1 < 2 → (x1, y1) ≠ (0, 0) → y1 * 2 + x1 ≠ 0 * 2 + 0 :=
  ⟨_, resampleLoop_sample,
    (C6_in_range_pixel_copied sampleY sampleU sampleV shiftedColumns v_p 2 2 1
      sampleOut (by decide)).1 _ resampleLoop_sample 0 0 (by decide) (by decide) 1 0
      (by decide!) (by decide)⟩

/-- C8 (code at the failing input): for `width = 4` the centre argument is
`(4 - 1)/2 = 1` in `uint32_t` arithmetic, not `3/2`, and for `width = 2` it is
`0`, not `1/2`; the centred coordinates of column 0 and column 3 of a frame of
width 4 are `-1` and `2`, which are not negatives of each other. -/
theorem C8_centre_truncated :
    centreArg 4 = 1 ∧ centreArg 2 = 0 ∧ xt 4 0 0 = -1 ∧ xt 4 0 3 = 2 := by
  decide!

/-! ## Further properties of the codec, the interpolator and the calibration reader -/

/-- C12: for every variant tag other than `YUV420_NV12` (1) and `YUV422I_UYVY`
(2), both `ComponentsStructure_SplitYUV2Component` and
`ComponentsStructure_CombineYUVComponents` return `LDC_STATUS_ERROR`, and the
combine leaves the buffer `YUV_out` unchanged. -/
theorem C12_unsupported_variant_error (t : Nat) (h1 : t ≠ YUV420_NV12)
    (h2 : t ≠ YUV422I_UYVY) (YUV YUV_out Y U V : Option Buf) (w h img : Nat) :
    (∃ p, ComponentsStructure_SplitYUV2Component YUV w h img t
        = some (LDC_STATUS_ERROR, p)) ∧
    ComponentsStructure_CombineYUVComponents YUV_out Y U V w h img t
      = some (LDC_STATUS_ERROR, YUV_out) := by
  constructor
  · cases YUV with
    | none =>
      exact ⟨⟨malloc (lumaSize w h), malloc (chromaSize w h t), malloc (chromaSize w h t)⟩,
        rfl⟩
    | some buf =>
      refine ⟨⟨malloc (lumaSize w h), malloc (chromaSize w h t),
        malloc (chromaSize w h t)⟩, ?_⟩
      simp only [ComponentsStructure_SplitYUV2Component, if_neg h1, if_neg h2]
  · cases YUV_out <;> cases U <;> cases V <;> cases Y <;>
      simp [ComponentsStructure_CombineYUVComponents, h1, h2]

/-- Instance of C12 for the tag 3 on a 2x2 frame. -/
theorem C12_unsupported_variant_error_witness :
    (∃ p, ComponentsStructure_SplitYUV2Component
        (some [some 1, some 2, some 3, some 4, some 5, some 6]) 2 2 6 3
        = some (LDC_STATUS_ERROR, p)) ∧
    ComponentsStructure_CombineYUVComponents (some [some 9, some 9, some 9, some 9, some 9, some 9])
        (some [some 1, some 2, some 3, some 4]) (some [some 5]) (some [some 6]) 2 2 6 3
      = some (LDC_STATUS_ERROR, some [some 9, some 9, some 9, some 9, some 9, some 9]) :=
  C12_unsupported_variant_error 3 (by decide) (by decide) _ _ _ _ _ 2 2 6

/-- With a non-positive table size `findNearestNeighbourIndex` scans nothing
and returns `-1`. -/
theorem findNearest_of_nonpos (q : ℚ) (x : List ℚ) (n : Int) (hn : n ≤ 0) :
    findNearestNeighbourIndex q x n = some (-1) := by
  have h0 : n.toNat = 0 := by omega
  simp [findNearestNeighbourIndex, forRange, h0]

/-- With a non-positive table size the query loop stores the sentinel
`DBL_MAX` for every query. -/
theorem interpolation_of_nonpos (x y : List ℚ) (n : Int) (hn : n ≤ 0) (xq : List ℚ) :
    FrameCorrection_LinearInterpolation x y n xq (xq.length : Int)
      = some (xq.map (fun _ => some DBL_MAX)) := by
  have h0 : n.toNat = 0 := by omega
  have hbody : ∀ (t : Nat) (yq : List (Cell ℚ)) (s : LineState), t < xq.length →
      yq.length = xq.length →
      queryBody x n xq s t yq = some (yq.set t (some DBL_MAX)) := by
    intro t yq s ht hl
    simp only [queryBody, load_getD xq ht, findNearest_of_nonpos _ x n hn,
      Option.bind_eq_bind, Option.some_bind, ne_eq, not_true_eq_false, if_false,
      store_of_lt _ (show t < yq.length by omega)]
  obtain ⟨yq, hyq, hlen, hpt⟩ := foldlM_range_total
    (fun yq t => queryBody x n xq ⟨malloc 0, malloc 0⟩ t yq)
    (fun t yq => yq.length = xq.length ∧ ∀ i, i < t → yq[i]? = some (some DBL_MAX))
    xq.length (malloc xq.length)
    ⟨length_malloc _, fun i hi => absurd hi (Nat.not_lt_zero i)⟩
    (fun t yq yq2 ht hP hb => by
      beta_reduce at hb
      rw [hbody t yq _ ht hP.1, Option.some.injEq] at hb
      subst hb
      refine ⟨by simpa using hP.1, fun i hi => ?_⟩
      by_cases hit : i = t
      · subst hit
        exact List.getElem?_set_self (by rw [hP.1]; exact ht)
      · rw [List.getElem?_set_ne (Ne.symm hit)]
        exact hP.2 i (by omega))
    (fun t yq ht hP => ⟨_, hbody t yq _ ht hP.1⟩)
  have hres : yq = xq.map (fun _ => some DBL_MAX) := by
    apply List.ext_getElem?
    intro i
    by_cases hi : i < xq.length
    · rw [hpt i hi, List.getElem?_map, List.getElem?_eq_getElem hi]
      rfl
    · rw [List.getElem?_eq_none (by omega), List.getElem?_eq_none (by simp; omega)]
  simp only [FrameCorrection_LinearInterpolation, Int.toNat_ofNat, h0, forRange,
    List.range_zero, List.foldlM_nil, Option.pure_def, Option.bind_eq_bind, Option.some_bind]
  rw [← hres]
  exact hyq

/-- C16: with an empty table (`sample_points_size = 0`)
`findNearestNeighbourIndex` returns `-1` for every query and
`FrameCorrection_LinearInterpolation` returns the sentinel `DBL_MAX` for every
query of the sequence; this holds whatever the arrays `x`, `y` contain, also
when they have no element at all, so no element of the table is read. -/
theorem C16_empty_table_sentinel (x y xq : List ℚ) :
    (∀ q, findNearestNeighbourIndex q x 0 = some (-1)) ∧
    FrameCorrection_LinearInterpolation x y 0 xq (xq.length : Int)
      = some (xq.map (fun _ => some DBL_MAX)) ∧
    FrameCorrection_LinearInterpolation [] [] 0 xq (xq.length : Int)
      = some (xq.map (fun _ => some DBL_MAX)) :=
  ⟨fun q => findNearest_of_nonpos q x 0 (le_refl 0),
    interpolation_of_nonpos x y 0 (le_refl 0) xq,
    interpolation_of_nonpos [] [] 0 (le_refl 0) xq⟩

theorem list_eq_of_getElem?_lt {α : Type} {l1 l2 : List α} (hlen : l1.length = l2.length)
    (h : ∀ i, i < l2.length → l1[i]? = l2[i]?) : l1 = l2 := by
  apply List.ext_getElem?
  intro i
  by_cases hi : i < l2.length
  · exact h i hi
  · rw [List.getElem?_eq_none (by omega), List.getElem?_eq_none (by omega)]

/-- Combine followed by split for `YUV420_NV12` frames of even width and height. -/
theorem combine_split_NV12 (Y U V out0 : Buf) (w h : Nat) (hw2 : w % 2 = 0)
    (hh2 : h % 2 = 0) (hYl : Y.length = w * h) (hUl : U.length = (w / 2) * (h / 2))
    (hVl : V.length = (w / 2) * (h / 2))
    (hol : out0.length = w * h + 2 * ((w / 2) * (h / 2))) (hL : out0.length < 2 ^ 32) :
    ∃ buf, ComponentsStructure_CombineYUVComponents (some out0) (some Y) (some U) (some V)
        w h out0.length 1 = some (LDC_STATUS_OK, some buf) ∧
      ComponentsStructure_SplitYUV2Component (some buf) w h out0.length 1
        = some (LDC_STATUS_OK, ⟨Y, U, V⟩) := by
  obtain ⟨buf, hc, hbl, hbY, hbUV⟩ := combine_NV12_spec out0 Y U V w h out0.length
    hw2 hh2 hYl hUl hVl hol hL
  refine ⟨buf, hc, ?_⟩
  obtain ⟨p, hp⟩ := split_NV12_returns buf w h hw2 hh2 (by omega) (by omega)
  obtain ⟨_, hpY, hpU, hpV, hY, hUV⟩ := split_NV12_layout buf w h (by omega) (by omega) _ p hp
  rw [← hbl, hp]
  have e1 : p.Y = Y := list_eq_of_getElem?_lt (by omega) (fun i hi => by
    rw [hY i (by omega), hbY i (by omega)])
  have e2 : p.U = U := list_eq_of_getElem?_lt (by omega) (fun i hi => by
    rw [(hUV i (by omega)).1, (hbUV i (by omega)).1])
  have e3 : p.V = V := list_eq_of_getElem?_lt (by omega) (fun i hi => by
    rw [(hUV i (by omega)).2, (hbUV i (by omega)).2])
  cases p
  simp only at e1 e2 e3
  rw [e1, e2, e3]

/-- Combine followed by split for `YUV422I_UYVY` frames of even width. -/
theorem combine_split_UYVY (Y U V out0 : Buf) (w h : Nat) (hw2 : w % 2 = 0)
    (hYl : Y.length = w * h) (hUl : U.length = (w / 2) * (2 * h / 2))
    (hVl : V.length = (w / 2) * (2 * h / 2))
    (hol : out0.length = w * h + 2 * ((w / 2) * (2 * h / 2))) (hL : out0.length < 2 ^ 32) :
    ∃ buf, ComponentsStructure_CombineYUVComponents (some out0) (some Y) (some U) (some V)
        w h out0.length 2 = some (LDC_STATUS_OK, some buf) ∧
      ComponentsStructure_SplitYUV2Component (some buf) w h out0.length 2
        = some (LDC_STATUS_OK, ⟨Y, U, V⟩) := by
  have e2h : 2 * h / 2 = h := by omega
  have hsz : out0.length = 4 * ((w / 2) * h) ∧ lumaSize w h = w * h ∧
      w * h = 2 * ((w / 2) * h) ∧ chromaSize w h 2 = (w / 2) * h := by
    rcases Nat.eq_zero_or_pos w with hw | hw
    · subst hw
      simp [lumaSize, chromaSize, u32] at hol ⊢
      exact hol
    · obtain ⟨hs1, hs2, hs3⟩ := uyvy_sizes (h := h) hw hw2 (by omega)
      have : lumaSize w h = w * h := by
        unfold lumaSize
        exact u32_of_lt (by omega)
      omega
  obtain ⟨hs0, hs1, hs2, hs3⟩ := hsz
  rw [e2h] at hUl hVl
  obtain ⟨buf, hc, hbl, hbY, hbUV⟩ := combine_UYVY_spec out0 Y U V w h hL (by omega)
    (by omega) (by omega) (by omega)
  refine ⟨buf, hc, ?_⟩
  obtain ⟨p, hp⟩ := split_UYVY_returns buf w h hw2 (by omega) (by omega)
  obtain ⟨_, hpY, hpU, hpV, hY, hUV⟩ := split_UYVY_layout buf w h (by omega) _ p hp
  rw [← hbl, hp]
  have e1 : p.Y = Y := list_eq_of_getElem?_lt (by omega) (fun i hi => by
    rw [hY i (by omega), hbY i (by omega)])
  have e2 : p.U = U := list_eq_of_getElem?_lt (by omega) (fun i hi => by
    rw [(hUV i (by omega)).1, (hbUV i (by omega)).1])
  have e3 : p.V = V := list_eq_of_getElem?_lt (by omega) (fun i hi => by
    rw [(hUV i (by omega)).2, (hbUV i (by omega)).2])
  cases p
  simp only at e1 e2 e3
  rw [e1, e2, e3]

/-- C20 (code at the failing input): for the 3x1 `YUV422I_UYVY` frame the `Y`
plane has 3 bytes, the chroma planes have `(3/2)*(2*1/2) = 1` byte each and the
buffer of the expected size has 5 bytes, but the loop
`for (i = 0; i < img_size; i += 2)` of
`ComponentsStructure_CombineYUVComponents` runs for `i = 0, 2, 4`; its third
iteration writes `YUV_out[5]` and reads `U[1]`, `V[1]`, outside the buffers, so
there is no combined buffer to split. -/
theorem C20_combine_overruns_odd_width :
    (0 < 3 ∧ 0 < 1) ∧
    ([some 1, some 2, some 3] : Buf).length = 3 * 1 ∧
    ([some 4] : Buf).length = (3 / 2) * (YUV422I_UYVY * 1 / 2) ∧
    ([some 5] : Buf).length = (3 / 2) * (YUV422I_UYVY * 1 / 2) ∧
    (malloc 5 : Buf).length = 3 * 1 + 2 * (3 / 2) * (YUV422I_UYVY * 1 / 2) ∧
    expected_size 3 1 YUV422I_UYVY = 5 ∧
    ComponentsStructure_CombineYUVComponents (some (malloc 5))
      (some [some 1, some 2, some 3]) (some [some 4]) (some [some 5]) 3 1 5 YUV422I_UYVY
      = none := by
  decide

/-- Size bounds of a frame of even width whose byte count fits `uint32_t`. -/
theorem frame_bounds {t w h : Nat} (hv : t = 1 ∨ t = 2) (hw : 0 < w) (hw2 : w % 2 = 0)
    (hfit : w * h + 2 * ((w / 2) * (t * h / 2)) < 2 ^ 32) :
    w * h < 2 ^ 32 ∧ t * h < 2 ^ 31 ∧ (w / 2) * (t * h / 2) < 2 ^ 31 := by
  have h1 : h ≤ (w / 2) * h := Nat.le_mul_of_pos_left h (by omega)
  have h2 : w * h = 2 * ((w / 2) * h) := by
    have e : w = 2 * (w / 2) := by omega
    calc w * h = (2 * (w / 2)) * h := by rw [← e]
      _ = 2 * ((w / 2) * h) := by ring
  rcases hv with ht | ht
  · rw [ht] at hfit ⊢
    rw [Nat.one_mul] at hfit ⊢
    omega
  · rw [ht] at hfit ⊢
    have e : 2 * h / 2 = h := by omega
    rw [e] at hfit ⊢
    omega

theorem even_width_mul {w : Nat} (hw2 : w % 2 = 0) (a : Nat) : a * w = 2 * (a * (w / 2)) := by
  have e : w = 2 * (w / 2) := by omega
  calc a * w = a * (2 * (w / 2)) := by rw [← e]
    _ = 2 * (a * (w / 2)) := by ring

/-- C11: for even width (and even height for `YUV420_NV12`) the chroma index
used by the resampler for the luma pixel `(x, y)`, `(y/2)*(width/2) + x/2` for
`YUV420_NV12` and `y*(width/2) + x/2` for `YUV422I_UYVY`, addresses in the planes
produced by the split the chroma pair that the packed layout assigns to the
pixel: `U = buf[width*height + (y/2)*width + 2*(x/2)]` for `YUV420_NV12` and
`U = buf[4*((y*width + x)/2)]` for `YUV422I_UYVY` (with `V` in the next chroma
byte); two pixels share a chroma index iff they lie in the same 2x2 block
(`YUV420_NV12`) or the same horizontal pair (`YUV422I_UYVY`). -/
theorem C11_chroma_index_matches_layout (t w h : Nat) (buf : Buf)
    (hv : t = YUV420_NV12 ∨ t = YUV422I_UYVY)
    (hw2 : w % 2 = 0) (hh2 : t = YUV420_NV12 → h % 2 = 0)
    (hlen : buf.length = w * h + 2 * (w / 2) * (t * h / 2)) (hL : buf.length < 2 ^ 32)
    (x y : Nat) (hx : x < w) (hy : y < h) :
    ∃ p, ComponentsStructure_SplitYUV2Component (some buf) w h buf.length t
        = some (LDC_STATUS_OK, p) ∧
      (t = YUV420_NV12 →
        dstChromaIndex t w x y = some (((y / 2) * (w / 2) + x / 2 : Nat) : Int) ∧
        srcChromaIndex t w (x : Int) (y : Int)
          = some (((y / 2) * (w / 2) + x / 2 : Nat) : Int) ∧
        (y / 2) * (w / 2) + x / 2 < p.U.length ∧
        p.U[(y / 2) * (w / 2) + x / 2]? = buf[w * h + (y / 2) * w + 2 * (x / 2)]? ∧
        p.V[(y / 2) * (w / 2) + x / 2]? = buf[w * h + (y / 2) * w + 2 * (x / 2) + 1]? ∧
        ∀ x1 y1, x1 < w → y1 < h →
          ((y1 / 2) * (w / 2) + x1 / 2 = (y / 2) * (w / 2) + x / 2 ↔
            x1 / 2 = x / 2 ∧ y1 / 2 = y / 2)) ∧
      (t = YUV422I_UYVY →
        dstChromaIndex t w x y = some ((y * (w / 2) + x / 2 : Nat) : Int) ∧
        srcChromaIndex t w (x : Int) (y : Int) = some ((y * (w / 2) + x / 2 : Nat) : Int) ∧
        y * (w / 2) + x / 2 < p.U.length ∧
        p.U[y * (w / 2) + x / 2]? = buf[4 * ((y * w + x) / 2)]? ∧
        p.V[y * (w / 2) + x / 2]? = buf[4 * ((y * w + x) / 2) + 2]? ∧
        ∀ x1 y1, x1 < w → y1 < h →
          (y1 * (w / 2) + x1 / 2 = y * (w / 2) + x / 2 ↔ y1 = y ∧ x1 / 2 = x / 2)) := by
  have hv12 : t = 1 ∨ t = 2 := hv
  have hfit : w * h + 2 * ((w / 2) * (t * h / 2)) < 2 ^ 32 := by
    rw [Nat.mul_assoc] at hlen
    omega
  obtain ⟨hwh, hth, hC⟩ := frame_bounds hv12 (by omega) hw2 hfit
  have hd := dstChromaIndex_eq hv12 hw2 hh2 hx hy hth hC
  have hs := srcChromaIndex_eq hv12 hw2 hh2 hx hy hth hC
  have hlt := chroma_index_lt hv12 hw2 hh2 hx hy
  rcases hv with ht | ht
  · have ht1 : t = 1 := ht
    subst ht1
    have hh := hh2 rfl
    simp only [Nat.one_mul] at hlen hd hs hlt
    rw [Nat.mul_assoc] at hlen
    obtain ⟨p, hp⟩ := split_NV12_returns buf w h hw2 hh hlen hL
    obtain ⟨_, _, hpU, _, _, hUV⟩ := split_NV12_layout buf w h hlen hL _ p hp
    refine ⟨p, hp, fun _ => ?_, fun hcon => absurd hcon (by decide)⟩
    have e := even_width_mul hw2 (y / 2)
    have e1 : w * h + (y / 2) * w + 2 * (x / 2) = w * h + 2 * ((y / 2) * (w / 2) + x / 2) := by
      omega
    rw [e1]
    refine ⟨hd, hs, by omega, (hUV _ hlt).1, (hUV _ hlt).2, fun x1 y1 hx1 _ => ?_⟩
    constructor
    · intro heq
      exact pixel_index_inj (show x1 / 2 < w / 2 by omega) (show x / 2 < w / 2 by omega) heq
    · rintro ⟨h1, h2⟩
      rw [h1, h2]
  · have ht2 : t = 2 := ht
    subst ht2
    have e2y : 2 * y / 2 = y := by omega
    have e2h : 2 * h / 2 = h := by omega
    rw [e2y] at hd hs hlt
    rw [Nat.mul_assoc] at hlen
    obtain ⟨p, hp⟩ := split_UYVY_returns buf w h hw2 hlen hL
    obtain ⟨_, _, hpU, _, _, hUV⟩ := split_UYVY_layout buf w h hL _ p hp
    obtain ⟨hs1, hs2, hs3⟩ := uyvy_sizes (h := h) (show 0 < w by omega) hw2 (by omega)
    refine ⟨p, hp, fun hcon => absurd hcon (by decide), fun _ => ?_⟩
    have e := even_width_mul hw2 y
    have e1 : (y * w + x) / 2 = y * (w / 2) + x / 2 := by omega
    rw [e1]
    rw [e2h] at hlt hlen hs1
    refine ⟨hd, hs, by omega, (hUV _ (by omega)).1, (hUV _ (by omega)).2,
      fun x1 y1 hx1 _ => ?_⟩
    constructor
    · intro heq
      obtain ⟨h1, h2⟩ := pixel_index_inj (show x1 / 2 < w / 2 by omega)
        (show x / 2 < w / 2 by omega) heq
      exact ⟨h2, h1⟩
    · rintro ⟨h1, h2⟩
      rw [h1, h2]

/-- Instance of C11: pixel `(1, 1)` of a 2x2 `YUV420_NV12` frame. -/
theorem C11_chroma_index_matches_layout_witness :
    ∃ p, ComponentsStructure_SplitYUV2Component
        (some [some 1, some 2, some 3, some 4, some 5, some 6]) 2 2
        ([some 1, some 2, some 3, some 4, some 5, some 6] : Buf).length 1
        = some (LDC_STATUS_OK, p) ∧
      (1 = YUV420_NV12 →
        dstChromaIndex 1 2 1 1 = some (((1 / 2) * (2 / 2) + 1 / 2 : Nat) : Int) ∧
        srcChromaIndex 1 2 ((1 : Nat) : Int) ((1 : Nat) : Int)
          = some (((1 / 2) * (2 / 2) + 1 / 2 : Nat) : Int) ∧
        (1 / 2) * (2 / 2) + 1 / 2 < p.U.length ∧
        p.U[(1 / 2) * (2 / 2) + 1 / 2]?
          = ([some 1, some 2, some 3, some 4, some 5, some 6] : Buf)[2 * 2 + (1 / 2) * 2
            + 2 * (1 / 2)]? ∧
        p.V[(1 / 2) * (2 / 2) + 1 / 2]?
          = ([some 1, some 2, some 3, some 4, some 5, some 6] : Buf)[2 * 2 + (1 / 2) * 2
            + 2 * (1 / 2) + 1]? ∧
        ∀ x1 y1, x1 < 2 → y1 < 2 →
          ((y1 / 2) * (2 / 2) + x1 / 2 = (1 / 2) * (2 / 2) + 1 / 2 ↔
            x1 / 2 = 1 / 2 ∧ y1 / 2 = 1 / 2)) ∧
      (1 = YUV422I_UYVY →
        dstChromaIndex 1 2 1 1 = some ((1 * (2 / 2) + 1 / 2 : Nat) : Int) ∧
        srcChromaIndex 1 2 ((1 : Nat) : Int) ((1 : Nat) : Int)
          = some ((1 * (2 / 2) + 1 / 2 : Nat) : Int) ∧
        1 * (2 / 2) + 1 / 2 < p.U.length ∧
        p.U[1 * (2 / 2) + 1 / 2]?
          = ([some 1, some 2, some 3, some 4, some 5, some 6] : Buf)[4 * ((1 * 2 + 1) / 2)]? ∧
        p.V[1 * (2 / 2) + 1 / 2]?
          = ([some 1, some 2, some 3, some 4, some 5, some 6] : Buf)[4 * ((1 * 2 + 1) / 2)
            + 2]? ∧
        ∀ x1 y1, x1 < 2 → y1 < 2 →
          (y1 * (2 / 2) + x1 / 2 = 1 * (2 / 2) + 1 / 2 ↔ y1 = 1 ∧ x1 / 2 = 1 / 2)) :=
  C11_chroma_index_matches_layout 1 2 2 [some 1, some 2, some 3, some 4, some 5, some 6]
    (Or.inl rfl) (by decide) (fun _ => by decide) (by decide) (by decide) 1 1
    (by decide) (by decide)

/-- When every control point is farther than `DBL_MAX` from the query, no
index is found. -/
theorem findNearest_of_far (q : ℚ) (x : List ℚ)
    (hfar : ∀ j, j < x.length → DBL_MAX < pointDist q x j) :
    findNearestNeighbourIndex q x (x.length : Int) = some (-1) := by
  obtain ⟨r, hr, hcase⟩ := findNearest_spec q x
  rcases hcase with ⟨h1, _⟩ | ⟨k, hk, _, hle, _⟩
  · rw [← h1]
    exact hr
  · exact absurd hle (not_le.2 (hfar k hk))

/-- The value stored for a query when index `k` is the one found. -/
theorem interpValue_of_found (x y : List ℚ) (q : ℚ) (k : Nat)
    (hr : findNearestNeighbourIndex q x (x.length : Int) = some (k : Int)) :
    interpValue x y x.length q
      = lineSlope x y x.length k * q + lineIntercept x y x.length k := by
  have hne : ((k : Int) ≠ -1) := by omega
  unfold interpValue
  rw [hr]
  simp only [if_pos hne, Int.toNat_ofNat]

/-- The value stored for a query when no index is found. -/
theorem interpValue_of_not_found (x y : List ℚ) (q : ℚ)
    (hr : findNearestNeighbourIndex q x (x.length : Int) = some (-1)) :
    interpValue x y x.length q = DBL_MAX := by
  unfold interpValue
  rw [hr]
  simp

theorem readSampleBody_eq (a b : ℚ) (s : ReadState)
    (hA : s.i < s.lens_spec.angle.length) (hH : s.i < s.lens_spec.height.length) :
    readSampleBody a (some b) s = some
      { i := u32 (s.i + 1), imageHeightInmm := some b,
        lens_spec := { s.lens_spec with
          angle := s.lens_spec.angle.set s.i (a / 180 * M_PI),
          height := s.lens_spec.height.set s.i (b / s.lens_spec.sensor_pixel_pitch_in_mm) } } := by
  unfold readSampleBody
  rw [store_of_lt _ hA]
  simp only [Option.bind_eq_bind, Option.some_bind]
  rw [store_of_lt _ hH]
  rfl

theorem readSamples_cons (l : ℚ × ℚ) (rest : List (ℚ × ℚ)) (s : ReadState) :
    readSamples ((l :: rest).foldr (fun l acc => l.1 :: l.2 :: acc) []) s
      = (readSampleBody l.1 (some l.2) s).bind
          (readSamples (rest.foldr (fun l acc => l.1 :: l.2 :: acc) [])) := by
  rw [List.foldr_cons, readSamples]

/-- Reading well-formed sample lines: line `k` is stored at index `i + k`, the
counter advances by the number of lines, and nothing else changes. -/
theorem readSamples_lines (samples : List (ℚ × ℚ)) :
    ∀ s : ReadState,
      s.i + samples.length ≤ s.lens_spec.angle.length →
      s.i + samples.length ≤ s.lens_spec.height.length →
      s.i + samples.length < 2 ^ 32 →
      ∃ s1, readSamples (samples.foldr (fun l acc => l.1 :: l.2 :: acc) []) s = some s1 ∧
        s1.i = s.i + samples.length ∧
        s1.lens_spec.angle.length = s.lens_spec.angle.length ∧
        s1.lens_spec.height.length = s.lens_spec.height.length ∧
        s1.lens_spec.focal_length_in_mm = s.lens_spec.focal_length_in_mm ∧
        s1.lens_spec.sensor_pixel_pitch_in_mm = s.lens_spec.sensor_pixel_pitch_in_mm ∧
        s1.lens_spec.scaling_factor = s.lens_spec.scaling_factor ∧
        (∀ k, k < samples.length →
          s1.lens_spec.angle[s.i + k]? = (samples[k]?).map (fun l => l.1 / 180 * M_PI) ∧
          s1.lens_spec.height[s.i + k]? =
            (samples[k]?).map (fun l => l.2 / s.lens_spec.sensor_pixel_pitch_in_mm)) ∧
        (∀ j, j < s.i ∨ s.i + samples.length ≤ j →
          s1.lens_spec.angle[j]? = s.lens_spec.angle[j]? ∧
          s1.lens_spec.height[j]? = s.lens_spec.height[j]?) := by
  induction samples with
  | nil =>
    intro s _ _ _
    refine ⟨s, rfl, rfl, rfl, rfl, rfl, rfl, rfl, ?_, fun j _ => ⟨rfl, rfl⟩⟩
    intro k hk
    exact absurd hk (Nat.not_lt_zero k)
  | cons l rest ih =>
    intro s hA hH hi
    rw [List.length_cons] at hA hH hi
    rw [readSamples_cons, readSampleBody_eq l.1 l.2 s (by omega) (by omega), Option.some_bind]
    have hu : u32 (s.i + 1) = s.i + 1 := u32_of_lt (by omega)
    obtain ⟨s1, hs1, hi1, hAl, hHl, hf, hp, hsc, hk1, hj1⟩ := ih
      { i := u32 (s.i + 1), imageHeightInmm := some l.2,
        lens_spec := { s.lens_spec with
          angle := s.lens_spec.angle.set s.i (l.1 / 180 * M_PI),
          height := s.lens_spec.height.set s.i (l.2 / s.lens_spec.sensor_pixel_pitch_in_mm) } }
      (by simp only [hu, List.length_set]; omega)
      (by simp only [hu, List.length_set]; omega)
      (by simp only [hu]; omega)
    simp only [hu, List.length_set] at hi1 hAl hHl hf hp hsc hk1 hj1
    refine ⟨s1, hs1, by rw [hi1, List.length_cons]; omega, hAl, hHl, hf, hp, hsc, ?_, ?_⟩
    · intro k hk
      rcases Nat.eq_zero_or_pos k with h0 | h0
      · subst h0
        obtain ⟨h1, h2⟩ := hj1 s.i (Or.inl (by omega))
        rw [Nat.add_zero, h1, h2]
        simp only [List.getElem?_cons_zero, Option.map_some']
        rw [List.getElem?_set_self (by omega), List.getElem?_set_self (by omega)]
        exact ⟨rfl, rfl⟩
      · obtain ⟨k1, rfl⟩ : ∃ k1, k = k1 + 1 := ⟨k - 1, by omega⟩
        rw [List.length_cons] at hk
        obtain ⟨h1, h2⟩ := hk1 k1 (by omega)
        rw [List.getElem?_cons_succ, ← h1, ← h2]
        constructor <;> congr 1 <;> omega
    · intro j hj
      rw [List.length_cons] at hj
      obtain ⟨h1, h2⟩ := hj1 j (by omega)
      rw [h1, h2, List.getElem?_set_ne (by omega), List.getElem?_set_ne (by omega)]
      exact ⟨rfl, rfl⟩

/-- The reader on a file with the three scalars and `n` well-formed sample
lines, `n` at most the array length: the status is an error exactly when
`n = 1`, and the count written is `n - 1` modulo `2 ^ 32`. -/
theorem read_lines (ls0 : LensSpec) (f p sc : ℚ) (samples : List (ℚ × ℚ))
    (hA : samples.length ≤ ls0.angle.length) (hH : samples.length ≤ ls0.height.length)
    (hn : samples.length < 2 ^ 32) :
    ∃ ls, ParamOperation_ReadParametersOfCorrection ls0 (some (calibrationFile f p sc samples))
        = some (if samples.length = 1 then LDC_Status.LDC_STATUS_ERROR
                else LDC_Status.LDC_STATUS_OK, ls) ∧
      ls.num_of_useful_elements = u32 (samples.length + 2 ^ 32 - 1) ∧
      ls.focal_length_in_mm = f ∧ ls.sensor_pixel_pitch_in_mm = p ∧ ls.scaling_factor = sc ∧
      ls.angle.length = ls0.angle.length ∧ ls.height.length = ls0.height.length ∧
      (∀ k, k < samples.length →
        ls.angle[k]? = (samples[k]?).map (fun l => l.1 / 180 * M_PI) ∧
        ls.height[k]? = (samples[k]?).map (fun l => l.2 / p)) ∧
      (∀ j, samples.length ≤ j →
        ls.angle[j]? = ls0.angle[j]? ∧ ls.height[j]? = ls0.height[j]?) := by
  obtain ⟨s1, hs1, hi1, hAl, hHl, hf, hp, hsc, hk1, hj1⟩ := readSamples_lines samples
    ⟨0, none, { ls0 with focal_length_in_mm := f, sensor_pixel_pitch_in_mm := p,
                          scaling_factor := sc }⟩
    (by simpa using hA) (by simpa using hH) (by simpa using hn)
  simp only [Nat.zero_add] at hi1 hAl hHl hf hp hsc hk1 hj1
  refine ⟨{ s1.lens_spec with num_of_useful_elements := u32 (samples.length + 2 ^ 32 - 1) },
    ?_, rfl, hf, hp, hsc, hAl, hHl, hk1, fun j hj => hj1 j (Or.inr hj)⟩
  unfold ParamOperation_ReadParametersOfCorrection calibrationFile
  simp only []
  rw [hs1, Option.some_bind]
  simp only [hi1]
  by_cases h1 : samples.length = 1
  · have : u32 (samples.length + 2 ^ 32 - 1) = 0 := by rw [h1]; rfl
    rw [if_pos (by omega), if_pos h1]
  · have : u32 (samples.length + 2 ^ 32 - 1) ≠ 0 := by
      unfold u32
      rcases Nat.eq_zero_or_pos samples.length with h0 | h0
      · rw [h0]; decide
      · have e : samples.length + 2 ^ 32 - 1 = (samples.length - 1) + 1 * 2 ^ 32 := by omega
        rw [e, Nat.add_mul_mod_self_right, Nat.mod_eq_of_lt (by omega)]
        omega
    rw [if_neg (by omega), if_neg h1]

/-- The interpolator with a table size of one reads `slope[-1]`: no defined
result. -/
theorem interpolation_of_one (x y xq : List ℚ) (m : Int) :
    FrameCorrection_LinearInterpolation x y 1 xq m = none := by
  unfold FrameCorrection_LinearInterpolation
  have h : forRange (1 : Int).toNat (lineBody x y 1) ⟨malloc (1 : Int).toNat, malloc (1 : Int).toNat⟩
      = none := by
    show (List.range 1).foldlM (fun s t => lineBody x y 1 t s) _ = none
    rw [List.range_succ, List.range_zero, List.nil_append, List.foldlM_cons]
    have hb : lineBody x y 1 0 ⟨malloc (1 : Int).toNat, malloc (1 : Int).toNat⟩ = none := by
      unfold lineBody
      rw [if_neg (by decide)]
      have hl : loadCell (malloc (1 : Int).toNat : List (Cell ℚ)) (((0 : Nat) : Int) - 1) = none := by
        decide
      simp only [hl, Option.bind_eq_bind, Option.none_bind]
    rw [hb]
    rfl
  simp only [Option.bind_eq_bind, h, Option.none_bind]

theorem length_angle_afterMemset (num0 : Nat) (f0 p0 s0 : ℚ) :
    (lensSpecAfterMemset num0 f0 p0 s0).angle.length = 180 :=
  List.length_replicate _ _

theorem length_height_afterMemset (num0 : Nat) (f0 p0 s0 : ℚ) :
    (lensSpecAfterMemset num0 f0 p0 s0).height.length = 180 :=
  List.length_replicate _ _

/-- C13 (code at the failing input): on a calibration file that holds the
three leading scalars and no sample line, `i` is 0, the count
`num_of_useful_elements = i - 1` wraps to `2 ^ 32 - 1`, the guard
`num_of_useful_elements <= 0` does not fire and
`ParamOperation_ReadParametersOfCorrection` returns `LDC_STATUS_OK`, not
`LDC_STATUS_ERROR`; the interpolator is then run with the table size `-1` and
stores `DBL_MAX` for every query.  With exactly one sample line the count is 0
and the function does return `LDC_STATUS_ERROR`. -/
theorem C13_no_sample_line_accepted (num0 : Nat) (f0 p0 s0 f p sc : ℚ) :
    (∃ ls, ParamOperation_ReadParametersOfCorrection (lensSpecAfterMemset num0 f0 p0 s0)
          (some (calibrationFile f p sc [])) = some (LDC_Status.LDC_STATUS_OK, ls) ∧
        ls.num_of_useful_elements = 4294967295 ∧
        interpolatorTableSize ls = -1 ∧
        ∀ xq : List ℚ, FrameCorrection_LinearInterpolation ls.angle ls.height
            (interpolatorTableSize ls) xq (xq.length : Int)
          = some (xq.map (fun _ => some DBL_MAX))) ∧
      (∀ a h : ℚ, ∃ ls,
        ParamOperation_ReadParametersOfCorrection (lensSpecAfterMemset num0 f0 p0 s0)
          (some (calibrationFile f p sc [(a, h)])) = some (LDC_Status.LDC_STATUS_ERROR, ls) ∧
        ls.num_of_useful_elements = 0) := by
  constructor
  · obtain ⟨ls, hls, hnum, -⟩ := read_lines (lensSpecAfterMemset num0 f0 p0 s0) f p sc []
      (Nat.zero_le _) (Nat.zero_le _) (by decide)
    have hn : ls.num_of_useful_elements = 4294967295 := by
      rw [hnum, List.length_nil]
      decide
    have ht : interpolatorTableSize ls = -1 := by
      unfold interpolatorTableSize
      rw [hn]
      decide
    refine ⟨ls, hls, hn, ht, fun xq => ?_⟩
    rw [ht]
    exact interpolation_of_nonpos _ _ (-1) (by decide) xq
  · intro a h
    obtain ⟨ls, hls, hnum, -⟩ := read_lines (lensSpecAfterMemset num0 f0 p0 s0) f p sc [(a, h)]
      (by rw [length_angle_afterMemset]; simp) (by rw [length_height_afterMemset]; simp)
      (by simp)
    refine ⟨ls, hls, ?_⟩
    rw [hnum, List.length_singleton]
    decide

/-- C14 (code at the failing input): on a calibration file that holds the
three leading scalars and two sample lines,
`ParamOperation_ReadParametersOfCorrection` returns `LDC_STATUS_OK` with
`num_of_useful_elements = 1`, so the `sample_points_size` argument handed to
`FrameCorrection_LinearInterpolation` is 1, not at least 2; with that size the
interpolator reads `slope[-1]` and has no defined result. -/
theorem C14_two_sample_lines_table_size_one (num0 : Nat) (f0 p0 s0 f p sc a0 h0 a1 h1 : ℚ) :
    ∃ ls, ParamOperation_ReadParametersOfCorrection (lensSpecAfterMemset num0 f0 p0 s0)
          (some (calibrationFile f p sc [(a0, h0), (a1, h1)]))
          = some (LDC_Status.LDC_STATUS_OK, ls) ∧
      ls.num_of_useful_elements = 1 ∧
      interpolatorTableSize ls = 1 ∧
      ∀ (xq : List ℚ) (m : Int), FrameCorrection_LinearInterpolation ls.angle ls.height
          (interpolatorTableSize ls) xq m = none := by
  obtain ⟨ls, hls, hnum, -⟩ := read_lines (lensSpecAfterMemset num0 f0 p0 s0) f p sc
    [(a0, h0), (a1, h1)]
    (by rw [length_angle_afterMemset]; simp) (by rw [length_height_afterMemset]; simp)
    (by simp)
  have hn : ls.num_of_useful_elements = 1 := by
    rw [hnum, List.length_cons, List.length_singleton]
    decide
  have ht : interpolatorTableSize ls = 1 := by
    unfold interpolatorTableSize
    rw [hn]
    decide
  refine ⟨ls, hls, hn, ht, fun xq m => ?_⟩
  rw [ht]
  exact interpolation_of_one _ _ xq m

/-- C15 (code on every failing input): after
`ParamOperation_ReadParametersOfCorrection` has read `n` sample lines,
`1 ≤ n ≤ 180`, sample `k` is stored at index `k` of `lens_spec.angle` (in
radians) and of `lens_spec.height` (in pixels), but `num_of_useful_elements`
is `n - 1`, not `n`: the last sample line, stored at index `n - 1`, lies
outside the first `num_of_useful_elements` entries that the interpolator
uses. -/
theorem C15_count_is_lines_minus_one (num0 : Nat) (f0 p0 s0 f p sc : ℚ)
    (samples : List (ℚ × ℚ)) (h1 : 1 ≤ samples.length)
    (h180 : samples.length ≤ MAX_NUM_OF_LENS_PARAMETER) :
    ∃ st ls, ParamOperation_ReadParametersOfCorrection (lensSpecAfterMemset num0 f0 p0 s0)
          (some (calibrationFile f p sc samples)) = some (st, ls) ∧
      (∀ k, k < samples.length →
        ls.angle[k]? = (samples[k]?).map (fun l => l.1 / 180 * M_PI) ∧
        ls.height[k]? = (samples[k]?).map (fun l => l.2 / p)) ∧
      ls.num_of_useful_elements = samples.length - 1 ∧
      ls.num_of_useful_elements ≠ samples.length ∧
      interpolatorTableSize ls = (samples.length : Int) - 1 := by
  have h180n : samples.length ≤ 180 := h180
  obtain ⟨ls, hls, hnum, -, -, -, -, -, hk, -⟩ :=
    read_lines (lensSpecAfterMemset num0 f0 p0 s0) f p sc samples
      (by rw [length_angle_afterMemset]; exact h180n)
      (by rw [length_height_afterMemset]; exact h180n) (by omega)
  have hn : ls.num_of_useful_elements = samples.length - 1 := by
    rw [hnum]
    unfold u32
    have e : samples.length + 2 ^ 32 - 1 = (samples.length - 1) + 1 * 2 ^ 32 := by omega
    rw [e, Nat.add_mul_mod_self_right, Nat.mod_eq_of_lt (by omega)]
  refine ⟨_, ls, hls, hk, hn, by omega, ?_⟩
  unfold interpolatorTableSize
  rw [hn, toInt32_of_lt (by omega)]
  omega

/-- Instance of C15: three sample lines are stored at the indices 0, 1 and 2,
and the count written is 2. -/
theorem C15_count_is_lines_minus_one_witness :
    (1 ≤ [((0 : ℚ), (0 : ℚ)), (90, 6), (180, 9)].length ∧
      [((0 : ℚ), (0 : ℚ)), (90, 6), (180, 9)].length ≤ MAX_NUM_OF_LENS_PARAMETER) ∧
    ∃ st ls, ParamOperation_ReadParametersOfCorrection (lensSpecAfterMemset 0 0 0 0)
          (some (calibrationFile 105 3 1 [(0, 0), (90, 6), (180, 9)])) = some (st, ls) ∧
      (∀ k, k < [((0 : ℚ), (0 : ℚ)), (90, 6), (180, 9)].length →
        ls.angle[k]? = ([((0 : ℚ), (0 : ℚ)), (90, 6), (180, 9)][k]?).map
          (fun l => l.1 / 180 * M_PI) ∧
        ls.height[k]? = ([((0 : ℚ), (0 : ℚ)), (90, 6), (180, 9)][k]?).map (fun l => l.2 / 3)) ∧
      ls.num_of_useful_elements = [((0 : ℚ), (0 : ℚ)), (90, 6), (180, 9)].length - 1 ∧
      ls.num_of_useful_elements ≠ [((0 : ℚ), (0 : ℚ)), (90, 6), (180, 9)].length ∧
      interpolatorTableSize ls = ([((0 : ℚ), (0 : ℚ)), (90, 6), (180, 9)].length : Int) - 1 :=
  ⟨⟨by decide, by decide⟩,
    C15_count_is_lines_minus_one 0 0 0 0 105 3 1 [(0, 0), (90, 6), (180, 9)]
      (by decide) (by decide)⟩

theorem sqrt_sq_add_sq_eq_abs (x y : ℝ) : Real.sqrt (x ^ 2 + y ^ 2) = Complex.abs ⟨x, y⟩ := by
  rw [Complex.abs_apply, Complex.normSq_mk, pow_two, pow_two]

theorem polar_roundtrip (x y : ℝ) :
    Real.sqrt (x ^ 2 + y ^ 2) * Real.cos (atan2 y x) = x ∧
      Real.sqrt (x ^ 2 + y ^ 2) * Real.sin (atan2 y x) = y := by
  rw [sqrt_sq_add_sq_eq_abs]
  unfold atan2
  exact ⟨Complex.abs_mul_cos_arg _, Complex.abs_mul_sin_arg _⟩

/-- C17: in exact real arithmetic `cart2pol` followed by `pol2cart` gives back
the coordinates: with `(phi, r)` the result of `cart2pol` on `xt`, `yt`, the
result `(h_d, v_d)` of `pol2cart` on `phi`, `r` has `h_d[i][j] = xt[i][j]` and
`v_d[i][j] = yt[i][j]` at every entry of the `height` by `width` matrix; the
radius is `sqrt (x^2 + y^2)`, the azimuth is `atan2 (y, x)`, which is 0 for
the zero vector, and `radius * cos azimuth = x`, `radius * sin azimuth = y`
for all real `x` and `y`. -/
theorem C17_cart2pol_pol2cart_identity (width height : Nat)
    (xt yt phi0 r0 h0 v0 : Nat → Nat → ℝ) (i j : Nat) (hi : i < height) (hj : j < width) :
    ((pol2cart width height h0 v0 (cart2pol width height xt yt phi0 r0).1
        (cart2pol width height xt yt phi0 r0).2).1 i j = xt i j ∧
      (pol2cart width height h0 v0 (cart2pol width height xt yt phi0 r0).1
        (cart2pol width height xt yt phi0 r0).2).2 i j = yt i j) ∧
    ((cart2pol width height xt yt phi0 r0).2 i j = Real.sqrt (xt i j ^ 2 + yt i j ^ 2) ∧
      (cart2pol width height xt yt phi0 r0).1 i j = atan2 (yt i j) (xt i j)) ∧
    atan2 0 0 = 0 ∧
    ∀ x y : ℝ, Real.sqrt (x ^ 2 + y ^ 2) * Real.cos (atan2 y x) = x ∧
      Real.sqrt (x ^ 2 + y ^ 2) * Real.sin (atan2 y x) = y := by
  have hin : i < height ∧ j < width := ⟨hi, hj⟩
  refine ⟨?_, ?_, ?_, polar_roundtrip⟩
  · simp only [pol2cart, cart2pol, if_pos hin]
    exact polar_roundtrip (xt i j) (yt i j)
  · simp only [cart2pol, if_pos hin]
    exact ⟨trivial, trivial⟩
  · unfold atan2
    exact Complex.arg_zero

/-- Instance of C17: the one-entry matrices holding the point `(3, 4)`. -/
theorem C17_cart2pol_pol2cart_identity_witness :
    ((0 : Nat) < 1 ∧ (0 : Nat) < 1) ∧
    (((pol2cart 1 1 (fun _ _ => 0) (fun _ _ => 0)
        (cart2pol 1 1 (fun _ _ => 3) (fun _ _ => 4) (fun _ _ => 0) (fun _ _ => 0)).1
        (cart2pol 1 1 (fun _ _ => 3) (fun _ _ => 4) (fun _ _ => 0) (fun _ _ => 0)).2).1 0 0
          = (3 : ℝ) ∧
      (pol2cart 1 1 (fun _ _ => 0) (fun _ _ => 0)
        (cart2pol 1 1 (fun _ _ => 3) (fun _ _ => 4) (fun _ _ => 0) (fun _ _ => 0)).1
        (cart2pol 1 1 (fun _ _ => 3) (fun _ _ => 4) (fun _ _ => 0) (fun _ _ => 0)).2).2 0 0
          = (4 : ℝ)) ∧
    ((cart2pol 1 1 (fun _ _ => 3) (fun _ _ => 4) (fun _ _ => 0) (fun _ _ => 0)).2 0 0
        = Real.sqrt ((3 : ℝ) ^ 2 + (4 : ℝ) ^ 2) ∧
      (cart2pol 1 1 (fun _ _ => 3) (fun _ _ => 4) (fun _ _ => 0) (fun _ _ => 0)).1 0 0
        = atan2 4 3) ∧
    atan2 0 0 = 0 ∧
    ∀ x y : ℝ, Real.sqrt (x ^ 2 + y ^ 2) * Real.cos (atan2 y x) = x ∧
      Real.sqrt (x ^ 2 + y ^ 2) * Real.sin (atan2 y x) = y) :=
  ⟨⟨by decide, by decide⟩,
    C17_cart2pol_pol2cart_identity 1 1 (fun _ _ => 3) (fun _ _ => 4) (fun _ _ => 0)
      (fun _ _ => 0) (fun _ _ => 0) (fun _ _ => 0) 0 0 (by decide) (by decide)⟩

theorem srcCoord_natCast (n : Nat) (hn : n < 2 ^ 31) : srcCoord (n : ℚ) = some (n : Int) := by
  unfold srcCoord castInt32
  have h0 : (0 : ℚ) ≤ (n : ℚ) + 1 / 2 := by positivity
  have hf : ⌊(n : ℚ) + 1 / 2⌋ = (n : Int) := by
    rw [Int.floor_eq_iff]
    constructor
    · push_cast
      linarith
    · push_cast
      linarith
  simp only [if_pos h0, hf]
  rw [if_pos]
  constructor <;> omega

theorem getElem?_set_of_agree {α : Type} (l src : List α) (i j : Nat) (a : α)
    (hi : i < l.length) (ha : src[i]? = some a) (hj : j = i ∨ l[j]? = src[j]?) :
    (l.set i a)[j]? = src[j]? := by
  by_cases e : j = i
  · subst e
    rw [List.getElem?_set_self hi, ha]
  · rw [List.getElem?_set_ne (fun h => e h.symm)]
    rcases hj with hj | hj
    · exact absurd hj e
    · exact hj

theorem width_lt_of_fits {t w h : Nat} (hv : t = 1 ∨ t = 2) (hw2 : w % 2 = 0)
    (hh2 : t = 1 → h % 2 = 0) (hh : 0 < h)
    (hfit : w * h + 2 * ((w / 2) * (t * h / 2)) < 2 ^ 32) : w < 2 ^ 31 := by
  have h1 : w / 2 ≤ (w / 2) * h := Nat.le_mul_of_pos_right _ hh
  have h2 : w * h = 2 * ((w / 2) * h) := by
    rw [Nat.mul_comm w h, even_width_mul hw2 h, Nat.mul_comm h (w / 2)]
  have h3 : w / 2 ≤ (w / 2) * (t * h / 2) := by
    apply Nat.le_mul_of_pos_right
    rcases hv with rfl | rfl
    · have := hh2 rfl
      omega
    · omega
  omega

/-- One iteration of the resampling loop under the identity displacement. -/
theorem resampleBody_identity (Y U V : Buf) (h_d v_d : Nat → Nat → ℚ) (w h t : Nat)
    (hv : t = 1 ∨ t = 2) (hw2 : w % 2 = 0) (hh2 : t = 1 → h % 2 = 0)
    (hfit : w * h + 2 * ((w / 2) * (t * h / 2)) < 2 ^ 32)
    (hYl : Y.length = w * h) (hUl : U.length = (w / 2) * (t * h / 2))
    (hVl : V.length = (w / 2) * (t * h / 2))
    (hid : ∀ x y, x < w → y < h → h_d y x = (x : ℚ) ∧ v_d y x = (y : ℚ))
    (x y : Nat) (hx : x < w) (hy : y < h) (s : OutPlanes)
    (hinv : IdentityInv Y U V w h t x y s) :
    ∃ s2, resampleBody Y U V h_d v_d w h t x y s = some s2 ∧
      IdentityInv Y U V w h t x (y + 1) s2 := by
  obtain ⟨hsY, hsU, hsV, hvis⟩ := hinv
  obtain ⟨hwh, hth, hC⟩ := frame_bounds hv (by omega) hw2 hfit
  have hw31 := width_lt_of_fits hv hw2 hh2 (by omega) hfit
  have hh31 : h < 2 ^ 31 := by
    rcases hv with rfl | rfl <;> omega
  obtain ⟨hdx, hdy⟩ := hid x y hx hy
  have hsx : srcCoord (h_d y x) = some (x : Int) := by
    rw [hdx]
    exact srcCoord_natCast x (by omega)
  have hsy : srcCoord (v_d y x) = some (y : Int) := by
    rw [hdy]
    exact srcCoord_natCast y (by omega)
  have hin2 : inFrame w h (x : Int) (y : Int) := ⟨by omega, by omega, by omega, by omega⟩
  have hp := pixel_index_lt hx hy
  have e1 : u32 (y * w + x) = y * w + x := u32_of_lt (by omega)
  have hd := chroma_index_lt hv hw2 hh2 hx hy
  obtain ⟨c0, hc0, hg0⟩ := load_of_lt (show y * w + x < Y.length by rw [hYl]; exact hp)
  obtain ⟨c1, hc1, hg1⟩ := load_of_lt (show (t * y / 2) * (w / 2) + x / 2 < U.length by
    rw [hUl]
    exact hd)
  obtain ⟨c2, hc2, hg2⟩ := load_of_lt (show (t * y / 2) * (w / 2) + x / 2 < V.length by
    rw [hVl]
    exact hd)
  have hl0 : y * w + x < s.Y_out.length := by rw [hsY]; exact hp
  have hl1 : (t * y / 2) * (w / 2) + x / 2 < s.U_out.length := by rw [hsU]; exact hd
  have hl2 : (t * y / 2) * (w / 2) + x / 2 < s.V_out.length := by rw [hsV]; exact hd
  have hst0 := store_of_lt c0 hl0
  have hst1 := store_of_lt c1 hl1
  have hst2 := store_of_lt c2 hl2
  refine ⟨⟨s.Y_out.set (y * w + x) c0, s.U_out.set ((t * y / 2) * (w / 2) + x / 2) c1,
    s.V_out.set ((t * y / 2) * (w / 2) + x / 2) c2⟩, ?_, ?_⟩
  · simp only [resampleBody, hsx, hsy, Option.bind_eq_bind, Option.some_bind, if_pos hin2,
      Int.toNat_ofNat, e1, hc0, hst0,
      dstChromaIndex_eq hv hw2 hh2 hx hy hth hC,
      srcChromaIndex_eq hv hw2 hh2 hx hy hth hC,
      loadAt_natCast, storeAt_natCast, hc1, hc2, hst1, hst2, Option.pure_def]
  · refine ⟨by simpa using hsY, by simpa using hsU, by simpa using hsV, ?_⟩
    intro x1 y1 hx1 hy1 hv1
    have hcase : (x1 = x ∧ y1 = y) ∨ visited x y x1 y1 := by
      unfold visited at hv1 ⊢
      omega
    refine ⟨?_, ?_, ?_⟩
    · apply getElem?_set_of_agree _ _ _ _ _ hl0 hg0
      rcases hcase with ⟨rfl, rfl⟩ | hold
      · exact Or.inl rfl
      · exact Or.inr (hvis x1 y1 hx1 hy1 hold).1
    · apply getElem?_set_of_agree _ _ _ _ _ hl1 hg1
      rcases hcase with ⟨rfl, rfl⟩ | hold
      · exact Or.inl rfl
      · exact Or.inr (hvis x1 y1 hx1 hy1 hold).2.1
    · apply getElem?_set_of_agree _ _ _ _ _ hl2 hg2
      rcases hcase with ⟨rfl, rfl⟩ | hold
      · exact Or.inl rfl
      · exact Or.inr (hvis x1 y1 hx1 hy1 hold).2.2

/-- Every chroma cell is the chroma cell of some pixel of the frame. -/
theorem chroma_index_surj {t w h c : Nat} (hv : t = 1 ∨ t = 2) (hw2 : w % 2 = 0)
    (hh2 : t = 1 → h % 2 = 0) (hc : c < (w / 2) * (t * h / 2)) :
    ∃ x y, x < w ∧ y < h ∧ (t * y / 2) * (w / 2) + x / 2 = c := by
  have hk : 0 < w / 2 := by
    rcases Nat.eq_zero_or_pos (w / 2) with h0 | h0
    · rw [h0, Nat.zero_mul] at hc
      omega
    · exact h0
  have hrow : c / (w / 2) < t * h / 2 := by
    rw [Nat.div_lt_iff_lt_mul hk, Nat.mul_comm]
    exact hc
  have hcol : c % (w / 2) < w / 2 := Nat.mod_lt _ hk
  have hdm : c / (w / 2) * (w / 2) + c % (w / 2) = c := by
    rw [Nat.mul_comm]
    exact Nat.div_add_mod c (w / 2)
  rcases hv with rfl | rfl
  · have := hh2 rfl
    refine ⟨2 * (c % (w / 2)), 2 * (c / (w / 2)), by omega, by omega, ?_⟩
    have e1 : 1 * (2 * (c / (w / 2))) / 2 = c / (w / 2) := by omega
    have e2 : 2 * (c % (w / 2)) / 2 = c % (w / 2) := by omega
    rw [e1, e2, hdm]
  · refine ⟨2 * (c % (w / 2)), c / (w / 2), by omega, by omega, ?_⟩
    have e1 : 2 * (c / (w / 2)) / 2 = c / (w / 2) := by omega
    have e2 : 2 * (c % (w / 2)) / 2 = c % (w / 2) := by omega
    rw [e1, e2, hdm]

/-- The resampling loop under the identity displacement copies the three
input planes. -/
theorem resampleLoop_identity (Y U V : Buf) (h_d v_d : Nat → Nat → ℚ) (w h t : Nat)
    (hv : t = 1 ∨ t = 2) (hw2 : w % 2 = 0) (hh2 : t = 1 → h % 2 = 0)
    (hfit : w * h + 2 * ((w / 2) * (t * h / 2)) < 2 ^ 32)
    (hYl : Y.length = w * h) (hUl : U.length = (w / 2) * (t * h / 2))
    (hVl : V.length = (w / 2) * (t * h / 2))
    (hid : ∀ x y, x < w → y < h → h_d y x = (x : ℚ) ∧ v_d y x = (y : ℚ))
    (s : OutPlanes) (hsY : s.Y_out.length = w * h)
    (hsU : s.U_out.length = (w / 2) * (t * h / 2))
    (hsV : s.V_out.length = (w / 2) * (t * h / 2)) :
    ∃ s1, resampleLoop Y U V h_d v_d w h t s = some s1 ∧
      s1.Y_out = Y ∧ s1.U_out = U ∧ s1.V_out = V := by
  have hcol : ∀ x, x < w → ∀ s2, IdentityInv Y U V w h t x 0 s2 →
      ∃ s3, forRange h (fun y s => resampleBody Y U V h_d v_d w h t x y s) s2 = some s3 ∧
        IdentityInv Y U V w h t (x + 1) 0 s3 := by
    intro x hx s2 hr2
    obtain ⟨s3, hs3, h3Y, h3U, h3V, h3⟩ := foldlM_range_total
      (fun s y => resampleBody Y U V h_d v_d w h t x y s)
      (fun y s => IdentityInv Y U V w h t x y s) h s2 hr2
      (fun y s3 s4 hy hP hb => by
        obtain ⟨s5, h5, hr5⟩ := resampleBody_identity Y U V h_d v_d w h t hv hw2 hh2 hfit
          hYl hUl hVl hid x y hx hy s3 hP
        beta_reduce at hb
        rw [h5, Option.some.injEq] at hb
        exact hb ▸ hr5)
      (fun y s3 hy hP => by
        obtain ⟨s5, h5, _⟩ := resampleBody_identity Y U V h_d v_d w h t hv hw2 hh2 hfit
          hYl hUl hVl hid x y hx hy s3 hP
        exact ⟨s5, h5⟩)
    refine ⟨s3, hs3, h3Y, h3U, h3V, fun x1 y1 hx1 hy1 hv1 => h3 x1 y1 hx1 hy1 ?_⟩
    unfold visited at hv1 ⊢
    omega
  obtain ⟨s1, hs1, h1Y, h1U, h1V, h1⟩ := foldlM_range_total
    (fun s x => forRange h (fun y s => resampleBody Y U V h_d v_d w h t x y s) s)
    (fun x s => IdentityInv Y U V w h t x 0 s) w s
    ⟨hsY, hsU, hsV, fun x1 y1 _ _ hv1 => by
      unfold visited at hv1
      omega⟩
    (fun x s3 s4 hx hP hb => by
      obtain ⟨s5, h5, hr5⟩ := hcol x hx s3 hP
      beta_reduce at hb
      rw [h5, Option.some.injEq] at hb
      exact hb ▸ hr5)
    (fun x s3 hx hP => by
      obtain ⟨s5, h5, _⟩ := hcol x hx s3 hP
      exact ⟨s5, h5⟩)
  refine ⟨s1, hs1, ?_, ?_, ?_⟩
  · apply list_eq_of_getElem?_lt (by omega)
    intro i hi
    rw [hYl] at hi
    have hw : 0 < w := by
      rcases Nat.eq_zero_or_pos w with h0 | h0
      · rw [h0, Nat.zero_mul] at hi
        omega
      · exact h0
    have hrow : i / w < h := by
      rw [Nat.div_lt_iff_lt_mul hw, Nat.mul_comm]
      exact hi
    have hdm : i / w * w + i % w = i := by
      rw [Nat.mul_comm]
      exact Nat.div_add_mod i w
    have := (h1 (i % w) (i / w) (Nat.mod_lt _ hw) hrow (Or.inl (Nat.mod_lt _ hw))).1
    rw [hdm] at this
    exact this
  · apply list_eq_of_getElem?_lt (by omega)
    intro c hc
    rw [hUl] at hc
    obtain ⟨x, y, hx, hy, rfl⟩ := chroma_index_surj hv hw2 hh2 hc
    exact (h1 x y hx hy (Or.inl hx)).2.1
  · apply list_eq_of_getElem?_lt (by omega)
    intro c hc
    rw [hVl] at hc
    obtain ⟨x, y, hx, hy, rfl⟩ := chroma_index_surj hv hw2 hh2 hc
    exact (h1 x y hx hy (Or.inl hx)).2.2

/-- C18: when the displacement field maps every pixel to itself
(`h_d[y][x] = x`, `v_d[y][x] = y` on the frame), for either variant, every even
width (and, for `YUV420_NV12`, every even height) and every frame `buf` of the
expected size, the resampling loop run on the planes split from `buf` gives
`Y_out = Y`, `U_out = U`, `V_out = V`, and
`ComponentsStructure_CombineYUVComponents` on these planes produces `buf`. -/
theorem C18_identity_displacement_reproduces_frame (t w h : Nat) (buf dst : Buf)
    (out0 : OutPlanes) (h_d v_d : Nat → Nat → ℚ)
    (hv : t = YUV420_NV12 ∨ t = YUV422I_UYVY) (hw2 : w % 2 = 0)
    (hh2 : t = YUV420_NV12 → h % 2 = 0)
    (hlen : buf.length = w * h + 2 * ((w / 2) * (t * h / 2))) (hL : buf.length < 2 ^ 32)
    (hdst : dst.length = buf.length)
    (hoY : out0.Y_out.length = w * h)
    (hoU : out0.U_out.length = (w / 2) * (t * h / 2))
    (hoV : out0.V_out.length = (w / 2) * (t * h / 2))
    (hid : ∀ x y, x < w → y < h → h_d y x = (x : ℚ) ∧ v_d y x = (y : ℚ)) :
    ∃ p s1, ComponentsStructure_SplitYUV2Component (some buf) w h buf.length t
        = some (LDC_Status.LDC_STATUS_OK, p) ∧
      resampleLoop p.Y p.U p.V h_d v_d w h t out0 = some s1 ∧
      s1.Y_out = p.Y ∧ s1.U_out = p.U ∧ s1.V_out = p.V ∧
      ComponentsStructure_CombineYUVComponents (some dst) (some s1.Y_out) (some s1.U_out)
        (some s1.V_out) w h buf.length t = some (LDC_Status.LDC_STATUS_OK, some buf) := by
  have hv1 : t = 1 ∨ t = 2 := hv
  have key : ∃ p, ComponentsStructure_SplitYUV2Component (some buf) w h buf.length t
        = some (LDC_Status.LDC_STATUS_OK, p) ∧
      p.Y.length = w * h ∧ p.U.length = (w / 2) * (t * h / 2) ∧
      p.V.length = (w / 2) * (t * h / 2) ∧
      ComponentsStructure_CombineYUVComponents (some dst) (some p.Y) (some p.U) (some p.V)
        w h buf.length t = some (LDC_Status.LDC_STATUS_OK, some buf) := by
    rcases hv1 with ht | ht
    · subst ht
      simp only [Nat.one_mul] at hlen ⊢
      obtain ⟨p, hp, hc⟩ := roundtrip_NV12 buf dst w h hw2 (hh2 rfl) hlen hL hdst
      obtain ⟨_, hYl, hUl, hVl, _, _⟩ := split_NV12_layout buf w h hlen hL _ p hp
      exact ⟨p, hp, hYl, hUl, hVl, hc⟩
    · subst ht
      obtain ⟨p, hp, hc⟩ := roundtrip_UYVY buf dst w h hw2 hlen hL hdst
      obtain ⟨_, hYl, hUl, hVl, _, _⟩ := split_UYVY_layout buf w h hL _ p hp
      have hsz : lumaSize w h = w * h ∧ chromaSize w h 2 = (w / 2) * (2 * h / 2) := by
        rcases Nat.eq_zero_or_pos w with hw | hw
        · subst hw
          simp [lumaSize, chromaSize, u32]
        · obtain ⟨hs1, hs2, hs3⟩ := uyvy_sizes (h := h) hw hw2 (by omega)
          have e : 2 * h / 2 = h := by omega
          rw [e] at hs1 ⊢
          have e3 : w * h = 2 * ((w / 2) * h) := by
            rw [Nat.mul_comm w h, even_width_mul hw2 h, Nat.mul_comm h (w / 2)]
          exact ⟨by omega, hs3⟩
      rw [hsz.1] at hYl
      rw [hsz.2] at hUl hVl
      exact ⟨p, hp, hYl, hUl, hVl, hc⟩
  obtain ⟨p, hp, hYl, hUl, hVl, hc⟩ := key
  obtain ⟨s1, hs1, eY, eU, eV⟩ := resampleLoop_identity p.Y p.U p.V h_d v_d w h t hv1 hw2 hh2
    (by omega) hYl hUl hVl hid out0 hoY hoU hoV
  exact ⟨p, s1, hp, hs1, eY, eU, eV, by rw [eY, eU, eV]; exact hc⟩

/-- Instance of C18: the 4x4 `YUV420_NV12` frame `frame4x4` with the identity
displacement field is reproduced by the resampling loop and the combine. -/
theorem C18_identity_displacement_reproduces_frame_witness :
    ((YUV420_NV12 = YUV420_NV12 ∨ YUV420_NV12 = YUV422I_UYVY) ∧ 4 % 2 = 0 ∧
      frame4x4.length = 4 * 4 + 2 * ((4 / 2) * (YUV420_NV12 * 4 / 2)) ∧
      frame4x4.length < 2 ^ 32 ∧
      (malloc 24 : Buf).length = frame4x4.length) ∧
    ∃ p s1, ComponentsStructure_SplitYUV2Component (some frame4x4) 4 4 frame4x4.length
        YUV420_NV12 = some (LDC_Status.LDC_STATUS_OK, p) ∧
      resampleLoop p.Y p.U p.V identityColumns identityRows 4 4 YUV420_NV12
        ⟨malloc 16, malloc 4, malloc 4⟩ = some s1 ∧
      s1.Y_out = p.Y ∧ s1.U_out = p.U ∧ s1.V_out = p.V ∧
      ComponentsStructure_CombineYUVComponents (some (malloc 24)) (some s1.Y_out)
        (some s1.U_out) (some s1.V_out) 4 4 frame4x4.length YUV420_NV12
        = some (LDC_Status.LDC_STATUS_OK, some frame4x4) :=
  ⟨⟨Or.inl rfl, by decide, by decide, by decide, by decide⟩,
    C18_identity_displacement_reproduces_frame YUV420_NV12 4 4 frame4x4 (malloc 24)
      ⟨malloc 16, malloc 4, malloc 4⟩ identityColumns identityRows
      (Or.inl rfl) (by decide) (fun _ => by decide) (by decide) (by decide) (by decide)
      (by decide) (by decide) (by decide) (fun _ _ _ _ => ⟨rfl, rfl⟩)⟩

/-! ## Boundary behaviour, memory safety and the top-level call -/

/-- C23: `FrameCorrection_LinearInterpolation` is not interval-bounded linear
interpolation: for the table `(0,0)`, `(1,1)`, `(2,3)`, whose angles increase
strictly, the query `q = 3/4` lies strictly between the control points 0 and
1, the nearest control point is index 1, and the value returned is that of the
line of control point 1 (slope 2 of the neighbouring segment), `1/2`, while
linear interpolation between `(0,0)` and `(1,1)` gives `3/4`. -/
theorem C23_not_interval_bounded :
    ([0, 1, 2] : List ℚ).Pairwise (fun a b => a < b) ∧
    (([0, 1, 2] : List ℚ).getD 0 0 < 3 / 4 ∧ (3 / 4 : ℚ) < ([0, 1, 2] : List ℚ).getD 1 0) ∧
    findNearestNeighbourIndex (3 / 4) [0, 1, 2] 3 = some 1 ∧
    lineSlope [0, 1, 2] [0, 1, 3] 3 1 = segSlope [0, 1, 2] [0, 1, 3] 1 ∧
    segSlope [0, 1, 2] [0, 1, 3] 1 = 2 ∧
    FrameCorrection_LinearInterpolation [0, 1, 2] [0, 1, 3] 3 [3 / 4] 1
      = some [some (1 / 2)] ∧
    segmentInterpolation [0, 1, 2] [0, 1, 3] 0 (3 / 4) = 3 / 4 ∧
    (1 / 2 : ℚ) ≠ segmentInterpolation [0, 1, 2] [0, 1, 3] 0 (3 / 4) := by
  decide!

/-- The allocated size of a chroma plane when the frame fits `uint32_t`. -/
theorem chromaSize_eq {t w h : Nat} (hv : t = 1 ∨ t = 2) (hw2 : w % 2 = 0)
    (hfit : w * h + 2 * ((w / 2) * (t * h / 2)) < 2 ^ 32) :
    chromaSize w h t = (w / 2) * (t * h / 2) := by
  unfold chromaSize
  rcases Nat.eq_zero_or_pos w with hw | hw
  · subst hw
    simp [u32]
  · obtain ⟨_, hth, hC⟩ := frame_bounds hv hw hw2 hfit
    rw [u32_of_lt (show t * h < 2 ^ 32 by omega), u32_of_lt (by omega)]

/-- C27: for even width `≥ 2` and, for `YUV420_NV12`, even height `≥ 2`, every
chroma index the resampling loop reads or writes is inside the chroma plane:
for all `x < width`, `y < height`,
`(variant*y/2)*(width/2) + x/2 < (width/2)*(variant*height/2)`; when the frame
fits `uint32_t` this bound is the allocated size of `U`, `V`, `U_out` and
`V_out`, and the index expressions of the loop, for the destination `(x, y)`
and for every in-range source `(srcX, srcY)`, evaluate to such an index. -/
theorem C27_chroma_index_in_plane (t w h x y : Nat)
    (hv : t = YUV420_NV12 ∨ t = YUV422I_UYVY) (hw2 : w % 2 = 0) (hw : 2 ≤ w)
    (hh2 : t = YUV420_NV12 → h % 2 = 0 ∧ 2 ≤ h) (hx : x < w) (hy : y < h) :
    (t * y / 2) * (w / 2) + x / 2 < (w / 2) * (t * h / 2) ∧
    (w * h + 2 * ((w / 2) * (t * h / 2)) < 2 ^ 32 →
      chromaSize w h t = (w / 2) * (t * h / 2) ∧
      (malloc (chromaSize w h t) : Buf).length = (w / 2) * (t * h / 2) ∧
      dstChromaIndex t w x y = some (((t * y / 2) * (w / 2) + x / 2 : Nat) : Int) ∧
      ∀ srcX srcY : Int, inFrame w h srcX srcY →
        srcChromaIndex t w srcX srcY
          = some (((t * srcY.toNat / 2) * (w / 2) + srcX.toNat / 2 : Nat) : Int) ∧
        (t * srcY.toNat / 2) * (w / 2) + srcX.toNat / 2 < (w / 2) * (t * h / 2)) := by
  have hv1 : t = 1 ∨ t = 2 := hv
  have hh : t = 1 → h % 2 = 0 := fun e => (hh2 e).1
  refine ⟨chroma_index_lt hv1 hw2 hh hx hy, fun hfit => ?_⟩
  obtain ⟨_, hth, hC⟩ := frame_bounds hv1 (by omega) hw2 hfit
  have hcs := chromaSize_eq hv1 hw2 hfit
  refine ⟨hcs, by rw [length_malloc, hcs], dstChromaIndex_eq hv1 hw2 hh hx hy hth hC, ?_⟩
  intro srcX srcY hin
  obtain ⟨h0x, h0y, hxw, hyh⟩ := hin
  obtain ⟨a, rfl⟩ := Int.eq_ofNat_of_zero_le h0x
  obtain ⟨b, rfl⟩ := Int.eq_ofNat_of_zero_le h0y
  have ha : a < w := by omega
  have hb : b < h := by omega
  simp only [Int.toNat_ofNat]
  exact ⟨srcChromaIndex_eq hv1 hw2 hh ha hb hth hC, chroma_index_lt hv1 hw2 hh ha hb⟩

/-- Instance of C27: pixel `(1, 1)` of a 2x2 `YUV420_NV12` frame. -/
theorem C27_chroma_index_in_plane_witness :
    (YUV420_NV12 * 1 / 2) * (2 / 2) + 1 / 2 < (2 / 2) * (YUV420_NV12 * 2 / 2) ∧
    (2 * 2 + 2 * ((2 / 2) * (YUV420_NV12 * 2 / 2)) < 2 ^ 32 →
      chromaSize 2 2 YUV420_NV12 = (2 / 2) * (YUV420_NV12 * 2 / 2) ∧
      (malloc (chromaSize 2 2 YUV420_NV12) : Buf).length = (2 / 2) * (YUV420_NV12 * 2 / 2) ∧
      dstChromaIndex YUV420_NV12 2 1 1
        = some (((YUV420_NV12 * 1 / 2) * (2 / 2) + 1 / 2 : Nat) : Int) ∧
      ∀ srcX srcY : Int, inFrame 2 2 srcX srcY →
        srcChromaIndex YUV420_NV12 2 srcX srcY
          = some (((YUV420_NV12 * srcY.toNat / 2) * (2 / 2) + srcX.toNat / 2 : Nat) : Int) ∧
        (YUV420_NV12 * srcY.toNat / 2) * (2 / 2) + srcX.toNat / 2
          < (2 / 2) * (YUV420_NV12 * 2 / 2)) :=
  C27_chroma_index_in_plane YUV420_NV12 2 2 1 1 (Or.inl rfl) (by decide) (by decide)
    (fun _ => ⟨by decide, by decide⟩) (by decide) (by decide)

/-- The cast `(int32_t)(d + 0.5)` of a displacement strictly between `-3/2`
and `-1/2` is 0. -/
theorem srcCoord_neg_band (d : ℚ) (h1 : -(3 / 2) < d) (h2 : d < -(1 / 2)) :
    srcCoord d = some 0 := by
  unfold srcCoord castInt32
  have hneg : ¬ (0 : ℚ) ≤ d + 1 / 2 := by
    intro h
    linarith
  have hc : ⌈d + 1 / 2⌉ = 0 := by
    rw [Int.ceil_eq_iff]
    constructor
    · push_cast
      linarith
    · push_cast
      linarith
  simp only [if_neg hneg, hc]
  rw [if_pos]
  constructor <;> decide

/-- C28: the cast `(int32_t)(h_d + 0.5)` truncates toward zero, so every
displacement value `d` with `-3/2 < d < -1/2`, whose nearest integer is `-1`
(a coordinate outside every frame), yields the source coordinate 0; a pixel
with such an `h_d` and an in-range source row is copied from source column 0,
and a pixel with such a `v_d` and an in-range source column is copied from
source row 0. -/
theorem C28_truncation_copies_column_zero (d : ℚ) (h1 : -(3 / 2) < d) (h2 : d < -(1 / 2)) :
    (srcCoord d = some 0 ∧ |d - ((-1 : Int) : ℚ)| < 1 / 2 ∧
      ∀ m : Int, m ≠ -1 → 1 / 2 < |d - (m : ℚ)|) ∧
    (∀ (w h : Nat) (c : Int), ¬ inFrame w h (-1) c ∧ ¬ inFrame w h c (-1)) ∧
    ∀ (Y U V : Buf) (h_d v_d : Nat → Nat → ℚ) (w h t : Nat) (s : OutPlanes) (x y : Nat),
      w * h < 2 ^ 32 → x < w → y < h →
      (ResampleReady Y U V h_d v_d w h t s →
        ∃ s1, resampleLoop Y U V h_d v_d w h t s = some s1) ∧
      ∀ s1, resampleLoop Y U V h_d v_d w h t s = some s1 →
      (h_d y x = d → ∀ srcY : Int, srcCoord (v_d y x) = some srcY → 0 ≤ srcY →
          srcY < (h : Int) →
        inFrame w h 0 srcY ∧
        ∃ a, Y[srcY.toNat * w + 0]? = some a ∧ s1.Y_out[y * w + x]? = some a) ∧
      (v_d y x = d → ∀ srcX : Int, srcCoord (h_d y x) = some srcX → 0 ≤ srcX →
          srcX < (w : Int) →
        inFrame w h srcX 0 ∧
        ∃ a, Y[0 * w + srcX.toNat]? = some a ∧ s1.Y_out[y * w + x]? = some a) := by
  have hs := srcCoord_neg_band d h1 h2
  refine ⟨⟨hs, ?_, ?_⟩, ?_, ?_⟩
  · push_cast
    rw [abs_lt]
    constructor <;> linarith
  · intro m hm
    rcases lt_or_gt_of_ne hm with hlt | hgt
    · have hm2 : (m : ℚ) ≤ -2 := by
        have : m ≤ -2 := by omega
        exact_mod_cast this
      rw [lt_abs]
      left
      linarith
    · have hm2 : (0 : ℚ) ≤ (m : ℚ) := by
        have : 0 ≤ m := by omega
        exact_mod_cast this
      rw [lt_abs]
      right
      linarith
  · intro w h c
    constructor
    · intro hin
      have := hin.1
      omega
    · intro hin
      have := hin.2.1
      omega
  · intro Y U V h_d v_d w h t s x y hwh hx hy
    refine ⟨resampleLoop_returns Y U V h_d v_d w h t s, fun s1 hloop => ?_⟩
    obtain ⟨_, hcopy⟩ := resampleLoop_luma Y U V h_d v_d w h t hwh s s1 hloop
    constructor
    · intro hd srcY hsy h0 hlt
      have hin : inFrame w h 0 srcY := ⟨le_refl 0, h0, by omega, hlt⟩
      refine ⟨hin, ?_⟩
      have hsrc : srcOf h_d v_d x y = some (0, srcY) :=
        srcOf_eq_some.2 ⟨by rw [hd]; exact hs, hsy⟩
      exact hcopy x y hx hy 0 srcY hsrc hin
    · intro hd srcX hsx h0 hlt
      have hin : inFrame w h srcX 0 := ⟨h0, le_refl 0, hlt, by omega⟩
      refine ⟨hin, ?_⟩
      have hsrc : srcOf h_d v_d x y = some (srcX, 0) :=
        srcOf_eq_some.2 ⟨hsx, by rw [hd]; exact hs⟩
      exact hcopy x y hx hy srcX 0 hsrc hin

/-- Instance of C28 at the displacement `-1`. -/
theorem C28_truncation_copies_column_zero_witness :
    (-(3 / 2) < (-1 : ℚ) ∧ (-1 : ℚ) < -(1 / 2)) ∧
    (srcCoord (-1) = some 0 ∧ |(-1 : ℚ) - ((-1 : Int) : ℚ)| < 1 / 2 ∧
      ∀ m : Int, m ≠ -1 → 1 / 2 < |(-1 : ℚ) - (m : ℚ)|) ∧
    (∀ (w h : Nat) (c : Int), ¬ inFrame w h (-1) c ∧ ¬ inFrame w h c (-1)) ∧
    ∀ (Y U V : Buf) (h_d v_d : Nat → Nat → ℚ) (w h t : Nat) (s : OutPlanes) (x y : Nat),
      w * h < 2 ^ 32 → x < w → y < h →
      (ResampleReady Y U V h_d v_d w h t s →
        ∃ s1, resampleLoop Y U V h_d v_d w h t s = some s1) ∧
      ∀ s1, resampleLoop Y U V h_d v_d w h t s = some s1 →
      (h_d y x = -1 → ∀ srcY : Int, srcCoord (v_d y x) = some srcY → 0 ≤ srcY →
          srcY < (h : Int) →
        inFrame w h 0 srcY ∧
        ∃ a, Y[srcY.toNat * w + 0]? = some a ∧ s1.Y_out[y * w + x]? = some a) ∧
      (v_d y x = -1 → ∀ srcX : Int, srcCoord (h_d y x) = some srcX → 0 ≤ srcX →
          srcX < (w : Int) →
        inFrame w h srcX 0 ∧
        ∃ a, Y[0 * w + srcX.toNat]? = some a ∧ s1.Y_out[y * w + x]? = some a) :=
  ⟨⟨by norm_num, by norm_num⟩,
    C28_truncation_copies_column_zero (-1) (by norm_num) (by norm_num)⟩

theorem getD_le_of_pairwise {x : List ℚ} (hs : x.Pairwise (fun a b => a < b)) {i j : Nat}
    (hij : i ≤ j) (hj : j < x.length) : x.getD i 0 ≤ x.getD j 0 := by
  rcases Nat.lt_or_eq_of_le hij with h | h
  · exact le_of_lt (getD_lt_of_pairwise hs h hj)
  · rw [h]

/-- Entry `i` of the result of the interpolator. -/
theorem interpolation_getElem (x y xq : List ℚ) (hy : y.length = x.length)
    (hn : 2 ≤ x.length) :
    ∃ yq, FrameCorrection_LinearInterpolation x y (x.length : Int) xq (xq.length : Int)
        = some yq ∧ yq.length = xq.length ∧
      ∀ i, i < xq.length →
        yq[i]? = some (some (interpValue x y x.length (xq.getD i 0))) := by
  refine ⟨_, interpolation_eq_map x y x.length rfl hy hn xq, by simp, fun i hi => ?_⟩
  have hq : xq[i] = xq.getD i 0 := by
    simp [List.getD, List.getElem?_eq_getElem hi]
  rw [List.getElem?_map, List.getElem?_eq_getElem hi, Option.map_some', hq]

/-- The line attached to the last control point, written through that point. -/
theorem last_line_value (x y : List ℚ) (hs : x.Pairwise (fun a b => a < b))
    (hn : 2 ≤ x.length) (q : ℚ) :
    lineSlope x y x.length (x.length - 1) * q + lineIntercept x y x.length (x.length - 1)
      = y.getD (x.length - 1) 0
        + (y.getD (x.length - 1) 0 - y.getD (x.length - 2) 0)
          / (x.getD (x.length - 1) 0 - x.getD (x.length - 2) 0)
          * (q - x.getD (x.length - 1) 0) := by
  have hlt := getD_lt_of_pairwise hs (show x.length - 2 < x.length - 1 by omega) (by omega)
  rw [lineSlope_last x y x.length hn, lineIntercept_last x y x.length hn]
  unfold lineSlope lineIntercept segSlope
  have e : x.length - 2 + 1 = x.length - 1 := by omega
  rw [if_pos (by omega), if_pos (by omega), e]
  generalize x.getD (x.length - 1) 0 = x1 at hlt ⊢
  generalize x.getD (x.length - 2) 0 = x0 at hlt ⊢
  generalize y.getD (x.length - 1) 0 = y1
  generalize y.getD (x.length - 2) 0 = y0
  have hne : x1 - x0 ≠ 0 := ne_of_gt (by linarith)
  field_simp
  ring

/-- The line attached to a control point other than the last is the line of
the segment that starts there. -/
theorem segment_line_value (x y : List ℚ) (k : Nat) (hk : k + 1 < x.length) (q : ℚ) :
    lineSlope x y x.length k * q + lineIntercept x y x.length k
      = segmentInterpolation x y k q := by
  unfold lineSlope lineIntercept segSlope segmentInterpolation
  rw [if_pos hk, if_pos hk]
  ring

/-- C22 as stated fails for a query farther than `DBL_MAX` from every control
point: for the strictly increasing table `(-DBL_MAX, 1)`, `(-DBL_MAX/2, 2)`
and the query `DBL_MAX`, which lies beyond the last control point, no index is
found and the value returned is the sentinel `DBL_MAX`, while the extended
last segment takes the value `5` at the query.  The result is the same with
the binary64 rounding of the subtraction. -/
theorem C22_counterexample_far_query :
    ([-DBL_MAX, -DBL_MAX / 2] : List ℚ).Pairwise (fun a b => a < b) ∧
    -DBL_MAX / 2 ≤ DBL_MAX ∧
    FrameCorrection_LinearInterpolation [-DBL_MAX, -DBL_MAX / 2] [1, 2] 2 [DBL_MAX] 1
      = some [some DBL_MAX] ∧
    (2 : ℚ) + (2 - 1) / (-DBL_MAX / 2 - -DBL_MAX) * (DBL_MAX - -DBL_MAX / 2) = 5 ∧
    (5 : ℚ) < DBL_MAX ∧
    FrameCorrection_LinearInterpolationFl roundBinary64 [-DBL_MAX, -DBL_MAX / 2] [1, 2] 2
      [DBL_MAX] 1 = some [some DBL_MAX] := by
  have hpos := DBL_MAX_pos
  have h5 : (5 : ℚ) < DBL_MAX := by unfold DBL_MAX; norm_num
  have hfind : findNearestNeighbourIndex DBL_MAX [-DBL_MAX, -DBL_MAX / 2]
      (([-DBL_MAX, -DBL_MAX / 2] : List ℚ).length : Int) = some (-1) := by
    apply findNearest_of_far
    intro j hj
    have hj2 : j = 0 ∨ j = 1 := by
      have : j < 2 := hj
      omega
    rcases hj2 with rfl | rfl
    · simp only [pointDist, List.getD_cons_zero]
      rw [abs_of_nonneg (by linarith)]
      linarith
    · simp only [pointDist, List.getD_cons_succ, List.getD_cons_zero]
      rw [abs_of_nonneg (by linarith)]
      linarith
  refine ⟨?_, by linarith, ?_, ?_, h5, by decide!⟩
  · simp only [List.pairwise_cons, List.mem_singleton, forall_eq, List.not_mem_nil,
      false_implies, implies_true, List.Pairwise.nil, and_true]
    linarith
  · have h := interpolation_eq_map [-DBL_MAX, -DBL_MAX / 2] [1, 2] 2 rfl rfl (le_refl 2)
      [DBL_MAX]
    have e := interpValue_of_not_found [-DBL_MAX, -DBL_MAX / 2] [1, 2] DBL_MAX hfind
    have hl : ([-DBL_MAX, -DBL_MAX / 2] : List ℚ).length = 2 := rfl
    rw [hl] at e
    simp only [List.map_cons, List.map_nil, e] at h
    exact h
  · have hden : -DBL_MAX / 2 - -DBL_MAX ≠ 0 := ne_of_gt (by linarith)
    have e : (2 - 1) / (-DBL_MAX / 2 - -DBL_MAX) * (DBL_MAX - -DBL_MAX / 2) = 3 := by
      rw [div_mul_eq_mul_div, div_eq_iff hden]
      ring
    rw [e]
    norm_num

/-- The lines attached to the last two control points coincide. -/
theorem last_two_lines (x y : List ℚ) (hn : 2 ≤ x.length) (q : ℚ) :
    lineSlope x y x.length (x.length - 1) * q + lineIntercept x y x.length (x.length - 1)
      = segmentInterpolation x y (x.length - 2) q := by
  rw [lineSlope_last x y x.length hn, lineIntercept_last x y x.length hn]
  exact segment_line_value x y (x.length - 2) (by omega) q

/-- C26: for `sample_points_size = n ≥ 2` with strictly increasing `x`, and
queries and control points of magnitude below `DBL_MAX/2`,
`FrameCorrection_LinearInterpolation` is safe: it returns a result, so every
access to `x`, `y`, `slope` and `intercept` (arrays of `n` elements) uses an
index in `[0, n)`; the loop index at which `slope[i-1]` is read is `n - 1 ≥ 1`;
every slope division has a non-zero divisor; and for every query
`findNearestNeighbourIndex` returns an index in `[0, n)`, so the value stored
is that of a line and the `DBL_MAX` branch is not taken. -/
theorem C26_interpolation_safe (x y xq : List ℚ) (hy : y.length = x.length)
    (hn : 2 ≤ x.length) (hs : x.Pairwise (fun a b => a < b))
    (hx : ∀ j, j < x.length → |x.getD j 0| < DBL_MAX / 2)
    (hq : ∀ i, i < xq.length → |xq.getD i 0| < DBL_MAX / 2) :
    (∃ yq, FrameCorrection_LinearInterpolation x y (x.length : Int) xq (xq.length : Int)
        = some yq ∧ yq.length = xq.length ∧
      ∀ i, i < xq.length → ∃ k : Nat, k < x.length ∧
        findNearestNeighbourIndex (xq.getD i 0) x (x.length : Int) = some (k : Int) ∧
        (k : Int) ≠ -1 ∧
        yq[i]? = some (some (lineSlope x y x.length k * xq.getD i 0
          + lineIntercept x y x.length k))) ∧
    (∀ i : Nat, i < x.length → ¬ ((i : Int) < (x.length : Int) - 1) →
      i = x.length - 1 ∧ 1 ≤ i) ∧
    (∀ i : Nat, (i : Int) < (x.length : Int) - 1 → x.getD (i + 1) 0 - x.getD i 0 ≠ 0) ∧
    (∀ (i : Nat) (s : LineState), (i : Int) < (x.length : Int) - 1 →
      LineInv x y x.length i s →
      lineBody x y (x.length : Int) i s
        = some ⟨s.slope.set i (some ((y.getD (i + 1) 0 - y.getD i 0)
              / (x.getD (i + 1) 0 - x.getD i 0))),
            s.intercept.set i (some (y.getD i 0 - x.getD i 0
              * ((y.getD (i + 1) 0 - y.getD i 0) / (x.getD (i + 1) 0 - x.getD i 0))))⟩) := by
  obtain ⟨yq, hyq, hl, hval⟩ := interpolation_getElem x y xq hy hn
  refine ⟨⟨yq, hyq, hl, fun i hi => ?_⟩, fun i hi hge => by omega, fun i hi => ?_,
    fun i s hi hinv => ?_⟩
  · obtain ⟨r, hr, hcase⟩ := findNearest_spec (xq.getD i 0) x
    rcases hcase with ⟨_, hall⟩ | ⟨k, hk, rfl, _, _, _⟩
    · exfalso
      have a1 := hall 0 (by omega)
      have a2 := hx 0 (by omega)
      have a3 := hq i hi
      unfold pointDist at a1
      have := abs_sub (xq.getD i 0) (x.getD 0 0)
      linarith
    · refine ⟨k, hk, hr, by omega, ?_⟩
      rw [hval i hi, interpValue_of_found x y _ _ hr]
  · have hlt := getD_lt_of_pairwise hs (show i < i + 1 by omega) (by omega)
    exact ne_of_gt (by linarith)
  · have hi1 : i + 1 < x.length := by omega
    rw [lineBody_eq x y x.length rfl hy hn i (by omega) s hinv]
    unfold lineSlope lineIntercept segSlope
    rw [if_pos hi1, if_pos hi1]

/-- Instance of C26: the table `(0,0)`, `(1,1)`, `(2,3)` and the query `3/4`. -/
theorem C26_interpolation_safe_witness :
    (∃ yq, FrameCorrection_LinearInterpolation ([0, 1, 2] : List ℚ) ([0, 1, 3] : List ℚ) (([0, 1, 2] : List ℚ).length : Int) ([3 / 4] : List ℚ)
        (([3 / 4] : List ℚ).length : Int) = some yq ∧ yq.length = ([3 / 4] : List ℚ).length ∧
      ∀ i, i < ([3 / 4] : List ℚ).length → ∃ k : Nat, k < ([0, 1, 2] : List ℚ).length ∧
        findNearestNeighbourIndex (([3 / 4] : List ℚ).getD i 0) ([0, 1, 2] : List ℚ) (([0, 1, 2] : List ℚ).length : Int) = some (k : Int) ∧
        (k : Int) ≠ -1 ∧
        yq[i]? = some (some (lineSlope ([0, 1, 2] : List ℚ) ([0, 1, 3] : List ℚ) ([0, 1, 2] : List ℚ).length k * ([3 / 4] : List ℚ).getD i 0
          + lineIntercept ([0, 1, 2] : List ℚ) ([0, 1, 3] : List ℚ) ([0, 1, 2] : List ℚ).length k))) ∧
    (∀ i : Nat, i < ([0, 1, 2] : List ℚ).length → ¬ ((i : Int) < (([0, 1, 2] : List ℚ).length : Int) - 1) →
      i = ([0, 1, 2] : List ℚ).length - 1 ∧ 1 ≤ i) ∧
    (∀ i : Nat, (i : Int) < (([0, 1, 2] : List ℚ).length : Int) - 1 →
      ([0, 1, 2] : List ℚ).getD (i + 1) 0 - ([0, 1, 2] : List ℚ).getD i 0 ≠ 0) ∧
    (∀ (i : Nat) (s : LineState), (i : Int) < (([0, 1, 2] : List ℚ).length : Int) - 1 →
      LineInv ([0, 1, 2] : List ℚ) ([0, 1, 3] : List ℚ) ([0, 1, 2] : List ℚ).length i s →
      lineBody ([0, 1, 2] : List ℚ) ([0, 1, 3] : List ℚ) (([0, 1, 2] : List ℚ).length : Int) i s
        = some ⟨s.slope.set i (some ((([0, 1, 3] : List ℚ).getD (i + 1) 0 - ([0, 1, 3] : List ℚ).getD i 0)
              / (([0, 1, 2] : List ℚ).getD (i + 1) 0 - ([0, 1, 2] : List ℚ).getD i 0))),
            s.intercept.set i (some (([0, 1, 3] : List ℚ).getD i 0 - ([0, 1, 2] : List ℚ).getD i 0
              * ((([0, 1, 3] : List ℚ).getD (i + 1) 0 - ([0, 1, 3] : List ℚ).getD i 0)
                / (([0, 1, 2] : List ℚ).getD (i + 1) 0 - ([0, 1, 2] : List ℚ).getD i 0))))⟩) :=
  C26_interpolation_safe [0, 1, 2] [0, 1, 3] [3 / 4] rfl (by decide) (by decide)
    (fun j hj => by
      have h2 : (2 : ℚ) < DBL_MAX / 2 := by unfold DBL_MAX; norm_num
      have hj3 : j = 0 ∨ j = 1 ∨ j = 2 := by
        have : j < 3 := hj
        omega
      rcases hj3 with rfl | rfl | rfl
      · simp only [List.getD_cons_zero, abs_zero]
        linarith
      · simp only [List.getD_cons_succ, List.getD_cons_zero, abs_one]
        linarith
      · simp only [List.getD_cons_succ, List.getD_cons_zero, abs_two]
        linarith)
    (fun i hi => by
      have h2 : (2 : ℚ) < DBL_MAX / 2 := by unfold DBL_MAX; norm_num
      have hi0 : i = 0 := by
        have : i < 1 := hi
        omega
      subst hi0
      simp only [List.getD_cons_zero]
      rw [abs_of_nonneg (by norm_num)]
      linarith)

/-- Entry `(i, j)` of the displacement field. -/
theorem displacement_entry (width height : Nat) (x y : Nat → Nat → ℝ) (hc vc fl pp sf : ℝ)
    (interp : ℝ → ℝ) (h0 v0 : Nat → Nat → ℝ) (i j : Nat) (hi : i < height)
    (hj : j < width) :
    (FrameCorrection_XYZ2Distorted_real width height x y hc vc fl pp sf interp h0 v0).1 i j
      = interp (atan2 (Real.sqrt ((x i j - hc) ^ 2 + (y i j - vc) ^ 2)) (fl / pp / sf))
          * Real.cos (atan2 (y i j - vc) (x i j - hc)) + hc ∧
    (FrameCorrection_XYZ2Distorted_real width height x y hc vc fl pp sf interp h0 v0).2 i j
      = interp (atan2 (Real.sqrt ((x i j - hc) ^ 2 + (y i j - vc) ^ 2)) (fl / pp / sf))
          * Real.sin (atan2 (y i j - vc) (x i j - hc)) + vc := by
  have hin : i < height ∧ j < width := ⟨hi, hj⟩
  simp only [FrameCorrection_XYZ2Distorted_real, pol2cart, cart2pol, if_pos hin]
  exact ⟨trivial, trivial⟩

theorem atan2_scale (r a : ℝ) (hr : 0 < r) (ha1 : -Real.pi < a) (ha2 : a ≤ Real.pi) :
    atan2 (r * Real.sin a) (r * Real.cos a) = a := by
  unfold atan2
  have e : (⟨r * Real.cos a, r * Real.sin a⟩ : ℂ)
      = (r : ℂ) * (Complex.cos (a : ℂ) + Complex.sin (a : ℂ) * Complex.I) := by
    apply Complex.ext
    · simp [Complex.cos_ofReal_re, Complex.sin_ofReal_re, Complex.cos_ofReal_im,
        Complex.sin_ofReal_im]
    · simp [Complex.cos_ofReal_re, Complex.sin_ofReal_re, Complex.cos_ofReal_im,
        Complex.sin_ofReal_im]
  rw [e]
  exact Complex.arg_mul_cos_add_sin_mul_I hr ⟨ha1, ha2⟩

theorem atan2_mem (b a : ℝ) : -Real.pi < atan2 b a ∧ atan2 b a ≤ Real.pi := by
  unfold atan2
  exact ⟨Complex.neg_pi_lt_arg _, Complex.arg_le_pi _⟩

/-- C24 (amended): in exact real arithmetic the displacement field computed by
`FrameCorrection_XYZ2Distorted` is a radial rescaling about the optical centre:
for every output pixel at distance `r = sqrt((x-hc)^2 + (y-vc)^2) > 0` from the
centre, with `r_d` the interpolated radius for the incidence angle
`atan2(r, z)`, `(h_d - hc, v_d - vc) = (r_d / r) * (x - hc, y - vc)`; the
source position lies at distance `|r_d|` from the centre and, when `r_d > 0`,
keeps the pixel's azimuth; for the pixel at the centre (`r = 0`) the source
position is `(hc + r_d, vc)`. -/
theorem C24_displacement_is_radial (width height : Nat) (x y : Nat → Nat → ℝ)
    (hc vc fl pp sf : ℝ) (interp : ℝ → ℝ) (h0 v0 : Nat → Nat → ℝ) (i j : Nat)
    (hi : i < height) (hj : j < width) :
    (0 < Real.sqrt ((x i j - hc) ^ 2 + (y i j - vc) ^ 2) →
      (FrameCorrection_XYZ2Distorted_real width height x y hc vc fl pp sf interp h0 v0).1 i j
          - hc
        = interp (atan2 (Real.sqrt ((x i j - hc) ^ 2 + (y i j - vc) ^ 2)) (fl / pp / sf))
            / Real.sqrt ((x i j - hc) ^ 2 + (y i j - vc) ^ 2) * (x i j - hc) ∧
      (FrameCorrection_XYZ2Distorted_real width height x y hc vc fl pp sf interp h0 v0).2 i j
          - vc
        = interp (atan2 (Real.sqrt ((x i j - hc) ^ 2 + (y i j - vc) ^ 2)) (fl / pp / sf))
            / Real.sqrt ((x i j - hc) ^ 2 + (y i j - vc) ^ 2) * (y i j - vc)) ∧
    Real.sqrt
        (((FrameCorrection_XYZ2Distorted_real width height x y hc vc fl pp sf interp
              h0 v0).1 i j - hc) ^ 2
          + ((FrameCorrection_XYZ2Distorted_real width height x y hc vc fl pp sf interp
              h0 v0).2 i j - vc) ^ 2)
      = |interp (atan2 (Real.sqrt ((x i j - hc) ^ 2 + (y i j - vc) ^ 2)) (fl / pp / sf))| ∧
    (0 < interp (atan2 (Real.sqrt ((x i j - hc) ^ 2 + (y i j - vc) ^ 2)) (fl / pp / sf)) →
      atan2
          ((FrameCorrection_XYZ2Distorted_real width height x y hc vc fl pp sf interp
              h0 v0).2 i j - vc)
          ((FrameCorrection_XYZ2Distorted_real width height x y hc vc fl pp sf interp
              h0 v0).1 i j - hc)
        = atan2 (y i j - vc) (x i j - hc)) ∧
    (Real.sqrt ((x i j - hc) ^ 2 + (y i j - vc) ^ 2) = 0 →
      (FrameCorrection_XYZ2Distorted_real width height x y hc vc fl pp sf interp h0 v0).1 i j
        = hc + interp (atan2 (Real.sqrt ((x i j - hc) ^ 2 + (y i j - vc) ^ 2))
            (fl / pp / sf)) ∧
      (FrameCorrection_XYZ2Distorted_real width height x y hc vc fl pp sf interp h0 v0).2 i j
        = vc) := by
  obtain ⟨eh, ev⟩ := displacement_entry width height x y hc vc fl pp sf interp h0 v0 i j hi hj
  rw [eh, ev]
  obtain ⟨hcos, hsin⟩ := polar_roundtrip (x i j - hc) (y i j - vc)
  generalize Real.sqrt ((x i j - hc) ^ 2 + (y i j - vc) ^ 2) = r at hcos hsin ⊢
  generalize interp (atan2 r (fl / pp / sf)) = rd
  obtain ⟨hphi1, hphi2⟩ := atan2_mem (y i j - vc) (x i j - hc)
  refine ⟨fun hr => ?_, ?_, fun hrd => ?_, fun hr0 => ?_⟩
  · have hne : r ≠ 0 := ne_of_gt hr
    constructor
    · have e : Real.cos (atan2 (y i j - vc) (x i j - hc)) = (x i j - hc) / r := by
        rw [eq_div_iff hne]
        linarith
      rw [e]
      ring
    · have e : Real.sin (atan2 (y i j - vc) (x i j - hc)) = (y i j - vc) / r := by
        rw [eq_div_iff hne]
        linarith
      rw [e]
      ring
  · have e : (rd * Real.cos (atan2 (y i j - vc) (x i j - hc)) + hc - hc) ^ 2
        + (rd * Real.sin (atan2 (y i j - vc) (x i j - hc)) + vc - vc) ^ 2 = rd ^ 2 := by
      have := Real.cos_sq_add_sin_sq (atan2 (y i j - vc) (x i j - hc))
      nlinarith [this]
    rw [e, Real.sqrt_sq_eq_abs]
  · have e1 : rd * Real.sin (atan2 (y i j - vc) (x i j - hc)) + vc - vc
        = rd * Real.sin (atan2 (y i j - vc) (x i j - hc)) := by ring
    have e2 : rd * Real.cos (atan2 (y i j - vc) (x i j - hc)) + hc - hc
        = rd * Real.cos (atan2 (y i j - vc) (x i j - hc)) := by ring
    rw [e1, e2]
    exact atan2_scale rd _ hrd hphi1 hphi2
  · subst hr0
    have hx0 : x i j - hc = 0 := by linarith
    have hy0 : y i j - vc = 0 := by linarith
    have ha : atan2 (y i j - vc) (x i j - hc) = 0 := by
      rw [hx0, hy0]
      unfold atan2
      exact Complex.arg_zero
    rw [ha, Real.cos_zero, Real.sin_zero]
    constructor <;> ring

/-- Instance of C24: the one-pixel field with the pixel at offset `(3, 4)` from
the centre and the interpolated radius 10. -/
theorem C24_displacement_is_radial_witness :
    (0 < Real.sqrt (((3 : ℝ) - 0) ^ 2 + ((4 : ℝ) - 0) ^ 2) →
      (FrameCorrection_XYZ2Distorted_real 1 1 (fun _ _ => 3) (fun _ _ => 4) 0 0 1 1 1
          (fun _ => 10) (fun _ _ => 0) (fun _ _ => 0)).1 0 0 - 0
        = (fun _ : ℝ => (10 : ℝ)) (atan2 (Real.sqrt (((3 : ℝ) - 0) ^ 2 + ((4 : ℝ) - 0) ^ 2)) (1 / 1 / 1)) / Real.sqrt (((3 : ℝ) - 0) ^ 2 + ((4 : ℝ) - 0) ^ 2)
            * ((3 : ℝ) - 0) ∧
      (FrameCorrection_XYZ2Distorted_real 1 1 (fun _ _ => 3) (fun _ _ => 4) 0 0 1 1 1
          (fun _ => 10) (fun _ _ => 0) (fun _ _ => 0)).2 0 0 - 0
        = (fun _ : ℝ => (10 : ℝ)) (atan2 (Real.sqrt (((3 : ℝ) - 0) ^ 2 + ((4 : ℝ) - 0) ^ 2)) (1 / 1 / 1)) / Real.sqrt (((3 : ℝ) - 0) ^ 2 + ((4 : ℝ) - 0) ^ 2)
            * ((4 : ℝ) - 0)) ∧
    Real.sqrt
        (((FrameCorrection_XYZ2Distorted_real 1 1 (fun _ _ => 3) (fun _ _ => 4) 0 0 1 1 1
          (fun _ => 10) (fun _ _ => 0) (fun _ _ => 0)).1 0 0 - 0) ^ 2
          + ((FrameCorrection_XYZ2Distorted_real 1 1 (fun _ _ => 3) (fun _ _ => 4) 0 0 1 1 1
          (fun _ => 10) (fun _ _ => 0) (fun _ _ => 0)).2 0 0 - 0) ^ 2)
      = |(fun _ : ℝ => (10 : ℝ)) (atan2 (Real.sqrt (((3 : ℝ) - 0) ^ 2 + ((4 : ℝ) - 0) ^ 2)) (1 / 1 / 1))| ∧
    (0 < (fun _ : ℝ => (10 : ℝ)) (atan2 (Real.sqrt (((3 : ℝ) - 0) ^ 2 + ((4 : ℝ) - 0) ^ 2)) (1 / 1 / 1)) →
      atan2
          ((FrameCorrection_XYZ2Distorted_real 1 1 (fun _ _ => 3) (fun _ _ => 4) 0 0 1 1 1
          (fun _ => 10) (fun _ _ => 0) (fun _ _ => 0)).2 0 0 - 0)
          ((FrameCorrection_XYZ2Distorted_real 1 1 (fun _ _ => 3) (fun _ _ => 4) 0 0 1 1 1
          (fun _ => 10) (fun _ _ => 0) (fun _ _ => 0)).1 0 0 - 0)
        = atan2 ((4 : ℝ) - 0) ((3 : ℝ) - 0)) ∧
    (Real.sqrt (((3 : ℝ) - 0) ^ 2 + ((4 : ℝ) - 0) ^ 2) = 0 →
      (FrameCorrection_XYZ2Distorted_real 1 1 (fun _ _ => 3) (fun _ _ => 4) 0 0 1 1 1
          (fun _ => 10) (fun _ _ => 0) (fun _ _ => 0)).1 0 0
        = 0 + (fun _ : ℝ => (10 : ℝ)) (atan2 (Real.sqrt (((3 : ℝ) - 0) ^ 2 + ((4 : ℝ) - 0) ^ 2)) (1 / 1 / 1)) ∧
      (FrameCorrection_XYZ2Distorted_real 1 1 (fun _ _ => 3) (fun _ _ => 4) 0 0 1 1 1
          (fun _ => 10) (fun _ _ => 0) (fun _ _ => 0)).2 0 0 = 0) :=
  C24_displacement_is_radial 1 1 (fun _ _ => 3) (fun _ _ => 4) 0 0 1 1 1 (fun _ => 10)
    (fun _ _ => 0) (fun _ _ => 0) 0 0 (by decide) (by decide)

theorem atan2_zero_one : atan2 0 1 = 0 := by
  unfold atan2
  have e : (⟨1, 0⟩ : ℂ) = 1 := by
    apply Complex.ext <;> simp
  rw [e, Complex.arg_one]

theorem atan2_zero_neg_one : atan2 0 (-1) = Real.pi := by
  unfold atan2
  have e : (⟨-1, 0⟩ : ℂ) = -1 := by
    apply Complex.ext <;> simp
  rw [e, Complex.arg_neg_one]

/-- C24 as stated fails when the interpolated radius is negative: for the
pixel at offset `(1, 0)` from the centre (distance 1, azimuth 0) and the
interpolated radius `-1`, the source position is at offset `(-1, 0)`, whose
azimuth is `π`: the source lies on the opposite side of the centre and does
not keep the pixel's azimuth. -/
theorem C24_counterexample_negative_radius :
    0 < Real.sqrt (((1 : ℝ) - 0) ^ 2 + ((0 : ℝ) - 0) ^ 2) ∧
    (FrameCorrection_XYZ2Distorted_real 1 1 (fun _ _ => 1) (fun _ _ => 0) 0 0 1 1 1
          (fun _ => -1) (fun _ _ => 0) (fun _ _ => 0)).1 0 0 - 0 = -1 ∧
    (FrameCorrection_XYZ2Distorted_real 1 1 (fun _ _ => 1) (fun _ _ => 0) 0 0 1 1 1
          (fun _ => -1) (fun _ _ => 0) (fun _ _ => 0)).2 0 0 - 0 = 0 ∧
    atan2 ((FrameCorrection_XYZ2Distorted_real 1 1 (fun _ _ => 1) (fun _ _ => 0) 0 0 1 1 1
          (fun _ => -1) (fun _ _ => 0) (fun _ _ => 0)).2 0 0 - 0)
        ((FrameCorrection_XYZ2Distorted_real 1 1 (fun _ _ => 1) (fun _ _ => 0) 0 0 1 1 1
          (fun _ => -1) (fun _ _ => 0) (fun _ _ => 0)).1 0 0 - 0) = Real.pi ∧
    atan2 ((0 : ℝ) - 0) ((1 : ℝ) - 0) = 0 ∧
    Real.pi ≠ 0 := by
  obtain ⟨eh, ev⟩ := displacement_entry 1 1 (fun _ _ => 1) (fun _ _ => 0) 0 0 1 1 1
    (fun _ => -1) (fun _ _ => 0) (fun _ _ => 0) 0 0 (by decide) (by decide)
  have e0 : atan2 ((0 : ℝ) - 0) ((1 : ℝ) - 0) = 0 := by
    rw [sub_zero, sub_zero]
    exact atan2_zero_one
  have h1 : (FrameCorrection_XYZ2Distorted_real 1 1 (fun _ _ => 1) (fun _ _ => 0) 0 0 1 1 1
          (fun _ => -1) (fun _ _ => 0) (fun _ _ => 0)).1 0 0 = -1 := by
    rw [eh, e0, Real.cos_zero]
    norm_num
  have h2 : (FrameCorrection_XYZ2Distorted_real 1 1 (fun _ _ => 1) (fun _ _ => 0) 0 0 1 1 1
          (fun _ => -1) (fun _ _ => 0) (fun _ _ => 0)).2 0 0 = 0 := by
    rw [ev, e0, Real.sin_zero]
    norm_num
  refine ⟨by norm_num, by rw [h1]; norm_num, by rw [h2]; norm_num, ?_, e0, Real.pi_ne_zero⟩
  rw [h1, h2, sub_zero, sub_zero]
  exact atan2_zero_neg_one

/-- A failing combine hands back the output buffer it was given. -/
theorem combine_error_output (out Y U V : Buf) (w h img t : Nat) (o : Option Buf)
    (hc : ComponentsStructure_CombineYUVComponents (some out) (some Y) (some U) (some V)
      w h img t = some (LDC_Status.LDC_STATUS_ERROR, o)) : o = some out := by
  unfold ComponentsStructure_CombineYUVComponents at hc
  simp only [] at hc
  split_ifs at hc with h1 h2
  · simp only [Option.bind_eq_bind, Option.pure_def, Option.bind_eq_some, Option.some.injEq,
      Prod.mk.injEq] at hc
    obtain ⟨_, _, _, _, hst, _⟩ := hc
    exact absurd hst (by decide)
  · simp only [Option.bind_eq_bind, Option.pure_def, Option.bind_eq_some, Option.some.injEq,
      Prod.mk.injEq] at hc
    obtain ⟨_, _, hst, _⟩ := hc
    exact absurd hst (by decide)
  · simp only [Option.some.injEq, Prod.mk.injEq] at hc
    exact hc.2.symm

/-- The call with the three planes present. -/
theorem correctLensDistortion_unfold (m : Libm) (ls : LensSpec) (YUV_out : Option Buf)
    (Y U V : Buf) (img w h t : Nat) (file : Option (List ℚ)) :
    FrameCorrection_CorrectLensDistortion m ls YUV_out (some Y) (some U) (some V) img w h t file
      = (FrameCorrection_XYZ2Distorted m ls file w h h_p v_p (centreArg w) (centreArg h)
          (fun _ _ => 0) (fun _ _ => 0)).bind (fun res =>
        if res.1 ≠ LDC_Status.LDC_STATUS_OK then
          some (LDC_Status.LDC_STATUS_ERROR, some (malloc img))
        else
          (resampleLoop Y U V res.2.1 res.2.2 w h t
              ⟨malloc (lumaSize w h), malloc (chromaSize w h t), malloc (chromaSize w h t)⟩).bind
            (fun s =>
              (ComponentsStructure_CombineYUVComponents (some (malloc img)) (some s.Y_out)
                  (some s.U_out) (some s.V_out) w h img t).bind
                (fun c =>
                  if c.1 ≠ LDC_Status.LDC_STATUS_OK then
                    some (LDC_Status.LDC_STATUS_ERROR, c.2)
                  else some (LDC_Status.LDC_STATUS_OK, c.2)))) := rfl

/-- With a plane missing the call fails and hands back `*YUV_out` as it was. -/
theorem correctLensDistortion_missing_plane (m : Libm) (ls : LensSpec)
    (YUV_out Y U V : Option Buf) (img w h t : Nat) (file : Option (List ℚ))
    (hm : Y = none ∨ U = none ∨ V = none) :
    FrameCorrection_CorrectLensDistortion m ls YUV_out Y U V img w h t file
      = some (LDC_Status.LDC_STATUS_ERROR, YUV_out) := by
  unfold FrameCorrection_CorrectLensDistortion
  rcases hm with rfl | rfl | rfl
  · rfl
  · cases Y <;> rfl
  · cases Y <;> cases U <;> rfl

/-- A failing calibration read makes `FrameCorrection_XYZ2Distorted` fail. -/
theorem xyz2Distorted_read_error (m : Libm) (ls ls1 : LensSpec) (file : Option (List ℚ))
    (w h : Nat) (x y : Nat → Nat → ℚ) (hc vc : ℚ) (h_d v_d : Nat → Nat → ℚ)
    (hr : ParamOperation_ReadParametersOfCorrection
      { ls with angle := List.replicate MAX_NUM_OF_LENS_PARAMETER 0,
                height := List.replicate MAX_NUM_OF_LENS_PARAMETER 0 } file
      = some (LDC_Status.LDC_STATUS_ERROR, ls1)) :
    FrameCorrection_XYZ2Distorted m ls file w h x y hc vc h_d v_d
      = some (LDC_Status.LDC_STATUS_ERROR, h_d, v_d) := by
  unfold FrameCorrection_XYZ2Distorted
  simp only [hr, Option.some_bind]
  rw [if_pos (by decide)]

/-- A successful call on the 2x2 sample frame: with the library functions
replaced by 0 every pixel is mapped to the centre `(0, 0)`, so every luma byte
of the output is `Y[0]`. -/
theorem correctLensDistortion_sample_run :
    FrameCorrection_CorrectLensDistortion zeroLibm (lensSpecAfterMemset 0 0 0 0) none
        (some sampleY) (some sampleU) (some sampleV) 6 2 2 YUV420_NV12
        (some (calibrationFile 1 1 1 [(0, 0), (90, 100), (180, 200)]))
      = some (LDC_Status.LDC_STATUS_OK,
          some [some 11, some 11, some 11, some 11, some 21, some 31]) := by
  decide!

/-- C21 (amended): a failing call of `FrameCorrection_CorrectLensDistortion`
leaves `*YUV_out` as it was before the call only when an input plane `Y`, `U`
or `V` is missing.  When the three planes are present, `*YUV_out` is
reassigned to a newly allocated buffer of `img_size` bytes before the
calibration is read, so every call that then returns `LDC_STATUS_ERROR`
(because the calibration read fails or because combining fails) hands back
that new buffer, none of whose bytes has been written. -/
theorem C21_failing_call_output (m : Libm) (ls : LensSpec) (YUV_out Y U V : Option Buf)
    (img w h t : Nat) (file : Option (List ℚ)) :
    (∀ out, FrameCorrection_CorrectLensDistortion m ls YUV_out Y U V img w h t file
        = some (LDC_Status.LDC_STATUS_ERROR, out) →
      ((Y = none ∨ U = none ∨ V = none) ∧ out = YUV_out) ∨
      ((Y ≠ none ∧ U ≠ none ∧ V ≠ none) ∧ out = some (malloc img))) ∧
    ((Y = none ∨ U = none ∨ V = none) →
      FrameCorrection_CorrectLensDistortion m ls YUV_out Y U V img w h t file
        = some (LDC_Status.LDC_STATUS_ERROR, YUV_out)) ∧
    ((Y ≠ none ∧ U ≠ none ∧ V ≠ none) →
      ∀ ls1, ParamOperation_ReadParametersOfCorrection
          { ls with angle := List.replicate MAX_NUM_OF_LENS_PARAMETER 0,
                    height := List.replicate MAX_NUM_OF_LENS_PARAMETER 0 } file
          = some (LDC_Status.LDC_STATUS_ERROR, ls1) →
        FrameCorrection_CorrectLensDistortion m ls YUV_out Y U V img w h t file
          = some (LDC_Status.LDC_STATUS_ERROR, some (malloc img))) := by
  refine ⟨fun out hres => ?_,
    correctLensDistortion_missing_plane m ls YUV_out Y U V img w h t file, ?_⟩
  · by_cases hm : Y = none ∨ U = none ∨ V = none
    · left
      rw [correctLensDistortion_missing_plane m ls YUV_out Y U V img w h t file hm] at hres
      simp only [Option.some.injEq, Prod.mk.injEq, true_and] at hres
      exact ⟨hm, hres.symm⟩
    · right
      have hY : Y ≠ none := fun e => hm (Or.inl e)
      have hU : U ≠ none := fun e => hm (Or.inr (Or.inl e))
      have hV : V ≠ none := fun e => hm (Or.inr (Or.inr e))
      refine ⟨⟨hY, hU, hV⟩, ?_⟩
      obtain ⟨Y1, rfl⟩ := Option.ne_none_iff_exists'.1 hY
      obtain ⟨U1, rfl⟩ := Option.ne_none_iff_exists'.1 hU
      obtain ⟨V1, rfl⟩ := Option.ne_none_iff_exists'.1 hV
      rw [correctLensDistortion_unfold] at hres
      simp only [Option.bind_eq_some] at hres
      obtain ⟨res, _, hres⟩ := hres
      split_ifs at hres with h1
      · simp only [Option.some.injEq, Prod.mk.injEq, true_and] at hres
        exact hres.symm
      · simp only [Option.bind_eq_some] at hres
        obtain ⟨s, _, c, hc, hres⟩ := hres
        split_ifs at hres with h2
        · simp only [Option.some.injEq, Prod.mk.injEq, true_and] at hres
          have hce : c.1 = LDC_Status.LDC_STATUS_ERROR := by
            cases hc1 : c.1
            · exact absurd hc1 h2
            · rfl
          have hc2 : ComponentsStructure_CombineYUVComponents (some (malloc img))
              (some s.Y_out) (some s.U_out) (some s.V_out) w h img t
              = some (LDC_Status.LDC_STATUS_ERROR, c.2) := by
            rw [hc, ← hce]
          rw [← hres]
          exact combine_error_output _ _ _ _ _ _ _ _ _ hc2
        · simp only [Option.some.injEq, Prod.mk.injEq] at hres
          exact absurd hres.1 (by decide)
  · rintro ⟨hY, hU, hV⟩ ls1 hr
    obtain ⟨Y1, rfl⟩ := Option.ne_none_iff_exists'.1 hY
    obtain ⟨U1, rfl⟩ := Option.ne_none_iff_exists'.1 hU
    obtain ⟨V1, rfl⟩ := Option.ne_none_iff_exists'.1 hV
    rw [correctLensDistortion_unfold,
      xyz2Distorted_read_error m ls ls1 file w h _ _ _ _ _ _ hr, Option.some_bind]
    rw [if_pos (by decide)]

/-- C21 as stated fails when the calibration read fails: with the three planes
of the 2x2 sample frame present and a calibration file that cannot be opened,
the call returns `LDC_STATUS_ERROR`, but `*YUV_out`, which was `NULL`
(respectively a buffer holding the bytes 1 to 6) before the call, is a newly
allocated buffer of 6 unwritten bytes afterwards. -/
theorem C21_counterexample_calibration_failure :
    FrameCorrection_CorrectLensDistortion zeroLibm (lensSpecAfterMemset 0 0 0 0) none
        (some sampleY) (some sampleU) (some sampleV) 6 2 2 YUV420_NV12 none
      = some (LDC_Status.LDC_STATUS_ERROR, some (malloc 6)) ∧
    (some (malloc 6) : Option Buf) ≠ none ∧
    FrameCorrection_CorrectLensDistortion zeroLibm (lensSpecAfterMemset 0 0 0 0)
        (some [some 1, some 2, some 3, some 4, some 5, some 6])
        (some sampleY) (some sampleU) (some sampleV) 6 2 2 YUV420_NV12 none
      = some (LDC_Status.LDC_STATUS_ERROR, some (malloc 6)) ∧
    (some (malloc 6) : Option Buf) ≠ some [some 1, some 2, some 3, some 4, some 5, some 6] := by
  have hr : ∀ ls : LensSpec, ParamOperation_ReadParametersOfCorrection ls none
      = some (LDC_Status.LDC_STATUS_ERROR, ls) := fun _ => rfl
  refine ⟨?_, by decide, ?_, by decide⟩
  · rw [correctLensDistortion_unfold,
      xyz2Distorted_read_error zeroLibm _ _ none 2 2 _ _ _ _ _ _ (hr _), Option.some_bind]
    rw [if_pos (by decide)]
  · rw [correctLensDistortion_unfold,
      xyz2Distorted_read_error zeroLibm _ _ none 2 2 _ _ _ _ _ _ (hr _), Option.some_bind]
    rw [if_pos (by decide)]

/-- Effect of one iteration of the resampling loop on the chroma planes. -/
theorem resampleBody_chroma (Y U V : Buf) (h_d v_d : Nat → Nat → ℚ) (w h t : Nat)
    (hv : t = 1 ∨ t = 2) (hw2 : w % 2 = 0) (hh2 : t = 1 → h % 2 = 0)
    (hth : t * h < 2 ^ 31) (hC : (w / 2) * (t * h / 2) < 2 ^ 31)
    (x y : Nat) (hx : x < w) (hy : y < h) (s s2 : OutPlanes)
    (hb : resampleBody Y U V h_d v_d w h t x y s = some s2) :
    (¬ sourceInFrame h_d v_d w h x y → s2.U_out = s.U_out ∧ s2.V_out = s.V_out) ∧
    ∀ srcX srcY, srcOf h_d v_d x y = some (srcX, srcY) → inFrame w h srcX srcY →
      ∃ b c, U[chromaCell t w srcX.toNat srcY.toNat]? = some b ∧
        V[chromaCell t w srcX.toNat srcY.toNat]? = some c ∧
        chromaCell t w x y < s.U_out.length ∧ chromaCell t w x y < s.V_out.length ∧
        s2.U_out = s.U_out.set (chromaCell t w x y) b ∧
        s2.V_out = s.V_out.set (chromaCell t w x y) c := by
  simp only [resampleBody, Option.bind_eq_bind, Option.bind_eq_some] at hb
  obtain ⟨sx, hsx, sy, hsy, hb⟩ := hb
  have hsrc : srcOf h_d v_d x y = some (sx, sy) := srcOf_eq_some.2 ⟨hsx, hsy⟩
  by_cases hin : inFrame w h sx sy
  · rw [if_pos hin] at hb
    obtain ⟨h0x, h0y, hxw, hyh⟩ := hin
    obtain ⟨a, rfl⟩ := Int.eq_ofNat_of_zero_le h0x
    obtain ⟨b, rfl⟩ := Int.eq_ofNat_of_zero_le h0y
    have ha : a < w := by omega
    have hb2 : b < h := by omega
    simp only [Option.bind_eq_bind, Option.bind_eq_some, Option.pure_def, Option.some.injEq,
      dstChromaIndex_eq hv hw2 hh2 hx hy hth hC,
      srcChromaIndex_eq hv hw2 hh2 ha hb2 hth hC] at hb
    obtain ⟨_, _, _, _, dU, hdU, sU, hsU, u, hu, U1, hU1, dV, hdV, sV, hsV, v, hv1, V1, hV1,
      rfl⟩ := hb
    subst hdU hsU hdV hsV
    rw [loadAt_natCast] at hu hv1
    rw [storeAt_natCast, store_eq_some] at hU1 hV1
    obtain ⟨hUl, rfl⟩ := hU1
    obtain ⟨hVl, rfl⟩ := hV1
    refine ⟨fun hn => absurd ⟨(a : Int), (b : Int), hsrc, h0x, h0y, hxw, hyh⟩ hn, ?_⟩
    intro srcX srcY hs _
    rw [hsrc, Option.some.injEq, Prod.mk.injEq] at hs
    obtain ⟨rfl, rfl⟩ := hs
    simp only [Int.toNat_ofNat]
    exact ⟨u, v, load_eq_some.1 hu, load_eq_some.1 hv1, hUl, hVl, rfl, rfl⟩
  · rw [if_neg hin, Option.pure_def, Option.some.injEq] at hb
    subst hb
    refine ⟨fun _ => ⟨rfl, rfl⟩, ?_⟩
    intro srcX srcY hs hin2
    rw [hsrc, Option.some.injEq, Prod.mk.injEq] at hs
    obtain ⟨rfl, rfl⟩ := hs
    exact absurd hin2 hin

/-- One iteration of the resampling loop preserves the chroma invariant of a
plane. -/
theorem chromaInv_step (src dst0 : Buf) (h_d v_d : Nat → Nat → ℚ) (w h t : Nat)
    (tx ty : Nat) (htx : tx < w) (hty : ty < h) (dst dst2 : Buf)
    (hinv : ChromaInv src dst0 h_d v_d w h t tx ty dst)
    (hout : ¬ sourceInFrame h_d v_d w h tx ty → dst2 = dst)
    (hin : ∀ srcX srcY, srcOf h_d v_d tx ty = some (srcX, srcY) → inFrame w h srcX srcY →
      ∃ b, src[chromaCell t w srcX.toNat srcY.toNat]? = some b ∧
        chromaCell t w tx ty < dst.length ∧ dst2 = dst.set (chromaCell t w tx ty) b) :
    ChromaInv src dst0 h_d v_d w h t tx (ty + 1) dst2 := by
  obtain ⟨hlen, hcell⟩ := hinv
  have hlen2 : dst2.length = dst0.length := by
    by_cases hsf : sourceInFrame h_d v_d w h tx ty
    · obtain ⟨sx, sy, hs, hi⟩ := hsf
      obtain ⟨b, _, _, rfl⟩ := hin sx sy hs hi
      rw [List.length_set]
      exact hlen
    · rw [hout hsf]
      exact hlen
  refine ⟨hlen2, fun c => ⟨fun hnone => ?_, fun x y hx hy hvis hc hsf => ?_⟩⟩
  · have hold : dst[c]? = dst0[c]? :=
      (hcell c).1 (fun x y hx hy hvis hc =>
        hnone x y hx hy (visited_succ_row.2 (Or.inl hvis)) hc)
    by_cases hsf : sourceInFrame h_d v_d w h tx ty
    · have hne : chromaCell t w tx ty ≠ c := fun e =>
        hnone tx ty htx hty (visited_succ_row.2 (Or.inr ⟨rfl, rfl⟩)) e hsf
      obtain ⟨sx, sy, hs, hi⟩ := hsf
      obtain ⟨b, _, _, rfl⟩ := hin sx sy hs hi
      rw [List.getElem?_set_ne hne]
      exact hold
    · rw [hout hsf]
      exact hold
  · by_cases hnew : chromaCell t w tx ty = c ∧ sourceInFrame h_d v_d w h tx ty
    · obtain ⟨hc2, sx, sy, hs, hi⟩ := hnew
      obtain ⟨b, hb, hl, rfl⟩ := hin sx sy hs hi
      refine ⟨tx, ty, sx, sy, htx, hty, visited_succ_row.2 (Or.inr ⟨rfl, rfl⟩), hc2, hs, hi,
        ?_, ?_⟩
      · intro x1 y1 _ _ hv1 _ _
        unfold visited at hv1 ⊢
        omega
      · rw [← hc2, List.getElem?_set_self hl, hb]
    · have hold : visited tx ty x y := by
        rcases visited_succ_row.1 hvis with hv1 | ⟨rfl, rfl⟩
        · exact hv1
        · exact absurd ⟨hc, hsf⟩ hnew
      obtain ⟨x2, y2, sx, sy, hx2, hy2, hv2, hc2, hs2, hi2, hlast, hval⟩ :=
        (hcell c).2 x y hx hy hold hc hsf
      refine ⟨x2, y2, sx, sy, hx2, hy2, visited_succ_row.2 (Or.inl hv2), hc2, hs2, hi2,
        ?_, ?_⟩
      · intro x1 y1 hx1 hy1 hv1 hc1 hsf1
        rcases visited_succ_row.1 hv1 with hv1 | ⟨rfl, rfl⟩
        · exact hlast x1 y1 hx1 hy1 hv1 hc1 hsf1
        · exact absurd ⟨hc1, hsf1⟩ hnew
      · by_cases hsf0 : sourceInFrame h_d v_d w h tx ty
        · have hne : chromaCell t w tx ty ≠ c := fun e => hnew ⟨e, hsf0⟩
          obtain ⟨sx0, sy0, hs0, hi0⟩ := hsf0
          obtain ⟨b, _, _, rfl⟩ := hin sx0 sy0 hs0 hi0
          rw [List.getElem?_set_ne hne]
          exact hval
        · rw [hout hsf0]
          exact hval

theorem chromaInv_init (src dst0 : Buf) (h_d v_d : Nat → Nat → ℚ) (w h t : Nat) :
    ChromaInv src dst0 h_d v_d w h t 0 0 dst0 := by
  refine ⟨rfl, fun c => ⟨fun _ => rfl, fun x y _ _ hvis _ _ => ?_⟩⟩
  unfold visited at hvis
  omega

theorem chromaInv_next_column (src dst0 : Buf) (h_d v_d : Nat → Nat → ℚ) (w h t : Nat)
    (tx : Nat) (dst : Buf) (hinv : ChromaInv src dst0 h_d v_d w h t tx h dst) :
    ChromaInv src dst0 h_d v_d w h t (tx + 1) 0 dst := by
  obtain ⟨hlen, hcell⟩ := hinv
  refine ⟨hlen, fun c => ⟨fun hnone => ?_, fun x y hx hy hvis hc hsf => ?_⟩⟩
  · exact (hcell c).1 (fun x y hx hy hvis hc =>
      hnone x y hx hy ((visited_next_column hy).2 hvis) hc)
  · obtain ⟨x2, y2, sx, sy, hx2, hy2, hv2, hc2, hs2, hi2, hlast, hval⟩ :=
      (hcell c).2 x y hx hy ((visited_next_column hy).1 hvis) hc hsf
    exact ⟨x2, y2, sx, sy, hx2, hy2, (visited_next_column hy2).2 hv2, hc2, hs2, hi2,
      fun x1 y1 hx1 hy1 hv1 hc1 hsf1 =>
        hlast x1 y1 hx1 hy1 ((visited_next_column hy1).1 hv1) hc1 hsf1, hval⟩

/-- The chroma invariants of both planes hold after the resampling loop. -/
theorem resampleLoop_chroma (Y U V : Buf) (h_d v_d : Nat → Nat → ℚ) (w h t : Nat)
    (hv : t = 1 ∨ t = 2) (hw2 : w % 2 = 0) (hh2 : t = 1 → h % 2 = 0)
    (hfit : w * h + 2 * ((w / 2) * (t * h / 2)) < 2 ^ 32) (s s1 : OutPlanes)
    (hloop : resampleLoop Y U V h_d v_d w h t s = some s1) :
    ChromaInv U s.U_out h_d v_d w h t w 0 s1.U_out ∧
      ChromaInv V s.V_out h_d v_d w h t w 0 s1.V_out := by
  have hbody : ∀ tx ty, tx < w → ty < h → ∀ s2 s3 : OutPlanes,
      (ChromaInv U s.U_out h_d v_d w h t tx ty s2.U_out ∧
        ChromaInv V s.V_out h_d v_d w h t tx ty s2.V_out) →
      resampleBody Y U V h_d v_d w h t tx ty s2 = some s3 →
      ChromaInv U s.U_out h_d v_d w h t tx (ty + 1) s3.U_out ∧
        ChromaInv V s.V_out h_d v_d w h t tx (ty + 1) s3.V_out := by
    intro tx ty htx hty s2 s3 hinv hb
    obtain ⟨_, hth, hC⟩ := frame_bounds hv (by omega) hw2 hfit
    obtain ⟨hout, hin⟩ := resampleBody_chroma Y U V h_d v_d w h t hv hw2 hh2 hth hC tx ty
      htx hty s2 s3 hb
    constructor
    · apply chromaInv_step U s.U_out h_d v_d w h t tx ty htx hty s2.U_out s3.U_out hinv.1
        (fun hsf => (hout hsf).1)
      intro sx sy hs hi
      obtain ⟨b, c, hb1, _, hl, _, e, _⟩ := hin sx sy hs hi
      exact ⟨b, hb1, hl, e⟩
    · apply chromaInv_step V s.V_out h_d v_d w h t tx ty htx hty s2.V_out s3.V_out hinv.2
        (fun hsf => (hout hsf).2)
      intro sx sy hs hi
      obtain ⟨b, c, _, hc1, _, hl, _, e⟩ := hin sx sy hs hi
      exact ⟨c, hc1, hl, e⟩
  have hcol : ∀ tx, tx < w → ∀ s2 s3 : OutPlanes,
      (ChromaInv U s.U_out h_d v_d w h t tx 0 s2.U_out ∧
        ChromaInv V s.V_out h_d v_d w h t tx 0 s2.V_out) →
      forRange h (fun y s => resampleBody Y U V h_d v_d w h t tx y s) s2 = some s3 →
      ChromaInv U s.U_out h_d v_d w h t (tx + 1) 0 s3.U_out ∧
        ChromaInv V s.V_out h_d v_d w h t (tx + 1) 0 s3.V_out := by
    intro tx htx s2 s3 hinv hrun
    have hend := foldlM_range_inv (fun s y => resampleBody Y U V h_d v_d w h t tx y s)
      (fun ty s2 => ChromaInv U s.U_out h_d v_d w h t tx ty s2.U_out ∧
        ChromaInv V s.V_out h_d v_d w h t tx ty s2.V_out) h s2 s3 hinv
      (fun ty s4 s5 hty hP hb => hbody tx ty htx hty s4 s5 hP hb) hrun
    exact ⟨chromaInv_next_column U s.U_out h_d v_d w h t tx s3.U_out hend.1,
      chromaInv_next_column V s.V_out h_d v_d w h t tx s3.V_out hend.2⟩
  exact foldlM_range_inv
    (fun s x => forRange h (fun y s => resampleBody Y U V h_d v_d w h t x y s) s)
    (fun tx s2 => ChromaInv U s.U_out h_d v_d w h t tx 0 s2.U_out ∧
      ChromaInv V s.V_out h_d v_d w h t tx 0 s2.V_out) w s s1
    ⟨chromaInv_init U s.U_out h_d v_d w h t, chromaInv_init V s.V_out h_d v_d w h t⟩
    (fun tx s4 s5 htx hP hb => hcol tx htx s4 s5 hP hb) hloop

theorem visited_all {w x y : Nat} (hx : x < w) : visited w 0 x y := Or.inl hx

/-- Two pixels of a frame of even width share a chroma index exactly when
their halved coordinates agree. -/
theorem chromaCell_eq_iff {t w x y x1 y1 : Nat} (hw2 : w % 2 = 0) (hx : x < w)
    (hx1 : x1 < w) :
    chromaCell t w x y = chromaCell t w x1 y1 ↔ x / 2 = x1 / 2 ∧ t * y / 2 = t * y1 / 2 := by
  unfold chromaCell
  constructor
  · intro e
    exact pixel_index_inj (show x / 2 < w / 2 by omega) (show x1 / 2 < w / 2 by omega) e
  · rintro ⟨e1, e2⟩
    rw [e1, e2]

/-- C29: for even width and height, after the resampling loop (columns `x`
in the outer loop, rows `y` in the inner loop) each output chroma entry
`U_out[c]` and `V_out[c]` equals the source chroma sample at the chroma index of
`(srcX, srcY)` of the last pixel, in that scan order, among the pixels sharing
the chroma index `c` whose source is in range (`visited x1 y1 x y` says that
`(x, y)` comes before `(x1, y1)` in the scan), and holds its pre-loop value
when none of those pixels has an in-range source; in particular the chroma
entry of an out-of-range pixel is overwritten whenever another pixel sharing
its chroma index (the same 2x2 block for `YUV420_NV12`, the same horizontal
pair for `YUV422I_UYVY`) is in range.  The frame size is a `uint32_t` value. -/
theorem C29_chroma_last_writer (Y U V : Buf) (h_d v_d : Nat → Nat → ℚ) (w h t : Nat)
    (s : OutPlanes) (hv : t = YUV420_NV12 ∨ t = YUV422I_UYVY) (hw2 : w % 2 = 0)
    (hh2 : h % 2 = 0) (hfit : w * h + 2 * ((w / 2) * (t * h / 2)) < 2 ^ 32) :
    (∀ s1, resampleLoop Y U V h_d v_d w h t s = some s1 → ∀ c,
      ((∀ x y, x < w → y < h → chromaCell t w x y = c →
          ¬ sourceInFrame h_d v_d w h x y) →
        s1.U_out[c]? = (s).U_out[c]? ∧ s1.V_out[c]? = (s).V_out[c]?) ∧
      (∀ x y, x < w → y < h → chromaCell t w x y = c →
        ∀ srcX srcY, srcOf h_d v_d x y = some (srcX, srcY) → inFrame w h srcX srcY →
        (∀ x1 y1, x1 < w → y1 < h → chromaCell t w x1 y1 = c →
          sourceInFrame h_d v_d w h x1 y1 → ¬ visited x1 y1 x y) →
        s1.U_out[c]? = U[chromaCell t w srcX.toNat srcY.toNat]? ∧
        s1.V_out[c]? = V[chromaCell t w srcX.toNat srcY.toNat]?) ∧
      (∀ x y, x < w → y < h → chromaCell t w x y = c →
        ¬ sourceInFrame h_d v_d w h x y →
        ∀ x1 y1, x1 < w → y1 < h → chromaCell t w x1 y1 = c →
        sourceInFrame h_d v_d w h x1 y1 →
        ∃ x2 y2 srcX srcY, x2 < w ∧ y2 < h ∧ chromaCell t w x2 y2 = c ∧
          srcOf h_d v_d x2 y2 = some (srcX, srcY) ∧ inFrame w h srcX srcY ∧
          s1.U_out[c]? = U[chromaCell t w srcX.toNat srcY.toNat]? ∧
          s1.V_out[c]? = V[chromaCell t w srcX.toNat srcY.toNat]?)) ∧
    (ResampleReady Y U V h_d v_d w h t s →
      ∃ s1, resampleLoop Y U V h_d v_d w h t s = some s1) ∧
    (∀ x y x1 y1, x < w → x1 < w →
      (chromaCell t w x y = chromaCell t w x1 y1 ↔
        x / 2 = x1 / 2 ∧ t * y / 2 = t * y1 / 2)) := by
  have hv1 : t = 1 ∨ t = 2 := hv
  refine ⟨fun s1 hloop c => ?_, resampleLoop_returns Y U V h_d v_d w h t s,
    fun x y x1 y1 hx hx1 => chromaCell_eq_iff hw2 hx hx1⟩
  obtain ⟨⟨_, hU⟩, ⟨_, hV⟩⟩ := resampleLoop_chroma Y U V h_d v_d w h t hv1 hw2
    (fun _ => hh2) hfit s s1 hloop
  have hlastU : ∀ x y, x < w → y < h → chromaCell t w x y = c →
      sourceInFrame h_d v_d w h x y →
      ∃ x2 y2 srcX srcY, x2 < w ∧ y2 < h ∧ chromaCell t w x2 y2 = c ∧
        srcOf h_d v_d x2 y2 = some (srcX, srcY) ∧ inFrame w h srcX srcY ∧
        (∀ x1 y1, x1 < w → y1 < h → chromaCell t w x1 y1 = c →
          sourceInFrame h_d v_d w h x1 y1 → ¬ visited x1 y1 x2 y2) ∧
        s1.U_out[c]? = U[chromaCell t w srcX.toNat srcY.toNat]? ∧
        s1.V_out[c]? = V[chromaCell t w srcX.toNat srcY.toNat]? := by
    intro x y hx hy hc hsf
    obtain ⟨x2, y2, sx, sy, hx2, hy2, _, hc2, hs2, hi2, hlast2, hval2⟩ :=
      (hU c).2 x y hx hy (visited_all hx) hc hsf
    obtain ⟨x3, y3, sx3, sy3, hx3, hy3, _, hc3, hs3, hi3, hlast3, hval3⟩ :=
      (hV c).2 x y hx hy (visited_all hx) hc hsf
    have h23 := hlast2 x3 y3 hx3 hy3 (visited_all hx3) hc3 ⟨sx3, sy3, hs3, hi3⟩
    have h32 := hlast3 x2 y2 hx2 hy2 (visited_all hx2) hc2 ⟨sx, sy, hs2, hi2⟩
    have hxy : x3 = x2 ∧ y3 = y2 := by
      unfold visited at h23 h32
      omega
    obtain ⟨rfl, rfl⟩ := hxy
    rw [hs2, Option.some.injEq, Prod.mk.injEq] at hs3
    obtain ⟨rfl, rfl⟩ := hs3
    exact ⟨x3, y3, sx, sy, hx2, hy2, hc2, hs2, hi2,
      fun x1 y1 hx1 hy1 hc1 hsf1 => hlast2 x1 y1 hx1 hy1 (visited_all hx1) hc1 hsf1,
      hval2, hval3⟩
  refine ⟨fun hnone => ?_, fun x y hx hy hc sx sy hs hi hlast => ?_,
    fun x y hx hy hc _ x1 y1 hx1 hy1 hc1 hsf1 => ?_⟩
  · exact ⟨(hU c).1 (fun x y hx hy _ hc => hnone x y hx hy hc),
      (hV c).1 (fun x y hx hy _ hc => hnone x y hx hy hc)⟩
  · obtain ⟨x2, y2, sx2, sy2, hx2, hy2, hc2, hs2, hi2, hlast2, hvalU, hvalV⟩ :=
      hlastU x y hx hy hc ⟨sx, sy, hs, hi⟩
    have h1 := hlast2 x y hx hy hc ⟨sx, sy, hs, hi⟩
    have h2 := hlast x2 y2 hx2 hy2 hc2 ⟨sx2, sy2, hs2, hi2⟩
    have hxy : x2 = x ∧ y2 = y := by
      unfold visited at h1 h2
      omega
    obtain ⟨rfl, rfl⟩ := hxy
    rw [hs, Option.some.injEq, Prod.mk.injEq] at hs2
    obtain ⟨rfl, rfl⟩ := hs2
    exact ⟨hvalU, hvalV⟩
  · obtain ⟨x2, y2, sx2, sy2, hx2, hy2, hc2, hs2, hi2, _, hvalU, hvalV⟩ :=
      hlastU x1 y1 hx1 hy1 hc1 hsf1
    exact ⟨x2, y2, sx2, sy2, hx2, hy2, hc2, hs2, hi2, hvalU, hvalV⟩

/-- Instance of C29: the 2x2 `YUV420_NV12` sample frame with every pixel
displaced one column to the right. -/
theorem C29_chroma_last_writer_witness :
    (∀ s1, resampleLoop sampleY sampleU sampleV shiftedColumns v_p 2 2 YUV420_NV12 sampleOut = some s1 → ∀ c,
      ((∀ x y, x < 2 → y < 2 → chromaCell YUV420_NV12 2 x y = c →
          ¬ sourceInFrame shiftedColumns v_p 2 2 x y) →
        s1.U_out[c]? = (sampleOut).U_out[c]? ∧ s1.V_out[c]? = (sampleOut).V_out[c]?) ∧
      (∀ x y, x < 2 → y < 2 → chromaCell YUV420_NV12 2 x y = c →
        ∀ srcX srcY, srcOf shiftedColumns v_p x y = some (srcX, srcY) → inFrame 2 2 srcX srcY →
        (∀ x1 y1, x1 < 2 → y1 < 2 → chromaCell YUV420_NV12 2 x1 y1 = c →
          sourceInFrame shiftedColumns v_p 2 2 x1 y1 → ¬ visited x1 y1 x y) →
        s1.U_out[c]? = sampleU[chromaCell YUV420_NV12 2 srcX.toNat srcY.toNat]? ∧
        s1.V_out[c]? = sampleV[chromaCell YUV420_NV12 2 srcX.toNat srcY.toNat]?) ∧
      (∀ x y, x < 2 → y < 2 → chromaCell YUV420_NV12 2 x y = c →
        ¬ sourceInFrame shiftedColumns v_p 2 2 x y →
        ∀ x1 y1, x1 < 2 → y1 < 2 → chromaCell YUV420_NV12 2 x1 y1 = c →
        sourceInFrame shiftedColumns v_p 2 2 x1 y1 →
        ∃ x2 y2 srcX srcY, x2 < 2 ∧ y2 < 2 ∧ chromaCell YUV420_NV12 2 x2 y2 = c ∧
          srcOf shiftedColumns v_p x2 y2 = some (srcX, srcY) ∧ inFrame 2 2 srcX srcY ∧
          s1.U_out[c]? = sampleU[chromaCell YUV420_NV12 2 srcX.toNat srcY.toNat]? ∧
          s1.V_out[c]? = sampleV[chromaCell YUV420_NV12 2 srcX.toNat srcY.toNat]?)) ∧
    (ResampleReady sampleY sampleU sampleV shiftedColumns v_p 2 2 YUV420_NV12 sampleOut →
      ∃ s1, resampleLoop sampleY sampleU sampleV shiftedColumns v_p 2 2 YUV420_NV12 sampleOut = some s1) ∧
    (∀ x y x1 y1, x < 2 → x1 < 2 →
      (chromaCell YUV420_NV12 2 x y = chromaCell YUV420_NV12 2 x1 y1 ↔
        x / 2 = x1 / 2 ∧ YUV420_NV12 * y / 2 = YUV420_NV12 * y1 / 2)) :=
  C29_chroma_last_writer sampleY sampleU sampleV shiftedColumns v_p 2 2 YUV420_NV12 sampleOut
    (Or.inl rfl) (by decide) (by decide) (by decide)

theorem splitNV12BodyLog_eq (YUV : Buf) (w h i : Nat) (s : SplitState) (log : WriteLog) :
    splitNV12BodyLog YUV w h i (s, log)
      = (splitNV12Body YUV w h i s).map
          (fun s2 => (s2, log ++ [(Target.U, s.j), (Target.V, s.j)])) := by
  unfold splitNV12BodyLog splitNV12Body storeLog
  simp only [Option.bind_eq_bind, Option.pure_def]
  cases load YUV (u32 (u32 (w * h) + i)) with
  | none => rfl
  | some a =>
    simp only [Option.some_bind]
    cases store s.U s.j a with
    | none => rfl
    | some U1 =>
      simp only [Option.map_some', Option.some_bind]
      cases load YUV (u32 (u32 (u32 (w * h) + i) + 1)) with
      | none => rfl
      | some b =>
        simp only [Option.some_bind]
        cases store s.V s.j b with
        | none => rfl
        | some V1 =>
          simp only [Option.map_some', Option.some_bind, List.append_assoc,
            List.singleton_append]

theorem splitUYVYBodyLog_eq (YUV : Buf) (i : Nat) (s : SplitState) (log : WriteLog) :
    splitUYVYBodyLog YUV i (s, log)
      = (splitUYVYBody YUV i s).map
          (fun s2 => (s2, log ++ ((Target.Y, s.j) ::
            (if i % 4 = 0 then [(Target.U, s.k), (Target.V, s.k)] else [])))) := by
  unfold splitUYVYBodyLog splitUYVYBody storeLog
  simp only [Option.bind_eq_bind, Option.pure_def]
  cases load YUV (u32 (i + 1)) with
  | none => rfl
  | some a =>
    simp only [Option.some_bind]
    cases store s.Y s.j a with
    | none => rfl
    | some Y1 =>
      simp only [Option.map_some', Option.some_bind]
      by_cases hpar : i % 4 = 0
      · simp only [if_pos hpar]
        cases load YUV i with
        | none => rfl
        | some b =>
          simp only [Option.some_bind]
          cases store s.U s.k b with
          | none => rfl
          | some U1 =>
            simp only [Option.map_some', Option.some_bind]
            cases load YUV (u32 (i + 2)) with
            | none => rfl
            | some c =>
              simp only [Option.some_bind]
              cases store s.V s.k c with
              | none => rfl
              | some V1 =>
                simp only [Option.map_some', Option.some_bind, List.append_assoc,
                  List.singleton_append, List.cons_append, List.nil_append]
      · simp only [if_neg hpar, Option.map_some']

theorem combineNV12BodyLog_eq (U V : Buf) (w h i : Nat) (s : CombineState) (log : WriteLog) :
    combineNV12BodyLog U V w h i (s, log)
      = (combineNV12Body U V w h i s).map
          (fun s2 => (s2, log ++ [(Target.YUV_out, u32 (u32 (w * h) + i)),
            (Target.YUV_out, u32 (u32 (u32 (w * h) + i) + 1))])) := by
  unfold combineNV12BodyLog combineNV12Body storeLog
  simp only [Option.bind_eq_bind, Option.pure_def]
  cases load U s.j with
  | none => rfl
  | some a =>
    simp only [Option.some_bind]
    cases store s.out (u32 (u32 (w * h) + i)) a with
    | none => rfl
    | some o1 =>
      simp only [Option.map_some', Option.some_bind]
      cases load V s.j with
      | none => rfl
      | some b =>
        simp only [Option.some_bind]
        cases store o1 (u32 (u32 (u32 (w * h) + i) + 1)) b with
        | none => rfl
        | some o2 =>
          simp only [Option.map_some', Option.some_bind, List.append_assoc,
            List.singleton_append]

theorem combineUYVYBodyLog_eq (Y U V : Buf) (i : Nat) (s : CombineState) (log : WriteLog) :
    combineUYVYBodyLog Y U V i (s, log)
      = (combineUYVYBody Y U V i s).map
          (fun s2 => (s2, log ++ ((Target.YUV_out, u32 (i + 1)) ::
            (if i % 4 = 0 then [(Target.YUV_out, i), (Target.YUV_out, u32 (i + 2))]
              else [])))) := by
  unfold combineUYVYBodyLog combineUYVYBody storeLog
  simp only [Option.bind_eq_bind, Option.pure_def]
  cases load Y s.j with
  | none => rfl
  | some a =>
    simp only [Option.some_bind]
    cases store s.out (u32 (i + 1)) a with
    | none => rfl
    | some o1 =>
      simp only [Option.map_some', Option.some_bind]
      by_cases hpar : i % 4 = 0
      · simp only [if_pos hpar]
        cases load U s.k with
        | none => rfl
        | some b =>
          simp only [Option.some_bind]
          cases store o1 i b with
          | none => rfl
          | some o2 =>
            simp only [Option.map_some', Option.some_bind]
            cases load V s.k with
            | none => rfl
            | some c =>
              simp only [Option.some_bind]
              cases store o2 (u32 (i + 2)) c with
              | none => rfl
              | some o3 =>
                simp only [Option.map_some', Option.some_bind, List.append_assoc,
                  List.singleton_append, List.cons_append, List.nil_append]
      · simp only [if_neg hpar, Option.map_some']

/-- Loop rule for a body that records its writes: the logged loop completes
with the state of the plain loop, and the log satisfies the invariant `Q`. -/
theorem foldlM_range_logged {σ : Type} (f : σ → Nat → Option σ)
    (g : σ × WriteLog → Nat → Option (σ × WriteLog)) (W : σ → Nat → WriteLog)
    (hg : ∀ s log t, g (s, log) t = (f s t).map (fun s2 => (s2, log ++ W s t)))
    (P : Nat → σ → Prop) (Q : Nat → WriteLog → Prop) (n : Nat) (s0 : σ) (log0 : WriteLog)
    (hP0 : P 0 s0) (hQ0 : Q 0 log0)
    (hstep : ∀ t s s2, t < n → P t s → f s t = some s2 → P (t + 1) s2)
    (hex : ∀ t s, t < n → P t s → ∃ s2, f s t = some s2)
    (hlog : ∀ t s log, t < n → P t s → Q t log → Q (t + 1) (log ++ W s t)) :
    ∃ s1 log1, (List.range n).foldlM g (s0, log0) = some (s1, log1) ∧
      (List.range n).foldlM f s0 = some s1 ∧ P n s1 ∧ Q n log1 := by
  obtain ⟨⟨s1, log1⟩, hrun, hP, hQ, hplain⟩ := foldlM_range_total g
    (fun t sl => P t sl.1 ∧ Q t sl.2 ∧ (List.range t).foldlM f s0 = some sl.1) n (s0, log0)
    ⟨hP0, hQ0, by simp⟩
    (fun t sl sl2 ht hinv hb => by
      obtain ⟨s, log⟩ := sl
      obtain ⟨hPs, hQs, hfs⟩ := hinv
      rw [hg] at hb
      obtain ⟨s2, hs2⟩ := hex t s ht hPs
      rw [hs2, Option.map_some', Option.some.injEq] at hb
      subst hb
      refine ⟨hstep t s s2 ht hPs hs2, hlog t s log ht hPs hQs, ?_⟩
      rw [List.range_succ, List.foldlM_append, hfs]
      simp [hs2])
    (fun t sl ht hinv => by
      obtain ⟨s, log⟩ := sl
      obtain ⟨s2, hs2⟩ := hex t s ht hinv.1
      exact ⟨(s2, log ++ W s t), by rw [hg, hs2, Option.map_some']⟩)
  exact ⟨s1, log1, hrun, hplain, hP, hQ⟩

theorem count_range_map (a b : Target) (n i : Nat) :
    ((List.range n).map (fun k => (a, k))).count (b, i)
      = if a = b ∧ i < n then 1 else 0 := by
  induction n with
  | zero => simp
  | succ n ih =>
    rw [List.range_succ, List.map_append, List.count_append, ih]
    simp only [List.map_cons, List.map_nil, List.count_cons, List.count_nil, beq_iff_eq,
      Prod.mk.injEq, Nat.zero_add]
    by_cases hab : a = b
    · by_cases h1 : i < n
      · rw [if_pos ⟨hab, h1⟩, if_neg (by omega), if_pos ⟨hab, by omega⟩]
      · by_cases h2 : n = i
        · rw [if_neg (by omega), if_pos ⟨hab, h2⟩, if_pos ⟨hab, by omega⟩]
        · rw [if_neg (by omega), if_neg (by omega), if_neg (by omega)]
    · rw [if_neg (fun h => hab h.1), if_neg (fun h => hab h.1), if_neg (fun h => hab h.1)]

theorem count_cons_pair (a b : Target) (t i : Nat) (l : WriteLog) :
    ((a, t) :: l).count (b, i) = l.count (b, i) + if a = b ∧ t = i then 1 else 0 := by
  rw [List.count_cons]
  simp only [beq_iff_eq, Prod.mk.injEq]

theorem writesOnce_range_map (a b : Target) (n : Nat) :
    WritesOnce ((List.range n).map (fun k => (a, k))) b (if a = b then n else 0) := by
  intro i
  rw [count_range_map]
  by_cases hab : a = b
  · simp [hab]
  · simp [hab]

/-- Appending two writes of the cell `t` of two arrays other than `tgt`
leaves the count for `tgt` unchanged; appending a write of cell `t` of `tgt`
extends the written range by one. -/
theorem writesOnce_append_other (log extra : WriteLog) (tgt : Target) (n : Nat)
    (h : WritesOnce log tgt n) (hx : ∀ i, extra.count (tgt, i) = 0) :
    WritesOnce (log ++ extra) tgt n := by
  intro i
  rw [List.count_append, h i, hx i, Nat.add_zero]

theorem writesOnce_append_next (log extra : WriteLog) (tgt : Target) (n k : Nat)
    (h : WritesOnce log tgt n)
    (hx : ∀ i, extra.count (tgt, i) = if n ≤ i ∧ i < n + k then 1 else 0) :
    WritesOnce (log ++ extra) tgt (n + k) := by
  intro i
  rw [List.count_append, h i, hx i]
  by_cases h1 : i < n
  · rw [if_pos h1, if_neg (by omega), if_pos (by omega)]
  · by_cases h2 : i < n + k
    · rw [if_neg h1, if_pos ⟨by omega, h2⟩, if_pos h2]
    · rw [if_neg h1, if_neg (by omega), if_neg h2]

/-- The logged `YUV420_NV12` split: every plane cell is written exactly once. -/
theorem split_NV12_logged (buf : Buf) (w h : Nat) (hw2 : w % 2 = 0) (hh2 : h % 2 = 0)
    (hlen : buf.length = w * h + 2 * ((w / 2) * (h / 2))) (hL : buf.length < 2 ^ 32) :
    ∃ p log, SplitYUV2ComponentLog (some buf) w h buf.length 1
        = some (LDC_Status.LDC_STATUS_OK, p, log) ∧
      ComponentsStructure_SplitYUV2Component (some buf) w h buf.length 1
        = some (LDC_Status.LDC_STATUS_OK, p) ∧
      WritesOnce log Target.Y (w * h) ∧ WritesOnce log Target.U ((w / 2) * (h / 2)) ∧
      WritesOnce log Target.V ((w / 2) * (h / 2)) ∧ WritesOnce log Target.YUV_out 0 := by
  have hn : w * h < 2 ^ 32 := by omega
  have e0 : u32 (w * h) = w * h := u32_of_lt hn
  have h4 := even_mul_even_eq hw2 hh2
  have hm : memcpy (malloc (w * h)) buf (w * h)
      = some (buf.take (w * h) ++ (malloc (w * h) : Buf).drop (w * h)) := by
    rw [memcpy_eq_some]
    exact ⟨⟨by omega, by simp [length_malloc]⟩, rfl⟩
  have hb : ¬ (2 ^ 32 - 1 ≤ w * h / 2) := by omega
  have hT : (w * h / 2 + 1) / 2 = (w / 2) * (h / 2) := by omega
  obtain ⟨s1, log1, hrun, hplain, _, hQY, hQU, hQV, hQO⟩ := foldlM_range_logged
    (fun s t => splitNV12Body buf w h (2 * t) s)
    (fun sl t => splitNV12BodyLog buf w h (2 * t) sl)
    (fun s _ => [(Target.U, s.j), (Target.V, s.j)])
    (fun s log t => splitNV12BodyLog_eq buf w h (2 * t) s log)
    (SplitNV12Inv buf (w * h) ((w / 2) * (h / 2))
      (buf.take (w * h) ++ (malloc (w * h) : Buf).drop (w * h)))
    (fun t log => WritesOnce log Target.Y (w * h) ∧ WritesOnce log Target.U t ∧
      WritesOnce log Target.V t ∧ WritesOnce log Target.YUV_out 0)
    ((w * h / 2 + 1) / 2)
    ⟨0, 0, buf.take (w * h) ++ (malloc (w * h) : Buf).drop (w * h),
      malloc ((w / 2) * (h / 2)), malloc ((w / 2) * (h / 2))⟩
    ([] ++ (List.range (w * h)).map (fun i => (Target.Y, i)))
    ⟨rfl, rfl, length_malloc _, length_malloc _, Nat.zero_le _, fun m hm => absurd hm (by omega)⟩
    (by
      rw [List.nil_append]
      exact ⟨writesOnce_range_map Target.Y Target.Y _, writesOnce_range_map Target.Y Target.U _,
        writesOnce_range_map Target.Y Target.V _, writesOnce_range_map Target.Y Target.YUV_out _⟩)
    (fun t s s2 _ hP hb => splitNV12Body_pres buf w h _ (by omega) _ t s s2 hP hb)
    (fun t s ht hP => splitNV12Body_ex buf w h _ (by omega) hlen _ t s (by omega) hP)
    (fun t s log _ hP hQ => by
      obtain ⟨hj, _⟩ := hP
      obtain ⟨q1, q2, q3, q4⟩ := hQ
      simp only [hj]
      refine ⟨writesOnce_append_other _ _ _ _ q1 (fun i => by simp [count_cons_pair]),
        writesOnce_append_next _ _ _ t 1 q2 (fun i => ?_),
        writesOnce_append_next _ _ _ t 1 q3 (fun i => ?_),
        writesOnce_append_other _ _ _ _ q4 (fun i => by simp [count_cons_pair])⟩
      · simp only [count_cons_pair, List.count_nil]
        by_cases e : t = i
        · simp [e]
        · have h1 : ¬ (t ≤ i ∧ i < t + 1) := by omega
          simp [e, h1]
      · simp only [count_cons_pair, List.count_nil]
        by_cases e : t = i
        · simp [e]
        · have h1 : ¬ (t ≤ i ∧ i < t + 1) := by omega
          simp [e, h1])
  rw [hT] at hQU hQV
  refine ⟨⟨s1.Y, s1.U, s1.V⟩, log1, ?_, ?_, hQY, hQU, hQV, hQO⟩
  · simp only [SplitYUV2ComponentLog, memcpyLog, YUV420_NV12, if_true, lumaSize,
      chromaSize_NV12 hn, e0, hm, forStep2, if_neg hb, hrun, Option.bind_eq_bind,
      Option.some_bind, Option.pure_def, Option.map_some']
  · simp only [ComponentsStructure_SplitYUV2Component, YUV420_NV12, if_true, lumaSize,
      chromaSize_NV12 hn, e0, hm, forStep2, if_neg hb, hplain, Option.bind_eq_bind,
      Option.some_bind, Option.pure_def]

/-- The logged `YUV422I_UYVY` split: every plane cell is written exactly once. -/
theorem split_UYVY_logged (buf : Buf) (w h : Nat) (hw2 : w % 2 = 0)
    (hlen : buf.length = w * h + 2 * ((w / 2) * (2 * h / 2))) (hL : buf.length < 2 ^ 32) :
    ∃ p log, SplitYUV2ComponentLog (some buf) w h buf.length 2
        = some (LDC_Status.LDC_STATUS_OK, p, log) ∧
      ComponentsStructure_SplitYUV2Component (some buf) w h buf.length 2
        = some (LDC_Status.LDC_STATUS_OK, p) ∧
      WritesOnce log Target.Y (w * h) ∧ WritesOnce log Target.U ((w / 2) * (2 * h / 2)) ∧
      WritesOnce log Target.V ((w / 2) * (2 * h / 2)) ∧ WritesOnce log Target.YUV_out 0 := by
  have e2h : 2 * h / 2 = h := by omega
  have e3 : w * h = 2 * ((w / 2) * h) := by
    rw [Nat.mul_comm w h, even_width_mul hw2 h, Nat.mul_comm h (w / 2)]
  rw [e2h] at hlen ⊢
  have hsz : lumaSize w h ≤ buf.length ∧ chromaSize w h 2 ≤ buf.length ∧
      buf.length % 4 = 0 ∧ buf.length ≤ 2 * lumaSize w h ∧
      buf.length ≤ 4 * chromaSize w h 2 := by
    rcases Nat.eq_zero_or_pos w with hw | hw
    · subst hw
      have h0 : buf.length = 0 := by simpa using hlen
      simp [lumaSize, chromaSize, u32, h0]
    · obtain ⟨hs1, hs2, hs3⟩ := uyvy_sizes (h := h) hw hw2 (by rw [e2h]; omega)
      omega
  obtain ⟨_, _, h4, hNY, hNC⟩ := hsz
  have hb : ¬ (2 ^ 32 - 1 ≤ buf.length) := by omega
  have hT : (buf.length + 1) / 2 = w * h := by omega
  obtain ⟨s1, log1, hrun, hplain, _, hQY, hQU, hQV, hQO⟩ := foldlM_range_logged
    (fun s t => splitUYVYBody buf (2 * t) s)
    (fun sl t => splitUYVYBodyLog buf (2 * t) sl)
    (fun s t => (Target.Y, s.j) ::
      (if (2 * t) % 4 = 0 then [(Target.U, s.k), (Target.V, s.k)] else []))
    (fun s log t => splitUYVYBodyLog_eq buf (2 * t) s log)
    (SplitUYVYInv buf (lumaSize w h) (chromaSize w h 2))
    (fun t log => WritesOnce log Target.Y t ∧ WritesOnce log Target.U ((t + 1) / 2) ∧
      WritesOnce log Target.V ((t + 1) / 2) ∧ WritesOnce log Target.YUV_out 0)
    ((buf.length + 1) / 2)
    ⟨0, 0, malloc (lumaSize w h), malloc (chromaSize w h 2), malloc (chromaSize w h 2)⟩
    []
    ⟨rfl, rfl, length_malloc _, length_malloc _, length_malloc _,
      fun m hm => absurd hm (by omega), fun m hm => absurd hm (by omega)⟩
    ⟨fun i => by simp, fun i => by simp, fun i => by simp, fun i => by simp⟩
    (fun t s s2 ht hP hb => splitUYVYBody_pres buf _ _ t (by omega) s s2 hP hb)
    (fun t s ht hP => splitUYVYBody_ex buf _ _ hL h4 hNY hNC t ht s hP)
    (fun t s log _ hP hQ => by
      obtain ⟨hj, hk, _⟩ := hP
      obtain ⟨q1, q2, q3, q4⟩ := hQ
      simp only [hj, hk]
      by_cases hpar : (2 * t) % 4 = 0
      · have eb : (t + 1 + 1) / 2 = (t + 1) / 2 + 1 := by omega
        rw [if_pos hpar, eb]
        refine ⟨writesOnce_append_next _ _ _ t 1 q1 (fun i => ?_),
          writesOnce_append_next _ _ _ _ 1 q2 (fun i => ?_),
          writesOnce_append_next _ _ _ _ 1 q3 (fun i => ?_),
          writesOnce_append_other _ _ _ _ q4 (fun i => by simp [count_cons_pair])⟩
        · simp only [count_cons_pair, List.count_nil]
          by_cases e : t = i
          · simp [e]
          · have h1 : ¬ (t ≤ i ∧ i < t + 1) := by omega
            simp [e, h1]
        · simp only [count_cons_pair, List.count_nil]
          by_cases e : (t + 1) / 2 = i
          · simp [e]
          · have h1 : ¬ ((t + 1) / 2 ≤ i ∧ i < (t + 1) / 2 + 1) := by omega
            simp [e, h1]
        · simp only [count_cons_pair, List.count_nil]
          by_cases e : (t + 1) / 2 = i
          · simp [e]
          · have h1 : ¬ ((t + 1) / 2 ≤ i ∧ i < (t + 1) / 2 + 1) := by omega
            simp [e, h1]
      · have eb : (t + 1 + 1) / 2 = (t + 1) / 2 := by omega
        rw [if_neg hpar, eb]
        refine ⟨writesOnce_append_next _ _ _ t 1 q1 (fun i => ?_),
          writesOnce_append_other _ _ _ _ q2 (fun i => by simp [count_cons_pair]),
          writesOnce_append_other _ _ _ _ q3 (fun i => by simp [count_cons_pair]),
          writesOnce_append_other _ _ _ _ q4 (fun i => by simp [count_cons_pair])⟩
        simp only [count_cons_pair, List.count_nil]
        by_cases e : t = i
        · simp [e]
        · have h1 : ¬ (t ≤ i ∧ i < t + 1) := by omega
          simp [e, h1])
  have hC : (w * h + 1) / 2 = (w / 2) * h := by omega
  rw [hT] at hQY hQU hQV
  rw [hC] at hQU hQV
  refine ⟨⟨s1.Y, s1.U, s1.V⟩, log1, ?_, ?_, hQY, hQU, hQV, hQO⟩
  · simp only [SplitYUV2ComponentLog, YUV420_NV12, YUV422I_UYVY, forStep2, if_neg hb, hrun,
      Option.bind_eq_bind, Option.some_bind, Option.pure_def]
    rfl
  · rw [split_UYVY_unfold]
    simp only [forStep2, if_neg hb, hplain, Option.some_bind]

/-- The logged `YUV420_NV12` combine: every byte of the output buffer is
written exactly once. -/
theorem combine_NV12_logged (out0 Y U V : Buf) (w h img : Nat)
    (hw2 : w % 2 = 0) (hh2 : h % 2 = 0)
    (hYl : Y.length = w * h) (hUl : U.length = (w / 2) * (h / 2))
    (hVl : V.length = (w / 2) * (h / 2))
    (hol : out0.length = w * h + 2 * ((w / 2) * (h / 2))) (hL : out0.length < 2 ^ 32) :
    ∃ out log, CombineYUVComponentsLog (some out0) (some Y) (some U) (some V) w h img 1
        = some (LDC_Status.LDC_STATUS_OK, some out, log) ∧
      ComponentsStructure_CombineYUVComponents (some out0) (some Y) (some U) (some V)
        w h img 1 = some (LDC_Status.LDC_STATUS_OK, some out) ∧
      out.length = out0.length ∧
      WritesOnce log Target.YUV_out out0.length ∧ WritesOnce log Target.Y 0 ∧
      WritesOnce log Target.U 0 ∧ WritesOnce log Target.V 0 := by
  have hn : w * h < 2 ^ 32 := by omega
  have e0 : u32 (w * h) = w * h := u32_of_lt hn
  have h4 := even_mul_even_eq hw2 hh2
  have hm : memcpy out0 Y (w * h) = some (Y.take (w * h) ++ out0.drop (w * h)) := by
    rw [memcpy_eq_some]
    exact ⟨⟨by omega, by omega⟩, rfl⟩
  have hb : ¬ (2 ^ 32 - 1 ≤ w * h / 2) := by omega
  have hT : (w * h / 2 + 1) / 2 = (w / 2) * (h / 2) := by omega
  have hlen1 : (Y.take (w * h) ++ out0.drop (w * h)).length = out0.length := by
    simp
    omega
  obtain ⟨s1, log1, hrun, hplain, hinv, hQO, hQY, hQU, hQV⟩ := foldlM_range_logged
    (fun s t => combineNV12Body U V w h (2 * t) s)
    (fun sl t => combineNV12BodyLog U V w h (2 * t) sl)
    (fun _ t => [(Target.YUV_out, u32 (u32 (w * h) + 2 * t)),
      (Target.YUV_out, u32 (u32 (u32 (w * h) + 2 * t) + 1))])
    (fun s log t => combineNV12BodyLog_eq U V w h (2 * t) s log)
    (CombineNV12Inv Y U V (w * h) out0.length)
    (fun t log => WritesOnce log Target.YUV_out (w * h + 2 * t) ∧ WritesOnce log Target.Y 0 ∧
      WritesOnce log Target.U 0 ∧ WritesOnce log Target.V 0)
    ((w * h / 2 + 1) / 2)
    ⟨0, 0, Y.take (w * h) ++ out0.drop (w * h)⟩
    ([] ++ (List.range (w * h)).map (fun i => (Target.YUV_out, i)))
    ⟨rfl, hlen1, fun i hi => by
        show (Y.take (w * h) ++ out0.drop (w * h))[i]? = Y[i]?
        rw [List.getElem?_append_left (by simp; omega), List.getElem?_take_of_lt hi],
      fun m hm => absurd hm (by omega)⟩
    (by
      rw [List.nil_append]
      exact ⟨writesOnce_range_map Target.YUV_out Target.YUV_out _,
        writesOnce_range_map Target.YUV_out Target.Y _,
        writesOnce_range_map Target.YUV_out Target.U _,
        writesOnce_range_map Target.YUV_out Target.V _⟩)
    (fun t s s2 ht hP hb => combineNV12Body_pres Y U V w h _ hL t (by omega) s s2 hP hb)
    (fun t s ht hP => combineNV12Body_ex Y U V w h _ hL t (by omega) (by omega) (by omega) s hP)
    (fun t s log ht _ hQ => by
      obtain ⟨q1, q2, q3, q4⟩ := hQ
      have e1 : u32 (w * h + 2 * t) = w * h + 2 * t := u32_of_lt (by omega)
      have e2 : u32 (w * h + 2 * t + 1) = w * h + 2 * t + 1 := u32_of_lt (by omega)
      have eb : w * h + 2 * (t + 1) = w * h + 2 * t + 2 := by omega
      simp only [e0, e1, e2]
      rw [eb]
      refine ⟨writesOnce_append_next _ _ _ _ 2 q1 (fun i => ?_),
        writesOnce_append_other _ _ _ _ q2 (fun i => by simp [count_cons_pair]),
        writesOnce_append_other _ _ _ _ q3 (fun i => by simp [count_cons_pair]),
        writesOnce_append_other _ _ _ _ q4 (fun i => by simp [count_cons_pair])⟩
      simp only [count_cons_pair, List.count_nil]
      by_cases ea : w * h + 2 * t = i
      · have h1 : ¬ (w * h + 2 * t + 1 = i) := by omega
        have h2 : w * h + 2 * t ≤ i ∧ i < w * h + 2 * t + 2 := by omega
        simp [ea, h1, h2]
      · by_cases ec : w * h + 2 * t + 1 = i
        · have h2 : w * h + 2 * t ≤ i ∧ i < w * h + 2 * t + 2 := by omega
          simp [ea, ec, h2]
        · have h2 : ¬ (w * h + 2 * t ≤ i ∧ i < w * h + 2 * t + 2) := by omega
          simp [ea, ec, h2])
  obtain ⟨_, hl, _, _⟩ := hinv
  have hfin : w * h + 2 * ((w * h / 2 + 1) / 2) = out0.length := by omega
  rw [hfin] at hQO
  refine ⟨s1.out, log1, ?_, ?_, hl, hQO, hQY, hQU, hQV⟩
  · simp only [CombineYUVComponentsLog, memcpyLog, YUV420_NV12, if_true, e0, hm, forStep2,
      if_neg hb, hrun, Option.bind_eq_bind, Option.some_bind, Option.pure_def,
      Option.map_some']
  · rw [combine_NV12_unfold]
    simp only [e0, hm, forStep2, if_neg hb, hplain, Option.some_bind]

/-- The logged `YUV422I_UYVY` combine: every byte of the output buffer is
written exactly once. -/
theorem combine_UYVY_logged (out0 Y U V : Buf) (w h : Nat)
    (hL : out0.length < 2 ^ 32) (h4 : out0.length % 4 = 0)
    (hY : out0.length ≤ 2 * Y.length) (hU : out0.length ≤ 4 * U.length)
    (hV : out0.length ≤ 4 * V.length) :
    ∃ out log, CombineYUVComponentsLog (some out0) (some Y) (some U) (some V) w h
        out0.length 2 = some (LDC_Status.LDC_STATUS_OK, some out, log) ∧
      ComponentsStructure_CombineYUVComponents (some out0) (some Y) (some U) (some V)
        w h out0.length 2 = some (LDC_Status.LDC_STATUS_OK, some out) ∧
      out.length = out0.length ∧
      WritesOnce log Target.YUV_out out0.length ∧ WritesOnce log Target.Y 0 ∧
      WritesOnce log Target.U 0 ∧ WritesOnce log Target.V 0 := by
  have hb : ¬ (2 ^ 32 - 1 ≤ out0.length) := by omega
  obtain ⟨s1, log1, hrun, hplain, hinv, hQO, hQY, hQU, hQV⟩ := foldlM_range_logged
    (fun s t => combineUYVYBody Y U V (2 * t) s)
    (fun sl t => combineUYVYBodyLog Y U V (2 * t) sl)
    (fun _ t => (Target.YUV_out, u32 (2 * t + 1)) ::
      (if (2 * t) % 4 = 0 then [(Target.YUV_out, 2 * t), (Target.YUV_out, u32 (2 * t + 2))]
        else []))
    (fun s log t => combineUYVYBodyLog_eq Y U V (2 * t) s log)
    (CombineUYVYInv Y U V out0.length)
    (fun t log => WritesOnce log Target.YUV_out (2 * t + t % 2) ∧ WritesOnce log Target.Y 0 ∧
      WritesOnce log Target.U 0 ∧ WritesOnce log Target.V 0)
    ((out0.length + 1) / 2) ⟨0, 0, out0⟩ []
    ⟨rfl, rfl, rfl, fun m hm => absurd hm (by omega), fun m hm => absurd hm (by omega)⟩
    ⟨fun i => by simp, fun i => by simp, fun i => by simp, fun i => by simp⟩
    (fun t s s2 ht hP hb => combineUYVYBody_pres Y U V _ t (by omega) s s2 hP hb)
    (fun t s ht hP => combineUYVYBody_ex Y U V _ hL h4 hY hU hV t ht s hP)
    (fun t s log ht _ hQ => by
      obtain ⟨q1, q2, q3, q4⟩ := hQ
      have e1 : u32 (2 * t + 1) = 2 * t + 1 := u32_of_lt (by omega)
      have e2 : u32 (2 * t + 2) = 2 * t + 2 := u32_of_lt (by omega)
      simp only [e1, e2]
      by_cases hpar : (2 * t) % 4 = 0
      · have eb : 2 * (t + 1) + (t + 1) % 2 = 2 * t + t % 2 + 3 := by omega
        have et : 2 * t + t % 2 = 2 * t := by omega
        rw [if_pos hpar, eb]
        refine ⟨writesOnce_append_next _ _ _ _ 3 q1 (fun i => ?_),
          writesOnce_append_other _ _ _ _ q2 (fun i => by simp [count_cons_pair]),
          writesOnce_append_other _ _ _ _ q3 (fun i => by simp [count_cons_pair]),
          writesOnce_append_other _ _ _ _ q4 (fun i => by simp [count_cons_pair])⟩
        rw [et]
        simp only [count_cons_pair, List.count_nil]
        by_cases ea : 2 * t = i
        · have h1 : ¬ (2 * t + 1 = i) := by omega
          have h2 : ¬ (2 * t + 2 = i) := by omega
          have h3 : 2 * t ≤ i ∧ i < 2 * t + 3 := by omega
          simp [ea, h1, h2, h3]
        · by_cases ec : 2 * t + 1 = i
          · have h2 : ¬ (2 * t + 2 = i) := by omega
            have h3 : 2 * t ≤ i ∧ i < 2 * t + 3 := by omega
            simp [ea, ec, h2, h3]
          · by_cases ed : 2 * t + 2 = i
            · have h3 : 2 * t ≤ i ∧ i < 2 * t + 3 := by omega
              simp [ea, ec, ed, h3]
            · have h3 : ¬ (2 * t ≤ i ∧ i < 2 * t + 3) := by omega
              simp [ea, ec, ed, h3]
      · have eb : 2 * (t + 1) + (t + 1) % 2 = 2 * t + t % 2 + 1 := by omega
        have et : 2 * t + t % 2 = 2 * t + 1 := by omega
        rw [if_neg hpar, eb]
        refine ⟨writesOnce_append_next _ _ _ _ 1 q1 (fun i => ?_),
          writesOnce_append_other _ _ _ _ q2 (fun i => by simp [count_cons_pair]),
          writesOnce_append_other _ _ _ _ q3 (fun i => by simp [count_cons_pair]),
          writesOnce_append_other _ _ _ _ q4 (fun i => by simp [count_cons_pair])⟩
        rw [et]
        simp only [count_cons_pair, List.count_nil]
        by_cases ea : 2 * t + 1 = i
        · simp [ea]
        · have h3 : ¬ (2 * t + 1 ≤ i ∧ i < 2 * t + 1 + 1) := by omega
          simp [ea, h3])
  obtain ⟨_, _, hl, _, _⟩ := hinv
  have hfin : 2 * ((out0.length + 1) / 2) + (out0.length + 1) / 2 % 2 = out0.length := by
    omega
  rw [hfin] at hQO
  refine ⟨s1.out, log1, ?_, ?_, hl, hQO, hQY, hQU, hQV⟩
  · simp only [CombineYUVComponentsLog, YUV420_NV12, YUV422I_UYVY, forStep2, if_neg hb, hrun,
      Option.bind_eq_bind, Option.some_bind, Option.pure_def]
    rfl
  · rw [combine_UYVY_unfold]
    simp only [forStep2, if_neg hb, hplain, Option.some_bind]

/-- C25: for even width and, for `YUV420_NV12`, even height (any height for
`YUV422I_UYVY`), and a buffer of the expected size
`width*height + 2*(width/2)*(variant*height/2)` (the `uint32_t` value
`img_size`), `ComponentsStructure_SplitYUV2Component` and
`ComponentsStructure_CombineYUVComponents` complete: no read or write falls
outside the buffer, the `Y` plane (`width*height` cells) or the `U` and `V`
planes (`(width/2)*(variant*height/2)` cells each), since any such access
makes the result undefined.  The run with every write recorded gives the same
result, and its log contains every cell of the planes (for the split),
respectively every byte of the output buffer (for the combine), exactly once
and nothing else. -/
theorem C25_codec_memory_safe (t w h : Nat) (buf out0 Y U V : Buf)
    (hv : t = YUV420_NV12 ∨ t = YUV422I_UYVY) (hw2 : w % 2 = 0)
    (hh2 : t = YUV420_NV12 → h % 2 = 0)
    (hlen : buf.length = w * h + 2 * ((w / 2) * (t * h / 2))) (hL : buf.length < 2 ^ 32)
    (hYl : Y.length = w * h) (hUl : U.length = (w / 2) * (t * h / 2))
    (hVl : V.length = (w / 2) * (t * h / 2)) (hol : out0.length = buf.length) :
    (∃ p log, SplitYUV2ComponentLog (some buf) w h (buf).length t
        = some (LDC_Status.LDC_STATUS_OK, p, log) ∧
      ComponentsStructure_SplitYUV2Component (some buf) w h (buf).length t
        = some (LDC_Status.LDC_STATUS_OK, p) ∧
      p.Y.length = w * h ∧ p.U.length = ((w / 2) * (t * h / 2)) ∧ p.V.length = ((w / 2) * (t * h / 2)) ∧
      WritesOnce log Target.Y (w * h) ∧ WritesOnce log Target.U ((w / 2) * (t * h / 2)) ∧
      WritesOnce log Target.V ((w / 2) * (t * h / 2)) ∧ WritesOnce log Target.YUV_out 0) ∧
    (∃ out log, CombineYUVComponentsLog (some out0) (some Y) (some U) (some V) w h
        (buf).length t = some (LDC_Status.LDC_STATUS_OK, some out, log) ∧
      ComponentsStructure_CombineYUVComponents (some out0) (some Y) (some U) (some V)
        w h (buf).length t = some (LDC_Status.LDC_STATUS_OK, some out) ∧
      out.length = (buf).length ∧
      WritesOnce log Target.YUV_out (buf).length ∧ WritesOnce log Target.Y 0 ∧
      WritesOnce log Target.U 0 ∧ WritesOnce log Target.V 0) := by
  have hv1 : t = 1 ∨ t = 2 := hv
  rcases hv1 with ht | ht
  · subst ht
    have hh := hh2 rfl
    simp only [Nat.one_mul] at hlen hUl hVl ⊢
    constructor
    · obtain ⟨p, log, h1, h2, q1, q2, q3, q4⟩ := split_NV12_logged buf w h hw2 hh hlen hL
      obtain ⟨_, l1, l2, l3, _, _⟩ := split_NV12_layout buf w h hlen hL _ p h2
      exact ⟨p, log, h1, h2, l1, l2, l3, q1, q2, q3, q4⟩
    · obtain ⟨out, log, h1, h2, hl, q1, q2, q3, q4⟩ := combine_NV12_logged out0 Y U V w h
        buf.length hw2 hh hYl hUl hVl (by omega) (by omega)
      rw [hol] at hl q1
      exact ⟨out, log, h1, h2, hl, q1, q2, q3, q4⟩
  · subst ht
    have e2h : 2 * h / 2 = h := by omega
    have e3 : w * h = 2 * ((w / 2) * h) := by
      rw [Nat.mul_comm w h, even_width_mul hw2 h, Nat.mul_comm h (w / 2)]
    constructor
    · obtain ⟨p, log, h1, h2, q1, q2, q3, q4⟩ := split_UYVY_logged buf w h hw2 hlen hL
      obtain ⟨_, l1, l2, l3, _, _⟩ := split_UYVY_layout buf w h hL _ p h2
      have hsz : lumaSize w h = w * h ∧ chromaSize w h 2 = (w / 2) * (2 * h / 2) := by
        rcases Nat.eq_zero_or_pos w with hw | hw
        · subst hw
          simp [lumaSize, chromaSize, u32]
        · obtain ⟨hs1, hs2, hs3⟩ := uyvy_sizes (h := h) hw hw2 (by omega)
          rw [e2h] at hs1 ⊢
          exact ⟨by omega, hs3⟩
      rw [hsz.1] at l1
      rw [hsz.2] at l2 l3
      exact ⟨p, log, h1, h2, l1, l2, l3, q1, q2, q3, q4⟩
    · rw [e2h] at hlen hUl hVl
      obtain ⟨out, log, h1, h2, hl, q1, q2, q3, q4⟩ := combine_UYVY_logged out0 Y U V w h
        (by omega) (by omega) (by omega) (by omega) (by omega)
      rw [hol] at h1 h2 hl q1
      exact ⟨out, log, h1, h2, hl, q1, q2, q3, q4⟩

/-- Instance of C25: the 2x2 `YUV420_NV12` frame of 6 bytes and the planes of
the sample frame. -/
theorem C25_codec_memory_safe_witness :
    (∃ p log, SplitYUV2ComponentLog (some ([some 1, some 2, some 3, some 4, some 5, some 6] : Buf)) 2 2 (([some 1, some 2, some 3, some 4, some 5, some 6] : Buf)).length YUV420_NV12
        = some (LDC_Status.LDC_STATUS_OK, p, log) ∧
      ComponentsStructure_SplitYUV2Component (some ([some 1, some 2, some 3, some 4, some 5, some 6] : Buf)) 2 2 (([some 1, some 2, some 3, some 4, some 5, some 6] : Buf)).length YUV420_NV12
        = some (LDC_Status.LDC_STATUS_OK, p) ∧
      p.Y.length = 2 * 2 ∧ p.U.length = ((2 / 2) * (YUV420_NV12 * 2 / 2)) ∧ p.V.length = ((2 / 2) * (YUV420_NV12 * 2 / 2)) ∧
      WritesOnce log Target.Y (2 * 2) ∧ WritesOnce log Target.U ((2 / 2) * (YUV420_NV12 * 2 / 2)) ∧
      WritesOnce log Target.V ((2 / 2) * (YUV420_NV12 * 2 / 2)) ∧ WritesOnce log Target.YUV_out 0) ∧
    (∃ out log, CombineYUVComponentsLog (some (malloc 6 : Buf)) (some sampleY) (some sampleU) (some sampleV) 2 2
        (([some 1, some 2, some 3, some 4, some 5, some 6] : Buf)).length YUV420_NV12 = some (LDC_Status.LDC_STATUS_OK, some out, log) ∧
      ComponentsStructure_CombineYUVComponents (some (malloc 6 : Buf)) (some sampleY) (some sampleU) (some sampleV)
        2 2 (([some 1, some 2, some 3, some 4, some 5, some 6] : Buf)).length YUV420_NV12 = some (LDC_Status.LDC_STATUS_OK, some out) ∧
      out.length = (([some 1, some 2, some 3, some 4, some 5, some 6] : Buf)).length ∧
      WritesOnce log Target.YUV_out (([some 1, some 2, some 3, some 4, some 5, some 6] : Buf)).length ∧ WritesOnce log Target.Y 0 ∧
      WritesOnce log Target.U 0 ∧ WritesOnce log Target.V 0) :=
  C25_codec_memory_safe YUV420_NV12 2 2 [some 1, some 2, some 3, some 4, some 5, some 6]
    (malloc 6) sampleY sampleU sampleV (Or.inl rfl) (by decide) (fun _ => by decide)
    (by decide) (by decide) (by decide) (by decide) (by decide) (by decide)

/-! ## Double rounding: index selection and source coordinate -/

/-! ### The index search and the interpolator with a rounded subtraction -/

/-- With the identity as rounding the rounded search is the exact one. -/
theorem findNearestFl_id (q : ℚ) (x : List ℚ) (len : Int) :
    findNearestNeighbourIndexFl (fun a => a) q x len = findNearestNeighbourIndex q x len :=
  rfl

/-- With the identity as rounding the computed distance is the exact one. -/
theorem pointDistFl_id (q : ℚ) (x : List ℚ) (j : Nat) :
    pointDistFl (fun a => a) q x j = pointDist q x j :=
  rfl

theorem findNearestBodyFl_eq (fl : ℚ → ℚ) (q : ℚ) (x : List ℚ) (t : Nat) (ht : t < x.length)
    (s : NearestState) :
    findNearestBodyFl fl q x t s
      = some (if pointDistFl fl q x t ≤ s.dist then ⟨pointDistFl fl q x t, (t : Int)⟩
          else s) := by
  simp only [findNearestBodyFl, load_getD x ht, Option.bind_eq_bind, Option.some_bind,
    ABS_eq_abs, pointDistFl, Option.pure_def]
  split <;> rfl

theorem findNearestBodyFl_pres (fl : ℚ → ℚ) (q : ℚ) (x : List ℚ) (t : Nat)
    (ht : t < x.length) (s s2 : NearestState) (hinv : NearestInvFl fl q x t s)
    (hb : findNearestBodyFl fl q x t s = some s2) : NearestInvFl fl q x (t + 1) s2 := by
  rw [findNearestBodyFl_eq fl q x t ht, Option.some.injEq] at hb
  obtain ⟨hmax, hmin, hcase⟩ := hinv
  by_cases hc : pointDistFl fl q x t ≤ s.dist
  · rw [if_pos hc] at hb
    subst hb
    refine ⟨le_trans hc hmax, fun j hj => ?_, Or.inr ⟨t, Nat.lt_succ_self t, rfl, rfl, ?_⟩⟩
    · rcases Nat.lt_succ_iff_lt_or_eq.1 hj with h | h
      · exact le_trans hc (hmin j h)
      · rw [h]
    · intro j h1 h2
      omega
  · rw [if_neg hc] at hb
    subst hb
    have hlt : s.dist < pointDistFl fl q x t := not_le.1 hc
    refine ⟨hmax, fun j hj => ?_, ?_⟩
    · rcases Nat.lt_succ_iff_lt_or_eq.1 hj with h | h
      · exact hmin j h
      · rw [h]
        exact le_of_lt hlt
    · rcases hcase with ⟨hi, h0, hall⟩ | ⟨k, hk, hi, hd, hlast⟩
      · refine Or.inl ⟨hi, h0, fun j hj => ?_⟩
        rcases Nat.lt_succ_iff_lt_or_eq.1 hj with h | h
        · exact hall j h
        · rw [h, ← h0]
          exact hlt
      · refine Or.inr ⟨k, Nat.lt_succ_of_lt hk, hi, hd, fun j h1 h2 => ?_⟩
        rcases Nat.lt_succ_iff_lt_or_eq.1 h2 with h | h
        · exact hlast j h1 h
        · rw [h]
          exact hlt

/-- Characterisation of the result of the rounded search on a table of
`x.length` points: either every computed distance exceeds `DBL_MAX` and the
result is `-1`, or the result is the last index at minimal computed distance. -/
theorem findNearestFl_spec (fl : ℚ → ℚ) (q : ℚ) (x : List ℚ) :
    ∃ r : Int, findNearestNeighbourIndexFl fl q x (x.length : Int) = some r ∧
      ((r = -1 ∧ ∀ j, j < x.length → DBL_MAX < pointDistFl fl q x j) ∨
       (∃ k : Nat, k < x.length ∧ r = (k : Int) ∧ pointDistFl fl q x k ≤ DBL_MAX ∧
          (∀ j, j < x.length → pointDistFl fl q x k ≤ pointDistFl fl q x j) ∧
          ∀ j, k < j → j < x.length → pointDistFl fl q x k < pointDistFl fl q x j)) := by
  obtain ⟨s1, hs1, hinv⟩ := foldlM_range_total (fun s t => findNearestBodyFl fl q x t s)
    (NearestInvFl fl q x) x.length ⟨DBL_MAX, -1⟩
    ⟨le_refl _, fun j hj => absurd hj (Nat.not_lt_zero j),
      Or.inl ⟨rfl, rfl, fun j hj => absurd hj (Nat.not_lt_zero j)⟩⟩
    (fun t s s2 ht hP hb => findNearestBodyFl_pres fl q x t ht s s2 hP hb)
    (fun t s ht _ => ⟨_, findNearestBodyFl_eq fl q x t ht s⟩)
  refine ⟨s1.idx, ?_, ?_⟩
  · simp only [findNearestNeighbourIndexFl, forRange, Int.toNat_ofNat, hs1, Option.map_some']
  · obtain ⟨hmax, hmin, hcase⟩ := hinv
    rcases hcase with ⟨hi, _, hall⟩ | ⟨k, hk, hi, hd, hlast⟩
    · exact Or.inl ⟨hi, hall⟩
    · refine Or.inr ⟨k, hk, hi, hd ▸ hmax, fun j hj => hd ▸ hmin j hj,
        fun j h1 h2 => hd ▸ hlast j h1 h2⟩

/-- The last index at minimal computed distance is the one returned. -/
theorem findNearestFl_eq_of_last_min (fl : ℚ → ℚ) (q : ℚ) (x : List ℚ) (k : Nat)
    (hk : k < x.length) (hfin : pointDistFl fl q x k ≤ DBL_MAX)
    (hmin : ∀ j, j < x.length → pointDistFl fl q x k ≤ pointDistFl fl q x j)
    (hlast : ∀ j, j < x.length → pointDistFl fl q x j = pointDistFl fl q x k → j ≤ k) :
    findNearestNeighbourIndexFl fl q x (x.length : Int) = some (k : Int) := by
  obtain ⟨r, hr, hcase⟩ := findNearestFl_spec fl q x
  rcases hcase with ⟨_, hall⟩ | ⟨k1, hk1, h1, _, hmin1, hlast1⟩
  · exact absurd hfin (not_le.2 (hall k hk))
  · have heq : pointDistFl fl q x k1 = pointDistFl fl q x k :=
      le_antisymm (hmin1 k hk) (hmin k1 hk1)
    have hle : k1 ≤ k := hlast k1 hk1 heq
    rcases Nat.lt_or_eq_of_le hle with hlt | he
    · exact absurd heq (ne_of_lt (hlast1 k hlt hk))
    · rw [hr, h1, he]

/-- One iteration of the query loop with the rounded search. -/
theorem queryBodyFl_eq (fl : ℚ → ℚ) (x y : List ℚ) (n : Nat) (hx : x.length = n)
    (xq : List ℚ) (s : LineState) (hs : LineInv x y n n s) (t : Nat) (ht : t < xq.length)
    (yq : List (Cell ℚ)) (hyq : yq.length = xq.length) :
    queryBodyFl fl x (n : Int) xq s t yq
      = some (yq.set t (some (interpValueFl fl x y n (xq.getD t 0)))) := by
  obtain ⟨r, hr, hcase⟩ := findNearestFl_spec fl (xq.getD t 0) x
  rw [hx] at hr hcase
  rcases hcase with ⟨h1, _⟩ | ⟨k, hk, h1, _⟩
  · subst h1
    simp only [queryBodyFl, load_getD xq ht, hr, Option.bind_eq_bind, Option.some_bind,
      ne_eq, not_true_eq_false, if_false, store_of_lt _ (show t < yq.length by omega),
      interpValueFl]
  · subst h1
    have hne : ((k : Int) ≠ -1) := by omega
    obtain ⟨h2, h3⟩ := hs.2.2 k hk
    simp only [queryBodyFl, load_getD xq ht, hr, Option.bind_eq_bind, Option.some_bind,
      if_pos hne, loadCell_natCast h2, loadCell_natCast h3,
      store_of_lt _ (show t < yq.length by omega), interpValueFl, Int.toNat_ofNat]

/-- Full characterisation of `FrameCorrection_LinearInterpolationFl` on a table
of at least two points: one value per query, in query order. -/
theorem interpolationFl_eq_map (fl : ℚ → ℚ) (x y : List ℚ) (n : Nat) (hx : x.length = n)
    (hy : y.length = n) (hn : 2 ≤ n) (xq : List ℚ) :
    FrameCorrection_LinearInterpolationFl fl x y (n : Int) xq (xq.length : Int)
      = some (xq.map (fun q => some (interpValueFl fl x y n q))) := by
  obtain ⟨s, hs, hinv⟩ := lineLoop_spec x y n hx hy hn
  obtain ⟨yq, hyq, hq⟩ := foldlM_range_total
    (fun yq t => queryBodyFl fl x (n : Int) xq s t yq)
    (QueryInvFl fl x y n xq) xq.length (malloc xq.length)
    ⟨length_malloc _, fun i hi => absurd hi (Nat.not_lt_zero i)⟩
    (fun t yq yq2 ht hP hb => by
      beta_reduce at hb
      rw [queryBodyFl_eq fl x y n hx xq s hinv t ht yq hP.1, Option.some.injEq] at hb
      subst hb
      refine ⟨by simpa using hP.1, fun i hi => ?_⟩
      by_cases hit : i = t
      · subst hit
        exact List.getElem?_set_self (by rw [hP.1]; exact ht)
      · rw [List.getElem?_set_ne (Ne.symm hit)]
        exact hP.2 i (by omega))
    (fun t yq ht hP => ⟨_, queryBodyFl_eq fl x y n hx xq s hinv t ht yq hP.1⟩)
  have hres : yq = xq.map (fun q => some (interpValueFl fl x y n q)) := by
    apply List.ext_getElem?
    intro i
    by_cases hi : i < xq.length
    · rw [hq.2 i hi, List.getElem?_map, List.getElem?_eq_getElem hi]
      simp [List.getD, List.getElem?_eq_getElem hi]
    · rw [List.getElem?_eq_none (by rw [hq.1]; omega),
        List.getElem?_eq_none (by simp; omega)]
  simp only [FrameCorrection_LinearInterpolationFl, Int.toNat_ofNat, hs,
    Option.bind_eq_bind, Option.some_bind]
  rw [← hres]
  exact hyq

/-- With the identity as rounding the rounded interpolator is the exact one. -/
theorem interpolationFl_id (x y : List ℚ) (n : Int) (xq : List ℚ) (m : Int) :
    FrameCorrection_LinearInterpolationFl (fun a => a) x y n xq m
      = FrameCorrection_LinearInterpolation x y n xq m :=
  rfl

/-- Entry `i` of the result of the rounded interpolator. -/
theorem interpolationFl_getElem (fl : ℚ → ℚ) (x y xq : List ℚ) (hy : y.length = x.length)
    (hn : 2 ≤ x.length) :
    ∃ yq, FrameCorrection_LinearInterpolationFl fl x y (x.length : Int) xq (xq.length : Int)
        = some yq ∧ yq.length = xq.length ∧
      ∀ i, i < xq.length →
        yq[i]? = some (some (interpValueFl fl x y x.length (xq.getD i 0))) := by
  refine ⟨_, interpolationFl_eq_map fl x y x.length rfl hy hn xq, by simp, fun i hi => ?_⟩
  have hq : xq[i] = xq.getD i 0 := by
    simp [List.getD, List.getElem?_eq_getElem hi]
  rw [List.getElem?_map, List.getElem?_eq_getElem hi, Option.map_some', hq]

/-- The value stored for a query whose rounded search returns index `k`. -/
theorem interpValueFl_of_found (fl : ℚ → ℚ) (x y : List ℚ) (q : ℚ) (k : Nat)
    (h : findNearestNeighbourIndexFl fl q x (x.length : Int) = some (k : Int)) :
    interpValueFl fl x y x.length q
      = lineSlope x y x.length k * q + lineIntercept x y x.length k := by
  have hne : ((k : Int) ≠ -1) := by omega
  unfold interpValueFl
  rw [h]
  simp only [if_pos hne, Int.toNat_ofNat]

/-! ### Properties of the binary64 rounding -/

theorem log2Fuel_spec (fuel : Nat) :
    ∀ n, 0 < n → n ≤ fuel → 2 ^ log2Fuel fuel n ≤ n ∧ n < 2 ^ (log2Fuel fuel n + 1) := by
  induction fuel with
  | zero =>
      intro n h0 h1
      omega
  | succ f ih =>
      intro n h0 h1
      unfold log2Fuel
      by_cases h2 : 2 ≤ n
      · rw [if_pos h2]
        obtain ⟨ha, hb⟩ := ih (n / 2) (by omega) (by omega)
        rw [pow_succ] at hb
        rw [pow_succ, pow_succ, pow_succ]
        constructor <;> omega
      · rw [if_neg h2]
        constructor <;> simp <;> omega

theorem roundHalfEven_ge (a : ℚ) : ⌊a⌋ ≤ roundHalfEven a := by
  unfold roundHalfEven
  split_ifs <;> omega

theorem roundHalfEven_le (a : ℚ) : roundHalfEven a ≤ ⌊a⌋ + 1 := by
  unfold roundHalfEven
  split_ifs <;> omega

theorem roundHalfEven_intCast (k : Int) : roundHalfEven (k : ℚ) = k := by
  unfold roundHalfEven
  rw [Int.floor_intCast, sub_self, if_pos (by norm_num)]

theorem roundHalfEven_mono {a b : ℚ} (h : a ≤ b) : roundHalfEven a ≤ roundHalfEven b := by
  have hf : ⌊a⌋ ≤ ⌊b⌋ := Int.floor_mono h
  rcases lt_or_eq_of_le hf with hlt | heq
  · have := roundHalfEven_le a
    have := roundHalfEven_ge b
    omega
  · unfold roundHalfEven
    rw [← heq]
    have hab : a - ⌊a⌋ ≤ b - ⌊a⌋ := by linarith
    split_ifs <;> first | omega | (exfalso; linarith)

theorem ratio_bounds (p q lp lq : Nat) (hq : 0 < q) (hp1 : 2 ^ lp ≤ p) (hp2 : p < 2 ^ (lp + 1))
    (hq1 : 2 ^ lq ≤ q) (hq2 : q < 2 ^ (lq + 1)) :
    (2 : ℚ) ^ ((lp : Int) - (lq : Int) - 1) ≤ (p : ℚ) / (q : ℚ) ∧
    (p : ℚ) / (q : ℚ) < (2 : ℚ) ^ ((lp : Int) - (lq : Int) + 1) := by
  have hqq : (0 : ℚ) < (q : ℚ) := by exact_mod_cast hq
  have h1 : (2 : ℚ) ^ lp ≤ (p : ℚ) := by exact_mod_cast hp1
  have h2 : (p : ℚ) < 2 ^ (lp + 1) := by exact_mod_cast hp2
  have h3 : (2 : ℚ) ^ lq ≤ (q : ℚ) := by exact_mod_cast hq1
  have h4 : (q : ℚ) < 2 ^ (lq + 1) := by exact_mod_cast hq2
  have hlp : (0 : ℚ) < 2 ^ lp := by positivity
  have hlq : (0 : ℚ) < 2 ^ lq := by positivity
  have e1 : (2 : ℚ) ^ ((lp : Int) - (lq : Int) - 1) = 2 ^ lp / 2 ^ (lq + 1) := by
    rw [show (lp : Int) - (lq : Int) - 1 = (lp : Int) - ((lq + 1 : Nat) : Int) by push_cast; ring,
      zpow_sub₀ two_ne_zero, zpow_natCast, zpow_natCast]
  have e2 : (2 : ℚ) ^ ((lp : Int) - (lq : Int) + 1) = 2 ^ (lp + 1) / 2 ^ lq := by
    rw [show (lp : Int) - (lq : Int) + 1 = ((lp + 1 : Nat) : Int) - (lq : Int) by push_cast; ring,
      zpow_sub₀ two_ne_zero, zpow_natCast, zpow_natCast]
  rw [e1, e2]
  constructor
  · rw [div_le_div_iff₀ (by positivity) hqq]
    calc (2 : ℚ) ^ lp * (q : ℚ) ≤ (2 : ℚ) ^ lp * 2 ^ (lq + 1) :=
          mul_le_mul_of_nonneg_left (le_of_lt h4) (le_of_lt hlp)
      _ ≤ (p : ℚ) * 2 ^ (lq + 1) := mul_le_mul_of_nonneg_right h1 (by positivity)
  · rw [div_lt_div_iff₀ hqq hlq]
    calc (p : ℚ) * 2 ^ lq < 2 ^ (lp + 1) * 2 ^ lq := mul_lt_mul_of_pos_right h2 hlq
      _ ≤ 2 ^ (lp + 1) * (q : ℚ) := mul_le_mul_of_nonneg_left h3 (by positivity)

/-- The binary exponent brackets a positive rational between two consecutive
powers of two. -/
theorem binaryExponent_spec (a : ℚ) (ha : 0 < a) :
    (2 : ℚ) ^ binaryExponent a ≤ a ∧ a < (2 : ℚ) ^ (binaryExponent a + 1) := by
  have hnum : 0 < a.num := Rat.num_pos.2 ha
  have hp : 0 < a.num.natAbs := Int.natAbs_pos.2 (ne_of_gt hnum)
  obtain ⟨hp1, hp2⟩ := log2Fuel_spec a.num.natAbs a.num.natAbs hp (le_refl _)
  obtain ⟨hq1, hq2⟩ := log2Fuel_spec a.den a.den a.den_pos (le_refl _)
  have hpa : ((a.num.natAbs : Nat) : ℚ) = (a.num : ℚ) := by
    have h : ((a.num.natAbs : Nat) : Int) = a.num := Int.natAbs_of_nonneg (le_of_lt hnum)
    rw [← Int.cast_natCast, h]
  have ha_eq : (a.num.natAbs : ℚ) / (a.den : ℚ) = a := by
    rw [hpa]
    exact Rat.num_div_den a
  obtain ⟨hb1, hb2⟩ := ratio_bounds a.num.natAbs a.den _ _ a.den_pos hp1 hp2 hq1 hq2
  rw [ha_eq] at hb1 hb2
  unfold binaryExponent
  split_ifs with hc
  · exact ⟨hc, hb2⟩
  · rw [sub_add_cancel]
    exact ⟨hb1, not_le.1 hc⟩

/-- The binary exponent is the only exponent that brackets a positive rational. -/
theorem binaryExponent_unique (a : ℚ) (ha : 0 < a) (e : Int) (h1 : (2 : ℚ) ^ e ≤ a)
    (h2 : a < (2 : ℚ) ^ (e + 1)) : binaryExponent a = e := by
  obtain ⟨hb1, hb2⟩ := binaryExponent_spec a ha
  have h3 : (2 : ℚ) ^ e < 2 ^ (binaryExponent a + 1) := lt_of_le_of_lt h1 hb2
  have h4 : (2 : ℚ) ^ binaryExponent a < 2 ^ (e + 1) := lt_of_le_of_lt hb1 h2
  rw [zpow_lt_zpow_iff_right₀ (by norm_num)] at h3 h4
  omega

theorem binaryExponent_mono {a b : ℚ} (ha : 0 < a) (hab : a ≤ b) :
    binaryExponent a ≤ binaryExponent b := by
  obtain ⟨ha1, _⟩ := binaryExponent_spec a ha
  obtain ⟨_, hb2⟩ := binaryExponent_spec b (lt_of_lt_of_le ha hab)
  have h : (2 : ℚ) ^ binaryExponent a < 2 ^ (binaryExponent b + 1) :=
    lt_of_le_of_lt ha1 (lt_of_le_of_lt hab hb2)
  rw [zpow_lt_zpow_iff_right₀ (by norm_num)] at h
  omega

theorem ulpExponent_mono {a b : ℚ} (ha : 0 < a) (hab : a ≤ b) :
    ulpExponent a ≤ ulpExponent b := by
  have := binaryExponent_mono ha hab
  unfold ulpExponent
  omega

/-- A multiple of the spacing that lies above `a` also lies above the rounded
magnitude, for any exponent `u` of the spacing. -/
theorem round_scaled_le (a : ℚ) (u N : Int) (h : a ≤ (N : ℚ) * 2 ^ u) :
    (roundHalfEven (a / 2 ^ u) : ℚ) * 2 ^ u ≤ (N : ℚ) * 2 ^ u := by
  have hu : (0 : ℚ) < 2 ^ u := zpow_pos (by norm_num) u
  have h1 : a / 2 ^ u ≤ (N : ℚ) := by
    rw [div_le_iff₀ hu]
    exact h
  have h2 : roundHalfEven (a / 2 ^ u) ≤ N := by
    have := roundHalfEven_mono h1
    rwa [roundHalfEven_intCast] at this
  exact mul_le_mul_of_nonneg_right (by exact_mod_cast h2) (le_of_lt hu)

theorem le_round_scaled (a : ℚ) (u N : Int) (h : (N : ℚ) * 2 ^ u ≤ a) :
    (N : ℚ) * 2 ^ u ≤ (roundHalfEven (a / 2 ^ u) : ℚ) * 2 ^ u := by
  have hu : (0 : ℚ) < 2 ^ u := zpow_pos (by norm_num) u
  have h1 : (N : ℚ) ≤ a / 2 ^ u := by
    rw [le_div_iff₀ hu]
    exact h
  have h2 : N ≤ roundHalfEven (a / 2 ^ u) := by
    have := roundHalfEven_mono h1
    rwa [roundHalfEven_intCast] at this
  exact mul_le_mul_of_nonneg_right (by exact_mod_cast h2) (le_of_lt hu)

theorem pow_mul_zpow_sub (M : Int) (k : Nat) :
    (((2 : Int) ^ k : Int) : ℚ) * (2 : ℚ) ^ (M - k) = (2 : ℚ) ^ M := by
  push_cast
  rw [← zpow_natCast (2 : ℚ) k, ← zpow_add₀ (two_ne_zero)]
  congr 1
  ring

/-- The rounded magnitude of a positive rational does not exceed the next
power of two. -/
theorem roundMagnitude_le (a : ℚ) (ha : 0 < a) :
    roundMagnitude a ≤ (2 : ℚ) ^ (max (binaryExponent a) (-1022) + 1) := by
  obtain ⟨_, h2⟩ := binaryExponent_spec a ha
  have h3 : a ≤ (2 : ℚ) ^ (max (binaryExponent a) (-1022) + 1) :=
    le_trans (le_of_lt h2) (zpow_le_zpow_right₀ (by norm_num) (by omega))
  have e := pow_mul_zpow_sub (max (binaryExponent a) (-1022) + 1) 53
  have eu : max (binaryExponent a) (-1022) + 1 - ((53 : Nat) : Int) = ulpExponent a := by
    unfold ulpExponent
    push_cast
    ring
  rw [eu] at e
  rw [← e] at h3 ⊢
  exact round_scaled_le a (ulpExponent a) _ h3

/-- The rounded magnitude of a positive rational in the normal range is not
below the power of two under it. -/
theorem le_roundMagnitude (a : ℚ) (ha : 0 < a) (hn : -1022 ≤ binaryExponent a) :
    (2 : ℚ) ^ binaryExponent a ≤ roundMagnitude a := by
  obtain ⟨h1, _⟩ := binaryExponent_spec a ha
  have e := pow_mul_zpow_sub (binaryExponent a) 52
  have eu : binaryExponent a - ((52 : Nat) : Int) = ulpExponent a := by
    unfold ulpExponent
    rw [max_eq_left hn]
    push_cast
    ring
  rw [eu] at e
  rw [← e] at h1 ⊢
  exact le_round_scaled a (ulpExponent a) _ h1

theorem roundMagnitude_nonneg (a : ℚ) (ha : 0 ≤ a) : 0 ≤ roundMagnitude a := by
  have hu : (0 : ℚ) < 2 ^ ulpExponent a := zpow_pos (by norm_num) _
  have h := le_round_scaled a (ulpExponent a) 0 (by simpa using ha)
  simpa [roundMagnitude] using h

theorem roundMagnitude_zero : roundMagnitude 0 = 0 := by decide!

theorem roundMagnitude_mono_pos {a b : ℚ} (ha : 0 < a) (hab : a ≤ b) :
    roundMagnitude a ≤ roundMagnitude b := by
  have hb : 0 < b := lt_of_lt_of_le ha hab
  rcases lt_or_eq_of_le (ulpExponent_mono ha hab) with hlt | heq
  · have hE := binaryExponent_mono ha hab
    have hMb : -1022 ≤ binaryExponent b := by
      unfold ulpExponent at hlt
      omega
    have hstep : max (binaryExponent a) (-1022) + 1 ≤ binaryExponent b := by
      unfold ulpExponent at hlt
      omega
    exact le_trans (roundMagnitude_le a ha)
      (le_trans (zpow_le_zpow_right₀ (by norm_num) hstep) (le_roundMagnitude b hb hMb))
  · unfold roundMagnitude
    rw [heq]
    have hu : (0 : ℚ) < 2 ^ ulpExponent b := zpow_pos (by norm_num) _
    have h1 : a / 2 ^ ulpExponent b ≤ b / 2 ^ ulpExponent b :=
      div_le_div_of_nonneg_right hab (le_of_lt hu)
    exact mul_le_mul_of_nonneg_right (by exact_mod_cast roundHalfEven_mono h1) (le_of_lt hu)

theorem roundMagnitude_mono {a b : ℚ} (ha : 0 ≤ a) (hab : a ≤ b) :
    roundMagnitude a ≤ roundMagnitude b := by
  rcases lt_or_eq_of_le ha with hlt | heq
  · exact roundMagnitude_mono_pos hlt hab
  · rw [← heq, roundMagnitude_zero]
    exact roundMagnitude_nonneg b (le_trans ha hab)

/-- The binary64 rounding is monotone. -/
theorem roundBinary64_monotone : Monotone roundBinary64 := by
  intro a b hab
  unfold roundBinary64
  by_cases ha : a < 0
  · by_cases hb : b < 0
    · rw [if_pos ha, if_pos hb]
      have := roundMagnitude_mono (a := -b) (b := -a) (by linarith) (by linarith)
      linarith
    · rw [if_pos ha, if_neg hb]
      have h1 := roundMagnitude_nonneg (-a) (by linarith)
      have h2 := roundMagnitude_nonneg b (not_lt.1 hb)
      linarith
  · have hb : ¬ b < 0 := by
      intro h
      exact ha (lt_of_le_of_lt hab h)
    rw [if_neg ha, if_neg hb]
    exact roundMagnitude_mono (not_lt.1 ha) hab

/-- The binary64 rounding maps zero to zero. -/
theorem roundBinary64_zero : roundBinary64 0 = 0 := by decide!

/-- A rational that is a multiple of the spacing of the doubles around it is
its own rounded magnitude. -/
theorem roundMagnitude_of_multiple (a : ℚ) (N : Int)
    (h : a = (N : ℚ) * 2 ^ ulpExponent a) : roundMagnitude a = a := by
  have hu : (2 : ℚ) ^ ulpExponent a ≠ 0 := ne_of_gt (zpow_pos (by norm_num) _)
  have h1 : a / 2 ^ ulpExponent a = (N : ℚ) := by
    rw [div_eq_iff hu]
    exact h
  unfold roundMagnitude
  rw [h1, roundHalfEven_intCast]
  exact h.symm

/-- The binary64 rounding leaves every multiple of `1/2` up to `2 ^ 31`
unchanged. -/
theorem roundBinary64_half_integer (n : Nat) (hn : n ≤ 2 ^ 32) :
    roundBinary64 ((n : ℚ) / 2) = (n : ℚ) / 2 := by
  rcases Nat.eq_zero_or_pos n with h0 | hpos
  · subst h0
    simpa using roundBinary64_zero
  · have hn1 : (1 : ℚ) ≤ (n : ℚ) := by exact_mod_cast hpos
    have hn2 : (n : ℚ) ≤ 2 ^ 32 := by exact_mod_cast hn
    have ha : (0 : ℚ) < (n : ℚ) / 2 := by linarith
    obtain ⟨h1, h2⟩ := binaryExponent_spec _ ha
    have hlo : (2 : ℚ) ^ (-1 : Int) < 2 ^ (binaryExponent ((n : ℚ) / 2) + 1) := by
      refine lt_of_le_of_lt ?_ h2
      rw [zpow_neg_one]
      linarith
    have hhi : (2 : ℚ) ^ binaryExponent ((n : ℚ) / 2) ≤ 2 ^ (31 : Int) := by
      refine le_trans h1 ?_
      rw [show (2 : ℚ) ^ (31 : Int) = 2 ^ 32 / 2 by norm_num]
      linarith
    rw [zpow_lt_zpow_iff_right₀ (by norm_num)] at hlo
    rw [zpow_le_zpow_iff_right₀ (by norm_num)] at hhi
    have hu : ulpExponent ((n : ℚ) / 2) = binaryExponent ((n : ℚ) / 2) - 52 := by
      unfold ulpExponent
      rw [max_eq_left (by omega)]
    obtain ⟨k, hk⟩ : ∃ k : Nat, (k : Int) = 51 - binaryExponent ((n : ℚ) / 2) :=
      ⟨(51 - binaryExponent ((n : ℚ) / 2)).toNat, Int.toNat_of_nonneg (by omega)⟩
    have hmul : (n : ℚ) / 2 = (((n * 2 ^ k : Nat) : Int) : ℚ) * 2 ^ ulpExponent ((n : ℚ) / 2) := by
      rw [hu, show binaryExponent ((n : ℚ) / 2) - 52 = -((k + 1 : Nat) : Int) by
        push_cast
        omega, zpow_neg, zpow_natCast]
      push_cast
      field_simp
      ring
    unfold roundBinary64
    rw [if_neg (not_lt.2 (le_of_lt ha))]
    exact roundMagnitude_of_multiple _ _ hmul

/-! ### Index selection at the ends of the table and inside a segment -/

theorem pointDistFl_of_ge (fl : ℚ → ℚ) (hmono : Monotone fl) (h0 : fl 0 = 0) (q : ℚ)
    (x : List ℚ) (j : Nat) (h : x.getD j 0 ≤ q) :
    pointDistFl fl q x j = fl (q - x.getD j 0) := by
  have h1 : fl 0 ≤ fl (q - x.getD j 0) := hmono (by linarith)
  unfold pointDistFl
  rw [abs_of_nonneg (by linarith)]

theorem pointDistFl_of_le (fl : ℚ → ℚ) (hmono : Monotone fl) (h0 : fl 0 = 0) (q : ℚ)
    (x : List ℚ) (j : Nat) (h : q ≤ x.getD j 0) :
    pointDistFl fl q x j = -fl (q - x.getD j 0) := by
  have h1 : fl (q - x.getD j 0) ≤ fl 0 := hmono (by linarith)
  unfold pointDistFl
  rw [abs_of_nonpos (by linarith)]

/-- Computed distances do not increase towards a query from the left. -/
theorem pointDistFl_left (fl : ℚ → ℚ) (hmono : Monotone fl) (h0 : fl 0 = 0) (q : ℚ)
    (x : List ℚ) (i j : Nat) (hij : x.getD i 0 ≤ x.getD j 0) (hj : x.getD j 0 ≤ q) :
    pointDistFl fl q x j ≤ pointDistFl fl q x i := by
  rw [pointDistFl_of_ge fl hmono h0 q x j hj,
    pointDistFl_of_ge fl hmono h0 q x i (le_trans hij hj)]
  exact hmono (by linarith)

/-- Computed distances do not decrease away from a query to the right. -/
theorem pointDistFl_right (fl : ℚ → ℚ) (hmono : Monotone fl) (h0 : fl 0 = 0) (q : ℚ)
    (x : List ℚ) (i j : Nat) (hi : q ≤ x.getD i 0) (hij : x.getD i 0 ≤ x.getD j 0) :
    pointDistFl fl q x i ≤ pointDistFl fl q x j := by
  rw [pointDistFl_of_le fl hmono h0 q x i hi,
    pointDistFl_of_le fl hmono h0 q x j (le_trans hi hij)]
  have : fl (q - x.getD j 0) ≤ fl (q - x.getD i 0) := hmono (by linarith)
  linarith

/-- A query at or beyond the last control point selects the last index. -/
theorem findNearestFl_beyond_last (fl : ℚ → ℚ) (hmono : Monotone fl) (h0 : fl 0 = 0)
    (x : List ℚ) (hs : x.Pairwise (fun a b => a < b)) (hn : 1 ≤ x.length) (q : ℚ)
    (hq : x.getD (x.length - 1) 0 ≤ q)
    (hfin : pointDistFl fl q x (x.length - 1) ≤ DBL_MAX) :
    findNearestNeighbourIndexFl fl q x (x.length : Int)
      = some ((x.length - 1 : Nat) : Int) := by
  apply findNearestFl_eq_of_last_min fl q x (x.length - 1) (by omega) hfin
  · intro j hj
    exact pointDistFl_left fl hmono h0 q x j _
      (getD_le_of_pairwise hs (show j ≤ x.length - 1 by omega) (by omega)) hq
  · intro j hj _
    omega

/-- A query at or before the first control point selects index 0 when its
computed distance to `x_0` is strictly below its computed distance to `x_1`. -/
theorem findNearestFl_before_first (fl : ℚ → ℚ) (hmono : Monotone fl) (h0 : fl 0 = 0)
    (x : List ℚ) (hs : x.Pairwise (fun a b => a < b)) (hn : 2 ≤ x.length) (q : ℚ)
    (hq : q ≤ x.getD 0 0) (hfin : pointDistFl fl q x 0 ≤ DBL_MAX)
    (hlt : pointDistFl fl q x 0 < pointDistFl fl q x 1) :
    findNearestNeighbourIndexFl fl q x (x.length : Int) = some ((0 : Nat) : Int) := by
  have hq1 : q ≤ x.getD 1 0 :=
    le_trans hq (getD_le_of_pairwise hs (Nat.zero_le 1) (by omega))
  have hfar : ∀ j, 1 ≤ j → j < x.length → pointDistFl fl q x 0 < pointDistFl fl q x j :=
    fun j h1 hj => lt_of_lt_of_le hlt
      (pointDistFl_right fl hmono h0 q x 1 j hq1 (getD_le_of_pairwise hs h1 hj))
  apply findNearestFl_eq_of_last_min fl q x 0 (by omega) hfin
  · intro j hj
    rcases Nat.eq_zero_or_pos j with h | h
    · rw [h]
    · exact le_of_lt (hfar j h hj)
  · intro j hj he
    by_contra hgt
    have := hfar j (by omega) hj
    linarith

/-- A query at or after `x_k` selects index `k` when its computed distance to
`x_k` is strictly below its computed distance to `x_(k+1)`. -/
theorem findNearestFl_near_half (fl : ℚ → ℚ) (hmono : Monotone fl) (h0 : fl 0 = 0)
    (x : List ℚ) (hs : x.Pairwise (fun a b => a < b)) (k : Nat) (hk : k + 1 < x.length)
    (q : ℚ) (h1 : x.getD k 0 ≤ q) (hfin : pointDistFl fl q x k ≤ DBL_MAX)
    (hlt : pointDistFl fl q x k < pointDistFl fl q x (k + 1)) :
    findNearestNeighbourIndexFl fl q x (x.length : Int) = some (k : Int) := by
  have hq1 : q ≤ x.getD (k + 1) 0 := by
    by_contra hc
    have := pointDistFl_left fl hmono h0 q x k (k + 1)
      (getD_le_of_pairwise hs (Nat.le_succ k) hk) (le_of_lt (not_le.1 hc))
    linarith
  have hfar : ∀ j, k + 1 ≤ j → j < x.length → pointDistFl fl q x k < pointDistFl fl q x j :=
    fun j hj hjl => lt_of_lt_of_le hlt
      (pointDistFl_right fl hmono h0 q x (k + 1) j hq1 (getD_le_of_pairwise hs hj hjl))
  apply findNearestFl_eq_of_last_min fl q x k (by omega) hfin
  · intro j hj
    by_cases hjk : j ≤ k
    · exact pointDistFl_left fl hmono h0 q x j k (getD_le_of_pairwise hs hjk (by omega)) h1
    · exact le_of_lt (hfar j (by omega) hj)
  · intro j hj he
    by_contra hgt
    have := hfar j (by omega) hj
    linarith

/-- On the last segment the rounded search selects one of its two ends. -/
theorem findNearestFl_last_segment (fl : ℚ → ℚ) (hmono : Monotone fl) (h0 : fl 0 = 0)
    (x : List ℚ) (hs : x.Pairwise (fun a b => a < b)) (hn : 2 ≤ x.length) (q : ℚ)
    (h1 : x.getD (x.length - 2) 0 ≤ q)
    (hfin : pointDistFl fl q x (x.length - 2) ≤ DBL_MAX ∨
      pointDistFl fl q x (x.length - 1) ≤ DBL_MAX) :
    findNearestNeighbourIndexFl fl q x (x.length : Int)
        = some ((x.length - 2 : Nat) : Int) ∨
    findNearestNeighbourIndexFl fl q x (x.length : Int)
        = some ((x.length - 1 : Nat) : Int) := by
  obtain ⟨r, hr, hcase⟩ := findNearestFl_spec fl q x
  rcases hcase with ⟨_, hall⟩ | ⟨k, hk, rfl, _, _, hlast⟩
  · exfalso
    have a1 := hall (x.length - 2) (by omega)
    have a2 := hall (x.length - 1) (by omega)
    rcases hfin with h | h <;> linarith
  · rw [hr]
    by_cases hk2 : k < x.length - 2
    · exfalso
      have hm := hlast (x.length - 2) hk2 (by omega)
      have := pointDistFl_left fl hmono h0 q x k (x.length - 2)
        (getD_le_of_pairwise hs (le_of_lt hk2) (by omega)) h1
      linarith
    · have : k = x.length - 2 ∨ k = x.length - 1 := by omega
      rcases this with h | h
      · left
        rw [h]
      · right
        rw [h]

/-! ### The interpolator and the source coordinate in double arithmetic -/

/-- C3 (amended): for every rounding `fl` of the subtraction `value - x[i]`,
when several control points are at the same minimal computed distance
`|fl (q - x_i)|` from the query (a distance not above `DBL_MAX`), the tie is
broken in favour of the later-scanned, higher-index control point, since the
comparison is `new_dist <= dist`: the returned index is the largest index
among the minimisers of the computed distance. -/
theorem C3_tie_break_last_index (fl : ℚ → ℚ) (q : ℚ) (x : List ℚ) (k : Nat)
    (hk : k < x.length) (hfin : |fl (q - x.getD k 0)| ≤ DBL_MAX)
    (hmin : ∀ j, j < x.length → |fl (q - x.getD k 0)| ≤ |fl (q - x.getD j 0)|)
    (hlast : ∀ j, j < x.length → |fl (q - x.getD j 0)| = |fl (q - x.getD k 0)| → j ≤ k) :
    findNearestNeighbourIndexFl fl q x (x.length : Int) = some (k : Int) :=
  findNearestFl_eq_of_last_min fl q x k hk hfin hmin hlast

/-- Instance of C3 in binary64: for the control points `-1, 1, 5` and the
query `-2^-60` both differences `q + 1` and `q - 1` round to magnitude `1`, so
the control points `0` and `1` tie at the minimal computed distance; index `1`
is returned. -/
theorem C3_tie_break_last_index_witness :
    findNearestNeighbourIndexFl roundBinary64 (-(1 / 2 ^ 60)) [-1, 1, 5]
      (([-1, 1, 5] : List ℚ).length : Int) = some ((1 : Nat) : Int) :=
  C3_tie_break_last_index roundBinary64 (-(1 / 2 ^ 60)) [-1, 1, 5] 1 (by decide)
    (by decide!)
    (fun j hj => by
      have hj3 : j = 0 ∨ j = 1 ∨ j = 2 := by
        have : j < 3 := hj
        omega
      rcases hj3 with rfl | rfl | rfl <;> decide!)
    (fun j hj => by
      have hj3 : j = 0 ∨ j = 1 ∨ j = 2 := by
        have : j < 3 := hj
        omega
      rcases hj3 with rfl | rfl | rfl <;> decide!)

/-- C2 (amended): for every rounding `fl` of the subtraction `value - x[i]`,
every table of `n ≥ 2` control points whose consecutive angles are distinct
and every query sequence in which each query has a computed distance
`|fl (q - x_j)|` of at most `DBL_MAX` to some control point,
`FrameCorrection_LinearInterpolation` returns one value per query, in query
order, and the value for query `q` is, in exact arithmetic, `s_k*q + b_k`,
where `k` is the index returned by `findNearestNeighbourIndex`, the last index
minimising the computed distance over all control points, with `s_i`, `b_i`
the slope and intercept of segment `i` for `i < n-1` and `s_(n-1) = s_(n-2)`,
`b_(n-1) = b_(n-2)`; no slope is a quotient by zero. -/
theorem C2_interpolation_values (fl : ℚ → ℚ) (x y xq : List ℚ) (hy : y.length = x.length)
    (hn : 2 ≤ x.length)
    (hdist : ∀ i, i + 1 < x.length → x.getD i 0 ≠ x.getD (i + 1) 0)
    (hfin : ∀ i, i < xq.length →
      ∃ j, j < x.length ∧ |fl (xq.getD i 0 - x.getD j 0)| ≤ DBL_MAX) :
    (∃ yq, FrameCorrection_LinearInterpolationFl fl x y (x.length : Int) xq (xq.length : Int)
        = some yq ∧ yq.length = xq.length ∧
      ∀ i, i < xq.length →
        ∃ k : Nat, k < x.length ∧
          findNearestNeighbourIndexFl fl (xq.getD i 0) x (x.length : Int) = some (k : Int) ∧
          (∀ j, j < x.length →
            |fl (xq.getD i 0 - x.getD k 0)| ≤ |fl (xq.getD i 0 - x.getD j 0)|) ∧
          (∀ j, k < j → j < x.length →
            |fl (xq.getD i 0 - x.getD k 0)| < |fl (xq.getD i 0 - x.getD j 0)|) ∧
          yq[i]? = some (some (lineSlope x y x.length k * xq.getD i 0
            + lineIntercept x y x.length k))) ∧
    ∀ i, i + 1 < x.length → x.getD (i + 1) 0 - x.getD i 0 ≠ 0 := by
  refine ⟨?_, fun i hi => sub_ne_zero.2 (Ne.symm (hdist i hi))⟩
  obtain ⟨yq, hyq, hl, hval⟩ := interpolationFl_getElem fl x y xq hy hn
  refine ⟨yq, hyq, hl, fun i hi => ?_⟩
  obtain ⟨r, hr, hcase⟩ := findNearestFl_spec fl (xq.getD i 0) x
  rcases hcase with ⟨_, hall⟩ | ⟨k, hk, h1, _, hmin, hlast⟩
  · obtain ⟨j, hj, hle⟩ := hfin i hi
    exact absurd hle (not_le.2 (hall j hj))
  · subst h1
    exact ⟨k, hk, hr, hmin, hlast, by rw [hval i hi, interpValueFl_of_found fl x y _ k hr]⟩

/-- Instance of C2 in binary64: the table `(-1,0), (1,1), (5,5)` and the
query `-2^-60`. -/
theorem C2_interpolation_values_witness :
    (∃ yq, FrameCorrection_LinearInterpolationFl roundBinary64 [-1, 1, 5] [0, 1, 5]
        (([-1, 1, 5] : List ℚ).length : Int) [-(1 / 2 ^ 60)]
        (([-(1 / 2 ^ 60)] : List ℚ).length : Int) = some yq ∧
      yq.length = ([-(1 / 2 ^ 60)] : List ℚ).length ∧
      ∀ i, i < ([-(1 / 2 ^ 60)] : List ℚ).length →
        ∃ k : Nat, k < ([-1, 1, 5] : List ℚ).length ∧
          findNearestNeighbourIndexFl roundBinary64 (([-(1 / 2 ^ 60)] : List ℚ).getD i 0)
            [-1, 1, 5] (([-1, 1, 5] : List ℚ).length : Int) = some (k : Int) ∧
          (∀ j, j < ([-1, 1, 5] : List ℚ).length →
            |roundBinary64 (([-(1 / 2 ^ 60)] : List ℚ).getD i 0
                - ([-1, 1, 5] : List ℚ).getD k 0)|
              ≤ |roundBinary64 (([-(1 / 2 ^ 60)] : List ℚ).getD i 0
                - ([-1, 1, 5] : List ℚ).getD j 0)|) ∧
          (∀ j, k < j → j < ([-1, 1, 5] : List ℚ).length →
            |roundBinary64 (([-(1 / 2 ^ 60)] : List ℚ).getD i 0
                - ([-1, 1, 5] : List ℚ).getD k 0)|
              < |roundBinary64 (([-(1 / 2 ^ 60)] : List ℚ).getD i 0
                - ([-1, 1, 5] : List ℚ).getD j 0)|) ∧
          yq[i]? = some (some (lineSlope [-1, 1, 5] [0, 1, 5] ([-1, 1, 5] : List ℚ).length k
            * ([-(1 / 2 ^ 60)] : List ℚ).getD i 0
            + lineIntercept [-1, 1, 5] [0, 1, 5] ([-1, 1, 5] : List ℚ).length k))) ∧
    ∀ i, i + 1 < ([-1, 1, 5] : List ℚ).length →
      ([-1, 1, 5] : List ℚ).getD (i + 1) 0 - ([-1, 1, 5] : List ℚ).getD i 0 ≠ 0 :=
  C2_interpolation_values roundBinary64 [-1, 1, 5] [0, 1, 5] [-(1 / 2 ^ 60)] rfl (by decide)
    (fun i hi => by
      have hi2 : i = 0 ∨ i = 1 := by
        have : i + 1 < 3 := hi
        omega
      rcases hi2 with rfl | rfl <;> decide!)
    (fun i hi => ⟨0, by decide, by
      have h0 : i = 0 := by
        have : i < 1 := hi
        omega
      subst h0
      decide!⟩)

/-- C22 (amended): for every monotone rounding `fl` of the subtraction
`value - x[i]` that maps zero to zero, and every table of `n ≥ 2` control
points with strictly increasing angles, every query `q ≥ x_(n-1)` whose
computed distance `|fl (q - x_(n-1))|` to the last control point is at most
`DBL_MAX` is answered by extending the last segment's line: the result is, in
exact arithmetic, `y_(n-1) + (y_(n-1) - y_(n-2))/(x_(n-1) - x_(n-2))*(q - x_(n-1))`;
and every query `q ≤ x_0` whose computed distance to `x_0` is at most `DBL_MAX`
and strictly below its computed distance to `x_1` is answered by the first
segment's line `y_0 + (y_1 - y_0)/(x_1 - x_0)*(q - x_0)`.  In exact arithmetic
every `q ≤ x_0` is strictly nearer to `x_0` than to `x_1`. -/
theorem C22_boundary_line_extended (fl : ℚ → ℚ) (hmono : Monotone fl) (h0 : fl 0 = 0)
    (x y xq : List ℚ) (hy : y.length = x.length) (hn : 2 ≤ x.length)
    (hs : x.Pairwise (fun a b => a < b)) :
    ∃ yq, FrameCorrection_LinearInterpolationFl fl x y (x.length : Int) xq (xq.length : Int)
        = some yq ∧ yq.length = xq.length ∧
      ∀ i, i < xq.length →
        (x.getD (x.length - 1) 0 ≤ xq.getD i 0 →
          |fl (xq.getD i 0 - x.getD (x.length - 1) 0)| ≤ DBL_MAX →
          yq[i]? = some (some (y.getD (x.length - 1) 0
            + (y.getD (x.length - 1) 0 - y.getD (x.length - 2) 0)
              / (x.getD (x.length - 1) 0 - x.getD (x.length - 2) 0)
              * (xq.getD i 0 - x.getD (x.length - 1) 0)))) ∧
        (xq.getD i 0 ≤ x.getD 0 0 → |fl (xq.getD i 0 - x.getD 0 0)| ≤ DBL_MAX →
          |fl (xq.getD i 0 - x.getD 0 0)| < |fl (xq.getD i 0 - x.getD 1 0)| →
          yq[i]? = some (some (y.getD 0 0
            + (y.getD 1 0 - y.getD 0 0) / (x.getD 1 0 - x.getD 0 0)
              * (xq.getD i 0 - x.getD 0 0)))) ∧
        (xq.getD i 0 ≤ x.getD 0 0 →
          |xq.getD i 0 - x.getD 0 0| < |xq.getD i 0 - x.getD 1 0|) := by
  obtain ⟨yq, hyq, hl, hval⟩ := interpolationFl_getElem fl x y xq hy hn
  refine ⟨yq, hyq, hl, fun i hi => ⟨fun hq hfin => ?_, fun hq hfin hlt => ?_, fun hq => ?_⟩⟩
  · have hf := findNearestFl_beyond_last fl hmono h0 x hs (by omega) _ hq hfin
    rw [hval i hi, interpValueFl_of_found fl x y _ _ hf, last_line_value x y hs hn]
  · have hf := findNearestFl_before_first fl hmono h0 x hs hn _ hq hfin hlt
    rw [hval i hi, interpValueFl_of_found fl x y _ _ hf,
      segment_line_value x y 0 (by omega)]
    unfold segmentInterpolation
    congr 2
    ring
  · have h01 := getD_lt_of_pairwise hs (show 0 < 1 by omega) (by omega)
    rw [abs_of_nonpos (by linarith), abs_of_nonpos (by linarith)]
    linarith

/-- Instance of C22 in binary64: the table `(0,0)`, `(1,1)`, `(2,3)` with the
queries `3` (beyond the last point) and `-1` (before the first point). -/
theorem C22_boundary_line_extended_witness :
    ∃ yq, FrameCorrection_LinearInterpolationFl roundBinary64 [0, 1, 2] [0, 1, 3]
        (([0, 1, 2] : List ℚ).length : Int) [3, -1] (([3, -1] : List ℚ).length : Int)
        = some yq ∧ yq.length = ([3, -1] : List ℚ).length ∧
      ∀ i, i < ([3, -1] : List ℚ).length →
        (([0, 1, 2] : List ℚ).getD (([0, 1, 2] : List ℚ).length - 1) 0
            ≤ ([3, -1] : List ℚ).getD i 0 →
          |roundBinary64 (([3, -1] : List ℚ).getD i 0
            - ([0, 1, 2] : List ℚ).getD (([0, 1, 2] : List ℚ).length - 1) 0)| ≤ DBL_MAX →
          yq[i]? = some (some (([0, 1, 3] : List ℚ).getD (([0, 1, 2] : List ℚ).length - 1) 0
            + (([0, 1, 3] : List ℚ).getD (([0, 1, 2] : List ℚ).length - 1) 0
                - ([0, 1, 3] : List ℚ).getD (([0, 1, 2] : List ℚ).length - 2) 0)
              / (([0, 1, 2] : List ℚ).getD (([0, 1, 2] : List ℚ).length - 1) 0
                - ([0, 1, 2] : List ℚ).getD (([0, 1, 2] : List ℚ).length - 2) 0)
              * (([3, -1] : List ℚ).getD i 0
                - ([0, 1, 2] : List ℚ).getD (([0, 1, 2] : List ℚ).length - 1) 0)))) ∧
        (([3, -1] : List ℚ).getD i 0 ≤ ([0, 1, 2] : List ℚ).getD 0 0 →
          |roundBinary64 (([3, -1] : List ℚ).getD i 0 - ([0, 1, 2] : List ℚ).getD 0 0)|
            ≤ DBL_MAX →
          |roundBinary64 (([3, -1] : List ℚ).getD i 0 - ([0, 1, 2] : List ℚ).getD 0 0)|
            < |roundBinary64 (([3, -1] : List ℚ).getD i 0 - ([0, 1, 2] : List ℚ).getD 1 0)| →
          yq[i]? = some (some (([0, 1, 3] : List ℚ).getD 0 0
            + (([0, 1, 3] : List ℚ).getD 1 0 - ([0, 1, 3] : List ℚ).getD 0 0)
              / (([0, 1, 2] : List ℚ).getD 1 0 - ([0, 1, 2] : List ℚ).getD 0 0)
              * (([3, -1] : List ℚ).getD i 0 - ([0, 1, 2] : List ℚ).getD 0 0)))) ∧
        (([3, -1] : List ℚ).getD i 0 ≤ ([0, 1, 2] : List ℚ).getD 0 0 →
          |([3, -1] : List ℚ).getD i 0 - ([0, 1, 2] : List ℚ).getD 0 0|
            < |([3, -1] : List ℚ).getD i 0 - ([0, 1, 2] : List ℚ).getD 1 0|) :=
  C22_boundary_line_extended roundBinary64 roundBinary64_monotone roundBinary64_zero
    [0, 1, 2] [0, 1, 3] [3, -1] rfl (by decide) (by decide)

/-- C30 as stated fails in binary64: for the table `(-1,0)`, `(1,1)`, `(5,5)`
and the query `q = -2^-60`, which lies on the near half of the first segment
(`x_0 ≤ q < (x_0 + x_1)/2 = 0`), the differences `q - x_0` and `q - x_1` both
round to magnitude `1`, the search returns index `1` and the value returned is
that of the line of control point `1`, `q = -2^-60`, not the interpolated value
`(q + 1)/2` of the first segment. -/
theorem C30_counterexample_rounded_tie :
    ([-1, 1, 5] : List ℚ).Pairwise (fun a b => a < b) ∧
    (-1 : ℚ) ≤ -(1 / 2 ^ 60) ∧ -(1 / 2 ^ 60) < ((-1 : ℚ) + 1) / 2 ∧
    roundBinary64 (-(1 / 2 ^ 60)) = -(1 / 2 ^ 60) ∧
    roundBinary64 (-(1 / 2 ^ 60) - -1) = 1 ∧ roundBinary64 (-(1 / 2 ^ 60) - 1) = -1 ∧
    findNearestNeighbourIndexFl roundBinary64 (-(1 / 2 ^ 60)) [-1, 1, 5] 3 = some 1 ∧
    FrameCorrection_LinearInterpolationFl roundBinary64 [-1, 1, 5] [0, 1, 5] 3
      [-(1 / 2 ^ 60)] 1 = some [some (-(1 / 2 ^ 60))] ∧
    segmentInterpolation [-1, 1, 5] [0, 1, 5] 0 (-(1 / 2 ^ 60)) = 1 / 2 - 1 / 2 ^ 61 ∧
    (-(1 / 2 ^ 60) : ℚ) ≠ 1 / 2 - 1 / 2 ^ 61 := by
  decide!

/-- C30 (amended): for every monotone rounding `fl` of the subtraction
`value - x[i]` that maps zero to zero, `n ≥ 2` control points with strictly
increasing `x`, every `k < n - 1` and every query `q ≥ x_k` whose computed
distance `|fl (q - x_k)|` is at most `DBL_MAX` and strictly below the computed
distance `|fl (q - x_(k+1))|`, the result of
`FrameCorrection_LinearInterpolation` equals, in exact arithmetic,
`y_k + (y_(k+1) - y_k)*(q - x_k)/(x_(k+1) - x_k)`; and on the whole last
segment `x_(n-2) ≤ q ≤ x_(n-1)`, when the computed distance to one of its ends
is at most `DBL_MAX`, it equals the linear interpolation between the last two
control points.  In exact arithmetic the condition on the computed distances
holds for every `q` with `x_k ≤ q < (x_k + x_(k+1))/2`. -/
theorem C30_agrees_on_near_half (fl : ℚ → ℚ) (hmono : Monotone fl) (h0 : fl 0 = 0)
    (x y xq : List ℚ) (hy : y.length = x.length) (hn : 2 ≤ x.length)
    (hs : x.Pairwise (fun a b => a < b)) :
    ∃ yq, FrameCorrection_LinearInterpolationFl fl x y (x.length : Int) xq (xq.length : Int)
        = some yq ∧ yq.length = xq.length ∧
      ∀ i, i < xq.length →
        (∀ k, k + 1 < x.length → x.getD k 0 ≤ xq.getD i 0 →
          |fl (xq.getD i 0 - x.getD k 0)| ≤ DBL_MAX →
          |fl (xq.getD i 0 - x.getD k 0)| < |fl (xq.getD i 0 - x.getD (k + 1) 0)| →
          yq[i]? = some (some (segmentInterpolation x y k (xq.getD i 0)))) ∧
        (x.getD (x.length - 2) 0 ≤ xq.getD i 0 → xq.getD i 0 ≤ x.getD (x.length - 1) 0 →
          (|fl (xq.getD i 0 - x.getD (x.length - 2) 0)| ≤ DBL_MAX ∨
            |fl (xq.getD i 0 - x.getD (x.length - 1) 0)| ≤ DBL_MAX) →
          yq[i]? = some (some (segmentInterpolation x y (x.length - 2) (xq.getD i 0)))) ∧
        (∀ k, k + 1 < x.length → x.getD k 0 ≤ xq.getD i 0 →
          xq.getD i 0 < (x.getD k 0 + x.getD (k + 1) 0) / 2 →
          |xq.getD i 0 - x.getD k 0| < |xq.getD i 0 - x.getD (k + 1) 0|) := by
  obtain ⟨yq, hyq, hl, hval⟩ := interpolationFl_getElem fl x y xq hy hn
  refine ⟨yq, hyq, hl, fun i hi =>
    ⟨fun k hk h1 hfin hlt => ?_, fun h1 _ hfin => ?_, fun k hk h1 h2 => ?_⟩⟩
  · have hf := findNearestFl_near_half fl hmono h0 x hs k hk _ h1 hfin hlt
    rw [hval i hi, interpValueFl_of_found fl x y _ _ hf, segment_line_value x y k hk]
  · rcases findNearestFl_last_segment fl hmono h0 x hs hn _ h1 hfin with hf | hf
    · rw [hval i hi, interpValueFl_of_found fl x y _ _ hf,
        segment_line_value x y (x.length - 2) (by omega)]
    · rw [hval i hi, interpValueFl_of_found fl x y _ _ hf, last_two_lines x y hn]
  · rw [abs_of_nonneg (by linarith), abs_of_nonpos (by linarith)]
    linarith

/-- Instance of C30 in binary64: the table `(0,0)`, `(1,1)`, `(2,3)` with the
queries `1/4` (near half of the first segment) and `3/2` (last segment). -/
theorem C30_agrees_on_near_half_witness :
    ∃ yq, FrameCorrection_LinearInterpolationFl roundBinary64 [0, 1, 2] [0, 1, 3]
        (([0, 1, 2] : List ℚ).length : Int) [1 / 4, 3 / 2]
        (([1 / 4, 3 / 2] : List ℚ).length : Int) = some yq ∧
      yq.length = ([1 / 4, 3 / 2] : List ℚ).length ∧
      ∀ i, i < ([1 / 4, 3 / 2] : List ℚ).length →
        (∀ k, k + 1 < ([0, 1, 2] : List ℚ).length →
          ([0, 1, 2] : List ℚ).getD k 0 ≤ ([1 / 4, 3 / 2] : List ℚ).getD i 0 →
          |roundBinary64 (([1 / 4, 3 / 2] : List ℚ).getD i 0 - ([0, 1, 2] : List ℚ).getD k 0)|
            ≤ DBL_MAX →
          |roundBinary64 (([1 / 4, 3 / 2] : List ℚ).getD i 0 - ([0, 1, 2] : List ℚ).getD k 0)|
            < |roundBinary64 (([1 / 4, 3 / 2] : List ℚ).getD i 0
              - ([0, 1, 2] : List ℚ).getD (k + 1) 0)| →
          yq[i]? = some (some (segmentInterpolation [0, 1, 2] [0, 1, 3] k
            (([1 / 4, 3 / 2] : List ℚ).getD i 0)))) ∧
        (([0, 1, 2] : List ℚ).getD (([0, 1, 2] : List ℚ).length - 2) 0
            ≤ ([1 / 4, 3 / 2] : List ℚ).getD i 0 →
          ([1 / 4, 3 / 2] : List ℚ).getD i 0
            ≤ ([0, 1, 2] : List ℚ).getD (([0, 1, 2] : List ℚ).length - 1) 0 →
          (|roundBinary64 (([1 / 4, 3 / 2] : List ℚ).getD i 0
              - ([0, 1, 2] : List ℚ).getD (([0, 1, 2] : List ℚ).length - 2) 0)| ≤ DBL_MAX ∨
            |roundBinary64 (([1 / 4, 3 / 2] : List ℚ).getD i 0
              - ([0, 1, 2] : List ℚ).getD (([0, 1, 2] : List ℚ).length - 1) 0)| ≤ DBL_MAX) →
          yq[i]? = some (some (segmentInterpolation [0, 1, 2] [0, 1, 3]
            (([0, 1, 2] : List ℚ).length - 2) (([1 / 4, 3 / 2] : List ℚ).getD i 0)))) ∧
        (∀ k, k + 1 < ([0, 1, 2] : List ℚ).length →
          ([0, 1, 2] : List ℚ).getD k 0 ≤ ([1 / 4, 3 / 2] : List ℚ).getD i 0 →
          ([1 / 4, 3 / 2] : List ℚ).getD i 0
            < (([0, 1, 2] : List ℚ).getD k 0 + ([0, 1, 2] : List ℚ).getD (k + 1) 0) / 2 →
          |([1 / 4, 3 / 2] : List ℚ).getD i 0 - ([0, 1, 2] : List ℚ).getD k 0|
            < |([1 / 4, 3 / 2] : List ℚ).getD i 0 - ([0, 1, 2] : List ℚ).getD (k + 1) 0|) :=
  C30_agrees_on_near_half roundBinary64 roundBinary64_monotone roundBinary64_zero
    [0, 1, 2] [0, 1, 3] [1 / 4, 3 / 2] rfl (by decide) (by decide)

/-- C7 as stated fails in binary64: the displacement `d = 0.49999999999999994`
(`(2^53 - 1)/2^54`, the largest double below `1/2`) satisfies
`0 ≤ d < 2^31 - 1` and `floor (d + 0.5) = 0`, but the double sum `d + 0.5`
rounds to `1` and the source coordinate is `1`. -/
theorem C7_counterexample_rounded_sum :
    roundBinary64 ((2 ^ 53 - 1) / 2 ^ 54) = (2 ^ 53 - 1) / 2 ^ 54 ∧
    (0 : ℚ) ≤ (2 ^ 53 - 1) / 2 ^ 54 ∧ ((2 ^ 53 - 1) / 2 ^ 54 : ℚ) < 2 ^ 31 - 1 ∧
    ⌊((2 ^ 53 - 1) / 2 ^ 54 : ℚ) + 1 / 2⌋ = 0 ∧
    roundBinary64 ((2 ^ 53 - 1) / 2 ^ 54 + 1 / 2) = 1 ∧
    srcCoordFl roundBinary64 ((2 ^ 53 - 1) / 2 ^ 54) = some 1 := by
  decide!

/-- C7 (amended): for every monotone rounding `fl` of the addition
`h_d + 0.5` that leaves the multiples of `1/2` up to `2^31` unchanged, and
every displacement value `0 <= h_d < 2^31 - 1`, the source coordinate
`(int32_t)(h_d + 0.5)` is `floor (fl (h_d + 0.5))`, the floor of the rounded
sum.  It equals `floor (h_d + 0.5)`, the nearest integer with halves rounded
up, unless the sum rounds up to the integer `floor (h_d + 0.5) + 1`, which is
then the source coordinate; in particular it equals `floor (h_d + 0.5)`
whenever the sum is computed exactly. -/
theorem C7_source_coordinate (fl : ℚ → ℚ) (hmono : Monotone fl)
    (hfix : ∀ n : Nat, n ≤ 2 ^ 32 → fl ((n : ℚ) / 2) = (n : ℚ) / 2)
    (d : ℚ) (h0 : 0 ≤ d) (h1 : d < 2 ^ 31 - 1) :
    srcCoordFl fl d = some ⌊fl (d + 1 / 2)⌋ ∧
    (⌊fl (d + 1 / 2)⌋ = ⌊d + 1 / 2⌋ ∨
      (⌊fl (d + 1 / 2)⌋ = ⌊d + 1 / 2⌋ + 1 ∧ fl (d + 1 / 2) = ((⌊d + 1 / 2⌋ + 1 : Int) : ℚ))) ∧
    (fl (d + 1 / 2) = d + 1 / 2 → srcCoordFl fl d = some ⌊d + 1 / 2⌋) := by
  have hnn : (0 : ℚ) ≤ d + 1 / 2 := by linarith
  have hfl0 : (0 : Int) ≤ ⌊d + 1 / 2⌋ := Int.floor_nonneg.2 hnn
  have hfl1 : ⌊d + 1 / 2⌋ < (2 : Int) ^ 31 := by
    rw [Int.floor_lt]
    push_cast
    linarith
  have hle : ((⌊d + 1 / 2⌋ : Int) : ℚ) ≤ d + 1 / 2 := Int.floor_le _
  have hlt : d + 1 / 2 < ((⌊d + 1 / 2⌋ : Int) : ℚ) + 1 := Int.lt_floor_add_one _
  obtain ⟨m, hm⟩ : ∃ m : Nat, (m : Int) = ⌊d + 1 / 2⌋ :=
    ⟨⌊d + 1 / 2⌋.toNat, Int.toNat_of_nonneg hfl0⟩
  have hmq : ((⌊d + 1 / 2⌋ : Int) : ℚ) = (m : ℚ) := by
    rw [← hm]
    exact Int.cast_natCast m
  have hm31 : m < 2 ^ 31 := by
    have : (m : Int) < (2 : Int) ^ 31 := by rw [hm]; exact hfl1
    exact_mod_cast this
  -- the rounded sum lies between the two neighbouring integers
  have hlow : (m : ℚ) ≤ fl (d + 1 / 2) := by
    have h := hfix (2 * m) (by omega)
    have e : (((2 * m : Nat) : ℚ)) / 2 = (m : ℚ) := by
      push_cast
      ring
    rw [e] at h
    rw [← h]
    exact hmono (by rw [← hmq]; exact hle)
  have hhigh : fl (d + 1 / 2) ≤ (m : ℚ) + 1 := by
    have h := hfix (2 * (m + 1)) (by omega)
    have e : (((2 * (m + 1) : Nat) : ℚ)) / 2 = (m : ℚ) + 1 := by
      push_cast
      ring
    rw [e] at h
    rw [← h]
    exact hmono (by rw [← hmq]; exact le_of_lt hlt)
  have htop : fl (d + 1 / 2) < 2 ^ 31 := by
    have h := hfix (2 ^ 32 - 1) (by omega)
    have hle2 : d + 1 / 2 ≤ (((2 ^ 32 - 1 : Nat) : ℚ)) / 2 := by
      have e : (((2 ^ 32 - 1 : Nat) : ℚ)) = 2 ^ 32 - 1 := by norm_num
      rw [e]
      linarith
    have := hmono hle2
    rw [h] at this
    have e : (((2 ^ 32 - 1 : Nat) : ℚ)) = 2 ^ 32 - 1 := by norm_num
    rw [e] at this
    linarith
  have hfnn : (0 : ℚ) ≤ fl (d + 1 / 2) := le_trans (Nat.cast_nonneg m) hlow
  have hcast : srcCoordFl fl d = some ⌊fl (d + 1 / 2)⌋ := by
    have hf0 : (0 : Int) ≤ ⌊fl (d + 1 / 2)⌋ := Int.floor_nonneg.2 hfnn
    have hf1 : ⌊fl (d + 1 / 2)⌋ < (2 : Int) ^ 31 := by
      rw [Int.floor_lt]
      push_cast
      exact htop
    unfold srcCoordFl castInt32
    simp only [if_pos hfnn]
    rw [if_pos]
    exact ⟨by omega, hf1⟩
  refine ⟨hcast, ?_, fun he => ?_⟩
  · rcases lt_or_eq_of_le hhigh with hlt2 | heq
    · left
      rw [← hm, Int.floor_eq_iff]
      push_cast
      exact ⟨hlow, hlt2⟩
    · right
      have e : fl (d + 1 / 2) = ((⌊d + 1 / 2⌋ + 1 : Int) : ℚ) := by
        rw [heq, ← hmq]
        push_cast
        ring
      exact ⟨by rw [e, Int.floor_intCast], e⟩
  · rw [hcast, he]

/-- Instance of C7 in binary64: the displacement `3/2` is rounded up to `2`. -/
theorem C7_source_coordinate_witness :
    srcCoordFl roundBinary64 (3 / 2) = some ⌊roundBinary64 ((3 / 2 : ℚ) + 1 / 2)⌋ ∧
    (⌊roundBinary64 ((3 / 2 : ℚ) + 1 / 2)⌋ = ⌊(3 / 2 : ℚ) + 1 / 2⌋ ∨
      (⌊roundBinary64 ((3 / 2 : ℚ) + 1 / 2)⌋ = ⌊(3 / 2 : ℚ) + 1 / 2⌋ + 1 ∧
        roundBinary64 ((3 / 2 : ℚ) + 1 / 2) = ((⌊(3 / 2 : ℚ) + 1 / 2⌋ + 1 : Int) : ℚ))) ∧
    (roundBinary64 ((3 / 2 : ℚ) + 1 / 2) = (3 / 2 : ℚ) + 1 / 2 →
      srcCoordFl roundBinary64 (3 / 2) = some ⌊(3 / 2 : ℚ) + 1 / 2⌋) :=
  C7_source_coordinate roundBinary64 roundBinary64_monotone roundBinary64_half_integer (3 / 2)
    (by norm_num) (by norm_num)

end FishEye
